import Mathlib

/-! # URL availability requester

A shallow embedding of `api/impl/presentation/url_availability_requester.cc`:
the controller-wide `UrlAvailabilityRequester` and its per-receiver
`ReceiverRequester`, followed by theorems about them.

Conventions of the embedding.

* `std::map` and `std::set` are lists kept in ascending key order; lookups,
  insertions and erasures are written so that they mean the same on any list.
* `uint64_t` counters are natural numbers reduced modulo `2 ^ 64`.
* Observers are identified by a number (the address of the C++ object).
* Observer callbacks and `connection->Write` calls are appended to two traces
  carried by the coordinator state (`calls`, `written`).
* Undefined behaviour of the C++ (dereferencing `end()`, reading past the end
  of a vector) is the result `none`.
-/

namespace openscreen
namespace presentation

/-! ## Containers -/

/-- Lexicographic comparison of two character sequences by code point, which
is the order `std::string::compare` gives on UTF-8 text. -/
def lexLess : List Char → List Char → Bool
  | [], [] => false
  | [], _ :: _ => true
  | _ :: _, [] => false
  | a :: as, b :: bs =>
    if a.toNat < b.toNat then true
    else if b.toNat < a.toNat then false
    else lexLess as bs

/-- The strict order `std::less` of a key type. -/
class StdLess (κ : Type) where
  less : κ → κ → Bool

instance : StdLess Nat := ⟨fun a b => decide (a < b)⟩

instance : StdLess String := ⟨fun a b => lexLess a.toList b.toList⟩

/-- A `std::map<κ, ν>`: key/value pairs in ascending key order. -/
abbrev StdMap (κ ν : Type) := List (κ × ν)

/-- A `std::set<κ>`: keys in ascending order. -/
abbrev StdSet (κ : Type) := List κ

namespace StdMap

variable {κ ν : Type} [DecidableEq κ] [StdLess κ]

/-- Lookup `m.find(k)`: the mapped value, `none` standing for `end()`. -/
def find (m : StdMap κ ν) (k : κ) : Option ν :=
  match m with
  | [] => none
  | (k', v) :: rest => if k' = k then some v else find rest k

/-- Places a new pair before the first key that is not smaller. -/
def insertSorted (m : StdMap κ ν) (k : κ) (v : ν) : StdMap κ ν :=
  match m with
  | [] => [(k, v)]
  | (k', v') :: rest =>
    if StdLess.less k' k then (k', v') :: insertSorted rest k v
    else (k, v) :: (k', v') :: rest

/-- What `m.emplace(k, v)` leaves and returns: the map afterwards, the value
of the entry the returned iterator points at (`result.first->second`), and
whether the insertion took place (`result.second`). -/
structure Emplaced (κ ν : Type) where
  map : StdMap κ ν
  entry : ν
  inserted : Bool

/-- Insertion `m.emplace(k, v)`, which leaves an existing entry as it is. -/
def emplace (m : StdMap κ ν) (k : κ) (v : ν) : Emplaced κ ν :=
  match find m k with
  | some old => { map := m, entry := old, inserted := false }
  | none => { map := insertSorted m k v, entry := v, inserted := true }

/-- Erasure `m.erase(k)`. -/
def erase (m : StdMap κ ν) (k : κ) : StdMap κ ν :=
  m.filter (fun e => decide (e.1 ≠ k))

/-- Overwrites the value stored under an existing key (assignment through a
reference or iterator into the map). -/
def assign (m : StdMap κ ν) (k : κ) (v : ν) : StdMap κ ν :=
  m.map (fun e => if e.1 = k then (e.1, v) else e)

/-- Access `m[k]`: the value under `k`, default-inserting it when absent. The map
after the access comes first. -/
def index (m : StdMap κ ν) (k : κ) (dflt : ν) : StdMap κ ν × ν :=
  match find m k with
  | some v => (m, v)
  | none => (insertSorted m k dflt, dflt)

/-- The keys in iteration order. -/
def keys (m : StdMap κ ν) : List κ := m.map Prod.fst

end StdMap

namespace StdSet

variable {κ : Type} [DecidableEq κ] [StdLess κ]

/-- Membership test `s.find(k) != s.end()`. -/
def contains (s : StdSet κ) (k : κ) : Bool := decide (k ∈ s)

/-- Places a new key before the first key that is not smaller. -/
def insertSorted (s : StdSet κ) (k : κ) : StdSet κ :=
  match s with
  | [] => [k]
  | x :: rest =>
    if StdLess.less x k then x :: insertSorted rest k else k :: x :: rest

/-- Insertion `s.emplace(k)` or `s.insert(k)`. -/
def emplace (s : StdSet κ) (k : κ) : StdSet κ :=
  if k ∈ s then s else insertSorted s k

end StdSet

/-! ## Data model -/

/-- Modelled from the spec: `platform/api/time.h` is not among the sources. A
`TimeDelta` is a signed count of microseconds; the code uses it both for
readings of the monotonic clock and for durations. -/
abbrev TimeDelta := Int

/-- Conversion `platform::TimeDelta::FromSeconds`. -/
def TimeDelta.FromSeconds (sec : Int) : TimeDelta := sec * 1000000

def kWatchDurationSeconds : Nat := 20

def kWatchRefreshPaddingSeconds : Nat := 2

/-- Modelled from the spec: `msgs/osp_messages.h` is not among the sources.
The three named verdicts of `msgs::PresentationUrlAvailability`, and
`unknown n` for any other ordinal `n` the decoder may hand over (the
`default:` arm of the switch in `UpdateAvailabilities`). -/
inductive PresentationUrlAvailability
  | kCompatible
  | kNotCompatible
  | kNotValid
  | unknown (ordinal : Nat)
  deriving DecidableEq, Repr

/-- Message `msgs::PresentationUrlAvailabilityRequest`. -/
structure PresentationUrlAvailabilityRequest where
  request_id : Nat
  urls : List String
  watch_id : Nat
  deriving DecidableEq, Repr

/-- Message `msgs::PresentationUrlAvailabilityResponse`. -/
structure PresentationUrlAvailabilityResponse where
  request_id : Nat
  url_availabilities : List PresentationUrlAvailability
  deriving DecidableEq, Repr

/-- Message `msgs::PresentationUrlAvailabilityEvent`. -/
structure PresentationUrlAvailabilityEvent where
  watch_id : Nat
  urls : List String
  url_availabilities : List PresentationUrlAvailability
  deriving DecidableEq, Repr

/-- The `ssize_t` a `msgs::Decode...` function returns: `msgs::kParserEOF`,
another negative value, or the number of bytes consumed. -/
inductive DecodeResult
  | parserEOF
  | failure
  | consumed (bytes : Nat)
  deriving DecidableEq, Repr

/-- What `OnStreamMessage` is handed: the message type together with what the
decoder of that type makes of the buffer. -/
inductive StreamMessage
  | kPresentationUrlAvailabilityResponse (result : DecodeResult)
      (response : PresentationUrlAvailabilityResponse)
  | kPresentationUrlAvailabilityEvent (result : DecodeResult)
      (event : PresentationUrlAvailabilityEvent)
  | other
  deriving DecidableEq, Repr

/-- The `Error::Code` values this file returns. -/
inductive ErrorCode
  | kCborParsing
  | kCborEncoding
  | kCborIncompleteMessage
  | kCborInvalidResponseId
  | kCborInvalidMessage
  deriving DecidableEq, Repr

/-- A `ReceiverObserver*`. -/
abbrev Observer := Nat

/-- One call made on a `ReceiverObserver`. -/
inductive ObserverCall
  | OnRequestFailed (observer : Observer) (url service_id : String)
  | OnReceiverAvailable (observer : Observer) (url service_id : String)
  | OnReceiverUnavailable (observer : Observer) (url service_id : String)
  deriving DecidableEq, Repr

/-- One `connection->Write` of an encoded availability request, tagged with
the service id of the requester that wrote it. -/
structure WrittenRequest where
  service_id : String
  request : PresentationUrlAvailabilityRequest
  deriving DecidableEq, Repr

/-- The `ProtocolConnection` handed over by `OnConnectionOpened`. -/
structure ProtocolConnection where
  endpoint_id : Nat
  deriving DecidableEq, Repr

structure Request where
  watch_id : Nat
  urls : List String
  deriving DecidableEq, Repr

structure Watch where
  deadline : TimeDelta
  urls : List String
  deriving DecidableEq, Repr

/-- The state of `UrlAvailabilityRequester::ReceiverRequester`. The two
`MessageWatch` members are `true` while the registration is held, and
`connect_request` is `true` while the connect is outstanding. -/
structure ReceiverRequester where
  service_id : String
  endpoint_id : Nat
  connect_request : Bool
  connection : Option ProtocolConnection
  next_watch_id : Nat
  next_request_id : Nat
  response_watch : Bool
  request_by_id : StdMap Nat Request
  event_watch : Bool
  watch_by_id : StdMap Nat Watch
  known_availability_by_url : StdMap String PresentationUrlAvailability
  deriving DecidableEq, Repr

/-- The state of `UrlAvailabilityRequester`. `clock_` holds what
`clock_->Now()` currently returns. `calls` and `written` are the traces of
observer callbacks and of connection writes made so far, oldest first. -/
structure UrlAvailabilityRequester where
  clock_ : TimeDelta
  observers_by_url_ : StdMap String (List Observer)
  receiver_by_service_id_ : StdMap String ReceiverRequester
  calls : List ObserverCall
  written : List WrittenRequest
  deriving DecidableEq, Repr

/-- Record `ServiceInfo`, of which only the service id reaches the state (the
endpoints go to `Connect`). -/
structure ServiceInfo where
  service_id : String
  deriving DecidableEq, Repr

/-- Modelled from the spec: `StopWatching` is declared outside this file; it
releases a demuxer registration. -/
def StopWatching (_watch : Bool) : Bool := false

/-- A moved-from `std::string`. The standard leaves its value unspecified;
the usual library implementations leave it empty. -/
def movedFrom : String := ""

/-- The value of `uint64_t x` after `x++`. -/
def increment64 (x : Nat) : Nat := (x + 1) % 2 ^ 64

/-! ## ReceiverRequester -/

section Requester

/- The encoder `msgs::EncodePresentationUrlAvailabilityRequest` is outside
this file: `encode r` tells whether encoding the request `r` succeeds. -/
variable (encode : PresentationUrlAvailabilityRequest → Bool)

namespace ReceiverRequester

/-- The loops `for (url : urls) for (observer : listener->observers_by_url_[url])
observer->OnRequestFailed(url, service_id)`; `operator[]` default-inserts an
empty observer list for a url that has no entry. -/
def failUrls (listener : UrlAvailabilityRequester) (service_id : String) :
    List String → UrlAvailabilityRequester
  | [] => listener
  | url :: urls =>
    let (m, observers) := StdMap.index listener.observers_by_url_ url []
    failUrls
      { listener with
        observers_by_url_ := m
        calls := listener.calls ++
          observers.map (fun o => ObserverCall.OnRequestFailed o url service_id) }
      service_id urls

/-- The edge the switch over an availability delivers to `observers`:
`OnReceiverAvailable` for `kCompatible`, `OnReceiverUnavailable` for
`kNotCompatible` and `kNotValid`, nothing for any other ordinal. -/
def edgeCalls (availability : PresentationUrlAvailability) (observers : List Observer)
    (url service_id : String) : List ObserverCall :=
  match availability with
  | .kCompatible =>
    observers.map (fun o => ObserverCall.OnReceiverAvailable o url service_id)
  | .kNotCompatible | .kNotValid =>
    observers.map (fun o => ObserverCall.OnReceiverUnavailable o url service_id)
  | .unknown _ => []

def SendRequest (listener : UrlAvailabilityRequester) (self : ReceiverRequester)
    (request_id : Nat) (urls : List String) :
    UrlAvailabilityRequester × ReceiverRequester × Except ErrorCode Nat :=
  let watch_id := self.next_watch_id
  let self := { self with next_watch_id := increment64 self.next_watch_id }
  let cbor_request : PresentationUrlAvailabilityRequest :=
    { request_id := request_id, urls := urls, watch_id := watch_id }
  if encode cbor_request then
    let listener :=
      { listener with written := listener.written ++ [⟨self.service_id, cbor_request⟩] }
    let self :=
      { self with
        watch_by_id :=
          (StdMap.emplace self.watch_by_id watch_id
            { deadline := listener.clock_ + TimeDelta.FromSeconds kWatchDurationSeconds
              urls := urls }).map }
    let self := if !self.event_watch then { self with event_watch := true } else self
    let self := if !self.response_watch then { self with response_watch := true } else self
    (listener, self, .ok watch_id)
  else
    (listener, self, .error .kCborEncoding)

def RequestUrlAvailabilities (listener : UrlAvailabilityRequester)
    (self : ReceiverRequester) (urls : List String) :
    UrlAvailabilityRequester × ReceiverRequester :=
  if urls.isEmpty then (listener, self)
  else
    let request_id := self.next_request_id
    let self := { self with next_request_id := increment64 self.next_request_id }
    match self.connection with
    | none =>
      (listener,
        { self with
          request_by_id :=
            (StdMap.emplace self.request_by_id request_id
              { watch_id := 0, urls := urls }).map })
    | some _ =>
      match SendRequest encode listener self request_id urls with
      | (listener, self, .ok watch_id) =>
        (listener,
          { self with
            request_by_id :=
              (StdMap.emplace self.request_by_id request_id
                { watch_id := watch_id, urls := urls }).map })
      | (listener, self, .error _) =>
        (failUrls listener self.service_id urls, self)

/-- The loop of `GetOrRequesetAvailabilities` over `requested_urls`: the calls
made on `observer` for cached urls, and `unknown_urls`. -/
def scanRequested (self : ReceiverRequester) (observer : Option Observer) :
    List String → List ObserverCall × List String
  | [] => ([], [])
  | url :: urls =>
    let (calls, unknown_urls) := scanRequested self observer urls
    match StdMap.find self.known_availability_by_url url with
    | none => (calls, url :: unknown_urls)
    | some availability =>
      match observer with
      | some o => (edgeCalls availability [o] url self.service_id ++ calls, unknown_urls)
      | none => (calls, unknown_urls)

def GetOrRequesetAvailabilities (listener : UrlAvailabilityRequester)
    (self : ReceiverRequester) (requested_urls : List String)
    (observer : Option Observer) : UrlAvailabilityRequester × ReceiverRequester :=
  let (calls, unknown_urls) := scanRequested self observer requested_urls
  let listener := { listener with calls := listener.calls ++ calls }
  if !unknown_urls.isEmpty then RequestUrlAvailabilities encode listener self unknown_urls
  else (listener, self)

/-- The scan of `RefreshWatches` over `watch_by_id`: the watches kept, the url
lists moved to `new_requests`, and `minimum_schedule_time`. -/
def scanWatches (now : TimeDelta) :
    StdMap Nat Watch → TimeDelta → StdMap Nat Watch × List (List String) × TimeDelta
  | [], minimum_schedule_time => ([], [], minimum_schedule_time)
  | (id, watch) :: rest, minimum_schedule_time =>
    let buffered_deadline :=
      watch.deadline - TimeDelta.FromSeconds kWatchRefreshPaddingSeconds
    if now > buffered_deadline then
      let (kept, new_requests, m) := scanWatches now rest minimum_schedule_time
      (kept, watch.urls :: new_requests, m)
    else
      let (kept, new_requests, m) :=
        scanWatches now rest
          (if buffered_deadline < minimum_schedule_time then buffered_deadline
           else minimum_schedule_time)
      ((id, watch) :: kept, new_requests, m)

/-- The loop `for (auto& request : new_requests) RequestUrlAvailabilities(request)`. -/
def requestAll (listener : UrlAvailabilityRequester) (self : ReceiverRequester) :
    List (List String) → UrlAvailabilityRequester × ReceiverRequester
  | [] => (listener, self)
  | request :: rest =>
    let (listener, self) := RequestUrlAvailabilities encode listener self request
    requestAll listener self rest

def RefreshWatches (listener : UrlAvailabilityRequester) (self : ReceiverRequester)
    (now : TimeDelta) : UrlAvailabilityRequester × ReceiverRequester × TimeDelta :=
  let (kept, new_requests, minimum_schedule_time) :=
    scanWatches now self.watch_by_id (TimeDelta.FromSeconds kWatchDurationSeconds)
  let self := { self with watch_by_id := kept }
  let self :=
    if self.watch_by_id.isEmpty then
      { self with event_watch := StopWatching self.event_watch }
    else self
  let (listener, self) := requestAll encode listener self new_requests
  (listener, self, minimum_schedule_time)

/-- The body of `UpdateAvailabilities`, with `availabilities` standing for the
part of the vector from `availability_it` on. `none`: the iterator is
dereferenced at the end of the vector. -/
def UpdateAvailabilities (listener : UrlAvailabilityRequester)
    (self : ReceiverRequester) :
    List String → List PresentationUrlAvailability →
      Option (UrlAvailabilityRequester × ReceiverRequester)
  | [], _ => some (listener, self)
  | url :: urls, availabilities =>
    match StdMap.find listener.observers_by_url_ url with
    | none => UpdateAvailabilities listener self urls availabilities
    | some observers =>
      match availabilities with
      | [] => none
      | availability :: rest =>
        let result := StdMap.emplace self.known_availability_by_url url availability
        let inserted := result.inserted
        let updated := result.entry != availability
        UpdateAvailabilities
          (if inserted || updated then
            { listener with
              calls := listener.calls ++
                edgeCalls availability observers url self.service_id }
           else listener)
          { self with known_availability_by_url := result.map }
          urls rest

/-- The anonymous-namespace helper `PartitionUrlsBySetMembership`: the urls
outside `membership_test` come first, and the returned iterator `split` is
the boundary; the two parts are `(urls before split, urls from split on)`.
`std::partition` does not promise an order inside either part; each part
keeps its order here. -/
def PartitionUrlsBySetMembership (urls : List String) (membership_test : StdSet String) :
    List String × List String :=
  (urls.filter (fun url => !StdSet.contains membership_test url),
   urls.filter (fun url => StdSet.contains membership_test url))

/-- The anonymous-namespace helper `MoveVectorSegment`: every string of the
segment is emplaced into `target`. -/
def MoveVectorSegment (segment : List String) (target : StdSet String) : StdSet String :=
  segment.foldl StdSet.emplace target

/-- The scan of `RemoveUnobservedRequests` over `request_by_id`: the request
table, the watch table and `still_observed_urls` after it. A request that
lists an unobserved url stays in the table, its kept urls moved out. -/
def scanRequests (unobserved_urls : StdSet String) (connection : Bool) :
    StdMap Nat Request → StdMap Nat Watch → StdSet String →
      StdMap Nat Request × StdMap Nat Watch × StdSet String
  | [], watch_by_id, still_observed_urls => ([], watch_by_id, still_observed_urls)
  | (id, request) :: rest, watch_by_id, still_observed_urls =>
    let (kept, removed) := PartitionUrlsBySetMembership request.urls unobserved_urls
    if removed.isEmpty then
      let (requests, watches, still) :=
        scanRequests unobserved_urls connection rest watch_by_id still_observed_urls
      ((id, request) :: requests, watches, still)
    else
      let (requests, watches, still) :=
        scanRequests unobserved_urls connection rest
          (if connection then StdMap.erase watch_by_id request.watch_id else watch_by_id)
          (MoveVectorSegment kept still_observed_urls)
      ((id, { request with urls := kept.map (fun _ => movedFrom) ++ removed }) :: requests,
        watches, still)

def RemoveUnobservedRequests (listener : UrlAvailabilityRequester)
    (self : ReceiverRequester) (unobserved_urls : StdSet String) :
    UrlAvailabilityRequester × ReceiverRequester :=
  let (requests, watches, still_observed_urls) :=
    scanRequests unobserved_urls self.connection.isSome self.request_by_id
      self.watch_by_id []
  let self := { self with request_by_id := requests, watch_by_id := watches }
  let (listener, self, new_requests) :
      UrlAvailabilityRequester × ReceiverRequester × StdMap Nat Request :=
    if !still_observed_urls.isEmpty then
      let new_request_id := self.next_request_id
      let self := { self with next_request_id := increment64 self.next_request_id }
      let urls := still_observed_urls
      match self.connection with
      | none => (listener, self, (StdMap.emplace [] new_request_id ⟨0, urls⟩).map)
      | some _ =>
        match SendRequest encode listener self new_request_id urls with
        | (listener, self, .ok watch_id) =>
          (listener, self, (StdMap.emplace [] new_request_id ⟨watch_id, urls⟩).map)
        | (listener, self, .error _) =>
          (failUrls listener self.service_id urls, self, [])
    else (listener, self, [])
  let self :=
    { self with
      request_by_id :=
        new_requests.foldl
          (fun (m : StdMap Nat Request) (entry : Nat × Request) =>
            (StdMap.emplace m entry.1 entry.2).map)
          self.request_by_id }
  let self :=
    if self.request_by_id.isEmpty then
      { self with response_watch := StopWatching self.response_watch }
    else self
  (listener, self)

/-- The scan of `RemoveUnobservedWatches` over `watch_by_id`: the watches left
and `still_observed_urls` after it. -/
def scanUnobservedWatches (unobserved_urls : StdSet String) :
    StdMap Nat Watch → StdSet String → StdMap Nat Watch × StdSet String
  | [], still_observed_urls => ([], still_observed_urls)
  | (id, watch) :: rest, still_observed_urls =>
    let (kept, removed) := PartitionUrlsBySetMembership watch.urls unobserved_urls
    if removed.isEmpty then
      let (watches, still) := scanUnobservedWatches unobserved_urls rest still_observed_urls
      ((id, watch) :: watches, still)
    else
      scanUnobservedWatches unobserved_urls rest
        (MoveVectorSegment kept still_observed_urls)

def RemoveUnobservedWatches (listener : UrlAvailabilityRequester)
    (self : ReceiverRequester) (unobserved_urls : StdSet String) :
    UrlAvailabilityRequester × ReceiverRequester :=
  let (watches, still_observed_urls) :=
    scanUnobservedWatches unobserved_urls self.watch_by_id []
  let self := { self with watch_by_id := watches }
  let (listener, self) := RequestUrlAvailabilities encode listener self still_observed_urls
  let self :=
    if self.watch_by_id.isEmpty then
      { self with event_watch := StopWatching self.event_watch }
    else self
  (listener, self)

/-- The loop of `ReceiverRequester::RemoveReceiver` over the cache entries. -/
def removeReceiverScan (listener : UrlAvailabilityRequester) (service_id : String) :
    StdMap String PresentationUrlAvailability → UrlAvailabilityRequester
  | [] => listener
  | (url, availability) :: rest =>
    if availability = .kCompatible then
      let (m, observers) := StdMap.index listener.observers_by_url_ url []
      removeReceiverScan
        { listener with
          observers_by_url_ := m
          calls := listener.calls ++
            observers.map (fun o => ObserverCall.OnReceiverUnavailable o url service_id) }
        service_id rest
    else removeReceiverScan listener service_id rest

def RemoveReceiver (listener : UrlAvailabilityRequester) (self : ReceiverRequester) :
    UrlAvailabilityRequester :=
  removeReceiverScan listener self.service_id self.known_availability_by_url

/-- The loop of `OnConnectionOpened` over `request_by_id`: every request is
sent under its own id; it gets the new watch id, or is erased when the send
fails. -/
def resendRequests (listener : UrlAvailabilityRequester) (self : ReceiverRequester) :
    StdMap Nat Request → UrlAvailabilityRequester × ReceiverRequester × StdMap Nat Request
  | [] => (listener, self, [])
  | (id, request) :: rest =>
    match SendRequest encode listener self id request.urls with
    | (listener, self, .ok watch_id) =>
      let (listener, self, requests) := resendRequests listener self rest
      (listener, self, (id, { request with watch_id := watch_id }) :: requests)
    | (listener, self, .error _) => resendRequests listener self rest

def OnConnectionOpened (listener : UrlAvailabilityRequester) (self : ReceiverRequester)
    (_request_id : Nat) (connection : ProtocolConnection) :
    UrlAvailabilityRequester × ReceiverRequester :=
  let self :=
    { self with
      connect_request := false
      endpoint_id := connection.endpoint_id
      connection := some connection }
  let (listener, self, requests) := resendRequests encode listener self self.request_by_id
  (listener, { self with request_by_id := requests })

/-- The first loop of `OnConnectionFailed`: the set of urls of all requests. -/
def waitingUrls (request_by_id : StdMap Nat Request) : StdSet String :=
  request_by_id.foldl
    (fun (waiting : StdSet String) (entry : Nat × Request) =>
      entry.2.urls.foldl StdSet.emplace waiting) []

/-- The handler `OnConnectionFailed`, at whose end the requester erases itself
from the coordinator. -/
def OnConnectionFailed (listener : UrlAvailabilityRequester) (self : ReceiverRequester)
    (_request_id : Nat) : UrlAvailabilityRequester :=
  let listener := failUrls listener self.service_id (waitingUrls self.request_by_id)
  { listener with
    receiver_by_service_id_ := StdMap.erase listener.receiver_by_service_id_ self.service_id }

def OnStreamMessage (listener : UrlAvailabilityRequester) (self : ReceiverRequester)
    (_endpoint_id _connection_id : Nat) (message : StreamMessage) :
    Option (UrlAvailabilityRequester × ReceiverRequester × Except ErrorCode Nat) :=
  match message with
  | .kPresentationUrlAvailabilityResponse result response =>
    match result with
    | .parserEOF => some (listener, self, .error .kCborIncompleteMessage)
    | .failure => some (listener, self, .error .kCborParsing)
    | .consumed bytes =>
      match StdMap.find self.request_by_id response.request_id with
      | none => some (listener, self, .error .kCborInvalidResponseId)
      | some request =>
        if request.urls.length != response.url_availabilities.length then
          some (listener, self, .error .kCborInvalidMessage)
        else
          match UpdateAvailabilities listener self request.urls
              response.url_availabilities with
          | none => none
          | some (listener, self) =>
            let self :=
              { self with
                request_by_id := StdMap.erase self.request_by_id response.request_id }
            let self :=
              if self.request_by_id.isEmpty then
                { self with response_watch := StopWatching self.response_watch }
              else self
            some (listener, self, .ok bytes)
  | .kPresentationUrlAvailabilityEvent result event =>
    match result with
    | .parserEOF => some (listener, self, .error .kCborIncompleteMessage)
    | .failure => some (listener, self, .error .kCborParsing)
    | .consumed bytes =>
      match StdMap.find self.watch_by_id event.watch_id with
      | some _ =>
        match UpdateAvailabilities listener self event.urls event.url_availabilities with
        | none => none
        | some (listener, self) => some (listener, self, .ok bytes)
      | none => some (listener, self, .ok bytes)
  | .other => some (listener, self, .error .kCborParsing)

end ReceiverRequester

/-- The constructor of `ReceiverRequester`, which starts the connect. The
header with the in-class initialisers is not among the sources: the first
request id and the first watch id are left open. -/
def ReceiverRequester.create (service_id : String)
    (first_request_id first_watch_id : Nat) : ReceiverRequester :=
  { service_id := service_id
    endpoint_id := 0
    connect_request := true
    connection := none
    next_watch_id := first_watch_id
    next_request_id := first_request_id
    response_watch := false
    request_by_id := []
    event_watch := false
    watch_by_id := []
    known_availability_by_url := [] }

/-! ## UrlAvailabilityRequester -/

namespace UrlAvailabilityRequester

/-- The constructor: no observer, no receiver, nothing called or written. -/
def create (now : TimeDelta) : UrlAvailabilityRequester :=
  { clock_ := now
    observers_by_url_ := []
    receiver_by_service_id_ := []
    calls := []
    written := [] }

/-- The loop `for (auto& entry : receiver_by_service_id_)` running `f` on every
requester in key order; `f` gets the coordinator state to read
`observers_by_url_` and `clock_` and to extend the traces. -/
def forEachReceiver
    (f : UrlAvailabilityRequester → ReceiverRequester →
      UrlAvailabilityRequester × ReceiverRequester)
    (self : UrlAvailabilityRequester) :
    StdMap String ReceiverRequester →
      UrlAvailabilityRequester × StdMap String ReceiverRequester
  | [] => (self, [])
  | (id, receiver) :: rest =>
    let (self, receiver) := f self receiver
    let (self, rest) := forEachReceiver f self rest
    (self, (id, receiver) :: rest)

/-- Runs `f` on every requester and stores the requesters it leaves. -/
def onEachReceiver
    (f : UrlAvailabilityRequester → ReceiverRequester →
      UrlAvailabilityRequester × ReceiverRequester)
    (self : UrlAvailabilityRequester) : UrlAvailabilityRequester :=
  let (self', receivers) := forEachReceiver f self self.receiver_by_service_id_
  { self' with receiver_by_service_id_ := receivers }

/-- The loop `for (url : urls) observers_by_url_[url].push_back(observer)`. -/
def pushObserver (observer : Observer) :
    StdMap String (List Observer) → List String → StdMap String (List Observer)
  | m, [] => m
  | m, url :: urls =>
    let (m, observers) := StdMap.index m url []
    pushObserver observer (StdMap.assign m url (observers ++ [observer])) urls

def AddObserver (self : UrlAvailabilityRequester) (urls : List String)
    (observer : Observer) : UrlAvailabilityRequester :=
  onEachReceiver
    (fun listener receiver =>
      ReceiverRequester.GetOrRequesetAvailabilities encode listener receiver urls
        (some observer))
    { self with observers_by_url_ := pushObserver observer self.observers_by_url_ urls }

/-- The first loop of `RemoveObserverUrls`. `none`: `find(url)` returned
`end()` and was dereferenced. -/
def removeUrlsScan (observer : Observer) :
    List String → UrlAvailabilityRequester → StdSet String →
      Option (UrlAvailabilityRequester × StdSet String)
  | [], self, unobserved_urls => some (self, unobserved_urls)
  | url :: urls, self, unobserved_urls =>
    match StdMap.find self.observers_by_url_ url with
    | none => none
    | some observers =>
      let observers := observers.filter (fun o => decide (o ≠ observer))
      if observers.isEmpty then
        removeUrlsScan observer urls
          { self with
            observers_by_url_ := StdMap.erase self.observers_by_url_ url
            receiver_by_service_id_ :=
              self.receiver_by_service_id_.map (fun entry =>
                (entry.1,
                  { entry.2 with
                    known_availability_by_url :=
                      StdMap.erase entry.2.known_availability_by_url url })) }
          (StdSet.emplace unobserved_urls url)
      else
        removeUrlsScan observer urls
          { self with
            observers_by_url_ := StdMap.assign self.observers_by_url_ url observers }
          unobserved_urls

def RemoveObserverUrls (self : UrlAvailabilityRequester) (urls : List String)
    (observer : Observer) : Option UrlAvailabilityRequester :=
  match removeUrlsScan observer urls self [] with
  | none => none
  | some (self, unobserved_urls) =>
    some (onEachReceiver
      (fun listener receiver =>
        let (listener, receiver) :=
          ReceiverRequester.RemoveUnobservedRequests encode listener receiver
            unobserved_urls
        ReceiverRequester.RemoveUnobservedWatches encode listener receiver
          unobserved_urls)
      self)

/-- The first loop of `RemoveObserver`. `std::remove` packs the other
observers at the front and returns `it`; `observer_list.erase(it)` then erases
the one element at `it`, and what lies behind it stays. -/
def removeObserverScan (observer : Observer) :
    StdMap String (List Observer) → StdSet String →
      StdMap String (List Observer) × StdSet String
  | [], unobserved_urls => ([], unobserved_urls)
  | (url, observer_list) :: rest, unobserved_urls =>
    let packed := observer_list.filter (fun o => decide (o ≠ observer))
    if packed.length ≠ observer_list.length then
      let observer_list := packed ++ observer_list.drop (packed.length + 1)
      let (entries, unobserved) :=
        removeObserverScan observer rest
          (if observer_list.isEmpty then StdSet.emplace unobserved_urls url
           else unobserved_urls)
      ((url, observer_list) :: entries, unobserved)
    else
      let (entries, unobserved) := removeObserverScan observer rest unobserved_urls
      ((url, observer_list) :: entries, unobserved)

def RemoveObserver (self : UrlAvailabilityRequester) (observer : Observer) :
    UrlAvailabilityRequester :=
  let (entries, unobserved_urls) := removeObserverScan observer self.observers_by_url_ []
  onEachReceiver
    (fun listener receiver =>
      let (listener, receiver) :=
        ReceiverRequester.RemoveUnobservedRequests encode listener receiver
          unobserved_urls
      ReceiverRequester.RemoveUnobservedWatches encode listener receiver
        unobserved_urls)
    { self with observers_by_url_ := entries }

/-- The method `AddReceiver`. `emplace` keeps a requester already stored under
the service id, and the request goes to the requester the iterator points at.
The two numbers are the initial id counters of a new requester. -/
def AddReceiver (self : UrlAvailabilityRequester) (info : ServiceInfo)
    (first_request_id first_watch_id : Nat) : UrlAvailabilityRequester :=
  let result :=
    StdMap.emplace self.receiver_by_service_id_ info.service_id
      (ReceiverRequester.create info.service_id first_request_id first_watch_id)
  let urls := StdMap.keys self.observers_by_url_
  let (self', receiver) :=
    ReceiverRequester.RequestUrlAvailabilities encode
      { self with receiver_by_service_id_ := result.map } result.entry urls
  { self' with
    receiver_by_service_id_ :=
      StdMap.assign self'.receiver_by_service_id_ info.service_id receiver }

def ChangeReceiver (self : UrlAvailabilityRequester) (_info : ServiceInfo) :
    UrlAvailabilityRequester := self

def RemoveReceiver (self : UrlAvailabilityRequester) (info : ServiceInfo) :
    UrlAvailabilityRequester :=
  match StdMap.find self.receiver_by_service_id_ info.service_id with
  | some receiver =>
    let self := ReceiverRequester.RemoveReceiver self receiver
    { self with
      receiver_by_service_id_ := StdMap.erase self.receiver_by_service_id_ info.service_id }
  | none => self

def RemoveAllReceivers (self : UrlAvailabilityRequester) : UrlAvailabilityRequester :=
  let self :=
    self.receiver_by_service_id_.foldl
      (fun (listener : UrlAvailabilityRequester) (entry : String × ReceiverRequester) =>
        ReceiverRequester.RemoveReceiver listener entry.2)
      self
  { self with receiver_by_service_id_ := [] }

/-- The loop of `RefreshWatches` over the requesters. -/
def refreshScan (now : TimeDelta) (self : UrlAvailabilityRequester) :
    StdMap String ReceiverRequester → TimeDelta →
      UrlAvailabilityRequester × StdMap String ReceiverRequester × TimeDelta
  | [], minimum_schedule_time => (self, [], minimum_schedule_time)
  | (id, receiver) :: rest, minimum_schedule_time =>
    let (self, receiver, requested_schedule_time) :=
      ReceiverRequester.RefreshWatches encode self receiver now
    let (self, rest, m) :=
      refreshScan now self rest
        (if requested_schedule_time < minimum_schedule_time then requested_schedule_time
         else minimum_schedule_time)
    (self, (id, receiver) :: rest, m)

def RefreshWatches (self : UrlAvailabilityRequester) :
    UrlAvailabilityRequester × TimeDelta :=
  let now := self.clock_
  let (self', receivers, minimum_schedule_time) :=
    refreshScan encode now self self.receiver_by_service_id_
      (TimeDelta.FromSeconds kWatchDurationSeconds)
  ({ self' with receiver_by_service_id_ := receivers }, minimum_schedule_time)

/-! ### The transport and the demuxer calling a requester -/

/-- The transport calling `OnConnectionOpened` on the requester stored under
`service_id`. -/
def connectionOpened (self : UrlAvailabilityRequester) (service_id : String)
    (request_id : Nat) (connection : ProtocolConnection) : UrlAvailabilityRequester :=
  match StdMap.find self.receiver_by_service_id_ service_id with
  | none => self
  | some receiver =>
    let (self', receiver) :=
      ReceiverRequester.OnConnectionOpened encode self receiver request_id connection
    { self' with
      receiver_by_service_id_ :=
        StdMap.assign self'.receiver_by_service_id_ service_id receiver }

/-- The transport calling `OnConnectionFailed` on the requester stored under
`service_id`. -/
def connectionFailed (self : UrlAvailabilityRequester) (service_id : String)
    (request_id : Nat) : UrlAvailabilityRequester :=
  match StdMap.find self.receiver_by_service_id_ service_id with
  | none => self
  | some receiver => ReceiverRequester.OnConnectionFailed self receiver request_id

/-- The demuxer calling `OnStreamMessage` on the requester stored under
`service_id`; the second component is what the handler returns. `none`: no
requester is stored under `service_id`, or the handler's behaviour is
undefined. -/
def streamMessage (self : UrlAvailabilityRequester) (service_id : String)
    (endpoint_id connection_id : Nat) (message : StreamMessage) :
    Option (UrlAvailabilityRequester × Except ErrorCode Nat) :=
  match StdMap.find self.receiver_by_service_id_ service_id with
  | none => none
  | some receiver =>
    match ReceiverRequester.OnStreamMessage self receiver endpoint_id connection_id
        message with
    | none => none
    | some (self', receiver, result) =>
      some
        ({ self' with
           receiver_by_service_id_ :=
             StdMap.assign self'.receiver_by_service_id_ service_id receiver },
         result)

/-- The clock moving on by `delta` between two operations. -/
def advanceClock (self : UrlAvailabilityRequester) (delta : TimeDelta) :
    UrlAvailabilityRequester :=
  { self with clock_ := self.clock_ + delta }

end UrlAvailabilityRequester

end Requester

/-! ## Concrete states used by the examples -/

namespace Example

/-- An encoder that accepts every request. -/
def encodeAll : PresentationUrlAvailabilityRequest → Bool := fun _ => true

/-- An encoder that rejects every request. -/
def encodeNone : PresentationUrlAvailabilityRequest → Bool := fun _ => false

/-- The receiver of the unit tests. -/
def info1 : ServiceInfo := { service_id := "asdf" }

/-- The coordinator after `AddReceiver(info1)`, the connection opening, and
`AddObserver({"u"}, 7)`: one request and one watch for `"u"` are outstanding. -/
def requested : UrlAvailabilityRequester :=
  UrlAvailabilityRequester.AddObserver encodeAll
    (UrlAvailabilityRequester.connectionOpened encodeAll
      (UrlAvailabilityRequester.AddReceiver encodeAll
        (UrlAvailabilityRequester.create 213489000000) info1 1 1)
      "asdf" 0 { endpoint_id := 3 })
    ["u"] 7

/-- A connected requester with empty cache that has sent one request
`request_id` with watch `watch_id` for `[u]` at clock reading `now` and has
not been answered. -/
def watching (now : TimeDelta) (service_id : String) (connection : ProtocolConnection)
    (request_id watch_id : Nat) (u : String) : ReceiverRequester :=
  { service_id := service_id
    endpoint_id := connection.endpoint_id
    connect_request := false
    connection := some connection
    next_watch_id := increment64 watch_id
    next_request_id := increment64 request_id
    response_watch := true
    request_by_id := [(request_id, { watch_id := watch_id, urls := [u] })]
    event_watch := true
    watch_by_id :=
      [(watch_id,
        { deadline := now + TimeDelta.FromSeconds kWatchDurationSeconds, urls := [u] })]
    known_availability_by_url := [] }

/-- The requester of `requested`. -/
def requestedReceiver : ReceiverRequester :=
  { service_id := "asdf"
    endpoint_id := 3
    connect_request := false
    connection := some { endpoint_id := 3 }
    next_watch_id := 2
    next_request_id := 2
    response_watch := true
    request_by_id := [(1, { watch_id := 1, urls := ["u"] })]
    event_watch := true
    watch_by_id := [(1, { deadline := 213509000000, urls := ["u"] })]
    known_availability_by_url := [] }

/-- The requester of `requested` after the response `[kCompatible]` to its
request. -/
def answeredReceiver : ReceiverRequester :=
  { requestedReceiver with
    response_watch := false
    request_by_id := []
    known_availability_by_url := [("u", .kCompatible)] }

/-- The coordinator `requested` after the response `[kCompatible]`. -/
def answered : UrlAvailabilityRequester :=
  { clock_ := 213489000000
    observers_by_url_ := [("u", [7])]
    receiver_by_service_id_ := [("asdf", answeredReceiver)]
    calls := [.OnReceiverAvailable 7 "u" "asdf"]
    written := [{ service_id := "asdf", request := { request_id := 1, urls := ["u"], watch_id := 1 } }] }

end Example

namespace Example

/-- New coordinator, `AddObserver({"u"}, 7)`, `RemoveObserver(7)`. -/
def observerGone : UrlAvailabilityRequester :=
  UrlAvailabilityRequester.RemoveObserver encodeAll
    (UrlAvailabilityRequester.AddObserver encodeAll
      (UrlAvailabilityRequester.create 213489000000) ["u"] 7)
    7

/-- The state `requested` after `AddObserver({"u"}, 7)` once more and then
`RemoveObserver(7)`. -/
def twiceAddedRemoved : UrlAvailabilityRequester :=
  UrlAvailabilityRequester.RemoveObserver encodeAll
    (UrlAvailabilityRequester.AddObserver encodeAll requested ["u"] 7) 7

/-- The state `requested` after `RemoveObserver(7)`. -/
def requestedUnobserved : UrlAvailabilityRequester :=
  UrlAvailabilityRequester.RemoveObserver encodeAll requested 7

/-- New coordinator, `AddReceiver(info1)`, `AddObserver({"u"}, 7)`, the
connection not open yet: the request for `"u"` is queued. -/
def queued : UrlAvailabilityRequester :=
  UrlAvailabilityRequester.AddObserver encodeNone
    (UrlAvailabilityRequester.AddReceiver encodeNone
      (UrlAvailabilityRequester.create 213489000000) info1 1 1)
    ["u"] 7

/-- The requester of `queued`. -/
def queuedReceiver : ReceiverRequester :=
  { ReceiverRequester.create "asdf" 2 1 with
    request_by_id := [(1, { watch_id := 0, urls := ["u"] })] }

end Example

namespace Example

/-- New coordinator, `AddObserver({"u"}, 7)`, `AddReceiver(info1)`, the
connection opening: observer 7 was there before the receiver, and the request
for `"u"` is outstanding. -/
def observerFirst : UrlAvailabilityRequester :=
  UrlAvailabilityRequester.connectionOpened encodeAll
    (UrlAvailabilityRequester.AddReceiver encodeAll
      (UrlAvailabilityRequester.AddObserver encodeAll
        (UrlAvailabilityRequester.create 213489000000) ["u"] 7)
      info1 1 1)
    "asdf" 0 { endpoint_id := 3 }

/-- The state `observerFirst` after the response `[kCompatible]` to request 1
and the event `[kNotCompatible]` on watch 1. -/
def updatedTwice : Option UrlAvailabilityRequester :=
  (UrlAvailabilityRequester.streamMessage observerFirst "asdf" 3 0
      (.kPresentationUrlAvailabilityResponse (.consumed 9)
        { request_id := 1, url_availabilities := [.kCompatible] })).bind
    (fun r =>
      (UrlAvailabilityRequester.streamMessage r.1 "asdf" 3 0
          (.kPresentationUrlAvailabilityEvent (.consumed 9)
            { watch_id := 1, urls := ["u"], url_availabilities := [.kNotCompatible] })).map
        (fun r' => r'.1))

/-- The state `answered` after `RemoveObserver(7)`. -/
def answeredUnobserved : UrlAvailabilityRequester :=
  UrlAvailabilityRequester.RemoveObserver encodeAll answered 7

end Example

namespace Example

/-- The state `answered` after `AddObserver({"u"}, 8)`: observers 7 and 8 are
registered on `"u"`, which the requester caches as compatible, and watch 1 is
in place. -/
def twoObservers : UrlAvailabilityRequester :=
  UrlAvailabilityRequester.AddObserver encodeAll answered ["u"] 8

end Example

namespace Example

/-- New coordinator, `AddReceiver(info1)`, `AddObserver({"u"}, 7)` with the
encoder that accepts every request, the connection not open yet: the request
for `"u"` is queued. -/
def waiting : UrlAvailabilityRequester :=
  UrlAvailabilityRequester.AddObserver encodeAll
    (UrlAvailabilityRequester.AddReceiver encodeAll
      (UrlAvailabilityRequester.create 213489000000) info1 1 1)
    ["u"] 7

end Example

namespace Example

/-- The state `requested` 19 seconds later, after the coordinator's
`RefreshWatches`: watch 1 was due for refresh while request 1 was still
unanswered. -/
def refreshedUnanswered : UrlAvailabilityRequester :=
  (UrlAvailabilityRequester.RefreshWatches encodeAll
    (UrlAvailabilityRequester.advanceClock requested 19000000)).1

end Example

namespace Example

/-- A coordinator created when the clock reads -19 s, then `AddReceiver(info1)`,
the connection opening and `AddObserver({"u"}, 7)`, and 19 seconds later: the
clock reads 0 and watch 1, whose deadline is 1 s, is due for refresh. -/
def earlyClock : UrlAvailabilityRequester :=
  UrlAvailabilityRequester.advanceClock
    (UrlAvailabilityRequester.AddObserver encodeAll
      (UrlAvailabilityRequester.connectionOpened encodeAll
        (UrlAvailabilityRequester.AddReceiver encodeAll
          (UrlAvailabilityRequester.create (-19000000)) info1 1 1)
        "asdf" 0 { endpoint_id := 3 })
      ["u"] 7)
    19000000

end Example

namespace Example

/-- The state `waiting` after `RemoveObserverUrls({"u"}, 7)`: no url is
observed, the connection is not open yet, and request 1 for `"u"` is still
queued. -/
def unobservedQueued : UrlAvailabilityRequester :=
  { clock_ := 213489000000
    observers_by_url_ := []
    receiver_by_service_id_ := [("asdf", queuedReceiver)]
    calls := []
    written := [] }

/-- The state `unobservedQueued` after the connection has opened. -/
def lateConnection : UrlAvailabilityRequester :=
  UrlAvailabilityRequester.connectionOpened encodeAll unobservedQueued "asdf" 0
    { endpoint_id := 3 }

/-- The coordinator after `AddReceiver(info1)`, the connection opening, and
`AddObserver({"u", "v"}, 7)`: one request and one watch for both urls are
outstanding. -/
def requestedTwo : UrlAvailabilityRequester :=
  UrlAvailabilityRequester.AddObserver encodeAll
    (UrlAvailabilityRequester.connectionOpened encodeAll
      (UrlAvailabilityRequester.AddReceiver encodeAll
        (UrlAvailabilityRequester.create 213489000000) info1 1 1)
      "asdf" 0 { endpoint_id := 3 })
    ["u", "v"] 7

/-- The requester of `requestedTwo`. -/
def requestedTwoReceiver : ReceiverRequester :=
  { requestedReceiver with
    request_by_id := [(1, { watch_id := 1, urls := ["u", "v"] })]
    watch_by_id := [(1, { deadline := 213509000000, urls := ["u", "v"] })] }

end Example

namespace Example

/-- The state `requested` with a second requester `"other"` that also holds
request 1 and watch 1 for `"u"`. -/
def twoReceivers : UrlAvailabilityRequester :=
  { requested with
    receiver_by_service_id_ :=
      [("asdf", requestedReceiver),
        ("other", { requestedReceiver with service_id := "other" })] }

/-- The state `twoReceivers` after the response `[kCompatible]` to request 1
of the requester `"asdf"`. -/
def twoReceiversAnswered : UrlAvailabilityRequester :=
  { answered with
    receiver_by_service_id_ :=
      [("asdf", answeredReceiver),
        ("other", { requestedReceiver with service_id := "other" })] }

end Example

namespace Example

/-- The state `answered` after `AddObserver({"u"}, 7)` once more: observer 7
is twice in the observer list of `"u"`, which the requester caches as
compatible. -/
def registeredTwice : UrlAvailabilityRequester :=
  UrlAvailabilityRequester.AddObserver encodeAll answered ["u"] 7

/-- The state `waiting` after `AddObserver({"u"}, 7)` once more: observer 7
is twice in the observer list of `"u"`, and the requester, not connected yet,
has queued two requests for `"u"`. -/
def queuedTwice : UrlAvailabilityRequester :=
  UrlAvailabilityRequester.AddObserver encodeAll waiting ["u"] 7

end Example

/-! ## Reachable states and state predicates -/

/-- The coordinator states that can be reached from a new coordinator by its
public operations, by the transport and the demuxer calling a requester, and
by the clock moving on. The encoder and the initial id counters of a
requester are fixed along the way. -/
inductive Reachable (encode : PresentationUrlAvailabilityRequest → Bool)
    (first_request_id first_watch_id : Nat) : UrlAvailabilityRequester → Prop
  | create (now : TimeDelta) :
    Reachable encode first_request_id first_watch_id (UrlAvailabilityRequester.create now)
  | addObserver {s : UrlAvailabilityRequester} (urls : List String) (observer : Observer) :
    Reachable encode first_request_id first_watch_id s →
    Reachable encode first_request_id first_watch_id
      (UrlAvailabilityRequester.AddObserver encode s urls observer)
  | removeObserverUrls {s s' : UrlAvailabilityRequester} (urls : List String)
      (observer : Observer) :
    Reachable encode first_request_id first_watch_id s →
    UrlAvailabilityRequester.RemoveObserverUrls encode s urls observer = some s' →
    Reachable encode first_request_id first_watch_id s'
  | removeObserver {s : UrlAvailabilityRequester} (observer : Observer) :
    Reachable encode first_request_id first_watch_id s →
    Reachable encode first_request_id first_watch_id
      (UrlAvailabilityRequester.RemoveObserver encode s observer)
  | addReceiver {s : UrlAvailabilityRequester} (info : ServiceInfo) :
    Reachable encode first_request_id first_watch_id s →
    Reachable encode first_request_id first_watch_id
      (UrlAvailabilityRequester.AddReceiver encode s info first_request_id first_watch_id)
  | changeReceiver {s : UrlAvailabilityRequester} (info : ServiceInfo) :
    Reachable encode first_request_id first_watch_id s →
    Reachable encode first_request_id first_watch_id
      (UrlAvailabilityRequester.ChangeReceiver s info)
  | removeReceiver {s : UrlAvailabilityRequester} (info : ServiceInfo) :
    Reachable encode first_request_id first_watch_id s →
    Reachable encode first_request_id first_watch_id
      (UrlAvailabilityRequester.RemoveReceiver s info)
  | removeAllReceivers {s : UrlAvailabilityRequester} :
    Reachable encode first_request_id first_watch_id s →
    Reachable encode first_request_id first_watch_id
      (UrlAvailabilityRequester.RemoveAllReceivers s)
  | refreshWatches {s : UrlAvailabilityRequester} :
    Reachable encode first_request_id first_watch_id s →
    Reachable encode first_request_id first_watch_id
      (UrlAvailabilityRequester.RefreshWatches encode s).1
  | connectionOpened {s : UrlAvailabilityRequester} (service_id : String)
      (request_id : Nat) (connection : ProtocolConnection) :
    Reachable encode first_request_id first_watch_id s →
    Reachable encode first_request_id first_watch_id
      (UrlAvailabilityRequester.connectionOpened encode s service_id request_id connection)
  | connectionFailed {s : UrlAvailabilityRequester} (service_id : String)
      (request_id : Nat) :
    Reachable encode first_request_id first_watch_id s →
    Reachable encode first_request_id first_watch_id
      (UrlAvailabilityRequester.connectionFailed s service_id request_id)
  | streamMessage {s s' : UrlAvailabilityRequester} (service_id : String)
      (endpoint_id connection_id : Nat) (message : StreamMessage)
      (result : Except ErrorCode Nat) :
    Reachable encode first_request_id first_watch_id s →
    UrlAvailabilityRequester.streamMessage s service_id endpoint_id connection_id message =
      some (s', result) →
    Reachable encode first_request_id first_watch_id s'
  | advanceClock {s : UrlAvailabilityRequester} (delta : TimeDelta) :
    0 ≤ delta →
    Reachable encode first_request_id first_watch_id s →
    Reachable encode first_request_id first_watch_id
      (UrlAvailabilityRequester.advanceClock s delta)

/-- Whether a call is an availability edge (`OnReceiverAvailable` or
`OnReceiverUnavailable`) rather than `OnRequestFailed`. -/
def ObserverCall.isEdge : ObserverCall → Bool
  | .OnRequestFailed _ _ _ => false
  | .OnReceiverAvailable _ _ _ => true
  | .OnReceiverUnavailable _ _ _ => true

/-- The observers `observers_by_url_` holds for a url: the stored list, or no
observer when the url has no entry. -/
def observersOf (m : StdMap String (List Observer)) (url : String) : List Observer :=
  (StdMap.find m url).getD []

/-- The table `m'` is `m` except that urls satisfying `P` which had no entry
may have got an empty observer list (what `operator[]` leaves behind). -/
def ObserversExtend (P : String → Prop) (m m' : StdMap String (List Observer)) : Prop :=
  ∀ url, StdMap.find m' url = StdMap.find m url ∨
    (P url ∧ StdMap.find m url = none ∧ StdMap.find m' url = some [])

/-- Every url that has an entry in the cache of some requester is a key of
`observers_by_url_`. -/
def CachedUrlsAreKeys (s : UrlAvailabilityRequester) : Prop :=
  ∀ entry ∈ s.receiver_by_service_id_, ∀ url,
    StdMap.find entry.2.known_availability_by_url url ≠ none →
      StdMap.find s.observers_by_url_ url ≠ none

/-- Every requester is stored under its own service id. -/
def KeysAreServiceIds (s : UrlAvailabilityRequester) : Prop :=
  ∀ entry ∈ s.receiver_by_service_id_, entry.2.service_id = entry.1

/-- The registrations a requester holds for its tables: while the connection
is open, a non-empty request table has the response registration, and a
non-empty watch table has the event registration. -/
def RegistrationsHeld (r : ReceiverRequester) : Prop :=
  (r.connection ≠ none → r.request_by_id ≠ [] → r.response_watch = true) ∧
    (r.watch_by_id ≠ [] → r.event_watch = true)

/-- The watch table holds at most one watch under each id. -/
def WatchIdsDistinct (r : ReceiverRequester) : Prop :=
  (r.watch_by_id.map Prod.fst).Nodup

/-- The states reachable as in `Reachable` when every call of `AddObserver`
satisfies `guard` in the state it is made in. -/
inductive ReachableWhen
    (guard : UrlAvailabilityRequester → List String → Observer → Prop)
    (encode : PresentationUrlAvailabilityRequest → Bool)
    (first_request_id first_watch_id : Nat) : UrlAvailabilityRequester → Prop
  | create (now : TimeDelta) :
    ReachableWhen guard encode first_request_id first_watch_id
      (UrlAvailabilityRequester.create now)
  | addObserver {s : UrlAvailabilityRequester} (urls : List String) (observer : Observer) :
    guard s urls observer →
    ReachableWhen guard encode first_request_id first_watch_id s →
    ReachableWhen guard encode first_request_id first_watch_id
      (UrlAvailabilityRequester.AddObserver encode s urls observer)
  | removeObserverUrls {s s' : UrlAvailabilityRequester} (urls : List String)
      (observer : Observer) :
    ReachableWhen guard encode first_request_id first_watch_id s →
    UrlAvailabilityRequester.RemoveObserverUrls encode s urls observer = some s' →
    ReachableWhen guard encode first_request_id first_watch_id s'
  | removeObserver {s : UrlAvailabilityRequester} (observer : Observer) :
    ReachableWhen guard encode first_request_id first_watch_id s →
    ReachableWhen guard encode first_request_id first_watch_id
      (UrlAvailabilityRequester.RemoveObserver encode s observer)
  | addReceiver {s : UrlAvailabilityRequester} (info : ServiceInfo) :
    ReachableWhen guard encode first_request_id first_watch_id s →
    ReachableWhen guard encode first_request_id first_watch_id
      (UrlAvailabilityRequester.AddReceiver encode s info first_request_id first_watch_id)
  | changeReceiver {s : UrlAvailabilityRequester} (info : ServiceInfo) :
    ReachableWhen guard encode first_request_id first_watch_id s →
    ReachableWhen guard encode first_request_id first_watch_id
      (UrlAvailabilityRequester.ChangeReceiver s info)
  | removeReceiver {s : UrlAvailabilityRequester} (info : ServiceInfo) :
    ReachableWhen guard encode first_request_id first_watch_id s →
    ReachableWhen guard encode first_request_id first_watch_id
      (UrlAvailabilityRequester.RemoveReceiver s info)
  | removeAllReceivers {s : UrlAvailabilityRequester} :
    ReachableWhen guard encode first_request_id first_watch_id s →
    ReachableWhen guard encode first_request_id first_watch_id
      (UrlAvailabilityRequester.RemoveAllReceivers s)
  | refreshWatches {s : UrlAvailabilityRequester} :
    ReachableWhen guard encode first_request_id first_watch_id s →
    ReachableWhen guard encode first_request_id first_watch_id
      (UrlAvailabilityRequester.RefreshWatches encode s).1
  | connectionOpened {s : UrlAvailabilityRequester} (service_id : String)
      (request_id : Nat) (connection : ProtocolConnection) :
    ReachableWhen guard encode first_request_id first_watch_id s →
    ReachableWhen guard encode first_request_id first_watch_id
      (UrlAvailabilityRequester.connectionOpened encode s service_id request_id connection)
  | connectionFailed {s : UrlAvailabilityRequester} (service_id : String)
      (request_id : Nat) :
    ReachableWhen guard encode first_request_id first_watch_id s →
    ReachableWhen guard encode first_request_id first_watch_id
      (UrlAvailabilityRequester.connectionFailed s service_id request_id)
  | streamMessage {s s' : UrlAvailabilityRequester} (service_id : String)
      (endpoint_id connection_id : Nat) (message : StreamMessage)
      (result : Except ErrorCode Nat) :
    ReachableWhen guard encode first_request_id first_watch_id s →
    UrlAvailabilityRequester.streamMessage s service_id endpoint_id connection_id message =
      some (s', result) →
    ReachableWhen guard encode first_request_id first_watch_id s'
  | advanceClock {s : UrlAvailabilityRequester} (delta : TimeDelta) :
    0 ≤ delta →
    ReachableWhen guard encode first_request_id first_watch_id s →
    ReachableWhen guard encode first_request_id first_watch_id
      (UrlAvailabilityRequester.advanceClock s delta)

/-- The call `AddObserver(urls, observer)` names no url twice, and the
observer is not yet registered on any of the urls. -/
def AddsOnce (s : UrlAvailabilityRequester) (urls : List String) (observer : Observer) :
    Prop :=
  urls.Nodup ∧ ∀ url ∈ urls, observer ∉ observersOf s.observers_by_url_ url

/-- No observer appears more than once in the observer list of a url. -/
def ObserversDistinct (m : StdMap String (List Observer)) : Prop :=
  ∀ url observers, StdMap.find m url = some observers → observers.Nodup

/-- No watch of the requester is due for refresh at `now`, and the event
registration is released when there is no watch. -/
def NothingDue (now : TimeDelta) (r : ReceiverRequester) : Prop :=
  (∀ entry ∈ r.watch_by_id,
      ¬ now > entry.2.deadline - TimeDelta.FromSeconds kWatchRefreshPaddingSeconds) ∧
    (r.watch_by_id = [] → r.event_watch = false)

/-- Every key of the request table is below `next_request_id`, and every key
of the watch table is below `next_watch_id`. -/
def IdsBelowCounters (r : ReceiverRequester) : Prop :=
  (∀ k ∈ StdMap.keys r.request_by_id, k < r.next_request_id) ∧
    (∀ k ∈ StdMap.keys r.watch_by_id, k < r.next_watch_id)

/-- What has happened to the ids between the requester states `r` and `r'`:
neither counter has gone back, the request counter has advanced by at most
`a` and the watch counter by at most `b`, and every key of a table of `r'` is
a key of that table of `r` or an id allocated in between, which is at least
the counter of `r` and below the counter of `r'`. -/
structure IdsAllocated (a b : Nat) (r r' : ReceiverRequester) : Prop where
  request_counter : r.next_request_id ≤ r'.next_request_id
  request_bound : r'.next_request_id ≤ r.next_request_id + a
  watch_counter : r.next_watch_id ≤ r'.next_watch_id
  watch_bound : r'.next_watch_id ≤ r.next_watch_id + b
  request_keys : ∀ k ∈ StdMap.keys r'.request_by_id,
    k ∈ StdMap.keys r.request_by_id ∨ (r.next_request_id ≤ k ∧ k < r'.next_request_id)
  watch_keys : ∀ k ∈ StdMap.keys r'.watch_by_id,
    k ∈ StdMap.keys r.watch_by_id ∨ (r.next_watch_id ≤ k ∧ k < r'.next_watch_id)

/-- The life of one requester: `RequesterRun encode r r'` when `r'` comes from
`r` by calls of the methods that write the fields of a requester, with any
arguments and any coordinator around it, and by changes of its cache (which
`RemoveObserverUrls` of the coordinator makes). Wrap-around is barred: a call
is only made when each counter is at least as far below `2 ^ 64` as the
number of ids the call can take from it (one for a request; the size of the
watch table for `RefreshWatches`; the size of the request table for the
retransmission of `OnConnectionOpened`). -/
inductive RequesterRun (encode : PresentationUrlAvailabilityRequest → Bool) :
    ReceiverRequester → ReceiverRequester → Prop
  | start (r : ReceiverRequester) : RequesterRun encode r r
  | cache {r r' : ReceiverRequester} (cache : StdMap String PresentationUrlAvailability) :
    RequesterRun encode r r' →
    RequesterRun encode r { r' with known_availability_by_url := cache }
  | requestUrlAvailabilities {r r' : ReceiverRequester} (listener : UrlAvailabilityRequester)
    (urls : List String) :
    RequesterRun encode r r' →
    r'.next_request_id + 1 < 2 ^ 64 → r'.next_watch_id + 1 < 2 ^ 64 →
    RequesterRun encode r (ReceiverRequester.RequestUrlAvailabilities encode listener r' urls).2
  | getOrRequesetAvailabilities {r r' : ReceiverRequester}
    (listener : UrlAvailabilityRequester) (urls : List String) (observer : Option Observer) :
    RequesterRun encode r r' →
    r'.next_request_id + 1 < 2 ^ 64 → r'.next_watch_id + 1 < 2 ^ 64 →
    RequesterRun encode r
      (ReceiverRequester.GetOrRequesetAvailabilities encode listener r' urls observer).2
  | refreshWatches {r r' : ReceiverRequester} (listener : UrlAvailabilityRequester)
    (now : TimeDelta) :
    RequesterRun encode r r' →
    r'.next_request_id + r'.watch_by_id.length < 2 ^ 64 →
    r'.next_watch_id + r'.watch_by_id.length < 2 ^ 64 →
    RequesterRun encode r (ReceiverRequester.RefreshWatches encode listener r' now).2.1
  | removeUnobservedRequests {r r' : ReceiverRequester} (listener : UrlAvailabilityRequester)
    (unobserved_urls : StdSet String) :
    RequesterRun encode r r' →
    r'.next_request_id + 1 < 2 ^ 64 → r'.next_watch_id + 1 < 2 ^ 64 →
    RequesterRun encode r
      (ReceiverRequester.RemoveUnobservedRequests encode listener r' unobserved_urls).2
  | removeUnobservedWatches {r r' : ReceiverRequester} (listener : UrlAvailabilityRequester)
    (unobserved_urls : StdSet String) :
    RequesterRun encode r r' →
    r'.next_request_id + 1 < 2 ^ 64 → r'.next_watch_id + 1 < 2 ^ 64 →
    RequesterRun encode r
      (ReceiverRequester.RemoveUnobservedWatches encode listener r' unobserved_urls).2
  | connectionOpened {r r' : ReceiverRequester} (listener : UrlAvailabilityRequester)
    (request_id : Nat) (connection : ProtocolConnection) :
    RequesterRun encode r r' →
    r'.next_watch_id + r'.request_by_id.length < 2 ^ 64 →
    RequesterRun encode r
      (ReceiverRequester.OnConnectionOpened encode listener r' request_id connection).2
  | streamMessage {r r' r'' : ReceiverRequester} (listener listener' : UrlAvailabilityRequester)
    (endpoint_id connection_id : Nat) (message : StreamMessage)
    (result : Except ErrorCode Nat) :
    RequesterRun encode r r' →
    ReceiverRequester.OnStreamMessage listener r' endpoint_id connection_id message =
      some (listener', r'', result) →
    RequesterRun encode r r''

/-- The service id a call on an observer carries. -/
def ObserverCall.service_id : ObserverCall → String
  | .OnRequestFailed _ _ service_id => service_id
  | .OnReceiverAvailable _ _ service_id => service_id
  | .OnReceiverUnavailable _ _ service_id => service_id

/-- What a requester that has no connection looks like when it has never
sent: no watch, the placeholder watch id 0 in every request, and the watch id
counter at its first value. -/
def NeverSent (first_watch_id : Nat) (r : ReceiverRequester) : Prop :=
  r.connection = none →
    r.watch_by_id = [] ∧ (∀ entry ∈ r.request_by_id, entry.2.watch_id = 0) ∧
      r.next_watch_id = first_watch_id

/-- The states reachable as in `Reachable` from a coordinator that is created
when the clock reads at least `since`. -/
inductive ReachableSince (encode : PresentationUrlAvailabilityRequest → Bool)
    (first_request_id first_watch_id : Nat) (since : TimeDelta) :
    UrlAvailabilityRequester → Prop
  | create (now : TimeDelta) :
    since ≤ now →
    ReachableSince encode first_request_id first_watch_id since
      (UrlAvailabilityRequester.create now)
  | addObserver {s : UrlAvailabilityRequester} (urls : List String) (observer : Observer) :
    ReachableSince encode first_request_id first_watch_id since s →
    ReachableSince encode first_request_id first_watch_id since
      (UrlAvailabilityRequester.AddObserver encode s urls observer)
  | removeObserverUrls {s s' : UrlAvailabilityRequester} (urls : List String)
      (observer : Observer) :
    ReachableSince encode first_request_id first_watch_id since s →
    UrlAvailabilityRequester.RemoveObserverUrls encode s urls observer = some s' →
    ReachableSince encode first_request_id first_watch_id since s'
  | removeObserver {s : UrlAvailabilityRequester} (observer : Observer) :
    ReachableSince encode first_request_id first_watch_id since s →
    ReachableSince encode first_request_id first_watch_id since
      (UrlAvailabilityRequester.RemoveObserver encode s observer)
  | addReceiver {s : UrlAvailabilityRequester} (info : ServiceInfo) :
    ReachableSince encode first_request_id first_watch_id since s →
    ReachableSince encode first_request_id first_watch_id since
      (UrlAvailabilityRequester.AddReceiver encode s info first_request_id first_watch_id)
  | changeReceiver {s : UrlAvailabilityRequester} (info : ServiceInfo) :
    ReachableSince encode first_request_id first_watch_id since s →
    ReachableSince encode first_request_id first_watch_id since
      (UrlAvailabilityRequester.ChangeReceiver s info)
  | removeReceiver {s : UrlAvailabilityRequester} (info : ServiceInfo) :
    ReachableSince encode first_request_id first_watch_id since s →
    ReachableSince encode first_request_id first_watch_id since
      (UrlAvailabilityRequester.RemoveReceiver s info)
  | removeAllReceivers {s : UrlAvailabilityRequester} :
    ReachableSince encode first_request_id first_watch_id since s →
    ReachableSince encode first_request_id first_watch_id since
      (UrlAvailabilityRequester.RemoveAllReceivers s)
  | refreshWatches {s : UrlAvailabilityRequester} :
    ReachableSince encode first_request_id first_watch_id since s →
    ReachableSince encode first_request_id first_watch_id since
      (UrlAvailabilityRequester.RefreshWatches encode s).1
  | connectionOpened {s : UrlAvailabilityRequester} (service_id : String)
      (request_id : Nat) (connection : ProtocolConnection) :
    ReachableSince encode first_request_id first_watch_id since s →
    ReachableSince encode first_request_id first_watch_id since
      (UrlAvailabilityRequester.connectionOpened encode s service_id request_id connection)
  | connectionFailed {s : UrlAvailabilityRequester} (service_id : String)
      (request_id : Nat) :
    ReachableSince encode first_request_id first_watch_id since s →
    ReachableSince encode first_request_id first_watch_id since
      (UrlAvailabilityRequester.connectionFailed s service_id request_id)
  | streamMessage {s s' : UrlAvailabilityRequester} (service_id : String)
      (endpoint_id connection_id : Nat) (message : StreamMessage)
      (result : Except ErrorCode Nat) :
    ReachableSince encode first_request_id first_watch_id since s →
    UrlAvailabilityRequester.streamMessage s service_id endpoint_id connection_id message =
      some (s', result) →
    ReachableSince encode first_request_id first_watch_id since s'
  | advanceClock {s : UrlAvailabilityRequester} (delta : TimeDelta) :
    0 ≤ delta →
    ReachableSince encode first_request_id first_watch_id since s →
    ReachableSince encode first_request_id first_watch_id since
      (UrlAvailabilityRequester.advanceClock s delta)

/-- The clock reads at least `since`, and every watch has a deadline of at
least `since` plus the watch duration, as a watch created at a clock reading
of at least `since` has. -/
def WatchesSince (since : TimeDelta) (s : UrlAvailabilityRequester) : Prop :=
  since ≤ s.clock_ ∧
    ∀ entry ∈ s.receiver_by_service_id_, ∀ watch ∈ entry.2.watch_by_id,
      since + TimeDelta.FromSeconds kWatchDurationSeconds ≤ watch.2.deadline

/-- What a method of a requester may do to the coordinator state when it only
sends requests and reports failures: the clock and the requester table stay,
and the observer table is extended at most under urls satisfying `P`. -/
structure ListenerStep (P : String → Prop) (l l' : UrlAvailabilityRequester) : Prop where
  clock : l'.clock_ = l.clock_
  receivers : l'.receiver_by_service_id_ = l.receiver_by_service_id_
  observers : ObserversExtend P l.observers_by_url_ l'.observers_by_url_

/-- The calls of `l'` include no availability edge beyond those of `l`. -/
def EdgesKept (l l' : UrlAvailabilityRequester) : Prop :=
  l'.calls.filter ObserverCall.isEdge = l.calls.filter ObserverCall.isEdge

/-- The requester `r'` has the cache, the service id and the connection of
`r`. -/
structure RequesterKept (r r' : ReceiverRequester) : Prop where
  cache : r'.known_availability_by_url = r.known_availability_by_url
  service_id : r'.service_id = r.service_id
  connection : r'.connection = r.connection

/-! ## Theorems -/

section EraseLemmas

variable {κ ν : Type} [DecidableEq κ]

/-- An erased key is no longer found. -/
theorem StdMap.find_erase_self (m : StdMap κ ν) (k : κ) :
    StdMap.find (StdMap.erase m k) k = none := by
  induction m with
  | nil => simp [StdMap.erase, StdMap.find]
  | cons e rest ih =>
    obtain ⟨k₀, v₀⟩ := e
    by_cases hk : k₀ = k
    · simpa [StdMap.erase, hk] using ih
    · simpa [StdMap.erase, hk, StdMap.find] using ih

end EraseLemmas

section MapLemmas

variable {κ ν : Type} [DecidableEq κ] [StdLess κ]

/-- A key inserted into a map that did not hold it is found with its value. -/
theorem StdMap.find_insertSorted_self (m : StdMap κ ν) (k : κ) (v : ν)
    (h : StdMap.find m k = none) :
    StdMap.find (StdMap.insertSorted m k v) k = some v := by
  induction m with
  | nil => simp [StdMap.insertSorted, StdMap.find]
  | cons e rest ih =>
    obtain ⟨k', v'⟩ := e
    simp only [StdMap.find] at h
    by_cases hk : k' = k
    · simp [hk] at h
    · simp only [hk, if_false] at h
      simp only [StdMap.insertSorted]
      split
      · simp [StdMap.find, hk, ih h]
      · simp [StdMap.find]

/-- Inserting a key leaves the lookup of every other key as it was. -/
theorem StdMap.find_insertSorted_ne (m : StdMap κ ν) (k k' : κ) (v : ν)
    (h : k ≠ k') :
    StdMap.find (StdMap.insertSorted m k v) k' = StdMap.find m k' := by
  induction m with
  | nil => simp [StdMap.insertSorted, StdMap.find, h]
  | cons e rest ih =>
    obtain ⟨k₀, v₀⟩ := e
    simp only [StdMap.insertSorted]
    split
    · simp [StdMap.find, ih]
    · simp [StdMap.find, h]

end MapLemmas

namespace Example

/-- The state `requested` is the one-requester state written out here. -/
theorem requested_eq :
    requested =
      { clock_ := 213489000000
        observers_by_url_ := [("u", [7])]
        receiver_by_service_id_ := [("asdf", requestedReceiver)]
        calls := []
        written := [{ service_id := "asdf", request := { request_id := 1, urls := ["u"], watch_id := 1 } }] } := by
  decide

/-- Adding the observer before the receiver leads to the same state as
`requested`, where the receiver came first. -/
theorem requested_observer_first :
    UrlAvailabilityRequester.connectionOpened encodeAll
        (UrlAvailabilityRequester.AddReceiver encodeAll
          (UrlAvailabilityRequester.AddObserver encodeAll
            (UrlAvailabilityRequester.create 213489000000) ["u"] 7)
          info1 1 1)
        "asdf" 0 { endpoint_id := 3 } =
      requested := by
  decide

/-- The response `[kCompatible]` to the request of `requested` leads to
`answered`. -/
theorem answered_reached :
    UrlAvailabilityRequester.streamMessage requested "asdf" 3 0
        (.kPresentationUrlAvailabilityResponse (.consumed 9)
          { request_id := 1, url_availabilities := [.kCompatible] }) =
      some (answered, .ok 9) := by
  rfl

end Example

open ReceiverRequester

/-- The urls `GetOrRequesetAvailabilities` collects in `unknown_urls` are the requested urls without a cache entry, in order. -/
theorem scanRequested_unknown (self : ReceiverRequester) (observer : Option Observer)
    (urls : List String) :
    (scanRequested self observer urls).2 =
      urls.filter (fun url => (StdMap.find self.known_availability_by_url url).isNone) := by
  induction urls with
  | nil => simp [scanRequested]
  | cons url urls ih =>
    simp only [scanRequested]
    cases h : StdMap.find self.known_availability_by_url url with
    | none => simp [h, ← ih]
    | some a =>
      cases observer <;> simp [h, ← ih]

/-- Reporting failed urls writes nothing to the connection. -/
theorem failUrls_written (listener : UrlAvailabilityRequester) (service_id : String)
    (urls : List String) :
    (failUrls listener service_id urls).written = listener.written := by
  induction urls generalizing listener with
  | nil => rfl
  | cons url urls ih => simp [failUrls, ih]

section RequestLemmas

variable (encode : PresentationUrlAvailabilityRequest → Bool)

/-- What `SendRequest` does when the encoder accepts the request. -/
theorem SendRequest_ok (listener : UrlAvailabilityRequester) (self : ReceiverRequester)
    (request_id : Nat) (urls : List String)
    (henc : encode ⟨request_id, urls, self.next_watch_id⟩ = true) :
    SendRequest encode listener self request_id urls =
      ({ listener with
          written := listener.written ++
            [⟨self.service_id, ⟨request_id, urls, self.next_watch_id⟩⟩] },
        { self with
          next_watch_id := increment64 self.next_watch_id
          watch_by_id :=
            (StdMap.emplace self.watch_by_id self.next_watch_id
              ⟨listener.clock_ + TimeDelta.FromSeconds kWatchDurationSeconds, urls⟩).map
          event_watch := true
          response_watch := true },
        .ok self.next_watch_id) := by
  obtain ⟨sid, eid, cr, conn, nw, nr, rw, rq, ew, wt, cache⟩ := self
  simp only at henc
  cases ew <;> cases rw <;> simp [SendRequest, henc]

/-- What `SendRequest` does when the encoder rejects the request: only the watch id is used up. -/
theorem SendRequest_error (listener : UrlAvailabilityRequester) (self : ReceiverRequester)
    (request_id : Nat) (urls : List String)
    (henc : encode ⟨request_id, urls, self.next_watch_id⟩ = false) :
    SendRequest encode listener self request_id urls =
      (listener, { self with next_watch_id := increment64 self.next_watch_id },
        .error .kCborEncoding) := by
  simp [SendRequest, henc]

/-- Without a connection a non-empty request is queued under the next request id with watch id 0. -/
theorem RequestUrlAvailabilities_queued (listener : UrlAvailabilityRequester)
    (self : ReceiverRequester) (urls : List String) (hne : urls ≠ [])
    (hconn : self.connection = none) :
    RequestUrlAvailabilities encode listener self urls =
      (listener,
        { self with
          next_request_id := increment64 self.next_request_id
          request_by_id :=
            (StdMap.emplace self.request_by_id self.next_request_id ⟨0, urls⟩).map }) := by
  cases urls with
  | nil => exact absurd rfl hne
  | cons u us => simp [RequestUrlAvailabilities, hconn]

/-- With a connection and the encoder accepting, a non-empty request is written and recorded together with its watch. -/
theorem RequestUrlAvailabilities_sent (listener : UrlAvailabilityRequester)
    (self : ReceiverRequester) (urls : List String) (c : ProtocolConnection)
    (hne : urls ≠ []) (hconn : self.connection = some c)
    (henc : encode ⟨self.next_request_id, urls, self.next_watch_id⟩ = true) :
    RequestUrlAvailabilities encode listener self urls =
      ({ listener with
          written := listener.written ++
            [⟨self.service_id, ⟨self.next_request_id, urls, self.next_watch_id⟩⟩] },
        { self with
          next_request_id := increment64 self.next_request_id
          next_watch_id := increment64 self.next_watch_id
          watch_by_id :=
            (StdMap.emplace self.watch_by_id self.next_watch_id
              ⟨listener.clock_ + TimeDelta.FromSeconds kWatchDurationSeconds, urls⟩).map
          event_watch := true
          response_watch := true
          request_by_id :=
            (StdMap.emplace self.request_by_id self.next_request_id
              ⟨self.next_watch_id, urls⟩).map }) := by
  cases urls with
  | nil => exact absurd rfl hne
  | cons u us =>
    simp only [RequestUrlAvailabilities, List.isEmpty_cons, Bool.false_eq_true, if_false,
      hconn]
    rw [SendRequest_ok encode _ _ _ _ (by simpa using henc)]

/-- With a connection and the encoder rejecting, a non-empty request is reported as failed and not recorded. -/
theorem RequestUrlAvailabilities_failed (listener : UrlAvailabilityRequester)
    (self : ReceiverRequester) (urls : List String) (c : ProtocolConnection)
    (hne : urls ≠ []) (hconn : self.connection = some c)
    (henc : encode ⟨self.next_request_id, urls, self.next_watch_id⟩ = false) :
    RequestUrlAvailabilities encode listener self urls =
      (failUrls listener self.service_id urls,
        { self with
          next_request_id := increment64 self.next_request_id
          next_watch_id := increment64 self.next_watch_id }) := by
  cases urls with
  | nil => exact absurd rfl hne
  | cons u us =>
    simp only [RequestUrlAvailabilities, List.isEmpty_cons, Bool.false_eq_true, if_false,
      hconn]
    rw [SendRequest_error encode _ _ _ _ (by simpa using henc)]

/-- The method `GetOrRequesetAvailabilities` makes its calls on the observer and then requests the uncached urls. -/
theorem GetOrRequesetAvailabilities_eq (listener : UrlAvailabilityRequester)
    (self : ReceiverRequester) (urls : List String) (observer : Option Observer) :
    GetOrRequesetAvailabilities encode listener self urls observer =
      RequestUrlAvailabilities encode
        { listener with calls := listener.calls ++ (scanRequested self observer urls).1 }
        self
        (urls.filter (fun url =>
          (StdMap.find self.known_availability_by_url url).isNone)) := by
  rw [← scanRequested_unknown self observer urls]
  unfold GetOrRequesetAvailabilities
  rcases scanRequested self observer urls with ⟨calls, unknown⟩
  cases unknown with
  | nil => simp [RequestUrlAvailabilities]
  | cons u us => simp

end RequestLemmas

/-- C1 (the code departs from it). For an observed url, `UpdateAvailabilities`
on the pair `(u, a)` leaves the cache mapping `u` to the availability it
already held, whatever `a` is, and to `a` only when `u` had no entry:
`emplace` never overwrites. -/
theorem UpdateAvailabilities_cache_entry (listener : UrlAvailabilityRequester)
    (self : ReceiverRequester) (u : String) (a : PresentationUrlAvailability)
    (observers : List Observer)
    (hobs : StdMap.find listener.observers_by_url_ u = some observers) :
    (UpdateAvailabilities listener self [u] [a]).map
        (fun r => StdMap.find r.2.known_availability_by_url u) =
      some (some ((StdMap.find self.known_availability_by_url u).getD a)) := by
  cases hc : StdMap.find self.known_availability_by_url u with
  | none =>
    simp [UpdateAvailabilities, hobs, StdMap.emplace, hc,
      StdMap.find_insertSorted_self _ _ _ hc]
  | some b => simp [UpdateAvailabilities, hobs, StdMap.emplace, hc]

/-- C1, at the failing input: `"u"` is cached as `kCompatible`, the update
carries `kNotCompatible`, and the cache still says `kCompatible`. -/
theorem UpdateAvailabilities_cache_entry_witness :
    (UpdateAvailabilities Example.answered Example.answeredReceiver ["u"]
          [.kNotCompatible]).map
        (fun r => StdMap.find r.2.known_availability_by_url "u") =
      some (some .kCompatible) :=
  UpdateAvailabilities_cache_entry Example.answered Example.answeredReceiver "u"
    .kNotCompatible [7] (by decide)

/-- C2 (the code departs from it). When an observed url is cached with an
availability other than `a`, two consecutive updates carrying `a` both deliver
the edge of `a` to the observers of the url: the first update does not store
`a`, so the second one sees the same difference again. -/
theorem UpdateAvailabilities_repeated_edge (listener : UrlAvailabilityRequester)
    (self : ReceiverRequester) (u : String) (a b : PresentationUrlAvailability)
    (observers : List Observer)
    (hobs : StdMap.find listener.observers_by_url_ u = some observers)
    (hcached : StdMap.find self.known_availability_by_url u = some b)
    (hne : b ≠ a) :
    ((UpdateAvailabilities listener self [u] [a]).bind
        (fun r => UpdateAvailabilities r.1 r.2 [u] [a])).map (fun r => r.1.calls) =
      some (listener.calls ++ edgeCalls a observers u self.service_id ++
        edgeCalls a observers u self.service_id) := by
  simp [UpdateAvailabilities, hobs, StdMap.emplace, hcached, hne]

/-- C2, at the failing input: after the response `[kCompatible]`, two updates
`[kNotCompatible]` for `"u"` call `OnReceiverUnavailable` on observer 7 twice. -/
theorem UpdateAvailabilities_repeated_edge_witness :
    ((UpdateAvailabilities Example.answered Example.answeredReceiver ["u"]
          [.kNotCompatible]).bind
        (fun r => UpdateAvailabilities r.1 r.2 ["u"] [.kNotCompatible])).map
        (fun r => r.1.calls) =
      some [.OnReceiverAvailable 7 "u" "asdf", .OnReceiverUnavailable 7 "u" "asdf",
        .OnReceiverUnavailable 7 "u" "asdf"] :=
  UpdateAvailabilities_repeated_edge Example.answered Example.answeredReceiver "u"
    .kNotCompatible .kCompatible [7] (by decide) (by decide) (by decide)

/-- C3 (the code departs from it). When the first url of the list has no
observer entry and is skipped, the second url is cached with, and gets its
edge from, the first availability: the skip does not advance
`availability_it`. -/
theorem UpdateAvailabilities_pairing_after_skip (listener : UrlAvailabilityRequester)
    (self : ReceiverRequester) (u₁ u₂ : String) (a₁ a₂ : PresentationUrlAvailability)
    (observers : List Observer)
    (hskip : StdMap.find listener.observers_by_url_ u₁ = none)
    (hobs : StdMap.find listener.observers_by_url_ u₂ = some observers)
    (hcache : StdMap.find self.known_availability_by_url u₂ = none) :
    (UpdateAvailabilities listener self [u₁, u₂] [a₁, a₂]).map
        (fun r => (StdMap.find r.2.known_availability_by_url u₂, r.1.calls)) =
      some (some a₁, listener.calls ++ edgeCalls a₁ observers u₂ self.service_id) := by
  simp [UpdateAvailabilities, hobs, hskip, StdMap.emplace, hcache,
    StdMap.find_insertSorted_self _ _ _ hcache]

/-- C3, at the failing input: only `"u"` is observed, the update carries
`["t", "u"]` with `[kCompatible, kNotCompatible]`, and `"u"` ends up cached as
`kCompatible` with `OnReceiverAvailable` called. -/
theorem UpdateAvailabilities_pairing_after_skip_witness :
    (UpdateAvailabilities Example.requested Example.requestedReceiver ["t", "u"]
          [.kCompatible, .kNotCompatible]).map
        (fun r => (StdMap.find r.2.known_availability_by_url "u", r.1.calls)) =
      some (some .kCompatible, [.OnReceiverAvailable 7 "u" "asdf"]) :=
  UpdateAvailabilities_pairing_after_skip Example.requested Example.requestedReceiver
    "t" "u" .kCompatible .kNotCompatible [7] (by decide) (by decide) (by decide)

/-- C4. On a requester that has no cache entry for `u` and holds a request
with url list `[u]`, with `O` the only observer of `u`: the response
`[kCompatible]` to that request makes exactly the call
`O.OnReceiverAvailable(u, service_id)`, the response `[kNotCompatible]`
exactly the call `O.OnReceiverUnavailable(u, service_id)`, and the handler
returns the bytes consumed. Nothing is asked of how the state came about, so
the order in which observer and receiver were added does not matter. -/
theorem OnStreamMessage_response_single_url (listener : UrlAvailabilityRequester)
    (self : ReceiverRequester) (u : String) (O : Observer)
    (request_id watch_id bytes endpoint_id connection_id : Nat)
    (hobs : StdMap.find listener.observers_by_url_ u = some [O])
    (hcache : StdMap.find self.known_availability_by_url u = none)
    (hreq : StdMap.find self.request_by_id request_id =
      some { watch_id := watch_id, urls := [u] }) :
    (OnStreamMessage listener self endpoint_id connection_id
          (.kPresentationUrlAvailabilityResponse (.consumed bytes)
            { request_id := request_id, url_availabilities := [.kCompatible] })).map
        (fun r => (r.1.calls, r.2.2)) =
      some (listener.calls ++ [.OnReceiverAvailable O u self.service_id], .ok bytes) ∧
    (OnStreamMessage listener self endpoint_id connection_id
          (.kPresentationUrlAvailabilityResponse (.consumed bytes)
            { request_id := request_id, url_availabilities := [.kNotCompatible] })).map
        (fun r => (r.1.calls, r.2.2)) =
      some (listener.calls ++ [.OnReceiverUnavailable O u self.service_id], .ok bytes) := by
  constructor <;>
  simp [OnStreamMessage, hreq, UpdateAvailabilities, hobs, StdMap.emplace, hcache,
    edgeCalls]

/-- C4, on the state both orders of the unit tests lead to
(`Example.requested_eq`, `Example.requested_observer_first`). -/
theorem OnStreamMessage_response_single_url_witness :
    (OnStreamMessage Example.requested Example.requestedReceiver 3 0
          (.kPresentationUrlAvailabilityResponse (.consumed 9)
            { request_id := 1, url_availabilities := [.kCompatible] })).map
        (fun r => (r.1.calls, r.2.2)) =
      some ([.OnReceiverAvailable 7 "u" "asdf"], .ok 9) ∧
    (OnStreamMessage Example.requested Example.requestedReceiver 3 0
          (.kPresentationUrlAvailabilityResponse (.consumed 9)
            { request_id := 1, url_availabilities := [.kNotCompatible] })).map
        (fun r => (r.1.calls, r.2.2)) =
      some ([.OnReceiverUnavailable 7 "u" "asdf"], .ok 9) :=
  OnStreamMessage_response_single_url Example.requested Example.requestedReceiver "u" 7
    1 1 9 3 0 (by decide) (by decide) (by decide)

/-- C5. When the cache of a requester maps `u` to `a`,
`GetOrRequesetAvailabilities([u], o)` makes one call on `o`, which is
`OnReceiverAvailable(u, service_id)` for `kCompatible` and
`OnReceiverUnavailable(u, service_id)` for `kNotCompatible` and `kNotValid`;
it calls nobody else, writes nothing and leaves the requester as it was, so
no request is created. `AddObserver([u], o)` on a coordinator with that one
requester does the same after registering `o`. -/
theorem GetOrRequesetAvailabilities_cached
    (encode : PresentationUrlAvailabilityRequest → Bool)
    (listener : UrlAvailabilityRequester) (self : ReceiverRequester)
    (u id : String) (o : Observer) (a : PresentationUrlAvailability)
    (hcached : StdMap.find self.known_availability_by_url u = some a) :
    GetOrRequesetAvailabilities encode listener self [u] (some o) =
      ({ listener with
          calls := listener.calls ++
            (match a with
              | .kCompatible => [.OnReceiverAvailable o u self.service_id]
              | .kNotCompatible => [.OnReceiverUnavailable o u self.service_id]
              | .kNotValid => [.OnReceiverUnavailable o u self.service_id]
              | .unknown _ => []) },
        self) ∧
    UrlAvailabilityRequester.AddObserver encode
        { listener with receiver_by_service_id_ := [(id, self)] } [u] o =
      { listener with
        observers_by_url_ :=
          UrlAvailabilityRequester.pushObserver o listener.observers_by_url_ [u]
        receiver_by_service_id_ := [(id, self)]
        calls := listener.calls ++
          (match a with
            | .kCompatible => [.OnReceiverAvailable o u self.service_id]
            | .kNotCompatible => [.OnReceiverUnavailable o u self.service_id]
            | .kNotValid => [.OnReceiverUnavailable o u self.service_id]
            | .unknown _ => []) } := by
  cases a <;>
  simp [GetOrRequesetAvailabilities, scanRequested, hcached, edgeCalls,
    UrlAvailabilityRequester.AddObserver, UrlAvailabilityRequester.onEachReceiver,
    UrlAvailabilityRequester.forEachReceiver]

/-- C5, on the state reached after the response `[kCompatible]`: a second
observer 8 of `"u"` is told `OnReceiverAvailable` at once. -/
theorem GetOrRequesetAvailabilities_cached_witness :
    GetOrRequesetAvailabilities Example.encodeAll Example.answered
        Example.answeredReceiver ["u"] (some 8) =
      ({ Example.answered with
          calls := [.OnReceiverAvailable 7 "u" "asdf", .OnReceiverAvailable 8 "u" "asdf"] },
        Example.answeredReceiver) ∧
    UrlAvailabilityRequester.AddObserver Example.encodeAll
        { Example.answered with
          receiver_by_service_id_ := [("asdf", Example.answeredReceiver)] } ["u"] 8 =
      { Example.answered with
        observers_by_url_ := [("u", [7, 8])]
        receiver_by_service_id_ := [("asdf", Example.answeredReceiver)]
        calls := [.OnReceiverAvailable 7 "u" "asdf", .OnReceiverAvailable 8 "u" "asdf"] } :=
  GetOrRequesetAvailabilities_cached Example.encodeAll Example.answered
    Example.answeredReceiver "u" "asdf" 8 .kCompatible (by decide)

section RequestLemmas

variable (encode : PresentationUrlAvailabilityRequest → Bool)

/-- C6. `GetOrRequesetAvailabilities` issues at most one request: either it
writes nothing and leaves the request table as it was, or it writes the one
request `(next_request_id, unknown, next_watch_id)` and records it, or (no
connection) it writes nothing and queues the one request under
`next_request_id`; `unknown` is the list of the input urls without a cache
entry, in input order. When every input url is cached it writes nothing and
leaves the requester as it was. -/
theorem GetOrRequesetAvailabilities_requests
    (listener : UrlAvailabilityRequester) (self : ReceiverRequester)
    (urls : List String) (observer : Option Observer) :
    (((GetOrRequesetAvailabilities encode listener self urls observer).1.written =
          listener.written ∧
        (GetOrRequesetAvailabilities encode listener self urls observer).2.request_by_id =
          self.request_by_id) ∨
      ((GetOrRequesetAvailabilities encode listener self urls observer).1.written =
          listener.written ++
            [{ service_id := self.service_id
               request :=
                { request_id := self.next_request_id
                  urls := urls.filter (fun url =>
                    (StdMap.find self.known_availability_by_url url).isNone)
                  watch_id := self.next_watch_id } }] ∧
        (GetOrRequesetAvailabilities encode listener self urls observer).2.request_by_id =
          (StdMap.emplace self.request_by_id self.next_request_id
            { watch_id := self.next_watch_id
              urls := urls.filter (fun url =>
                (StdMap.find self.known_availability_by_url url).isNone) }).map) ∨
      ((GetOrRequesetAvailabilities encode listener self urls observer).1.written =
          listener.written ∧
        (GetOrRequesetAvailabilities encode listener self urls observer).2.request_by_id =
          (StdMap.emplace self.request_by_id self.next_request_id
            { watch_id := 0
              urls := urls.filter (fun url =>
                (StdMap.find self.known_availability_by_url url).isNone) }).map)) ∧
    (urls.filter (fun url =>
          (StdMap.find self.known_availability_by_url url).isNone) = [] →
      (GetOrRequesetAvailabilities encode listener self urls observer).1.written =
          listener.written ∧
        (GetOrRequesetAvailabilities encode listener self urls observer).2 = self) := by
  rw [GetOrRequesetAvailabilities_eq]
  generalize urls.filter (fun url =>
    (StdMap.find self.known_availability_by_url url).isNone) = unknown
  by_cases hne : unknown = []
  · subst hne
    simp [RequestUrlAvailabilities]
  · refine ⟨?_, fun h => absurd h hne⟩
    cases hconn : self.connection with
    | none =>
      rw [RequestUrlAvailabilities_queued encode _ _ _ hne hconn]
      exact Or.inr (Or.inr ⟨rfl, rfl⟩)
    | some c =>
      cases henc : encode ⟨self.next_request_id, unknown, self.next_watch_id⟩ with
      | true =>
        rw [RequestUrlAvailabilities_sent encode _ _ _ c hne hconn henc]
        exact Or.inr (Or.inl ⟨rfl, rfl⟩)
      | false =>
        rw [RequestUrlAvailabilities_failed encode _ _ _ c hne hconn henc]
        exact Or.inl ⟨failUrls_written _ _ _, rfl⟩


/-- C6, on the state reached after the response `[kCompatible]` for `"u"`:
asked for `"u"` and `"v"`, the requester writes one request, for `["v"]`. -/
theorem GetOrRequesetAvailabilities_requests_witness :
    (GetOrRequesetAvailabilities Example.encodeAll Example.answered
          Example.answeredReceiver ["u", "v"] (some 8)).1.written =
        Example.answered.written ++
          [{ service_id := "asdf", request := { request_id := 2, urls := ["v"], watch_id := 2 } }] ∧
      (GetOrRequesetAvailabilities Example.encodeAll Example.answered
          Example.answeredReceiver ["u", "v"] (some 8)).2.request_by_id =
        [(2, { watch_id := 2, urls := ["v"] })] :=
  (GetOrRequesetAvailabilities_requests Example.encodeAll Example.answered
      Example.answeredReceiver ["u", "v"] (some 8)).1.elim
    (fun h => absurd h.1 (by decide))
    (fun h => h.elim id (fun h => absurd h.1 (by decide)))

end RequestLemmas

open UrlAvailabilityRequester

section Scenario

variable (encode : PresentationUrlAvailabilityRequest → Bool)

/-- The first receiver added to a new coordinator. -/
theorem AddReceiver_first (now : TimeDelta) (info : ServiceInfo) (r₀ w₀ : Nat) :
    AddReceiver encode (UrlAvailabilityRequester.create now) info r₀ w₀ =
      { clock_ := now
        observers_by_url_ := []
        receiver_by_service_id_ :=
          [(info.service_id, ReceiverRequester.create info.service_id r₀ w₀)]
        calls := []
        written := [] } := by
  simp [AddReceiver, UrlAvailabilityRequester.create, StdMap.emplace, StdMap.find,
    StdMap.insertSorted, StdMap.keys, RequestUrlAvailabilities, StdMap.assign]

/-- The connection of that receiver opening while nothing is observed. -/
theorem connectionOpened_first (now : TimeDelta) (sid : String)
    (connection : ProtocolConnection) (r₀ w₀ connect_id : Nat) :
    connectionOpened encode
        { clock_ := now
          observers_by_url_ := []
          receiver_by_service_id_ := [(sid, ReceiverRequester.create sid r₀ w₀)]
          calls := []
          written := [] }
        sid connect_id connection =
      { clock_ := now
        observers_by_url_ := []
        receiver_by_service_id_ :=
          [(sid,
            { ReceiverRequester.create sid r₀ w₀ with
              connect_request := false
              endpoint_id := connection.endpoint_id
              connection := some connection })]
        calls := []
        written := [] } := by
  simp [connectionOpened, StdMap.find, OnConnectionOpened, resendRequests,
    ReceiverRequester.create, StdMap.assign]

/-- The first observer of `u` on a connected requester that has neither
request nor watch nor cache entry: the request for `[u]` is written. -/
theorem AddObserver_idle (now : TimeDelta) (sid : String)
    (connection : ProtocolConnection) (r₀ w₀ : Nat) (u : String) (O : Observer)
    (written : List WrittenRequest)
    (henc : ∀ request_id watch_id, encode ⟨request_id, [u], watch_id⟩ = true) :
    AddObserver encode
        { clock_ := now
          observers_by_url_ := []
          receiver_by_service_id_ :=
            [(sid,
              { ReceiverRequester.create sid r₀ w₀ with
                connect_request := false
                endpoint_id := connection.endpoint_id
                connection := some connection })]
          calls := []
          written := written }
        [u] O =
      { clock_ := now
        observers_by_url_ := [(u, [O])]
        receiver_by_service_id_ := [(sid, Example.watching now sid connection r₀ w₀ u)]
        calls := []
        written := written ++ [⟨sid, ⟨r₀, [u], w₀⟩⟩] } := by
  simp [AddObserver, StdMap.emplace, StdMap.find, StdMap.insertSorted,
    RequestUrlAvailabilities, ReceiverRequester.create, StdMap.assign, pushObserver,
    StdMap.index, onEachReceiver, forEachReceiver, GetOrRequesetAvailabilities,
    scanRequested, SendRequest, henc, Example.watching]

/-- Observer first, then receiver, then the connection opening: the queued
request for `[u]` is written when the connection opens, and the state is the
one reached when the receiver is added and connected first. -/
theorem observer_first_eq_receiver_first (now : TimeDelta) (info : ServiceInfo)
    (connection : ProtocolConnection) (r₀ w₀ connect_id : Nat) (u : String)
    (O : Observer)
    (henc : ∀ request_id watch_id, encode ⟨request_id, [u], watch_id⟩ = true) :
    connectionOpened encode
        (AddReceiver encode
          (AddObserver encode (UrlAvailabilityRequester.create now) [u] O) info r₀ w₀)
        info.service_id connect_id connection =
      AddObserver encode
        (connectionOpened encode
          (AddReceiver encode (UrlAvailabilityRequester.create now) info r₀ w₀)
          info.service_id connect_id connection)
        [u] O := by
  rw [AddReceiver_first, connectionOpened_first,
    AddObserver_idle encode _ _ _ _ _ _ _ _ henc]
  have hA : AddObserver encode (UrlAvailabilityRequester.create now) [u] O =
      { clock_ := now, observers_by_url_ := [(u, [O])], receiver_by_service_id_ := [],
        calls := [], written := [] } := by
    simp [AddObserver, UrlAvailabilityRequester.create, pushObserver, StdMap.index,
      StdMap.find, StdMap.insertSorted, StdMap.assign, onEachReceiver, forEachReceiver]
  have hB : AddReceiver encode
        { clock_ := now, observers_by_url_ := [(u, [O])], receiver_by_service_id_ := [],
          calls := [], written := [] } info r₀ w₀ =
      { clock_ := now, observers_by_url_ := [(u, [O])]
        receiver_by_service_id_ :=
          [(info.service_id,
            { ReceiverRequester.create info.service_id r₀ w₀ with
              next_request_id := increment64 r₀
              request_by_id := [(r₀, ⟨0, [u]⟩)] })]
        calls := [], written := [] } := by
    simp [AddReceiver, StdMap.emplace, StdMap.find, StdMap.insertSorted, StdMap.keys,
      RequestUrlAvailabilities, ReceiverRequester.create, StdMap.assign]
  rw [hA, hB]
  simp [connectionOpened, StdMap.find, OnConnectionOpened, resendRequests, SendRequest,
    henc, ReceiverRequester.create, StdMap.emplace, StdMap.insertSorted, StdMap.assign,
    Example.watching]

/-- The only observer of `u` leaving while the request is outstanding: the
watch goes, the request stays. -/
theorem RemoveObserverUrls_watching (now : TimeDelta) (sid : String)
    (connection : ProtocolConnection) (r₀ w₀ : Nat) (u : String) (O : Observer)
    (written : List WrittenRequest) :
    RemoveObserverUrls encode
        { clock_ := now
          observers_by_url_ := [(u, [O])]
          receiver_by_service_id_ := [(sid, Example.watching now sid connection r₀ w₀ u)]
          calls := []
          written := written }
        [u] O =
      some
        { clock_ := now
          observers_by_url_ := []
          receiver_by_service_id_ :=
            [(sid,
              { Example.watching now sid connection r₀ w₀ u with
                watch_by_id := []
                event_watch := false })]
          calls := []
          written := written } := by
  simp [RemoveObserverUrls, removeUrlsScan, StdMap.find, StdMap.erase, StdSet.emplace,
    StdSet.insertSorted, onEachReceiver, forEachReceiver, RemoveUnobservedRequests,
    RemoveUnobservedWatches, scanRequests, scanUnobservedWatches,
    PartitionUrlsBySetMembership, StdSet.contains, Example.watching, MoveVectorSegment,
    RequestUrlAvailabilities, StopWatching, StdMap.emplace]

/-- The response to that request arriving after the observer left. -/
theorem streamMessage_unobserved (now : TimeDelta) (sid : String)
    (connection : ProtocolConnection) (r₀ w₀ e c bytes : Nat) (u : String)
    (a : PresentationUrlAvailability) (written : List WrittenRequest) :
    streamMessage
        { clock_ := now
          observers_by_url_ := []
          receiver_by_service_id_ :=
            [(sid,
              { Example.watching now sid connection r₀ w₀ u with
                watch_by_id := []
                event_watch := false })]
          calls := []
          written := written }
        sid e c (.kPresentationUrlAvailabilityResponse (.consumed bytes) ⟨r₀, [a]⟩) =
      some
        ({ clock_ := now
           observers_by_url_ := []
           receiver_by_service_id_ :=
             [(sid,
               { ReceiverRequester.create sid (increment64 r₀) (increment64 w₀) with
                 connect_request := false
                 endpoint_id := connection.endpoint_id
                 connection := some connection })]
           calls := []
           written := written },
          .ok bytes) := by
  simp [streamMessage, StdMap.find, OnStreamMessage, Example.watching,
    UpdateAvailabilities, StdMap.erase, StopWatching, StdMap.assign,
    ReceiverRequester.create]

/-- C7. On a new coordinator: after `AddReceiver`, the connection opening,
`AddObserver([u], O)` (which writes the request `first_request_id` for `[u]`)
and `RemoveObserverUrls([u], O)`, the response `[a]` to that request is
consumed without any observer call and leaves every cache empty; a following
`AddObserver([u], O₂)` calls nobody and writes a new request for `[u]`. The
encoder is taken to accept requests for `[u]`. -/
theorem response_after_remove_observer (now : TimeDelta) (info : ServiceInfo)
    (connection : ProtocolConnection)
    (first_request_id first_watch_id connect_id bytes endpoint_id connection_id : Nat)
    (u : String) (O O₂ : Observer) (a : PresentationUrlAvailability)
    (henc : ∀ request_id watch_id, encode ⟨request_id, [u], watch_id⟩ = true) :
    ∃ s₄ s₅,
      RemoveObserverUrls encode
          (AddObserver encode
            (connectionOpened encode
              (AddReceiver encode (UrlAvailabilityRequester.create now) info
                first_request_id first_watch_id)
              info.service_id connect_id connection)
            [u] O)
          [u] O = some s₄ ∧
      s₄.written = [⟨info.service_id, ⟨first_request_id, [u], first_watch_id⟩⟩] ∧
      streamMessage s₄ info.service_id endpoint_id connection_id
          (.kPresentationUrlAvailabilityResponse (.consumed bytes)
            ⟨first_request_id, [a]⟩) =
        some (s₅, .ok bytes) ∧
      s₅.calls = [] ∧
      s₅.receiver_by_service_id_.map (fun entry => entry.2.known_availability_by_url) =
        [[]] ∧
      (AddObserver encode s₅ [u] O₂).calls = [] ∧
      (AddObserver encode s₅ [u] O₂).written =
        s₅.written ++
          [⟨info.service_id,
            ⟨increment64 first_request_id, [u], increment64 first_watch_id⟩⟩] := by
  rw [AddReceiver_first, connectionOpened_first,
    AddObserver_idle encode _ _ _ _ _ _ _ _ henc]
  refine ⟨_, _, RemoveObserverUrls_watching encode _ _ _ _ _ _ _ _, rfl,
    streamMessage_unobserved _ _ _ _ _ _ _ _ _ _ _, rfl, rfl, ?_, ?_⟩
  · rw [AddObserver_idle encode _ _ _ _ _ _ _ _ henc]
  · rw [AddObserver_idle encode _ _ _ _ _ _ _ _ henc]

/-- C7, on the receiver and urls of the unit test
`ResponseAfterRemoveObserver`. -/
theorem response_after_remove_observer_witness :
    ∃ s₄ s₅,
      RemoveObserverUrls Example.encodeAll
          (AddObserver Example.encodeAll
            (connectionOpened Example.encodeAll
              (AddReceiver Example.encodeAll
                (UrlAvailabilityRequester.create 213489000000) Example.info1 1 1)
              "asdf" 0 { endpoint_id := 3 })
            ["u"] 7)
          ["u"] 7 = some s₄ ∧
      s₄.written = [⟨"asdf", ⟨1, ["u"], 1⟩⟩] ∧
      streamMessage s₄ "asdf" 3 0
          (.kPresentationUrlAvailabilityResponse (.consumed 9) ⟨1, [.kCompatible]⟩) =
        some (s₅, .ok 9) ∧
      s₅.calls = [] ∧
      s₅.receiver_by_service_id_.map (fun entry => entry.2.known_availability_by_url) =
        [[]] ∧
      (AddObserver Example.encodeAll s₅ ["u"] 8).calls = [] ∧
      (AddObserver Example.encodeAll s₅ ["u"] 8).written =
        s₅.written ++ [⟨"asdf", ⟨2, ["u"], 2⟩⟩] :=
  response_after_remove_observer Example.encodeAll 213489000000 Example.info1
    { endpoint_id := 3 } 1 1 0 9 3 0 "u" 7 8 .kCompatible (fun _ _ => rfl)

end Scenario

/-- `UpdateAvailabilities` is defined when no url lacks an availability, and
changes nothing but the cache of the requester and the trace of calls. -/
theorem UpdateAvailabilities_frame (urls : List String) :
    ∀ (availabilities : List PresentationUrlAvailability)
      (listener : UrlAvailabilityRequester) (self : ReceiverRequester),
      urls.length ≤ availabilities.length →
      ∃ calls cache,
        UpdateAvailabilities listener self urls availabilities =
          some ({ listener with calls := listener.calls ++ calls },
            { self with known_availability_by_url := cache }) := by
  induction urls with
  | nil =>
    intro availabilities listener self _
    exact ⟨[], self.known_availability_by_url, by simp [UpdateAvailabilities]⟩
  | cons url urls ih =>
    intro availabilities listener self hlen
    simp only [UpdateAvailabilities]
    cases hobs : StdMap.find listener.observers_by_url_ url with
    | none =>
      exact ih availabilities listener self (by simp at hlen; omega)
    | some observers =>
      cases availabilities with
      | nil => simp at hlen
      | cons a rest =>
        simp only
        have hlen' : urls.length ≤ rest.length := by simpa using hlen
        split
        · obtain ⟨calls, cache, h⟩ := ih rest
            { listener with
              calls := listener.calls ++ edgeCalls a observers url self.service_id }
            { self with
              known_availability_by_url :=
                (StdMap.emplace self.known_availability_by_url url a).map } hlen'
          exact ⟨edgeCalls a observers url self.service_id ++ calls, cache, by
            rw [h]; simp⟩
        · obtain ⟨calls, cache, h⟩ := ih rest listener
            { self with
              known_availability_by_url :=
                (StdMap.emplace self.known_availability_by_url url a).map } hlen'
          exact ⟨calls, cache, by rw [h]⟩

/-- Whenever `UpdateAvailabilities` is defined, it has changed nothing but the
cache of the requester and the trace of calls. -/
theorem UpdateAvailabilities_preserves (urls : List String) :
    ∀ (availabilities : List PresentationUrlAvailability)
      (listener listener' : UrlAvailabilityRequester) (self self' : ReceiverRequester),
      UpdateAvailabilities listener self urls availabilities = some (listener', self') →
      (∃ calls, listener' = { listener with calls := listener.calls ++ calls }) ∧
        ∃ cache, self' = { self with known_availability_by_url := cache } := by
  induction urls with
  | nil =>
    intro availabilities listener listener' self self' h
    simp only [UpdateAvailabilities, Option.some.injEq, Prod.mk.injEq] at h
    obtain ⟨rfl, rfl⟩ := h
    exact ⟨⟨[], by simp⟩, ⟨self.known_availability_by_url, rfl⟩⟩
  | cons url urls ih =>
    intro availabilities listener listener' self self' h
    simp only [UpdateAvailabilities] at h
    cases hobs : StdMap.find listener.observers_by_url_ url with
    | none =>
      rw [hobs] at h
      exact ih availabilities listener listener' self self' h
    | some observers =>
      rw [hobs] at h
      cases availabilities with
      | nil => simp at h
      | cons a rest =>
        simp only at h
        obtain ⟨⟨calls, hc⟩, ⟨cache, hs⟩⟩ := ih _ _ _ _ _ h
        refine ⟨?_, ⟨cache, by rw [hs]⟩⟩
        split at hc
        · exact ⟨edgeCalls a observers url self.service_id ++ calls, by
            rw [hc]; simp⟩
        · exact ⟨calls, hc⟩

/-- C8. For a decoded event whose watch id is in the watch table,
`OnStreamMessage` does what `UpdateAvailabilities` does on the urls and
availabilities of the event and returns the bytes consumed; this is defined
whenever the event carries an availability for each url; and whatever it
ends in, the watch table, the request table and the id counters are as
before and nothing has been written. -/
theorem OnStreamMessage_event (listener : UrlAvailabilityRequester)
    (self : ReceiverRequester) (event : PresentationUrlAvailabilityEvent)
    (watch : Watch) (bytes endpoint_id connection_id : Nat)
    (hwatch : StdMap.find self.watch_by_id event.watch_id = some watch) :
    OnStreamMessage listener self endpoint_id connection_id
        (.kPresentationUrlAvailabilityEvent (.consumed bytes) event) =
      (UpdateAvailabilities listener self event.urls event.url_availabilities).map
        (fun r => (r.1, r.2, Except.ok bytes)) ∧
    (event.urls.length ≤ event.url_availabilities.length →
      (UpdateAvailabilities listener self event.urls event.url_availabilities).isSome) ∧
    ∀ listener' self' result,
      OnStreamMessage listener self endpoint_id connection_id
          (.kPresentationUrlAvailabilityEvent (.consumed bytes) event) =
        some (listener', self', result) →
      result = .ok bytes ∧
        self'.watch_by_id = self.watch_by_id ∧
        self'.request_by_id = self.request_by_id ∧
        self'.next_watch_id = self.next_watch_id ∧
        self'.next_request_id = self.next_request_id ∧
        listener'.written = listener.written := by
  have hrun : OnStreamMessage listener self endpoint_id connection_id
        (.kPresentationUrlAvailabilityEvent (.consumed bytes) event) =
      (UpdateAvailabilities listener self event.urls event.url_availabilities).map
        (fun r => (r.1, r.2, Except.ok bytes)) := by
    simp only [OnStreamMessage, hwatch]
    cases UpdateAvailabilities listener self event.urls event.url_availabilities with
    | none => rfl
    | some r => rfl
  refine ⟨hrun, ?_, ?_⟩
  · intro hlen
    obtain ⟨calls, cache, h⟩ :=
      UpdateAvailabilities_frame event.urls event.url_availabilities listener self hlen
    simp [h]
  · intro listener' self' result h
    rw [hrun] at h
    cases hu : UpdateAvailabilities listener self event.urls event.url_availabilities with
    | none => simp [hu] at h
    | some r =>
      obtain ⟨l₁, s₁⟩ := r
      simp only [hu, Option.map_some', Option.some.injEq, Prod.mk.injEq] at h
      obtain ⟨rfl, rfl, rfl⟩ := h
      obtain ⟨⟨calls, hl⟩, ⟨cache, hs⟩⟩ :=
        UpdateAvailabilities_preserves _ _ _ _ _ _ hu
      subst hl hs
      exact ⟨rfl, rfl, rfl, rfl, rfl, rfl⟩

/-- C8, on the event of the unit test `EventUpdate`: watch 1 reports `"u"`
as `kNotCompatible` after it was cached as `kCompatible`. -/
theorem OnStreamMessage_event_witness :
    OnStreamMessage Example.answered Example.answeredReceiver 3 0
        (.kPresentationUrlAvailabilityEvent (.consumed 9)
          ⟨1, ["u"], [.kNotCompatible]⟩) =
      (UpdateAvailabilities Example.answered Example.answeredReceiver ["u"]
        [.kNotCompatible]).map (fun r => (r.1, r.2, Except.ok 9)) ∧
    (UpdateAvailabilities Example.answered Example.answeredReceiver ["u"]
        [.kNotCompatible]).isSome :=
  have h := OnStreamMessage_event Example.answered Example.answeredReceiver
    ⟨1, ["u"], [.kNotCompatible]⟩ ⟨213509000000, ["u"]⟩ 9 3 0 (by decide)
  ⟨h.1, h.2.1 (by decide)⟩

/-- The update `if (d < m) m = d` takes the minimum. -/
theorem min_step (d m : Int) : (if d < m then d else m) = min m d := by
  simp only [min_def]
  split <;> split <;> omega

/-- The scan of `RefreshWatches` keeps the watches whose buffered deadline has not passed. -/
theorem scanWatches_kept (now : TimeDelta) (m : StdMap Nat Watch) (t : TimeDelta) :
    (scanWatches now m t).1 =
      m.filter (fun entry =>
        !decide (now > entry.2.deadline - TimeDelta.FromSeconds kWatchRefreshPaddingSeconds)) := by
  induction m generalizing t with
  | nil => simp [scanWatches]
  | cons e rest ih =>
    obtain ⟨id, watch⟩ := e
    simp only [scanWatches]
    split
    · rename_i h
      simp [ih, h]
    · rename_i h
      simp [ih, h]

/-- The scan of `RefreshWatches` collects the url lists of the watches whose buffered deadline has passed, in key order. -/
theorem scanWatches_new_requests (now : TimeDelta) (m : StdMap Nat Watch) (t : TimeDelta) :
    (scanWatches now m t).2.1 =
      (m.filter (fun entry =>
        decide (now > entry.2.deadline - TimeDelta.FromSeconds kWatchRefreshPaddingSeconds))).map
        (fun entry => entry.2.urls) := by
  induction m generalizing t with
  | nil => simp [scanWatches]
  | cons e rest ih =>
    obtain ⟨id, watch⟩ := e
    simp only [scanWatches]
    split
    · rename_i h
      simp [ih, h]
    · rename_i h
      simp [ih, h]

/-- The scan of `RefreshWatches` lowers `minimum_schedule_time` to the least buffered deadline of the watches kept. -/
theorem scanWatches_minimum (now : TimeDelta) (m : StdMap Nat Watch) (t : TimeDelta) :
    (scanWatches now m t).2.2 =
      ((m.filter (fun entry =>
        !decide (now > entry.2.deadline - TimeDelta.FromSeconds kWatchRefreshPaddingSeconds))).map
        (fun entry => entry.2.deadline -
          TimeDelta.FromSeconds kWatchRefreshPaddingSeconds)).foldl min t := by
  induction m generalizing t with
  | nil => simp [scanWatches]
  | cons e rest ih =>
    obtain ⟨id, watch⟩ := e
    simp only [scanWatches]
    split
    · rename_i h
      simp [ih, h]
    · rename_i h
      simp only [ih, h, decide_False, Bool.not_false, List.filter_cons_of_pos, List.map_cons, List.foldl_cons]
      rw [min_step]

/-- A key above all keys of a map is not found. -/
theorem StdMap.find_none_of_lt {ν : Type} (m : StdMap Nat ν) (k : Nat) (h : ∀ entry ∈ m, entry.1 < k) :
    StdMap.find m k = none := by
  induction m with
  | nil => rfl
  | cons e rest ih =>
    obtain ⟨k', v⟩ := e
    have h1 : k' < k := h (k', v) (by simp)
    have : k' ≠ k := by omega
    simp [StdMap.find, this]
    exact ih (fun entry he => h entry (by simp [he]))

/-- A key above all keys of a map is inserted at the end. -/
theorem StdMap.insertSorted_of_lt {ν : Type} (m : StdMap Nat ν) (k : Nat) (v : ν)
    (h : ∀ entry ∈ m, entry.1 < k) :
    StdMap.insertSorted m k v = m ++ [(k, v)] := by
  induction m with
  | nil => rfl
  | cons e rest ih =>
    obtain ⟨k', v'⟩ := e
    have h1 : k' < k := h (k', v') (by simp)
    simp [StdMap.insertSorted, StdLess.less, h1]
    exact ih (fun entry he => h entry (by simp [he]))

/-- Emplacing a key above all keys of a map appends the entry. -/
theorem StdMap.emplace_of_lt {ν : Type} (m : StdMap Nat ν) (k : Nat) (v : ν)
    (h : ∀ entry ∈ m, entry.1 < k) :
    (StdMap.emplace m k v).map = m ++ [(k, v)] := by
  simp [StdMap.emplace, StdMap.find_none_of_lt m k h, StdMap.insertSorted_of_lt m k v h]


section RefreshLemmas

variable (encode : PresentationUrlAvailabilityRequest → Bool)

/-- On a connected requester whose id counters are above the ids in use and stay below `2 ^ 64`, with the encoder accepting, requesting non-empty url lists one after the other writes one request per list and appends one request and one watch per list, with consecutive ids. -/
theorem requestAll_sent (c : ProtocolConnection) (henc : ∀ request, encode request = true)
    (batches : List (List String)) :
    ∀ (listener : UrlAvailabilityRequester) (self : ReceiverRequester),
      self.connection = some c →
      (∀ urls ∈ batches, urls ≠ []) →
      (∀ entry ∈ self.watch_by_id, entry.1 < self.next_watch_id) →
      (∀ entry ∈ self.request_by_id, entry.1 < self.next_request_id) →
      self.next_watch_id + batches.length < 2 ^ 64 →
      self.next_request_id + batches.length < 2 ^ 64 →
      requestAll encode listener self batches =
        ({ listener with
            written := listener.written ++
              ((batches.enumFrom self.next_watch_id).enumFrom self.next_request_id).map
                (fun p => ⟨self.service_id, ⟨p.1, p.2.2, p.2.1⟩⟩) },
          { self with
            next_watch_id := self.next_watch_id + batches.length
            next_request_id := self.next_request_id + batches.length
            watch_by_id := self.watch_by_id ++
              (batches.enumFrom self.next_watch_id).map
                (fun p => (p.1,
                  ⟨listener.clock_ + TimeDelta.FromSeconds kWatchDurationSeconds, p.2⟩))
            request_by_id := self.request_by_id ++
              ((batches.enumFrom self.next_watch_id).enumFrom self.next_request_id).map
                (fun p => (p.1, ⟨p.2.1, p.2.2⟩))
            event_watch := if batches.isEmpty then self.event_watch else true
            response_watch := if batches.isEmpty then self.response_watch else true }) := by
  induction batches with
  | nil =>
    intro listener self _ _ _ _ _ _
    simp [requestAll]
  | cons urls rest ih =>
    intro listener self hconn hne hw hr hww hrw
    have hurls : urls ≠ [] := hne urls (by simp)
    simp only [List.length_cons] at hww hrw
    have hiw : increment64 self.next_watch_id = self.next_watch_id + 1 := by
      simp only [increment64]; omega
    have hir : increment64 self.next_request_id = self.next_request_id + 1 := by
      simp only [increment64]; omega
    simp only [requestAll]
    rw [RequestUrlAvailabilities_sent encode listener self urls c hurls hconn (henc _)]
    simp only [StdMap.emplace_of_lt _ _ _ hw, StdMap.emplace_of_lt _ _ _ hr, hiw, hir]
    rw [ih]
    · simp [List.enumFrom_cons, Nat.add_assoc, Nat.add_comm 1]
    · exact hconn
    · exact fun u hu => hne u (by simp [hu])
    · intro entry he
      simp only [List.mem_append, List.mem_singleton] at he
      rcases he with he | he
      · exact Nat.lt_succ_of_lt (hw entry he)
      · subst he; simp
    · intro entry he
      simp only [List.mem_append, List.mem_singleton] at he
      rcases he with he | he
      · exact Nat.lt_succ_of_lt (hr entry he)
      · subst he; simp
    · simp only; omega
    · simp only; omega


/-- C9. On a requester with an open connection, `RefreshWatches(now)` keeps
exactly the watches with `now ≤ deadline - 2 s`, unchanged; for the url list
of each watch it removes, in key order, it writes one request with the next
request id and the next watch id, records that request, and records a watch
with deadline `clock + 20 s`; the new ids are keys of neither table before
the call; no observer is called. Taken as given: the encoder accepts the
requests, every watch lists a url, the ids in use are below the counters and
the counters do not wrap around. -/
theorem RefreshWatches_effect (listener : UrlAvailabilityRequester)
    (self : ReceiverRequester) (now : TimeDelta) (c : ProtocolConnection)
    (hconn : self.connection = some c)
    (henc : ∀ request, encode request = true)
    (hurls : ∀ entry ∈ self.watch_by_id, entry.2.urls ≠ [])
    (hwatch_ids : ∀ entry ∈ self.watch_by_id, entry.1 < self.next_watch_id)
    (hrequest_ids : ∀ entry ∈ self.request_by_id, entry.1 < self.next_request_id)
    (hwatch_wrap : self.next_watch_id + self.watch_by_id.length < 2 ^ 64)
    (hrequest_wrap : self.next_request_id + self.watch_by_id.length < 2 ^ 64) :
    let due : Nat × Watch → Bool := fun entry =>
      decide (now > entry.2.deadline - TimeDelta.FromSeconds kWatchRefreshPaddingSeconds)
    let batches := (self.watch_by_id.filter due).map (fun entry => entry.2.urls)
    (ReceiverRequester.RefreshWatches encode listener self now).2.1.watch_by_id =
        self.watch_by_id.filter (fun entry => !due entry) ++
          (batches.enumFrom self.next_watch_id).map
            (fun p => (p.1,
              ⟨listener.clock_ + TimeDelta.FromSeconds kWatchDurationSeconds, p.2⟩)) ∧
      (ReceiverRequester.RefreshWatches encode listener self now).1.written =
        listener.written ++
          ((batches.enumFrom self.next_watch_id).enumFrom self.next_request_id).map
            (fun p => ⟨self.service_id, ⟨p.1, p.2.2, p.2.1⟩⟩) ∧
      (ReceiverRequester.RefreshWatches encode listener self now).2.1.request_by_id =
        self.request_by_id ++
          ((batches.enumFrom self.next_watch_id).enumFrom self.next_request_id).map
            (fun p => (p.1, ⟨p.2.1, p.2.2⟩)) ∧
      (ReceiverRequester.RefreshWatches encode listener self now).1.calls = listener.calls ∧
      (∀ p ∈ (batches.enumFrom self.next_watch_id).enumFrom self.next_request_id,
        StdMap.find self.request_by_id p.1 = none ∧
          StdMap.find self.watch_by_id p.2.1 = none) := by
  intro due batches
  have hk := scanWatches_kept now self.watch_by_id
    (TimeDelta.FromSeconds kWatchDurationSeconds)
  have hb := scanWatches_new_requests now self.watch_by_id
    (TimeDelta.FromSeconds kWatchDurationSeconds)
  have hlen : ((self.watch_by_id.filter (fun entry =>
      decide (now > entry.2.deadline -
        TimeDelta.FromSeconds kWatchRefreshPaddingSeconds))).map
      (fun entry => entry.2.urls)).length ≤ self.watch_by_id.length := by
    simp only [List.length_map]
    exact List.length_filter_le _ _
  have hne : ∀ urls ∈ batches, urls ≠ [] := by
    intro urls hu
    simp only [batches, List.mem_map, List.mem_filter] at hu
    obtain ⟨entry, ⟨hmem, _⟩, rfl⟩ := hu
    exact hurls entry hmem
  have hkeys : ∀ entry ∈ self.watch_by_id.filter (fun entry => !due entry),
      entry.1 < self.next_watch_id :=
    fun entry he => hwatch_ids entry (List.mem_filter.mp he).1
  have hfresh : ∀ p ∈ (batches.enumFrom self.next_watch_id).enumFrom self.next_request_id,
      StdMap.find self.request_by_id p.1 = none ∧
        StdMap.find self.watch_by_id p.2.1 = none := by
    intro p hp
    have h1 := List.le_fst_of_mem_enumFrom hp
    have h2 : p.2 ∈ batches.enumFrom self.next_watch_id :=
      List.snd_mem_of_mem_enumFrom hp
    have h3 := List.le_fst_of_mem_enumFrom h2
    exact ⟨StdMap.find_none_of_lt _ _ (fun entry he => by
        have := hrequest_ids entry he; omega),
      StdMap.find_none_of_lt _ _ (fun entry he => by
        have := hwatch_ids entry he; omega)⟩
  suffices hmain :
      (ReceiverRequester.RefreshWatches encode listener self now).2.1.watch_by_id =
          self.watch_by_id.filter (fun entry => !due entry) ++
            (batches.enumFrom self.next_watch_id).map
              (fun p => (p.1,
                ⟨listener.clock_ + TimeDelta.FromSeconds kWatchDurationSeconds, p.2⟩)) ∧
        (ReceiverRequester.RefreshWatches encode listener self now).1.written =
          listener.written ++
            ((batches.enumFrom self.next_watch_id).enumFrom self.next_request_id).map
              (fun p => ⟨self.service_id, ⟨p.1, p.2.2, p.2.1⟩⟩) ∧
        (ReceiverRequester.RefreshWatches encode listener self now).2.1.request_by_id =
          self.request_by_id ++
            ((batches.enumFrom self.next_watch_id).enumFrom self.next_request_id).map
              (fun p => (p.1, ⟨p.2.1, p.2.2⟩)) ∧
        (ReceiverRequester.RefreshWatches encode listener self now).1.calls =
          listener.calls from
    ⟨hmain.1, hmain.2.1, hmain.2.2.1, hmain.2.2.2, hfresh⟩
  unfold ReceiverRequester.RefreshWatches
  rcases hs : scanWatches now self.watch_by_id
    (TimeDelta.FromSeconds kWatchDurationSeconds) with ⟨kept, new_requests, m⟩
  rw [hs] at hk hb
  simp only at hk hb
  subst hk hb
  simp only
  split
  · rw [requestAll_sent encode c henc] <;> first
      | exact ⟨rfl, rfl, rfl, rfl⟩ | exact hconn | exact hne | exact hkeys
      | exact hrequest_ids | (simp only; omega)
  · rw [requestAll_sent encode c henc] <;> first
      | exact ⟨rfl, rfl, rfl, rfl⟩ | exact hconn | exact hne | exact hkeys
      | exact hrequest_ids | (simp only; omega)


/-- C9, on the unit test `RefreshWatches`: sixty seconds after the response
the watch 1 for `"u"` is replaced by watch 2 through request 2. -/
theorem RefreshWatches_effect_witness :
    (ReceiverRequester.RefreshWatches Example.encodeAll
          (Example.answered.advanceClock 60000000) Example.answeredReceiver
          213549000000).2.1.watch_by_id =
        [(2, ⟨213569000000, ["u"]⟩)] ∧
      (ReceiverRequester.RefreshWatches Example.encodeAll
          (Example.answered.advanceClock 60000000) Example.answeredReceiver
          213549000000).1.written =
        [⟨"asdf", ⟨1, ["u"], 1⟩⟩, ⟨"asdf", ⟨2, ["u"], 2⟩⟩] ∧
      (ReceiverRequester.RefreshWatches Example.encodeAll
          (Example.answered.advanceClock 60000000) Example.answeredReceiver
          213549000000).2.1.request_by_id =
        [(2, ⟨2, ["u"]⟩)] ∧
      (ReceiverRequester.RefreshWatches Example.encodeAll
          (Example.answered.advanceClock 60000000) Example.answeredReceiver
          213549000000).1.calls =
        [.OnReceiverAvailable 7 "u" "asdf"] :=
  have h := RefreshWatches_effect Example.encodeAll
    (Example.answered.advanceClock 60000000) Example.answeredReceiver 213549000000
    { endpoint_id := 3 } rfl (fun _ => rfl) (by decide) (by decide) (by decide)
    (by decide) (by decide)
  ⟨h.1, h.2.1, h.2.2.1, h.2.2.2.1⟩

/-- C10 (the code departs from it). The value `RefreshWatches(now)` returns
is the minimum of 20 seconds and the buffered deadlines `deadline - 2 s` of
the watches it keeps: clock readings, from which `now` is not subtracted. -/
theorem RefreshWatches_schedule_time (listener : UrlAvailabilityRequester)
    (self : ReceiverRequester) (now : TimeDelta) :
    (ReceiverRequester.RefreshWatches encode listener self now).2.2 =
      ((self.watch_by_id.filter (fun entry =>
          !decide (now > entry.2.deadline -
            TimeDelta.FromSeconds kWatchRefreshPaddingSeconds))).map
        (fun entry => entry.2.deadline -
          TimeDelta.FromSeconds kWatchRefreshPaddingSeconds)).foldl min
        (TimeDelta.FromSeconds kWatchDurationSeconds) := by
  rw [← scanWatches_minimum]
  unfold ReceiverRequester.RefreshWatches
  rcases scanWatches now self.watch_by_id
    (TimeDelta.FromSeconds kWatchDurationSeconds) with ⟨kept, new_requests, m⟩
  rfl

/-- C10, at the failing input: with the clock at 213489 s and one watch due at
213509 s, the call returns 20 s, while `deadline - 2 s - now` is 18 s. -/
theorem RefreshWatches_schedule_time_witness :
    (ReceiverRequester.RefreshWatches Example.encodeAll Example.requested
          Example.requestedReceiver 213489000000).2.2 = TimeDelta.FromSeconds 20 ∧
      Example.requestedReceiver.watch_by_id.map
          (fun entry => entry.2.deadline - TimeDelta.FromSeconds 2 - 213489000000) =
        [TimeDelta.FromSeconds 18] :=
  ⟨(RefreshWatches_schedule_time Example.encodeAll Example.requested
      Example.requestedReceiver 213489000000).trans (by decide), by decide⟩

end RefreshLemmas

section EraseLemmas2
variable {κ ν : Type} [DecidableEq κ]

/-- Erasing a key leaves the lookup of every other key as it was. -/
theorem StdMap.find_erase_ne (m : StdMap κ ν) (k k' : κ) (h : k ≠ k') :
    StdMap.find (StdMap.erase m k) k' = StdMap.find m k' := by
  induction m with
  | nil => simp [StdMap.erase, StdMap.find]
  | cons e rest ih =>
    obtain ⟨k₀, v₀⟩ := e
    by_cases hk : k₀ = k
    · have he : StdMap.erase ((k₀, v₀) :: rest) k = StdMap.erase rest k := by
        simp [StdMap.erase, hk]
      have hne : k₀ ≠ k' := fun h' => h (hk.symm.trans h')
      rw [he, ih]
      simp [StdMap.find, hne]
    · have he : StdMap.erase ((k₀, v₀) :: rest) k = (k₀, v₀) :: StdMap.erase rest k := by
        simp [StdMap.erase, hk]
      rw [he]
      simp only [StdMap.find, ih]

/-- Assigning under a key changes the value found under that key, when there
is one, and nothing else. -/
theorem StdMap.find_assign (m : StdMap κ ν) (k k' : κ) (v : ν) :
    StdMap.find (StdMap.assign m k v) k' =
      if k' = k then (StdMap.find m k').map (fun _ => v) else StdMap.find m k' := by
  induction m with
  | nil => simp [StdMap.assign, StdMap.find]
  | cons e rest ih =>
    obtain ⟨k₀, v₀⟩ := e
    have hc : StdMap.assign ((k₀, v₀) :: rest) k v =
        (if k₀ = k then (k₀, v) else (k₀, v₀)) :: StdMap.assign rest k v := by
      simp [StdMap.assign]
    rw [hc]
    by_cases hk : k₀ = k
    · rw [if_pos hk]
      simp only [StdMap.find, ih]
      by_cases hk' : k₀ = k'
      · have : k' = k := hk'.symm.trans hk
        simp [hk', this]
      · simp [hk']
    · rw [if_neg hk]
      simp only [StdMap.find, ih]
      by_cases hk' : k₀ = k'
      · have : ¬ k' = k := fun h => hk (hk'.trans h)
        simp [hk', this]
      · simp [hk']

end EraseLemmas2

section IndexLemmas
variable {κ ν : Type} [DecidableEq κ] [StdLess κ]

/-- The value `m[k]` returns. -/
theorem StdMap.index_snd (m : StdMap κ ν) (k : κ) (d : ν) :
    (StdMap.index m k d).2 = (StdMap.find m k).getD d := by
  unfold StdMap.index
  cases StdMap.find m k <;> rfl

/-- After `m[k]` the key `k` is found. -/
theorem StdMap.find_index_self (m : StdMap κ ν) (k : κ) (d : ν) :
    StdMap.find (StdMap.index m k d).1 k = some ((StdMap.find m k).getD d) := by
  unfold StdMap.index
  cases h : StdMap.find m k with
  | none => simpa using StdMap.find_insertSorted_self m k d h
  | some v => simpa using h

/-- The access `m[k]` leaves the lookup of every other key as it was. -/
theorem StdMap.find_index_ne (m : StdMap κ ν) (k k' : κ) (d : ν) (h : k ≠ k') :
    StdMap.find (StdMap.index m k d).1 k' = StdMap.find m k' := by
  unfold StdMap.index
  cases StdMap.find m k with
  | none => simpa using StdMap.find_insertSorted_ne m k k' d h
  | some v => rfl

end IndexLemmas

/-- No change extends a table. -/
theorem ObserversExtend.refl_extend (P : String → Prop) (m : StdMap String (List Observer)) :
    ObserversExtend P m m := fun _ => Or.inl rfl

/-- Extensions compose. -/
theorem ObserversExtend.trans_extend {P : String → Prop} {m₁ m₂ m₃ : StdMap String (List Observer)}
    (h₁ : ObserversExtend P m₁ m₂) (h₂ : ObserversExtend P m₂ m₃) :
    ObserversExtend P m₁ m₃ := by
  intro url
  rcases h₂ url with h | ⟨hp, hn, hs⟩
  · rcases h₁ url with h' | ⟨hp', hn', hs'⟩
    · exact Or.inl (h.trans h')
    · exact Or.inr ⟨hp', hn', h.trans hs'⟩
  · rcases h₁ url with h' | ⟨_, _, hs'⟩
    · exact Or.inr ⟨hp, h' ▸ hn, hs⟩
    · rw [hn] at hs'; cases hs'

/-- An extension under keys satisfying `P` is one under keys satisfying any
weaker `Q`. -/
theorem ObserversExtend.mono_extend {P Q : String → Prop} {m m' : StdMap String (List Observer)}
    (h : ObserversExtend P m m') (hpq : ∀ url, P url → Q url) : ObserversExtend Q m m' := by
  intro url
  rcases h url with h | ⟨hp, hn, hs⟩
  · exact Or.inl h
  · exact Or.inr ⟨hpq url hp, hn, hs⟩

/-- An extension leaves the observers of every url as they were. -/
theorem ObserversExtend.observersOf_eq {P : String → Prop} {m m' : StdMap String (List Observer)}
    (h : ObserversExtend P m m') (url : String) :
    presentation.observersOf m' url = presentation.observersOf m url := by
  unfold presentation.observersOf
  rcases h url with h | ⟨_, hn, hs⟩
  · rw [h]
  · rw [hn, hs]; rfl

/-- An extension keeps every entry. -/
theorem ObserversExtend.find_some {P : String → Prop} {m m' : StdMap String (List Observer)}
    (h : ObserversExtend P m m') {url : String} {observers : List Observer}
    (hf : StdMap.find m url = some observers) : StdMap.find m' url = some observers := by
  rcases h url with h | ⟨_, hn, _⟩
  · rw [h, hf]
  · rw [hn] at hf; cases hf

/-- An extension adds no entry under a key that does not satisfy `P`. -/
theorem ObserversExtend.find_none {P : String → Prop} {m m' : StdMap String (List Observer)}
    (h : ObserversExtend P m m') {url : String} (hp : ¬ P url)
    (hf : StdMap.find m url = none) : StdMap.find m' url = none := by
  rcases h url with h | ⟨hp', _, _⟩
  · rw [h, hf]
  · exact absurd hp' hp

/-- An extension keeps every key. -/
theorem ObserversExtend.find_ne_none {P : String → Prop}
    {m m' : StdMap String (List Observer)}
    (h : ObserversExtend P m m') {url : String}
    (hf : StdMap.find m url ≠ none) : StdMap.find m' url ≠ none := by
  rcases h url with h | ⟨_, hn, _⟩
  · rw [h]; exact hf
  · exact absurd hn hf

/-- The access `m[url]` with an empty default extends the table under `url`. -/
theorem ObserversExtend.index (m : StdMap String (List Observer)) (url : String) :
    ObserversExtend (fun k => k = url) m (StdMap.index m url []).1 := by
  intro k
  by_cases hk : url = k
  · subst hk
    rw [StdMap.find_index_self]
    cases h : StdMap.find m url with
    | none => exact Or.inr ⟨rfl, rfl, rfl⟩
    | some v => exact Or.inl rfl
  · exact Or.inl (StdMap.find_index_ne m url k [] hk)

/-- Reporting failed urls touches neither the clock nor the requesters. -/
theorem failUrls_frame (listener : UrlAvailabilityRequester) (service_id : String)
    (urls : List String) :
    (failUrls listener service_id urls).clock_ = listener.clock_ ∧
      (failUrls listener service_id urls).receiver_by_service_id_ =
        listener.receiver_by_service_id_ := by
  induction urls generalizing listener with
  | nil => exact ⟨rfl, rfl⟩
  | cons url urls ih => simp [failUrls, ih]

/-- Reporting failed urls extends the observer table under these urls at
most. -/
theorem failUrls_observers (listener : UrlAvailabilityRequester) (service_id : String)
    (urls : List String) :
    ObserversExtend (fun url => url ∈ urls) listener.observers_by_url_
      (failUrls listener service_id urls).observers_by_url_ := by
  induction urls generalizing listener with
  | nil => exact ObserversExtend.refl_extend _ _
  | cons url urls ih =>
    simp only [failUrls]
    refine ObserversExtend.trans_extend
      ((ObserversExtend.index listener.observers_by_url_ url).mono_extend ?_)
      ((ih _).mono_extend ?_)
    · intro k hk; simp [hk]
    · intro k hk; simp [hk]

/-- Reporting failed urls calls `OnRequestFailed` once for every url of the
list and every observer of that url, in this order, and nothing else. -/
theorem failUrls_calls (listener : UrlAvailabilityRequester) (service_id : String)
    (urls : List String) :
    (failUrls listener service_id urls).calls =
      listener.calls ++
        urls.flatMap (fun url =>
          (observersOf listener.observers_by_url_ url).map
            (fun o => ObserverCall.OnRequestFailed o url service_id)) := by
  induction urls generalizing listener with
  | nil => simp [failUrls]
  | cons url urls ih =>
    simp only [failUrls, List.flatMap_cons]
    rw [ih]
    simp only [StdMap.index_snd, List.append_assoc]
    congr 2
    apply List.flatMap_congr
    intro k _
    rw [(ObserversExtend.index listener.observers_by_url_ url).observersOf_eq k]

/-- The teardown loop touches neither the clock nor the requesters nor the
written trace. -/
theorem removeReceiverScan_frame (service_id : String)
    (cache : StdMap String PresentationUrlAvailability)
    (listener : UrlAvailabilityRequester) :
    (removeReceiverScan listener service_id cache).clock_ = listener.clock_ ∧
      (removeReceiverScan listener service_id cache).receiver_by_service_id_ =
        listener.receiver_by_service_id_ ∧
      (removeReceiverScan listener service_id cache).written = listener.written := by
  induction cache generalizing listener with
  | nil => exact ⟨rfl, rfl, rfl⟩
  | cons e rest ih =>
    obtain ⟨url, a⟩ := e
    simp only [removeReceiverScan]
    split
    · simp [ih]
    · exact ih _

/-- The teardown loop extends the observer table at most under urls cached as
`kCompatible`. -/
theorem removeReceiverScan_observers (service_id : String)
    (cache : StdMap String PresentationUrlAvailability)
    (listener : UrlAvailabilityRequester) :
    ObserversExtend (fun url => (url, PresentationUrlAvailability.kCompatible) ∈ cache)
      listener.observers_by_url_
      (removeReceiverScan listener service_id cache).observers_by_url_ := by
  induction cache generalizing listener with
  | nil => exact ObserversExtend.refl_extend _ _
  | cons e rest ih =>
    obtain ⟨url, a⟩ := e
    simp only [removeReceiverScan]
    split
    · rename_i ha
      subst ha
      refine ObserversExtend.trans_extend
        ((ObserversExtend.index listener.observers_by_url_ url).mono_extend ?_)
        ((ih _).mono_extend ?_)
      · intro k hk; simp [hk]
      · intro k hk; simp [hk]
    · exact (ih listener).mono_extend (fun k hk => by simp [hk])

/-- The teardown loop calls `OnReceiverUnavailable` once for every cache entry
that is `kCompatible` and every observer of its url, and nothing else. -/
theorem removeReceiverScan_calls (service_id : String)
    (cache : StdMap String PresentationUrlAvailability)
    (listener : UrlAvailabilityRequester) :
    (removeReceiverScan listener service_id cache).calls =
      listener.calls ++
        (cache.filter (fun entry => decide (entry.2 = .kCompatible))).flatMap
          (fun entry =>
            (observersOf listener.observers_by_url_ entry.1).map
              (fun o => ObserverCall.OnReceiverUnavailable o entry.1 service_id)) := by
  induction cache generalizing listener with
  | nil => simp [removeReceiverScan]
  | cons e rest ih =>
    obtain ⟨url, a⟩ := e
    simp only [removeReceiverScan]
    split
    · rename_i ha
      subst ha
      rw [ih]
      simp only [StdMap.index_snd, List.append_assoc, decide_True, List.filter_cons_of_pos,
        List.flatMap_cons]
      congr 2
      apply List.flatMap_congr
      intro k _
      rw [(ObserversExtend.index listener.observers_by_url_ url).observersOf_eq k.1]
    · rename_i ha
      rw [ih]
      simp [ha]

/-- Inserting a key into a set gives the old keys and the new one. -/
theorem StdSet.insertSorted_perm {κ : Type} [StdLess κ] (s : StdSet κ) (k : κ) :
    List.Perm (StdSet.insertSorted s k) (k :: s) := by
  induction s with
  | nil => exact List.Perm.refl _
  | cons x rest ih =>
    simp only [StdSet.insertSorted]
    split
    · exact (List.Perm.cons x ih).trans (List.Perm.swap k x rest)
    · exact List.Perm.refl _

section SetLemmas

variable {κ : Type} [DecidableEq κ] [StdLess κ]

/-- The members of a set after `emplace`. -/
theorem StdSet.mem_emplace (s : StdSet κ) (k x : κ) :
    x ∈ StdSet.emplace s k ↔ x = k ∨ x ∈ s := by
  unfold StdSet.emplace
  split
  · rename_i h
    constructor
    · exact Or.inr
    · rintro (rfl | h')
      · exact h
      · exact h'
  · rw [(StdSet.insertSorted_perm s k).mem_iff]
    simp

/-- The insertion `emplace` keeps a set free of duplicates. -/
theorem StdSet.nodup_emplace (s : StdSet κ) (k : κ) (h : s.Nodup) :
    (StdSet.emplace s k).Nodup := by
  unfold StdSet.emplace
  split
  · exact h
  · rename_i hk
    rw [(StdSet.insertSorted_perm s k).nodup_iff]
    exact List.nodup_cons.mpr ⟨hk, h⟩

/-- The members of a set after a run of `emplace`. -/
theorem StdSet.mem_foldl_emplace (keys : List κ) (s : StdSet κ) (x : κ) :
    x ∈ keys.foldl StdSet.emplace s ↔ x ∈ keys ∨ x ∈ s := by
  induction keys generalizing s with
  | nil => simp
  | cons k rest ih =>
    simp only [List.foldl_cons, ih, StdSet.mem_emplace, List.mem_cons]
    tauto

/-- A run of `emplace` keeps a set free of duplicates. -/
theorem StdSet.nodup_foldl_emplace (keys : List κ) (s : StdSet κ) (h : s.Nodup) :
    (keys.foldl StdSet.emplace s).Nodup := by
  induction keys generalizing s with
  | nil => exact h
  | cons k rest ih => exact ih _ (StdSet.nodup_emplace s k h)

end SetLemmas

/-- The first loop of `OnConnectionFailed`, started from a set `waiting`, ends
with the urls of `waiting` and those listed by a request. -/
theorem mem_waitingUrls_from (requests : StdMap Nat Request) (waiting : StdSet String)
    (url : String) :
    url ∈ requests.foldl
        (fun (waiting : StdSet String) (entry : Nat × Request) =>
          entry.2.urls.foldl StdSet.emplace waiting) waiting ↔
      (∃ entry ∈ requests, url ∈ entry.2.urls) ∨ url ∈ waiting := by
  induction requests generalizing waiting with
  | nil => simp
  | cons e rest ih =>
    simp only [List.foldl_cons, ih, StdSet.mem_foldl_emplace]
    constructor
    · rintro (⟨entry, he, hu⟩ | hu | hu)
      · exact Or.inl ⟨entry, List.mem_cons_of_mem _ he, hu⟩
      · exact Or.inl ⟨e, List.mem_cons_self _ _, hu⟩
      · exact Or.inr hu
    · rintro (⟨entry, he, hu⟩ | hu)
      · rcases List.mem_cons.mp he with rfl | he
        · exact Or.inr (Or.inl hu)
        · exact Or.inl ⟨entry, he, hu⟩
      · exact Or.inr (Or.inr hu)

/-- The first loop of `OnConnectionFailed` keeps the set free of duplicates. -/
theorem nodup_waitingUrls_from (requests : StdMap Nat Request) (waiting : StdSet String)
    (h : waiting.Nodup) :
    (requests.foldl
        (fun (waiting : StdSet String) (entry : Nat × Request) =>
          entry.2.urls.foldl StdSet.emplace waiting) waiting).Nodup := by
  induction requests generalizing waiting with
  | nil => exact h
  | cons e rest ih => exact ih _ (StdSet.nodup_foldl_emplace _ _ h)

/-- C19 (amended). The handler `OnConnectionFailed` calls
`OnRequestFailed(u, service_id)` on every observer registered on `u`, once for
each time the observer is in the observer list of `u`, for each url `u` of the
set of the urls of all requests, which holds every url listed by some request
exactly once, and makes no other call; it erases the entry under this
requester's service id from `receiver_by_service_id_` and no other, and
leaves the observers of every url and the written requests. -/
theorem OnConnectionFailed_effect (listener : UrlAvailabilityRequester)
    (self : ReceiverRequester) (request_id : Nat) :
    (OnConnectionFailed listener self request_id).calls =
        listener.calls ++
          (waitingUrls self.request_by_id).flatMap (fun url =>
            (observersOf listener.observers_by_url_ url).map
              (fun o => ObserverCall.OnRequestFailed o url self.service_id)) ∧
      (waitingUrls self.request_by_id).Nodup ∧
      (∀ url, url ∈ waitingUrls self.request_by_id ↔
        ∃ entry ∈ self.request_by_id, url ∈ entry.2.urls) ∧
      StdMap.find (OnConnectionFailed listener self request_id).receiver_by_service_id_
        self.service_id = none ∧
      (∀ id, id ≠ self.service_id →
        StdMap.find (OnConnectionFailed listener self request_id).receiver_by_service_id_ id =
          StdMap.find listener.receiver_by_service_id_ id) ∧
      (∀ url,
        observersOf (OnConnectionFailed listener self request_id).observers_by_url_ url =
          observersOf listener.observers_by_url_ url) ∧
      (OnConnectionFailed listener self request_id).written = listener.written ∧
      (∀ url observer,
        ((observersOf listener.observers_by_url_ url).map
            (fun o => ObserverCall.OnRequestFailed o url self.service_id)).count
          (ObserverCall.OnRequestFailed observer url self.service_id) =
        (observersOf listener.observers_by_url_ url).count observer) := by
  have hf := failUrls_frame listener self.service_id (waitingUrls self.request_by_id)
  refine ⟨?_, ?_, ?_, ?_, ?_, ?_, ?_, ?_⟩
  · simp only [OnConnectionFailed, failUrls_calls]
  · exact nodup_waitingUrls_from _ _ List.nodup_nil
  · intro url
    unfold waitingUrls
    rw [mem_waitingUrls_from]
    simp
  · simp only [OnConnectionFailed]
    exact StdMap.find_erase_self _ _
  · intro id hid
    simp only [OnConnectionFailed, hf.2]
    exact StdMap.find_erase_ne _ _ _ (Ne.symm hid)
  · intro url
    simp only [OnConnectionFailed]
    exact (failUrls_observers listener self.service_id _).observersOf_eq url
  · simp only [OnConnectionFailed, failUrls_written]
  · intro url observer
    exact List.count_map_of_injective _
      (fun o => ObserverCall.OnRequestFailed o url self.service_id)
      (fun a b h => by injection h) observer

/-- The state `queued` written out. -/
theorem Example.queued_eq :
    Example.queued =
      { clock_ := 213489000000
        observers_by_url_ := [("u", [7])]
        receiver_by_service_id_ := [("asdf", Example.queuedReceiver)]
        calls := []
        written := [] } := by
  decide

/-- C19 (amended) at the requester of the queued state, whose one request
lists `"u"`, observed by 7. -/
theorem OnConnectionFailed_effect_witness :
    (OnConnectionFailed Example.queued Example.queuedReceiver 0).calls =
        [.OnRequestFailed 7 "u" "asdf"] ∧
      StdMap.find (OnConnectionFailed Example.queued Example.queuedReceiver
        0).receiver_by_service_id_ "asdf" = none :=
  ⟨(OnConnectionFailed_effect Example.queued Example.queuedReceiver 0).1,
    (OnConnectionFailed_effect Example.queued Example.queuedReceiver 0).2.2.2.1⟩

section
variable (encode : PresentationUrlAvailabilityRequest → Bool)

/-- The retransmission loop of `OnConnectionOpened` calls no observer and
leaves the observer table alone, whatever the encoder does. -/
theorem resendRequests_listener (requests : StdMap Nat Request)
    (listener : UrlAvailabilityRequester) (self : ReceiverRequester) :
    (resendRequests encode listener self requests).1.calls = listener.calls ∧
      (resendRequests encode listener self requests).1.observers_by_url_ =
        listener.observers_by_url_ := by
  induction requests generalizing listener self with
  | nil => exact ⟨rfl, rfl⟩
  | cons e rest ih =>
    obtain ⟨id, request⟩ := e
    simp only [resendRequests]
    cases henc : encode ⟨id, request.urls, self.next_watch_id⟩ with
    | true =>
      rw [SendRequest_ok encode _ _ _ _ henc]
      simp only
      exact ih _ _
    | false =>
      rw [SendRequest_error encode _ _ _ _ henc]
      simp only
      exact ih _ _

/-- When the encoder rejects every request, the retransmission loop erases
every request and records no watch. -/
theorem resendRequests_rejected (henc : ∀ request, encode request = false)
    (requests : StdMap Nat Request)
    (listener : UrlAvailabilityRequester) (self : ReceiverRequester) :
    (resendRequests encode listener self requests).2.2 = [] ∧
      (resendRequests encode listener self requests).2.1.watch_by_id = self.watch_by_id := by
  induction requests generalizing listener self with
  | nil => exact ⟨rfl, rfl⟩
  | cons e rest ih =>
    obtain ⟨id, request⟩ := e
    simp only [resendRequests]
    rw [SendRequest_error encode _ _ _ _ (henc _)]
    simp only
    exact ih _ _

/-- C20. When the encoder rejects every request, `OnConnectionOpened` erases
every queued request and records no watch, and it makes no call at all: no
`OnRequestFailed` is delivered for the urls of the requests it drops. -/
theorem OnConnectionOpened_failed_silent (listener : UrlAvailabilityRequester)
    (self : ReceiverRequester) (request_id : Nat) (connection : ProtocolConnection)
    (henc : ∀ request, encode request = false) :
    (OnConnectionOpened encode listener self request_id connection).1.calls =
        listener.calls ∧
      (OnConnectionOpened encode listener self request_id connection).2.request_by_id = [] ∧
      (OnConnectionOpened encode listener self request_id connection).2.watch_by_id =
        self.watch_by_id := by
  have h1 := resendRequests_listener encode self.request_by_id listener
    { self with
      connect_request := false
      endpoint_id := connection.endpoint_id
      connection := some connection }
  have h2 := resendRequests_rejected encode henc self.request_by_id listener
    { self with
      connect_request := false
      endpoint_id := connection.endpoint_id
      connection := some connection }
  simp only [OnConnectionOpened]
  generalize resendRequests encode listener
    { self with
      connect_request := false
      endpoint_id := connection.endpoint_id
      connection := some connection } self.request_by_id = res at h1 h2 ⊢
  obtain ⟨l', s', rs⟩ := res
  exact ⟨h1.1, h2.1, h2.2⟩

/-- C20 at the requester of the queued state: observer 7 is registered on
`"u"`, the request for `["u"]` is queued, the connection opens and the encoder
rejects the request. -/
theorem OnConnectionOpened_failed_silent_witness :
    StdMap.find Example.queued.observers_by_url_ "u" = some [7] ∧
      Example.queuedReceiver.request_by_id = [(1, { watch_id := 0, urls := ["u"] })] ∧
      (OnConnectionOpened Example.encodeNone Example.queued Example.queuedReceiver 0
          { endpoint_id := 3 }).1.calls = [] ∧
      (OnConnectionOpened Example.encodeNone Example.queued Example.queuedReceiver 0
          { endpoint_id := 3 }).2.request_by_id = [] :=
  ⟨by decide, rfl,
    (OnConnectionOpened_failed_silent Example.encodeNone Example.queued
      Example.queuedReceiver 0 { endpoint_id := 3 } (fun _ => rfl)).1,
    (OnConnectionOpened_failed_silent Example.encodeNone Example.queued
      Example.queuedReceiver 0 { endpoint_id := 3 } (fun _ => rfl)).2.1⟩

end

/-- Nothing done is a step. -/
theorem ListenerStep.refl_step (P : String → Prop) (l : UrlAvailabilityRequester) :
    ListenerStep P l l :=
  ⟨rfl, rfl, ObserversExtend.refl_extend _ _⟩

/-- Steps compose. -/
theorem ListenerStep.trans_step {P : String → Prop} {l₁ l₂ l₃ : UrlAvailabilityRequester}
    (h₁ : ListenerStep P l₁ l₂) (h₂ : ListenerStep P l₂ l₃) : ListenerStep P l₁ l₃ :=
  ⟨h₂.clock.trans h₁.clock, h₂.receivers.trans h₁.receivers,
    h₁.observers.trans_extend h₂.observers⟩

/-- A step under `P` is a step under any weaker `Q`. -/
theorem ListenerStep.mono_step {P Q : String → Prop} {l l' : UrlAvailabilityRequester}
    (h : ListenerStep P l l') (hpq : ∀ url, P url → Q url) : ListenerStep Q l l' :=
  ⟨h.clock, h.receivers, h.observers.mono_extend hpq⟩

/-- Nothing done keeps the edges. -/
theorem EdgesKept.refl_edges (l : UrlAvailabilityRequester) : EdgesKept l l := rfl

/-- Keeping the edges composes. -/
theorem EdgesKept.trans_edges {l₁ l₂ l₃ : UrlAvailabilityRequester}
    (h₁ : EdgesKept l₁ l₂) (h₂ : EdgesKept l₂ l₃) : EdgesKept l₁ l₃ :=
  Eq.trans h₂ h₁

/-- A requester keeps what it has. -/
theorem RequesterKept.refl_kept (r : ReceiverRequester) : RequesterKept r r := ⟨rfl, rfl, rfl⟩

/-- Keeping composes. -/
theorem RequesterKept.trans_kept {r₁ r₂ r₃ : ReceiverRequester}
    (h₁ : RequesterKept r₁ r₂) (h₂ : RequesterKept r₂ r₃) : RequesterKept r₁ r₃ :=
  ⟨h₂.cache.trans h₁.cache, h₂.service_id.trans h₁.service_id,
    h₂.connection.trans h₁.connection⟩

/-- Reporting failed urls is a step under these urls that keeps the edges. -/
theorem failUrls_step (listener : UrlAvailabilityRequester) (service_id : String)
    (urls : List String) :
    ListenerStep (fun url => url ∈ urls) listener (failUrls listener service_id urls) ∧
      EdgesKept listener (failUrls listener service_id urls) := by
  refine ⟨⟨(failUrls_frame _ _ _).1, (failUrls_frame _ _ _).2, failUrls_observers _ _ _⟩, ?_⟩
  unfold EdgesKept
  rw [failUrls_calls, List.filter_append]
  have : (urls.flatMap (fun url =>
      (observersOf listener.observers_by_url_ url).map
        (fun o => ObserverCall.OnRequestFailed o url service_id))).filter
      ObserverCall.isEdge = [] := by
    rw [List.filter_eq_nil_iff]
    intro c hc
    simp only [List.mem_flatMap, List.mem_map] at hc
    obtain ⟨url, _, o, _, rfl⟩ := hc
    simp [ObserverCall.isEdge]
  rw [this, List.append_nil]

section
variable (encode : PresentationUrlAvailabilityRequest → Bool)

/-- The method `SendRequest` writes a request or not; it calls nobody and
leaves the observer table, the cache, the service id and the connection. -/
theorem SendRequest_step (listener : UrlAvailabilityRequester) (self : ReceiverRequester)
    (request_id : Nat) (urls : List String) :
    ListenerStep (fun _ => False) listener
        (SendRequest encode listener self request_id urls).1 ∧
      (SendRequest encode listener self request_id urls).1.calls = listener.calls ∧
      (SendRequest encode listener self request_id urls).1.observers_by_url_ =
        listener.observers_by_url_ ∧
      RequesterKept self (SendRequest encode listener self request_id urls).2.1 := by
  cases henc : encode ⟨request_id, urls, self.next_watch_id⟩ with
  | true =>
    rw [SendRequest_ok encode _ _ _ _ henc]
    exact ⟨⟨rfl, rfl, ObserversExtend.refl_extend _ _⟩, rfl, rfl, ⟨rfl, rfl, rfl⟩⟩
  | false =>
    rw [SendRequest_error encode _ _ _ _ henc]
    exact ⟨⟨rfl, rfl, ObserversExtend.refl_extend _ _⟩, rfl, rfl, ⟨rfl, rfl, rfl⟩⟩

/-- The method `RequestUrlAvailabilities` is a step under the requested urls
that keeps the edges and what the requester has. -/
theorem RequestUrlAvailabilities_step (listener : UrlAvailabilityRequester)
    (self : ReceiverRequester) (urls : List String) :
    ListenerStep (fun url => url ∈ urls) listener
        (RequestUrlAvailabilities encode listener self urls).1 ∧
      EdgesKept listener (RequestUrlAvailabilities encode listener self urls).1 ∧
      RequesterKept self (RequestUrlAvailabilities encode listener self urls).2 := by
  by_cases hne : urls = []
  · subst hne
    simp only [RequestUrlAvailabilities, List.isEmpty_nil, if_true]
    exact ⟨ListenerStep.refl_step _ _, EdgesKept.refl_edges _, RequesterKept.refl_kept _⟩
  · cases hconn : self.connection with
    | none =>
      rw [RequestUrlAvailabilities_queued encode _ _ _ hne hconn]
      exact ⟨ListenerStep.refl_step _ _, EdgesKept.refl_edges _, ⟨rfl, rfl, rfl⟩⟩
    | some c =>
      cases henc : encode ⟨self.next_request_id, urls, self.next_watch_id⟩ with
      | true =>
        rw [RequestUrlAvailabilities_sent encode _ _ _ c hne hconn henc]
        exact ⟨⟨rfl, rfl, ObserversExtend.refl_extend _ _⟩, rfl, ⟨rfl, rfl, rfl⟩⟩
      | false =>
        rw [RequestUrlAvailabilities_failed encode _ _ _ c hne hconn henc]
        exact ⟨(failUrls_step _ _ _).1, (failUrls_step _ _ _).2, ⟨rfl, rfl, rfl⟩⟩

end

/-- The urls `MoveVectorSegment` leaves in the target. -/
theorem mem_MoveVectorSegment (segment : List String) (target : StdSet String)
    (url : String) :
    url ∈ MoveVectorSegment segment target ↔ url ∈ segment ∨ url ∈ target :=
  StdSet.mem_foldl_emplace segment target url

/-- The urls before the split of `PartitionUrlsBySetMembership` are outside
the set. -/
theorem not_contains_of_mem_partition_fst (urls : List String) (set : StdSet String)
    (url : String) (h : url ∈ (PartitionUrlsBySetMembership urls set).1) :
    StdSet.contains set url = false := by
  simp only [PartitionUrlsBySetMembership, List.mem_filter] at h
  simpa using h.2

/-- The urls the scan of `RemoveUnobservedRequests` collects are outside the
set of unobserved urls. -/
theorem scanRequests_still (unobserved : StdSet String) (connection : Bool)
    (requests : StdMap Nat Request) (watches : StdMap Nat Watch) (still : StdSet String)
    (url : String)
    (h : url ∈ (scanRequests unobserved connection requests watches still).2.2) :
    url ∈ still ∨ StdSet.contains unobserved url = false := by
  induction requests generalizing watches still with
  | nil => exact Or.inl h
  | cons e rest ih =>
    obtain ⟨id, request⟩ := e
    simp only [scanRequests] at h
    split at h
    · exact ih _ _ h
    · rcases ih _ _ h with h' | h'
      · rcases (mem_MoveVectorSegment _ _ _).mp h' with h'' | h''
        · exact Or.inr (not_contains_of_mem_partition_fst _ _ _ h'')
        · exact Or.inl h''
      · exact Or.inr h'

/-- The urls the scan of `RemoveUnobservedWatches` collects are outside the
set of unobserved urls. -/
theorem scanUnobservedWatches_still (unobserved : StdSet String)
    (watches : StdMap Nat Watch) (still : StdSet String) (url : String)
    (h : url ∈ (scanUnobservedWatches unobserved watches still).2) :
    url ∈ still ∨ StdSet.contains unobserved url = false := by
  induction watches generalizing still with
  | nil => exact Or.inl h
  | cons e rest ih =>
    obtain ⟨id, watch⟩ := e
    simp only [scanUnobservedWatches] at h
    split at h
    · exact ih _ h
    · rcases ih _ h with h' | h'
      · rcases (mem_MoveVectorSegment _ _ _).mp h' with h'' | h''
        · exact Or.inr (not_contains_of_mem_partition_fst _ _ _ h'')
        · exact Or.inl h''
      · exact Or.inr h'

section
variable (encode : PresentationUrlAvailabilityRequest → Bool)

/-- The method `GetOrRequesetAvailabilities` is a step under the requested
urls that keeps what the requester has. -/
theorem GetOrRequesetAvailabilities_step (listener : UrlAvailabilityRequester)
    (self : ReceiverRequester) (urls : List String) (observer : Option Observer) :
    ListenerStep (fun url => url ∈ urls) listener
        (GetOrRequesetAvailabilities encode listener self urls observer).1 ∧
      RequesterKept self
        (GetOrRequesetAvailabilities encode listener self urls observer).2 := by
  rw [GetOrRequesetAvailabilities_eq]
  have h := RequestUrlAvailabilities_step encode
    { listener with calls := listener.calls ++ (scanRequested self observer urls).1 } self
    (urls.filter (fun url => (StdMap.find self.known_availability_by_url url).isNone))
  exact ⟨⟨h.1.clock, h.1.receivers,
    h.1.observers.mono_extend (fun url hu => (List.mem_filter.mp hu).1)⟩, h.2.2⟩

/-- The method `RemoveUnobservedWatches` is a step under urls outside the
unobserved set that keeps the edges and what the requester has. -/
theorem RemoveUnobservedWatches_step (listener : UrlAvailabilityRequester)
    (self : ReceiverRequester) (unobserved : StdSet String) :
    ListenerStep (fun url => StdSet.contains unobserved url = false) listener
        (RemoveUnobservedWatches encode listener self unobserved).1 ∧
      EdgesKept listener (RemoveUnobservedWatches encode listener self unobserved).1 ∧
      RequesterKept self (RemoveUnobservedWatches encode listener self unobserved).2 := by
  have hstill := scanUnobservedWatches_still unobserved self.watch_by_id []
  simp only [RemoveUnobservedWatches]
  generalize scanUnobservedWatches unobserved self.watch_by_id [] = scan at hstill ⊢
  obtain ⟨watches, still⟩ := scan
  have h := RequestUrlAvailabilities_step encode listener
    { self with watch_by_id := watches } still
  simp only at hstill ⊢
  generalize RequestUrlAvailabilities encode listener
    { self with watch_by_id := watches } still = res at h ⊢
  obtain ⟨l', s'⟩ := res
  refine ⟨h.1.mono_step (fun url hu => ?_), h.2.1, ?_⟩
  · rcases hstill url hu with h' | h'
    · simp at h'
    · exact h'
  · simp only
    split <;> exact ⟨h.2.2.cache, h.2.2.service_id, h.2.2.connection⟩

end

section
variable (encode : PresentationUrlAvailabilityRequest → Bool)

/-- The method `RemoveUnobservedRequests` is a step under urls outside the
unobserved set that keeps the edges and what the requester has. -/
theorem RemoveUnobservedRequests_step (listener : UrlAvailabilityRequester)
    (self : ReceiverRequester) (unobserved : StdSet String) :
    ListenerStep (fun url => StdSet.contains unobserved url = false) listener
        (RemoveUnobservedRequests encode listener self unobserved).1 ∧
      EdgesKept listener (RemoveUnobservedRequests encode listener self unobserved).1 ∧
      RequesterKept self (RemoveUnobservedRequests encode listener self unobserved).2 := by
  have hstill := scanRequests_still unobserved self.connection.isSome self.request_by_id
    self.watch_by_id []
  simp only [RemoveUnobservedRequests]
  generalize scanRequests unobserved self.connection.isSome self.request_by_id
    self.watch_by_id [] = scan at hstill ⊢
  obtain ⟨requests, watches, still⟩ := scan
  simp only at hstill ⊢
  have hP : ∀ url, url ∈ still → StdSet.contains unobserved url = false := by
    intro url hu
    rcases hstill url hu with h' | h'
    · simp at h'
    · exact h'
  cases still with
  | nil =>
    simp only [List.isEmpty_nil, Bool.not_true, Bool.false_eq_true, if_false, List.foldl_nil]
    refine ⟨ListenerStep.refl_step _ _, EdgesKept.refl_edges _, ?_⟩
    split <;> exact ⟨rfl, rfl, rfl⟩
  | cons u us =>
    simp only [List.isEmpty_cons, Bool.not_false, if_true]
    cases hconn : self.connection with
    | none =>
      simp only
      refine ⟨ListenerStep.refl_step _ _, EdgesKept.refl_edges _, ?_⟩
      split <;> exact ⟨rfl, rfl, hconn.symm⟩
    | some c =>
      simp only
      cases henc : encode ⟨self.next_request_id, u :: us, self.next_watch_id⟩ with
      | true =>
        rw [SendRequest_ok encode _ _ _ _ (by simpa using henc)]
        simp only
        refine ⟨⟨rfl, rfl, ObserversExtend.refl_extend _ _⟩, rfl, ?_⟩
        split <;> exact ⟨rfl, rfl, hconn.symm⟩
      | false =>
        rw [SendRequest_error encode _ _ _ _ (by simpa using henc)]
        simp only [List.foldl_nil]
        refine ⟨(failUrls_step _ _ _).1.mono_step hP, (failUrls_step _ _ _).2, ?_⟩
        split <;> exact ⟨rfl, rfl, hconn.symm⟩

end

/-- The loop over the requesters: when every call of `f` on a requester
satisfying `Q` relates the coordinator states by `R` (reflexive, transitive)
and the requester to its successor by `T`, so does the loop. -/
theorem forEachReceiver_rel {R : UrlAvailabilityRequester → UrlAvailabilityRequester → Prop}
    {T : ReceiverRequester → ReceiverRequester → Prop} {Q : ReceiverRequester → Prop}
    {f : UrlAvailabilityRequester → ReceiverRequester →
      UrlAvailabilityRequester × ReceiverRequester}
    (hrefl : ∀ l, R l l) (htrans : ∀ a b c, R a b → R b c → R a c)
    (hf : ∀ l r, Q r → R l (f l r).1 ∧ T r (f l r).2)
    (receivers : StdMap String ReceiverRequester) :
    ∀ (l : UrlAvailabilityRequester), (∀ entry ∈ receivers, Q entry.2) →
      R l (forEachReceiver f l receivers).1 ∧
        List.Forall₂ (fun entry entry' => entry'.1 = entry.1 ∧ T entry.2 entry'.2)
          receivers (forEachReceiver f l receivers).2 := by
  induction receivers with
  | nil =>
    intro l _
    exact ⟨hrefl l, List.Forall₂.nil⟩
  | cons e rest ih =>
    intro l hQ
    obtain ⟨id, receiver⟩ := e
    have h1 := hf l receiver (hQ (id, receiver) (List.mem_cons_self _ _))
    have h2 := ih (f l receiver).1 (fun entry he => hQ entry (List.mem_cons_of_mem _ he))
    simp only [forEachReceiver]
    exact ⟨htrans _ _ _ h1.1 h2.1, List.Forall₂.cons ⟨rfl, h1.2⟩ h2.2⟩

/-- Running a step on every requester: the clock stays, the observer table is
extended at most under urls satisfying `P`, and every requester keeps its
key, cache, service id and connection. -/
theorem onEachReceiver_step {P : String → Prop} {Q : ReceiverRequester → Prop}
    {f : UrlAvailabilityRequester → ReceiverRequester →
      UrlAvailabilityRequester × ReceiverRequester}
    (hf : ∀ l r, Q r → ListenerStep P l (f l r).1 ∧ RequesterKept r (f l r).2)
    (self : UrlAvailabilityRequester)
    (hQ : ∀ entry ∈ self.receiver_by_service_id_, Q entry.2) :
    (onEachReceiver f self).clock_ = self.clock_ ∧
      ObserversExtend P self.observers_by_url_ (onEachReceiver f self).observers_by_url_ ∧
      List.Forall₂ (fun entry entry' => entry'.1 = entry.1 ∧ RequesterKept entry.2 entry'.2)
        self.receiver_by_service_id_ (onEachReceiver f self).receiver_by_service_id_ := by
  have h := forEachReceiver_rel (R := ListenerStep P) (T := RequesterKept) (Q := Q)
    (ListenerStep.refl_step P) (fun _ _ _ => ListenerStep.trans_step) hf
    self.receiver_by_service_id_ self hQ
  simp only [onEachReceiver]
  exact ⟨h.1.clock, h.1.observers, h.2⟩

/-- Running on every requester something that keeps the edges keeps the
edges. -/
theorem onEachReceiver_edges {Q : ReceiverRequester → Prop}
    {f : UrlAvailabilityRequester → ReceiverRequester →
      UrlAvailabilityRequester × ReceiverRequester}
    (hf : ∀ l r, Q r → EdgesKept l (f l r).1)
    (self : UrlAvailabilityRequester)
    (hQ : ∀ entry ∈ self.receiver_by_service_id_, Q entry.2) :
    EdgesKept self (onEachReceiver f self) := by
  have h := forEachReceiver_rel (R := EdgesKept) (T := fun _ _ => True) (Q := Q)
    EdgesKept.refl_edges (fun _ _ _ => EdgesKept.trans_edges) (fun l r hq => ⟨hf l r hq, trivial⟩)
    self.receiver_by_service_id_ self hQ
  simp only [onEachReceiver]
  exact h.1

/-- Requesters related pairwise: a property of the caches of all the first
holds of the caches of all the second. -/
theorem forall_cache_of_kept {C : StdMap String PresentationUrlAvailability → Prop}
    {receivers receivers' : StdMap String ReceiverRequester}
    (h : List.Forall₂ (fun entry entry' => entry'.1 = entry.1 ∧ RequesterKept entry.2 entry'.2)
      receivers receivers')
    (hC : ∀ entry ∈ receivers, C entry.2.known_availability_by_url) :
    ∀ entry ∈ receivers', C entry.2.known_availability_by_url := by
  induction h with
  | nil => intro entry he; cases he
  | cons hab _ ih =>
    intro entry he
    rcases List.mem_cons.mp he with rfl | he
    · rw [hab.2.cache]
      exact hC _ (List.mem_cons_self _ _)
    · exact ih (fun e hm => hC e (List.mem_cons_of_mem _ hm)) entry he

section MemLemmas0
variable {κ ν : Type} [DecidableEq κ]

/-- A found value is stored in the map under its key. -/
theorem StdMap.mem_of_find (m : StdMap κ ν) (k : κ) (v : ν)
    (h : StdMap.find m k = some v) : (k, v) ∈ m := by
  induction m with
  | nil => simp [StdMap.find] at h
  | cons e rest ih =>
    obtain ⟨k₀, v₀⟩ := e
    simp only [StdMap.find] at h
    by_cases hk : k₀ = k
    · simp only [hk, if_true, Option.some.injEq] at h
      subst hk h
      exact List.mem_cons_self _ _
    · simp only [hk, if_false] at h
      exact List.mem_cons_of_mem _ (ih h)

/-- A stored key is found. -/
theorem StdMap.find_ne_none_of_mem (m : StdMap κ ν) (e : κ × ν) (h : e ∈ m) :
    StdMap.find m e.1 ≠ none := by
  induction m with
  | nil => cases h
  | cons e₀ rest ih =>
    obtain ⟨k₀, v₀⟩ := e₀
    simp only [StdMap.find]
    by_cases hk : k₀ = e.1
    · simp [hk]
    · simp only [hk, if_false]
      rcases List.mem_cons.mp h with rfl | h
      · exact absurd rfl hk
      · exact ih h

end MemLemmas0

/-- The entries after an insertion are the new one and the old ones. -/
theorem StdMap.mem_insertSorted {κ ν : Type} [StdLess κ] (m : StdMap κ ν) (k : κ) (v : ν) (e : κ × ν) :
    e ∈ StdMap.insertSorted m k v ↔ e = (k, v) ∨ e ∈ m := by
  induction m with
  | nil => simp [StdMap.insertSorted]
  | cons e₀ rest ih =>
    obtain ⟨k₀, v₀⟩ := e₀
    simp only [StdMap.insertSorted]
    split
    · simp only [List.mem_cons, ih]
      constructor
      · rintro (h | h | h)
        · exact Or.inr (Or.inl h)
        · exact Or.inl h
        · exact Or.inr (Or.inr h)
      · rintro (h | h | h)
        · exact Or.inr (Or.inl h)
        · exact Or.inl h
        · exact Or.inr (Or.inr h)
    · simp only [List.mem_cons]

section MemLemmas
variable {κ ν : Type} [DecidableEq κ] [StdLess κ]

/-- What holds of every stored value and of the offered one holds of every
value after `emplace` and of the value the returned iterator points at. -/
theorem StdMap.forall_emplace {C : ν → Prop} (m : StdMap κ ν) (k : κ) (v : ν)
    (hm : ∀ e ∈ m, C e.2) (hv : C v) :
    (∀ e ∈ (StdMap.emplace m k v).map, C e.2) ∧ C (StdMap.emplace m k v).entry := by
  unfold StdMap.emplace
  cases h : StdMap.find m k with
  | none =>
    refine ⟨fun e he => ?_, hv⟩
    rcases (StdMap.mem_insertSorted m k v e).mp he with rfl | he
    · exact hv
    · exact hm e he
  | some old => exact ⟨hm, hm (k, old) (StdMap.mem_of_find m k old h)⟩

/-- The access `m[k]` on a stored key leaves the map as it is. -/
theorem StdMap.index_fst_of_find (m : StdMap κ ν) (k : κ) (d : ν)
    (h : StdMap.find m k ≠ none) : (StdMap.index m k d).1 = m := by
  unfold StdMap.index
  cases hf : StdMap.find m k with
  | none => exact absurd hf h
  | some v => rfl

end MemLemmas

section MemLemmas2
variable {κ ν : Type} [DecidableEq κ]

/-- What holds of every stored value and of the assigned one holds of every
value after the assignment. -/
theorem StdMap.forall_assign {C : ν → Prop} (m : StdMap κ ν) (k : κ) (v : ν)
    (hm : ∀ e ∈ m, C e.2) (hv : C v) : ∀ e ∈ StdMap.assign m k v, C e.2 := by
  intro e he
  simp only [StdMap.assign, List.mem_map] at he
  obtain ⟨e₀, he₀, rfl⟩ := he
  split
  · exact hv
  · exact hm e₀ he₀

/-- What holds of every stored value holds of every value left by an erasure. -/
theorem StdMap.forall_erase {C : ν → Prop} (m : StdMap κ ν) (k : κ)
    (hm : ∀ e ∈ m, C e.2) : ∀ e ∈ StdMap.erase m k, C e.2 := by
  intro e he
  exact hm e (List.mem_of_mem_filter he)

/-- Assigning under a key adds no key and removes none. -/
theorem StdMap.find_assign_ne_none (m : StdMap κ ν) (k k' : κ) (v : ν) :
    StdMap.find (StdMap.assign m k v) k' ≠ none ↔ StdMap.find m k' ≠ none := by
  rw [StdMap.find_assign]
  split
  · cases StdMap.find m k' <;> simp
  · rfl

end MemLemmas2

/-- Reporting failed urls that all have an entry leaves the observer table
exactly as it is. -/
theorem failUrls_observers_eq (service_id : String) (urls : List String) :
    ∀ (listener : UrlAvailabilityRequester),
      (∀ url ∈ urls, StdMap.find listener.observers_by_url_ url ≠ none) →
      (failUrls listener service_id urls).observers_by_url_ = listener.observers_by_url_ := by
  induction urls with
  | nil => intro listener _; rfl
  | cons url urls ih =>
    intro listener h
    have h1 := StdMap.index_fst_of_find listener.observers_by_url_ url []
      (h url (List.mem_cons_self _ _))
    simp only [failUrls]
    rw [ih]
    · exact h1
    · intro url' hu
      simp only
      rw [h1]
      exact h url' (List.mem_cons_of_mem _ hu)

/-- The loop of `ReceiverRequester::RemoveReceiver` over cached urls that all
have an entry leaves the observer table exactly as it is. -/
theorem removeReceiverScan_observers_eq (service_id : String)
    (cache : StdMap String PresentationUrlAvailability) :
    ∀ (listener : UrlAvailabilityRequester),
      (∀ entry ∈ cache, StdMap.find listener.observers_by_url_ entry.1 ≠ none) →
      (removeReceiverScan listener service_id cache).observers_by_url_ =
        listener.observers_by_url_ := by
  induction cache with
  | nil => intro listener _; rfl
  | cons e rest ih =>
    intro listener h
    obtain ⟨url, availability⟩ := e
    have h1 := StdMap.index_fst_of_find listener.observers_by_url_ url []
      (h (url, availability) (List.mem_cons_self _ _))
    simp only [removeReceiverScan]
    split
    · rw [ih]
      · exact h1
      · intro entry he
        simp only
        rw [h1]
        exact h entry (List.mem_cons_of_mem _ he)
    · exact ih listener (fun entry he => h entry (List.mem_cons_of_mem _ he))

section
variable (encode : PresentationUrlAvailabilityRequest → Bool)

/-- Requesting urls that all have an entry leaves the observer table exactly
as it is. -/
theorem RequestUrlAvailabilities_observers_eq (listener : UrlAvailabilityRequester)
    (self : ReceiverRequester) (urls : List String)
    (h : ∀ url ∈ urls, StdMap.find listener.observers_by_url_ url ≠ none) :
    (RequestUrlAvailabilities encode listener self urls).1.observers_by_url_ =
      listener.observers_by_url_ := by
  by_cases hne : urls = []
  · subst hne
    simp [RequestUrlAvailabilities]
  · cases hconn : self.connection with
    | none => rw [RequestUrlAvailabilities_queued encode _ _ _ hne hconn]
    | some c =>
      cases henc : encode ⟨self.next_request_id, urls, self.next_watch_id⟩ with
      | true => rw [RequestUrlAvailabilities_sent encode _ _ _ c hne hconn henc]
      | false =>
        rw [RequestUrlAvailabilities_failed encode _ _ _ c hne hconn henc]
        exact failUrls_observers_eq _ _ _ h

end

/-- The keys of a map are found in it. -/
theorem StdMap.find_ne_none_of_mem_keys {κ ν : Type} [DecidableEq κ] (m : StdMap κ ν) (k : κ)
    (h : k ∈ StdMap.keys m) : StdMap.find m k ≠ none := by
  simp only [StdMap.keys, List.mem_map] at h
  obtain ⟨e, he, rfl⟩ := h
  induction m with
  | nil => cases he
  | cons e₀ rest ih =>
    obtain ⟨k₀, v₀⟩ := e₀
    simp only [StdMap.find]
    by_cases hk : k₀ = e.1
    · simp [hk]
    · simp only [hk, if_false]
      rcases List.mem_cons.mp he with rfl | he
      · exact absurd rfl hk
      · exact ih he

/-- Registering an observer removes no key of the observer table. -/
theorem pushObserver_keys (observer : Observer) (urls : List String) :
    ∀ (m : StdMap String (List Observer)) (url : String),
      StdMap.find m url ≠ none →
      StdMap.find (pushObserver observer m urls) url ≠ none := by
  induction urls with
  | nil => intro m url h; exact h
  | cons u urls ih =>
    intro m url h
    simp only [pushObserver]
    apply ih
    rw [StdMap.find_assign_ne_none]
    by_cases hu : u = url
    · subst hu
      rw [StdMap.find_index_self]
      simp
    · rw [StdMap.find_index_ne _ _ _ _ hu]
      exact h

/-- Registering an observer on one unobserved url gives the url the list
holding just this observer. -/
theorem pushObserver_single (observer : Observer) (m : StdMap String (List Observer))
    (url : String) (h : StdMap.find m url = none) :
    StdMap.find (pushObserver observer m [url]) url = some [observer] := by
  simp only [pushObserver]
  rw [StdMap.find_assign, if_pos rfl, StdMap.find_index_self, StdMap.index_snd, h]
  rfl

/-- The first loop of `RemoveObserver` adds no key and removes none. -/
theorem removeObserverScan_keys (observer : Observer) (url : String)
    (m : StdMap String (List Observer)) :
    ∀ (unobserved : StdSet String),
      (StdMap.find (removeObserverScan observer m unobserved).1 url ≠ none ↔
        StdMap.find m url ≠ none) := by
  induction m with
  | nil => intro unobserved; simp [removeObserverScan]
  | cons e rest ih =>
    intro unobserved
    obtain ⟨k, observers⟩ := e
    simp only [removeObserverScan]
    split
    · simp only [StdMap.find]
      by_cases hk : k = url
      · simp [hk]
      · simp only [hk, if_false]
        exact ih _
    · simp only [StdMap.find]
      by_cases hk : k = url
      · simp [hk]
      · simp only [hk, if_false]
        exact ih _

section
variable (encode : PresentationUrlAvailabilityRequest → Bool)

/-- The two removals run on a requester are a step under urls outside the
unobserved set that keeps the edges and what the requester has. -/
theorem removeUnobserved_step (listener : UrlAvailabilityRequester)
    (self : ReceiverRequester) (unobserved : StdSet String) :
    ListenerStep (fun url => StdSet.contains unobserved url = false) listener
        (RemoveUnobservedWatches encode
          (RemoveUnobservedRequests encode listener self unobserved).1
          (RemoveUnobservedRequests encode listener self unobserved).2 unobserved).1 ∧
      EdgesKept listener
        (RemoveUnobservedWatches encode
          (RemoveUnobservedRequests encode listener self unobserved).1
          (RemoveUnobservedRequests encode listener self unobserved).2 unobserved).1 ∧
      RequesterKept self
        (RemoveUnobservedWatches encode
          (RemoveUnobservedRequests encode listener self unobserved).1
          (RemoveUnobservedRequests encode listener self unobserved).2 unobserved).2 := by
  have h1 := RemoveUnobservedRequests_step encode listener self unobserved
  have h2 := RemoveUnobservedWatches_step encode
    (RemoveUnobservedRequests encode listener self unobserved).1
    (RemoveUnobservedRequests encode listener self unobserved).2 unobserved
  exact ⟨h1.1.trans_step h2.1, h1.2.1.trans_edges h2.2.1, h1.2.2.trans_kept h2.2.2⟩

/-- The method `RemoveObserverUrls` as its first loop followed by the two
removals on every requester. -/
theorem RemoveObserverUrls_eq (self : UrlAvailabilityRequester) (urls : List String)
    (observer : Observer) :
    RemoveObserverUrls encode self urls observer =
      (removeUrlsScan observer urls self []).map (fun scan =>
        onEachReceiver
          (fun listener receiver =>
            RemoveUnobservedWatches encode
              (RemoveUnobservedRequests encode listener receiver scan.2).1
              (RemoveUnobservedRequests encode listener receiver scan.2).2 scan.2)
          scan.1) := by
  unfold RemoveObserverUrls
  cases removeUrlsScan observer urls self [] with
  | none => rfl
  | some scan => rfl

/-- The method `RemoveObserver` as its first loop followed by the two removals
on every requester. -/
theorem RemoveObserver_eq (self : UrlAvailabilityRequester) (observer : Observer) :
    RemoveObserver encode self observer =
      onEachReceiver
        (fun listener receiver =>
          RemoveUnobservedWatches encode
            (RemoveUnobservedRequests encode listener receiver
              (removeObserverScan observer self.observers_by_url_ []).2).1
            (RemoveUnobservedRequests encode listener receiver
              (removeObserverScan observer self.observers_by_url_ []).2).2
            (removeObserverScan observer self.observers_by_url_ []).2)
        { self with
          observers_by_url_ := (removeObserverScan observer self.observers_by_url_ []).1 } :=
  rfl

end

/-- Running on every requester a step that keeps what the requesters have
keeps every cached url a key of the observer table. -/
theorem CachedUrlsAreKeys.onEach_cached {P : String → Prop}
    {f : UrlAvailabilityRequester → ReceiverRequester →
      UrlAvailabilityRequester × ReceiverRequester}
    (hf : ∀ l r, ListenerStep P l (f l r).1 ∧ RequesterKept r (f l r).2)
    {self : UrlAvailabilityRequester} (h : CachedUrlsAreKeys self) :
    CachedUrlsAreKeys (UrlAvailabilityRequester.onEachReceiver f self) := by
  have hs := onEachReceiver_step (Q := fun _ => True) (fun l r _ => hf l r) self
    (fun _ _ => trivial)
  exact forall_cache_of_kept
    (C := fun cache => ∀ url, StdMap.find cache url ≠ none →
      StdMap.find (UrlAvailabilityRequester.onEachReceiver f self).observers_by_url_ url ≠ none)
    hs.2.2 (fun entry he url hu => hs.2.1.find_ne_none (h entry he url hu))

/-- The first loop of `RemoveObserverUrls` keeps every cached url a key of
the observer table: it evicts from every cache the url whose entry it
erases. -/
theorem removeUrlsScan_cached (observer : Observer) (urls : List String) :
    ∀ (self self' : UrlAvailabilityRequester) (unobserved unobserved' : StdSet String),
      removeUrlsScan observer urls self unobserved = some (self', unobserved') →
      CachedUrlsAreKeys self → CachedUrlsAreKeys self' := by
  induction urls with
  | nil =>
    intro self self' unobserved unobserved' h hinv
    simp only [removeUrlsScan, Option.some.injEq, Prod.mk.injEq] at h
    rw [← h.1]
    exact hinv
  | cons url urls ih =>
    intro self self' unobserved unobserved' h hinv
    simp only [removeUrlsScan] at h
    cases hf : StdMap.find self.observers_by_url_ url with
    | none => simp [hf] at h
    | some observers =>
      simp only [hf] at h
      split at h
      · refine ih _ _ _ _ h ?_
        intro entry he u hu
        simp only [List.mem_map] at he
        obtain ⟨e₀, he₀, rfl⟩ := he
        simp only at hu ⊢
        by_cases hne : url = u
        · subst hne
          rw [StdMap.find_erase_self] at hu
          exact absurd rfl hu
        · rw [StdMap.find_erase_ne _ _ _ hne] at hu ⊢
          exact hinv e₀ he₀ u hu
      · refine ih _ _ _ _ h ?_
        intro entry he u hu
        simp only at he ⊢
        rw [StdMap.find_assign_ne_none]
        exact hinv entry he u hu

section
variable (encode : PresentationUrlAvailabilityRequest → Bool)

/-- The loop over `new_requests` is a step that keeps the edges and what the
requester has. -/
theorem requestAll_step (requests : List (List String)) :
    ∀ (listener : UrlAvailabilityRequester) (self : ReceiverRequester),
      ListenerStep (fun _ => True) listener (requestAll encode listener self requests).1 ∧
        EdgesKept listener (requestAll encode listener self requests).1 ∧
        RequesterKept self (requestAll encode listener self requests).2 := by
  induction requests with
  | nil =>
    intro listener self
    exact ⟨ListenerStep.refl_step _ _, EdgesKept.refl_edges _, RequesterKept.refl_kept _⟩
  | cons request rest ih =>
    intro listener self
    have h1 := RequestUrlAvailabilities_step encode listener self request
    have h2 := ih (RequestUrlAvailabilities encode listener self request).1
      (RequestUrlAvailabilities encode listener self request).2
    simp only [requestAll]
    exact ⟨(h1.1.mono_step (fun _ _ => trivial)).trans_step h2.1, h1.2.1.trans_edges h2.2.1,
      h1.2.2.trans_kept h2.2.2⟩

/-- The method `ReceiverRequester::RefreshWatches` is a step that keeps the
edges and what the requester has. -/
theorem RefreshWatches_step (listener : UrlAvailabilityRequester)
    (self : ReceiverRequester) (now : TimeDelta) :
    ListenerStep (fun _ => True) listener
        (ReceiverRequester.RefreshWatches encode listener self now).1 ∧
      EdgesKept listener (ReceiverRequester.RefreshWatches encode listener self now).1 ∧
      RequesterKept self (ReceiverRequester.RefreshWatches encode listener self now).2.1 := by
  simp only [ReceiverRequester.RefreshWatches]
  generalize scanWatches now self.watch_by_id (TimeDelta.FromSeconds kWatchDurationSeconds) =
    scan
  obtain ⟨kept, new_requests, m⟩ := scan
  simp only
  split
  · rename_i hk
    have h := requestAll_step encode new_requests listener
      { self with watch_by_id := kept, event_watch := StopWatching self.event_watch }
    exact ⟨h.1, h.2.1, ⟨h.2.2.cache, h.2.2.service_id, h.2.2.connection⟩⟩
  · have h := requestAll_step encode new_requests listener { self with watch_by_id := kept }
    exact ⟨h.1, h.2.1, ⟨h.2.2.cache, h.2.2.service_id, h.2.2.connection⟩⟩

/-- The loop of the coordinator's `RefreshWatches` runs the requesters'
`RefreshWatches` one after the other. -/
theorem refreshScan_eq (now : TimeDelta) (receivers : StdMap String ReceiverRequester) :
    ∀ (self : UrlAvailabilityRequester) (minimum : TimeDelta),
      ((refreshScan encode now self receivers minimum).1,
          (refreshScan encode now self receivers minimum).2.1) =
        forEachReceiver
          (fun listener receiver =>
            ((ReceiverRequester.RefreshWatches encode listener receiver now).1,
              (ReceiverRequester.RefreshWatches encode listener receiver now).2.1))
          self receivers := by
  induction receivers with
  | nil => intro self minimum; rfl
  | cons e rest ih =>
    intro self minimum
    obtain ⟨id, receiver⟩ := e
    simp only [refreshScan, forEachReceiver]
    have h := ih (ReceiverRequester.RefreshWatches encode self receiver now).1
      (if (ReceiverRequester.RefreshWatches encode self receiver now).2.2 < minimum then
        (ReceiverRequester.RefreshWatches encode self receiver now).2.2
       else minimum)
    rw [Prod.ext_iff] at h ⊢
    simp only at h ⊢
    exact ⟨h.1, by rw [h.2]⟩

/-- The coordinator's `RefreshWatches` as a loop over the requesters. -/
theorem RefreshWatches_fst_eq (self : UrlAvailabilityRequester) :
    (UrlAvailabilityRequester.RefreshWatches encode self).1 =
      onEachReceiver
        (fun listener receiver =>
          ((ReceiverRequester.RefreshWatches encode listener receiver self.clock_).1,
            (ReceiverRequester.RefreshWatches encode listener receiver self.clock_).2.1))
        self := by
  have h := refreshScan_eq encode self.clock_ self.receiver_by_service_id_ self
    (TimeDelta.FromSeconds kWatchDurationSeconds)
  simp only [UrlAvailabilityRequester.RefreshWatches, onEachReceiver]
  rw [← h]

/-- The retransmission loop leaves the coordinator's tables and clock, and
the requester's cache, service id and connection. -/
theorem resendRequests_kept (requests : StdMap Nat Request) :
    ∀ (listener : UrlAvailabilityRequester) (self : ReceiverRequester),
      ListenerStep (fun _ => False) listener (resendRequests encode listener self requests).1 ∧
        RequesterKept self (resendRequests encode listener self requests).2.1 := by
  induction requests with
  | nil => intro listener self; exact ⟨ListenerStep.refl_step _ _, RequesterKept.refl_kept _⟩
  | cons e rest ih =>
    intro listener self
    obtain ⟨id, request⟩ := e
    have h1 := SendRequest_step encode listener self id request.urls
    simp only [resendRequests]
    generalize SendRequest encode listener self id request.urls = sent at h1 ⊢
    obtain ⟨l', s', result⟩ := sent
    have h2 := ih l' s'
    cases result with
    | ok watch_id => exact ⟨h1.1.trans_step h2.1, h1.2.2.2.trans_kept h2.2⟩
    | error err => exact ⟨h1.1.trans_step h2.1, h1.2.2.2.trans_kept h2.2⟩

/-- The handler `OnConnectionOpened` leaves the coordinator's tables and
clock, and the requester's cache and service id. -/
theorem OnConnectionOpened_kept (listener : UrlAvailabilityRequester)
    (self : ReceiverRequester) (request_id : Nat) (connection : ProtocolConnection) :
    ListenerStep (fun _ => False) listener
        (OnConnectionOpened encode listener self request_id connection).1 ∧
      (OnConnectionOpened encode listener self request_id connection).2.known_availability_by_url =
        self.known_availability_by_url ∧
      (OnConnectionOpened encode listener self request_id connection).2.service_id =
        self.service_id := by
  have h := resendRequests_kept encode self.request_by_id listener
    { self with
      connect_request := false
      endpoint_id := connection.endpoint_id
      connection := some connection }
  simp only [OnConnectionOpened]
  generalize resendRequests encode listener
    { self with
      connect_request := false
      endpoint_id := connection.endpoint_id
      connection := some connection } self.request_by_id = res at h ⊢
  obtain ⟨l', s', rs⟩ := res
  exact ⟨h.1, h.2.cache, h.2.service_id⟩

end

/-- The method `UpdateAvailabilities` caches only urls that have an entry in
the observer table. -/
theorem UpdateAvailabilities_cached (urls : List String) :
    ∀ (availabilities : List PresentationUrlAvailability)
      (listener listener' : UrlAvailabilityRequester) (self self' : ReceiverRequester),
      UpdateAvailabilities listener self urls availabilities = some (listener', self') →
      (∀ url, StdMap.find self.known_availability_by_url url ≠ none →
        StdMap.find listener.observers_by_url_ url ≠ none) →
      ∀ url, StdMap.find self'.known_availability_by_url url ≠ none →
        StdMap.find listener.observers_by_url_ url ≠ none := by
  induction urls with
  | nil =>
    intro availabilities listener listener' self self' h hinv
    simp only [UpdateAvailabilities, Option.some.injEq, Prod.mk.injEq] at h
    rw [← h.2]
    exact hinv
  | cons url urls ih =>
    intro availabilities listener listener' self self' h hinv
    simp only [UpdateAvailabilities] at h
    cases hf : StdMap.find listener.observers_by_url_ url with
    | none =>
      simp only [hf] at h
      exact ih _ _ _ _ _ h hinv
    | some observers =>
      simp only [hf] at h
      cases availabilities with
      | nil => simp at h
      | cons availability rest =>
        simp only at h
        have hobs : ∀ l : UrlAvailabilityRequester,
            (if ((StdMap.emplace self.known_availability_by_url url availability).inserted ||
                (StdMap.emplace self.known_availability_by_url url availability).entry !=
                  availability) = true then
              { listener with
                calls := listener.calls ++
                  edgeCalls availability observers url self.service_id }
             else listener).observers_by_url_ = listener.observers_by_url_ := by
          intro _
          split <;> rfl
        have h' := ih _ _ _ _ _ h (by
          intro u hu
          rw [hobs listener]
          simp only at hu
          unfold StdMap.emplace at hu
          cases hc : StdMap.find self.known_availability_by_url url with
          | none =>
            simp only [hc] at hu
            by_cases hne : url = u
            · subst hne
              rw [hf]
              exact Option.some_ne_none _
            · rw [StdMap.find_insertSorted_ne _ _ _ _ hne] at hu
              exact hinv u hu
          | some old =>
            simp only [hc] at hu
            exact hinv u hu)
        intro u hu
        have := h' u hu
        rw [hobs listener] at this
        exact this

/-- The handler `OnStreamMessage` leaves the coordinator's tables and caches
only urls that have an entry in the observer table. -/
theorem OnStreamMessage_cached (listener listener' : UrlAvailabilityRequester)
    (self self' : ReceiverRequester) (endpoint_id connection_id : Nat)
    (message : StreamMessage) (result : Except ErrorCode Nat)
    (h : OnStreamMessage listener self endpoint_id connection_id message =
      some (listener', self', result))
    (hinv : ∀ url, StdMap.find self.known_availability_by_url url ≠ none →
      StdMap.find listener.observers_by_url_ url ≠ none) :
    listener'.observers_by_url_ = listener.observers_by_url_ ∧
      listener'.receiver_by_service_id_ = listener.receiver_by_service_id_ ∧
      ∀ url, StdMap.find self'.known_availability_by_url url ≠ none →
        StdMap.find listener.observers_by_url_ url ≠ none := by
  have same : ∀ {res : Except ErrorCode Nat},
      some (listener, self, res) = some (listener', self', result) →
      listener'.observers_by_url_ = listener.observers_by_url_ ∧
        listener'.receiver_by_service_id_ = listener.receiver_by_service_id_ ∧
        ∀ url, StdMap.find self'.known_availability_by_url url ≠ none →
          StdMap.find listener.observers_by_url_ url ≠ none := by
    intro res h
    simp only [Option.some.injEq, Prod.mk.injEq] at h
    obtain ⟨rfl, rfl, _⟩ := h
    exact ⟨rfl, rfl, hinv⟩
  cases message with
  | other => exact same h
  | kPresentationUrlAvailabilityResponse decoded response =>
    cases decoded with
    | parserEOF => exact same h
    | failure => exact same h
    | consumed bytes =>
      simp only [OnStreamMessage] at h
      cases hreq : StdMap.find self.request_by_id response.request_id with
      | none =>
        simp only [hreq] at h
        exact same h
      | some request =>
        simp only [hreq] at h
        split at h
        · exact same h
        · cases hup : UpdateAvailabilities listener self request.urls
              response.url_availabilities with
          | none => simp [hup] at h
          | some updated =>
            obtain ⟨l₁, s₁⟩ := updated
            have hc := UpdateAvailabilities_cached _ _ _ _ _ _ hup hinv
            obtain ⟨⟨calls, hl⟩, _⟩ := UpdateAvailabilities_preserves _ _ _ _ _ _ hup
            simp only [hup, Option.some.injEq, Prod.mk.injEq] at h
            obtain ⟨rfl, hs, _⟩ := h
            refine ⟨by rw [hl], by rw [hl], ?_⟩
            rw [← hs]
            split <;> exact hc
  | kPresentationUrlAvailabilityEvent decoded event =>
    cases decoded with
    | parserEOF => exact same h
    | failure => exact same h
    | consumed bytes =>
      simp only [OnStreamMessage] at h
      cases hw : StdMap.find self.watch_by_id event.watch_id with
      | none =>
        simp only [hw] at h
        exact same h
      | some watch =>
        simp only [hw] at h
        cases hup : UpdateAvailabilities listener self event.urls
            event.url_availabilities with
        | none => simp [hup] at h
        | some updated =>
          obtain ⟨l₁, s₁⟩ := updated
          have hc := UpdateAvailabilities_cached _ _ _ _ _ _ hup hinv
          obtain ⟨⟨calls, hl⟩, _⟩ := UpdateAvailabilities_preserves _ _ _ _ _ _ hup
          simp only [hup, Option.some.injEq, Prod.mk.injEq] at h
          obtain ⟨rfl, rfl, _⟩ := h
          exact ⟨by rw [hl], by rw [hl], hc⟩

section
variable (encode : PresentationUrlAvailabilityRequest → Bool)

/-- The method `AddObserver` keeps every cached url a key of the observer
table. -/
theorem CachedUrlsAreKeys.AddObserver {self : UrlAvailabilityRequester}
    (h : CachedUrlsAreKeys self) (urls : List String) (observer : Observer) :
    CachedUrlsAreKeys (UrlAvailabilityRequester.AddObserver encode self urls observer) := by
  unfold UrlAvailabilityRequester.AddObserver
  refine CachedUrlsAreKeys.onEach_cached
    (fun l r => GetOrRequesetAvailabilities_step encode l r urls (some observer)) ?_
  intro entry he url hu
  exact pushObserver_keys observer urls _ url (h entry he url hu)

/-- The method `RemoveObserver` keeps every cached url a key of the observer
table: it erases no entry. -/
theorem CachedUrlsAreKeys.RemoveObserver {self : UrlAvailabilityRequester}
    (h : CachedUrlsAreKeys self) (observer : Observer) :
    CachedUrlsAreKeys (UrlAvailabilityRequester.RemoveObserver encode self observer) := by
  rw [RemoveObserver_eq]
  refine CachedUrlsAreKeys.onEach_cached
    (fun l r => ⟨(removeUnobserved_step encode l r _).1,
      (removeUnobserved_step encode l r _).2.2⟩) ?_
  intro entry he url hu
  exact (removeObserverScan_keys observer url _ _).mpr (h entry he url hu)

/-- The method `RemoveObserverUrls` keeps every cached url a key of the
observer table. -/
theorem CachedUrlsAreKeys.RemoveObserverUrls {self self' : UrlAvailabilityRequester}
    (h : CachedUrlsAreKeys self) (urls : List String) (observer : Observer)
    (hs : UrlAvailabilityRequester.RemoveObserverUrls encode self urls observer = some self') :
    CachedUrlsAreKeys self' := by
  rw [RemoveObserverUrls_eq] at hs
  cases hscan : removeUrlsScan observer urls self [] with
  | none => simp [hscan] at hs
  | some scan =>
    obtain ⟨s₁, unobserved⟩ := scan
    simp only [hscan, Option.map_some', Option.some.injEq] at hs
    rw [← hs]
    exact CachedUrlsAreKeys.onEach_cached
      (fun l r => ⟨(removeUnobserved_step encode l r _).1,
        (removeUnobserved_step encode l r _).2.2⟩)
      (removeUrlsScan_cached observer urls _ _ _ _ hscan h)

/-- The method `AddReceiver` keeps every cached url a key of the observer
table. -/
theorem CachedUrlsAreKeys.AddReceiver {self : UrlAvailabilityRequester}
    (h : CachedUrlsAreKeys self) (info : ServiceInfo) (first_request_id first_watch_id : Nat) :
    CachedUrlsAreKeys
      (UrlAvailabilityRequester.AddReceiver encode self info first_request_id
        first_watch_id) := by
  have hstep := RequestUrlAvailabilities_step encode
    { self with
      receiver_by_service_id_ :=
        (StdMap.emplace self.receiver_by_service_id_ info.service_id
          (ReceiverRequester.create info.service_id first_request_id first_watch_id)).map }
    (StdMap.emplace self.receiver_by_service_id_ info.service_id
      (ReceiverRequester.create info.service_id first_request_id first_watch_id)).entry
    (StdMap.keys self.observers_by_url_)
  simp only [UrlAvailabilityRequester.AddReceiver]
  generalize RequestUrlAvailabilities encode
    { self with
      receiver_by_service_id_ :=
        (StdMap.emplace self.receiver_by_service_id_ info.service_id
          (ReceiverRequester.create info.service_id first_request_id first_watch_id)).map }
    (StdMap.emplace self.receiver_by_service_id_ info.service_id
      (ReceiverRequester.create info.service_id first_request_id first_watch_id)).entry
    (StdMap.keys self.observers_by_url_) = res at hstep ⊢
  obtain ⟨l', r'⟩ := res
  obtain ⟨hl, _, hr⟩ := hstep
  have hem := StdMap.forall_emplace
    (C := fun r : ReceiverRequester => ∀ url,
      StdMap.find r.known_availability_by_url url ≠ none →
        StdMap.find l'.observers_by_url_ url ≠ none)
    self.receiver_by_service_id_ info.service_id
    (ReceiverRequester.create info.service_id first_request_id first_watch_id)
    (fun entry he url hu => hl.observers.find_ne_none (h entry he url hu))
    (fun url hu => absurd rfl hu)
  intro entry he
  simp only at he ⊢
  rw [hl.receivers] at he
  refine StdMap.forall_assign
    (C := fun r : ReceiverRequester => ∀ url,
      StdMap.find r.known_availability_by_url url ≠ none →
        StdMap.find l'.observers_by_url_ url ≠ none)
    _ _ _ hem.1 ?_ entry he
  intro url hu
  rw [hr.cache] at hu
  exact hem.2 url hu

/-- The coordinator's `RemoveReceiver` keeps every cached url a key of the
observer table. -/
theorem CachedUrlsAreKeys.RemoveReceiver {self : UrlAvailabilityRequester}
    (h : CachedUrlsAreKeys self) (info : ServiceInfo) :
    CachedUrlsAreKeys (UrlAvailabilityRequester.RemoveReceiver self info) := by
  unfold UrlAvailabilityRequester.RemoveReceiver
  cases hf : StdMap.find self.receiver_by_service_id_ info.service_id with
  | none => exact h
  | some receiver =>
    simp only
    intro entry he url hu
    simp only [ReceiverRequester.RemoveReceiver] at he ⊢
    rw [(removeReceiverScan_frame _ _ _).2.1] at he
    exact (removeReceiverScan_observers _ _ _).find_ne_none
      (h entry (List.mem_of_mem_filter he) url hu)

/-- The coordinator's `RefreshWatches` keeps every cached url a key of the
observer table. -/
theorem CachedUrlsAreKeys.RefreshWatches {self : UrlAvailabilityRequester}
    (h : CachedUrlsAreKeys self) :
    CachedUrlsAreKeys (UrlAvailabilityRequester.RefreshWatches encode self).1 := by
  rw [RefreshWatches_fst_eq]
  exact CachedUrlsAreKeys.onEach_cached
    (fun l r => ⟨(RefreshWatches_step encode l r self.clock_).1,
      (RefreshWatches_step encode l r self.clock_).2.2⟩) h

/-- An opened connection keeps every cached url a key of the observer
table. -/
theorem CachedUrlsAreKeys.connectionOpened {self : UrlAvailabilityRequester}
    (h : CachedUrlsAreKeys self) (service_id : String) (request_id : Nat)
    (connection : ProtocolConnection) :
    CachedUrlsAreKeys
      (UrlAvailabilityRequester.connectionOpened encode self service_id request_id
        connection) := by
  unfold UrlAvailabilityRequester.connectionOpened
  cases hf : StdMap.find self.receiver_by_service_id_ service_id with
  | none => exact h
  | some receiver =>
    have hk := OnConnectionOpened_kept encode self receiver request_id connection
    simp only
    generalize OnConnectionOpened encode self receiver request_id connection = res at hk ⊢
    obtain ⟨l', r'⟩ := res
    obtain ⟨hl, hcache, _⟩ := hk
    intro entry he
    simp only at he ⊢
    rw [hl.receivers] at he
    refine StdMap.forall_assign
      (C := fun r : ReceiverRequester => ∀ url,
        StdMap.find r.known_availability_by_url url ≠ none →
          StdMap.find l'.observers_by_url_ url ≠ none)
      _ _ _ (fun e hm url hu => hl.observers.find_ne_none (h e hm url hu)) ?_ entry he
    intro url hu
    simp only at hcache
    rw [hcache] at hu
    exact hl.observers.find_ne_none
      (h _ (StdMap.mem_of_find _ _ _ hf) url hu)

end

/-- A failed connection keeps every cached url a key of the observer table. -/
theorem CachedUrlsAreKeys.connectionFailed {self : UrlAvailabilityRequester}
    (h : CachedUrlsAreKeys self) (service_id : String) (request_id : Nat) :
    CachedUrlsAreKeys
      (UrlAvailabilityRequester.connectionFailed self service_id request_id) := by
  unfold UrlAvailabilityRequester.connectionFailed
  cases hf : StdMap.find self.receiver_by_service_id_ service_id with
  | none => exact h
  | some receiver =>
    simp only [OnConnectionFailed]
    intro entry he url hu
    simp only at he ⊢
    rw [(failUrls_frame _ _ _).2] at he
    exact (failUrls_observers _ _ _).find_ne_none
      (h entry (List.mem_of_mem_filter he) url hu)

/-- A handled message keeps every cached url a key of the observer table. -/
theorem CachedUrlsAreKeys.streamMessage {self self' : UrlAvailabilityRequester}
    (h : CachedUrlsAreKeys self) (service_id : String) (endpoint_id connection_id : Nat)
    (message : StreamMessage) (result : Except ErrorCode Nat)
    (hs : UrlAvailabilityRequester.streamMessage self service_id endpoint_id connection_id
      message = some (self', result)) :
    CachedUrlsAreKeys self' := by
  unfold UrlAvailabilityRequester.streamMessage at hs
  cases hf : StdMap.find self.receiver_by_service_id_ service_id with
  | none => simp [hf] at hs
  | some receiver =>
    simp only [hf] at hs
    cases hm : OnStreamMessage self receiver endpoint_id connection_id message with
    | none => simp [hm] at hs
    | some res =>
      obtain ⟨l', r', result'⟩ := res
      have hc := OnStreamMessage_cached _ _ _ _ _ _ _ _ hm
        (h _ (StdMap.mem_of_find _ _ _ hf))
      simp only [hm, Option.some.injEq, Prod.mk.injEq] at hs
      rw [← hs.1]
      intro entry he
      simp only at he ⊢
      rw [hc.2.1] at he
      rw [hc.1]
      exact StdMap.forall_assign
        (C := fun r : ReceiverRequester => ∀ url,
          StdMap.find r.known_availability_by_url url ≠ none →
            StdMap.find self.observers_by_url_ url ≠ none)
        _ _ _ h hc.2.2 entry he

/-- In every reachable state every cached url has an entry in the observer
table. -/
theorem Reachable.cachedUrlsAreKeys {encode : PresentationUrlAvailabilityRequest → Bool}
    {first_request_id first_watch_id : Nat} {s : UrlAvailabilityRequester}
    (h : Reachable encode first_request_id first_watch_id s) : CachedUrlsAreKeys s := by
  induction h with
  | create now => intro entry he; cases he
  | addObserver urls observer _ ih => exact ih.AddObserver encode urls observer
  | removeObserverUrls urls observer _ hs ih => exact ih.RemoveObserverUrls encode urls observer hs
  | removeObserver observer _ ih => exact ih.RemoveObserver encode observer
  | addReceiver info _ ih => exact ih.AddReceiver encode info _ _
  | changeReceiver info _ ih => exact ih
  | removeReceiver info _ ih => exact ih.RemoveReceiver info
  | removeAllReceivers _ ih => intro entry he; cases he
  | refreshWatches _ ih => exact ih.RefreshWatches encode
  | connectionOpened service_id request_id connection _ ih =>
    exact ih.connectionOpened encode service_id request_id connection
  | connectionFailed service_id request_id _ ih => exact ih.connectionFailed service_id request_id
  | streamMessage service_id endpoint_id connection_id message result _ hs ih =>
    exact ih.streamMessage service_id endpoint_id connection_id message result hs
  | advanceClock delta _ _ ih => exact ih

/-- The coordinator's `RemoveReceiver` leaves the observer table exactly as it
is when every cached url has an entry in it. -/
theorem RemoveReceiver_observers_eq (self : UrlAvailabilityRequester) (info : ServiceInfo)
    (h : CachedUrlsAreKeys self) :
    (UrlAvailabilityRequester.RemoveReceiver self info).observers_by_url_ =
      self.observers_by_url_ := by
  unfold UrlAvailabilityRequester.RemoveReceiver
  cases hf : StdMap.find self.receiver_by_service_id_ info.service_id with
  | none => rfl
  | some receiver =>
    simp only [ReceiverRequester.RemoveReceiver]
    exact removeReceiverScan_observers_eq _ _ _ (fun entry he =>
      h _ (StdMap.mem_of_find _ _ _ hf) entry.1
        (StdMap.find_ne_none_of_mem _ entry he))

/-- The method `AddReceiver` leaves the observer table exactly as it is. -/
theorem AddReceiver_observers_eq (encode : PresentationUrlAvailabilityRequest → Bool)
    (self : UrlAvailabilityRequester) (info : ServiceInfo)
    (first_request_id first_watch_id : Nat) :
    (UrlAvailabilityRequester.AddReceiver encode self info first_request_id
      first_watch_id).observers_by_url_ = self.observers_by_url_ := by
  have h := RequestUrlAvailabilities_observers_eq encode
    { self with
      receiver_by_service_id_ :=
        (StdMap.emplace self.receiver_by_service_id_ info.service_id
          (ReceiverRequester.create info.service_id first_request_id first_watch_id)).map }
    (StdMap.emplace self.receiver_by_service_id_ info.service_id
      (ReceiverRequester.create info.service_id first_request_id first_watch_id)).entry
    (StdMap.keys self.observers_by_url_)
    (fun url hu => StdMap.find_ne_none_of_mem_keys _ url hu)
  simp only [UrlAvailabilityRequester.AddReceiver]
  exact h

/-- C18. In every reachable coordinator state `AddReceiver(info)` followed by
`RemoveReceiver(info)` leaves `observers_by_url_` exactly as it was, and so
does `RemoveReceiver(info)` alone, whatever the requester has cached. -/
theorem AddReceiver_RemoveReceiver_observers
    (encode : PresentationUrlAvailabilityRequest → Bool)
    (first_request_id first_watch_id : Nat) (self : UrlAvailabilityRequester)
    (info : ServiceInfo)
    (h : Reachable encode first_request_id first_watch_id self) :
    (UrlAvailabilityRequester.RemoveReceiver
        (UrlAvailabilityRequester.AddReceiver encode self info first_request_id
          first_watch_id) info).observers_by_url_ = self.observers_by_url_ ∧
      (UrlAvailabilityRequester.RemoveReceiver self info).observers_by_url_ =
        self.observers_by_url_ := by
  refine ⟨?_, RemoveReceiver_observers_eq self info h.cachedUrlsAreKeys⟩
  rw [RemoveReceiver_observers_eq _ info (h.addReceiver info).cachedUrlsAreKeys]
  exact AddReceiver_observers_eq encode self info _ _

/-- The state `Example.requested` is reachable. -/
theorem Example.requested_reachable : Reachable Example.encodeAll 1 1 Example.requested :=
  .addObserver _ _ (.connectionOpened _ _ _ (.addReceiver _ (.create _)))

/-- The state `Example.answered` is reachable. -/
theorem Example.answered_reachable : Reachable Example.encodeAll 1 1 Example.answered :=
  .streamMessage _ _ _ _ _ Example.requested_reachable Example.answered_reached

/-- C18 at the answered state of the unit tests, whose requester caches
`"u"` as compatible. -/
theorem AddReceiver_RemoveReceiver_observers_witness :
    Reachable Example.encodeAll 1 1 Example.answered ∧
      Example.answered.observers_by_url_ = [("u", [7])] ∧
      (UrlAvailabilityRequester.RemoveReceiver
          (UrlAvailabilityRequester.AddReceiver Example.encodeAll Example.answered
            Example.info1 1 1) Example.info1).observers_by_url_ =
        Example.answered.observers_by_url_ ∧
      (UrlAvailabilityRequester.RemoveReceiver Example.answered
          Example.info1).observers_by_url_ = Example.answered.observers_by_url_ :=
  ⟨Example.answered_reachable, rfl,
    AddReceiver_RemoveReceiver_observers Example.encodeAll 1 1 Example.answered
      Example.info1 Example.answered_reachable⟩

/-- The calls `GetOrRequesetAvailabilities` makes for cached urls are edges. -/
theorem scanRequested_edges (self : ReceiverRequester) (observer : Option Observer)
    (urls : List String) :
    (scanRequested self observer urls).1.filter ObserverCall.isEdge =
      (scanRequested self observer urls).1 := by
  rw [List.filter_eq_self]
  induction urls with
  | nil => intro c hc; simp [scanRequested] at hc
  | cons url urls ih =>
    intro c hc
    simp only [scanRequested] at hc
    cases hf : StdMap.find self.known_availability_by_url url with
    | none =>
      simp only [hf] at hc
      exact ih c hc
    | some availability =>
      cases observer with
      | none =>
        simp only [hf] at hc
        exact ih c hc
      | some o =>
        simp only [hf, List.mem_append] at hc
        rcases hc with hc | hc
        · cases availability <;> simp [edgeCalls] at hc <;> subst hc <;> rfl
        · exact ih c hc

/-- No call is made for urls that are not cached. -/
theorem scanRequested_uncached (self : ReceiverRequester) (observer : Option Observer)
    (urls : List String)
    (h : ∀ url ∈ urls, StdMap.find self.known_availability_by_url url = none) :
    (scanRequested self observer urls).1 = [] := by
  induction urls with
  | nil => rfl
  | cons url urls ih =>
    simp only [scanRequested]
    rw [h url (List.mem_cons_self _ _)]
    exact ih (fun u hu => h u (List.mem_cons_of_mem _ hu))

section
variable (encode : PresentationUrlAvailabilityRequest → Bool)

/-- The edges `GetOrRequesetAvailabilities` delivers are the cached ones. -/
theorem GetOrRequesetAvailabilities_edges (listener : UrlAvailabilityRequester)
    (self : ReceiverRequester) (urls : List String) (observer : Option Observer) :
    (GetOrRequesetAvailabilities encode listener self urls observer).1.calls.filter
        ObserverCall.isEdge =
      listener.calls.filter ObserverCall.isEdge ++ (scanRequested self observer urls).1 := by
  rw [GetOrRequesetAvailabilities_eq]
  have h := (RequestUrlAvailabilities_step encode
    { listener with calls := listener.calls ++ (scanRequested self observer urls).1 } self
    (urls.filter (fun url => (StdMap.find self.known_availability_by_url url).isNone))).2.1
  unfold EdgesKept at h
  rw [h, List.filter_append, scanRequested_edges]

/-- The method `AddObserver` delivers no edge when no requester caches any of
the urls. -/
theorem AddObserver_uncached (self : UrlAvailabilityRequester) (urls : List String)
    (observer : Observer)
    (h : ∀ entry ∈ self.receiver_by_service_id_, ∀ url ∈ urls,
      StdMap.find entry.2.known_availability_by_url url = none) :
    EdgesKept self (UrlAvailabilityRequester.AddObserver encode self urls observer) := by
  unfold UrlAvailabilityRequester.AddObserver
  have h1 : EdgesKept self
      { self with observers_by_url_ := pushObserver observer self.observers_by_url_ urls } :=
    rfl
  refine h1.trans_edges (onEachReceiver_edges
    (Q := fun r => ∀ url ∈ urls, StdMap.find r.known_availability_by_url url = none)
    (fun l r hq => ?_) _ h)
  unfold EdgesKept
  rw [GetOrRequesetAvailabilities_edges, scanRequested_uncached _ _ _ hq, List.append_nil]

/-- The first loop of `RemoveObserverUrls` on a url all of whose observers are
the removed one: the entry of the url is erased, and so is the url from every
cache. -/
theorem removeUrlsScan_last (self : UrlAvailabilityRequester) (u : String)
    (observer : Observer) (observers : List Observer)
    (hobs : StdMap.find self.observers_by_url_ u = some observers)
    (hall : ∀ x ∈ observers, x = observer) :
    removeUrlsScan observer [u] self [] =
      some
        ({ self with
            observers_by_url_ := StdMap.erase self.observers_by_url_ u
            receiver_by_service_id_ :=
              self.receiver_by_service_id_.map (fun entry =>
                (entry.1,
                  { entry.2 with
                    known_availability_by_url :=
                      StdMap.erase entry.2.known_availability_by_url u })) },
          [u]) := by
  have hfilter : observers.filter (fun o => decide (o ≠ observer)) = [] := by
    rw [List.filter_eq_nil_iff]
    intro x hx
    simp [hall x hx]
  simp only [removeUrlsScan, hobs, hfilter, List.isEmpty_nil, if_true]
  rfl

/-- After `RemoveObserverUrls([u], o)` in a state where every observer of `u`
is `o`: `u` has no entry, no requester caches it, and `AddObserver([u], o2)`
delivers no edge. -/
theorem RemoveObserverUrls_last (self : UrlAvailabilityRequester) (u : String)
    (observer later : Observer) (observers : List Observer)
    (hobs : StdMap.find self.observers_by_url_ u = some observers)
    (hall : ∀ x ∈ observers, x = observer) :
    ∃ self', UrlAvailabilityRequester.RemoveObserverUrls encode self [u] observer =
        some self' ∧
      StdMap.find self'.observers_by_url_ u = none ∧
      (∀ entry ∈ self'.receiver_by_service_id_,
        StdMap.find entry.2.known_availability_by_url u = none) ∧
      (UrlAvailabilityRequester.AddObserver encode self' [u] later).calls.filter
          ObserverCall.isEdge = self'.calls.filter ObserverCall.isEdge := by
  rw [RemoveObserverUrls_eq, removeUrlsScan_last self u observer observers hobs hall]
  refine ⟨_, rfl, ?_⟩
  simp only
  have hs := onEachReceiver_step (Q := fun _ => True)
    (fun l r _ => ⟨(removeUnobserved_step encode l r [u]).1,
      (removeUnobserved_step encode l r [u]).2.2⟩)
    { self with
      observers_by_url_ := StdMap.erase self.observers_by_url_ u
      receiver_by_service_id_ :=
        self.receiver_by_service_id_.map (fun entry =>
          (entry.1,
            { entry.2 with
              known_availability_by_url :=
                StdMap.erase entry.2.known_availability_by_url u })) }
    (fun _ _ => trivial)
  have hcache := forall_cache_of_kept (C := fun cache => StdMap.find cache u = none) hs.2.2
    (by
      intro entry he
      simp only [List.mem_map] at he
      obtain ⟨e₀, _, rfl⟩ := he
      exact StdMap.find_erase_self _ _)
  refine ⟨hs.2.1.find_none (by simp [StdSet.contains]) (StdMap.find_erase_self _ _), hcache, ?_⟩
  exact AddObserver_uncached encode _ [u] later (fun entry he url hu => by
    rw [List.mem_singleton.mp hu]
    exact hcache entry he)

/-- After `AddObserver([u], o)` on a state where `u` had no entry, the
observers of `u` are `[o]`. -/
theorem AddObserver_first_observer (self : UrlAvailabilityRequester) (u : String)
    (observer : Observer) (hnone : StdMap.find self.observers_by_url_ u = none) :
    StdMap.find (UrlAvailabilityRequester.AddObserver encode self [u] observer).observers_by_url_
      u = some [observer] := by
  unfold UrlAvailabilityRequester.AddObserver
  have hs := onEachReceiver_step (Q := fun _ => True)
    (fun l r _ => GetOrRequesetAvailabilities_step encode l r [u] (some observer))
    { self with observers_by_url_ := pushObserver observer self.observers_by_url_ [u] }
    (fun _ _ => trivial)
  exact hs.2.1.find_some (pushObserver_single observer _ u hnone)

/-- C11. In a state where every observer registered on `u` is `o`,
`RemoveObserverUrls([u], o)` erases the entry of `u` from `observers_by_url_`
and `u` from the cache of every requester, and a following
`AddObserver([u], o2)` delivers no edge; in particular this holds after
`AddObserver([u], o)` on a state where `u` had no entry. -/
theorem RemoveObserverUrls_only_observer (u : String) (o o2 : Observer) :
    (∀ (self : UrlAvailabilityRequester) (observers : List Observer),
      StdMap.find self.observers_by_url_ u = some observers →
      (∀ x ∈ observers, x = o) →
      ∃ self', UrlAvailabilityRequester.RemoveObserverUrls encode self [u] o = some self' ∧
        StdMap.find self'.observers_by_url_ u = none ∧
        (∀ entry ∈ self'.receiver_by_service_id_,
          StdMap.find entry.2.known_availability_by_url u = none) ∧
        (UrlAvailabilityRequester.AddObserver encode self' [u] o2).calls.filter
            ObserverCall.isEdge = self'.calls.filter ObserverCall.isEdge) ∧
    (∀ (self : UrlAvailabilityRequester),
      StdMap.find self.observers_by_url_ u = none →
      ∃ self', UrlAvailabilityRequester.RemoveObserverUrls encode
          (UrlAvailabilityRequester.AddObserver encode self [u] o) [u] o = some self' ∧
        StdMap.find self'.observers_by_url_ u = none ∧
        (∀ entry ∈ self'.receiver_by_service_id_,
          StdMap.find entry.2.known_availability_by_url u = none) ∧
        (UrlAvailabilityRequester.AddObserver encode self' [u] o2).calls.filter
            ObserverCall.isEdge = self'.calls.filter ObserverCall.isEdge) :=
  ⟨fun self observers hobs hall => RemoveObserverUrls_last encode self u o o2 observers hobs hall,
    fun self hnone =>
      RemoveObserverUrls_last encode _ u o o2 [o]
        (AddObserver_first_observer encode self u o hnone)
        (fun _ hx => List.mem_singleton.mp hx)⟩

end

/-- C11 at the answered state of the unit tests, where observer 7 is the only
observer of `"u"` and the requester caches `"u"`. -/
theorem RemoveObserverUrls_only_observer_witness :
    StdMap.find Example.answered.observers_by_url_ "u" = some [7] ∧
      (UrlAvailabilityRequester.RemoveObserverUrls Example.encodeAll Example.answered ["u"]
          7).map
        (fun s => (s.observers_by_url_,
          s.receiver_by_service_id_.map (fun entry => entry.2.known_availability_by_url))) =
        some ([], [[]]) ∧
      ∃ self', UrlAvailabilityRequester.RemoveObserverUrls Example.encodeAll Example.answered
          ["u"] 7 = some self' ∧
        StdMap.find self'.observers_by_url_ "u" = none ∧
        (∀ entry ∈ self'.receiver_by_service_id_,
          StdMap.find entry.2.known_availability_by_url "u" = none) ∧
        (UrlAvailabilityRequester.AddObserver Example.encodeAll self' ["u"] 8).calls.filter
            ObserverCall.isEdge = self'.calls.filter ObserverCall.isEdge :=
  ⟨rfl, by decide,
    (RemoveObserverUrls_only_observer Example.encodeAll "u" 7 8).1 Example.answered [7] rfl
      (fun _ hx => List.mem_singleton.mp hx)⟩

section FindLemmas

/-- Requesters related pairwise: the requester found under a key is related
to the one found under it afterwards. -/
theorem find_of_kept {T : ReceiverRequester → ReceiverRequester → Prop}
    {receivers receivers' : StdMap String ReceiverRequester}
    (h : List.Forall₂ (fun entry entry' => entry'.1 = entry.1 ∧ T entry.2 entry'.2)
      receivers receivers')
    (id : String) (r : ReceiverRequester) (hr : StdMap.find receivers id = some r) :
    ∃ r', StdMap.find receivers' id = some r' ∧ T r r' := by
  induction h with
  | nil => simp [StdMap.find] at hr
  | @cons e e' rest rest' hab _ ih =>
    obtain ⟨k, v⟩ := e
    obtain ⟨k', v'⟩ := e'
    simp only at hab
    obtain ⟨rfl, hT⟩ := hab
    simp only [StdMap.find] at hr ⊢
    by_cases hk : k' = id
    · simp only [hk, if_true, Option.some.injEq] at hr ⊢
      subst hr
      exact ⟨v', rfl, hT⟩
    · simp only [hk, if_false] at hr ⊢
      exact ih hr

/-- Lookup in a map whose values have been transformed. -/
theorem StdMap.find_map_snd {κ ν : Type} [DecidableEq κ] (g : ν → ν) (m : StdMap κ ν)
    (k : κ) :
    StdMap.find (m.map (fun entry => (entry.1, g entry.2))) k = (StdMap.find m k).map g := by
  induction m with
  | nil => rfl
  | cons e rest ih =>
    obtain ⟨k₀, v₀⟩ := e
    simp only [List.map_cons, StdMap.find]
    by_cases hk : k₀ = k
    · simp [hk]
    · simp only [hk, if_false]
      exact ih

end FindLemmas

section
variable (encode : PresentationUrlAvailabilityRequest → Bool)

/-- The edges `AddObserver` delivers are the cached ones of every requester,
in the order of the requesters. -/
theorem forEachReceiver_cached_edges (urls : List String) (observer : Option Observer)
    (receivers : StdMap String ReceiverRequester) :
    ∀ (listener : UrlAvailabilityRequester),
      (forEachReceiver
          (fun listener receiver =>
            GetOrRequesetAvailabilities encode listener receiver urls observer)
          listener receivers).1.calls.filter ObserverCall.isEdge =
        listener.calls.filter ObserverCall.isEdge ++
          receivers.flatMap (fun entry => (scanRequested entry.2 observer urls).1) := by
  induction receivers with
  | nil => intro listener; simp [forEachReceiver]
  | cons e rest ih =>
    intro listener
    obtain ⟨id, receiver⟩ := e
    simp only [forEachReceiver, List.flatMap_cons]
    rw [ih, GetOrRequesetAvailabilities_edges, List.append_assoc]

/-- The edges `AddObserver` delivers. -/
theorem AddObserver_edges (self : UrlAvailabilityRequester) (urls : List String)
    (observer : Observer) :
    (UrlAvailabilityRequester.AddObserver encode self urls observer).calls.filter
        ObserverCall.isEdge =
      self.calls.filter ObserverCall.isEdge ++
        self.receiver_by_service_id_.flatMap
          (fun entry => (scanRequested entry.2 (some observer) urls).1) := by
  simp only [UrlAvailabilityRequester.AddObserver, onEachReceiver]
  exact forEachReceiver_cached_edges encode urls (some observer) _ _

/-- The method `RemoveObserver` leaves every requester under its key with
its cache, service id and connection. -/
theorem RemoveObserver_kept (self : UrlAvailabilityRequester) (observer : Observer) :
    List.Forall₂ (fun entry entry' => entry'.1 = entry.1 ∧ RequesterKept entry.2 entry'.2)
      self.receiver_by_service_id_
      (UrlAvailabilityRequester.RemoveObserver encode self observer).receiver_by_service_id_ := by
  rw [RemoveObserver_eq]
  exact (onEachReceiver_step (Q := fun _ => True)
    (fun l r _ => ⟨(removeUnobserved_step encode l r _).1,
      (removeUnobserved_step encode l r _).2.2⟩)
    { self with
      observers_by_url_ := (removeObserverScan observer self.observers_by_url_ []).1 }
    (fun _ _ => trivial)).2.2

/-- On a requester that caches `u`, `GetOrRequesetAvailabilities([u], o)`
delivers the cached edge and requests nothing. -/
theorem GetOrRequesetAvailabilities_hit (listener : UrlAvailabilityRequester)
    (self : ReceiverRequester) (u : String) (observer : Observer)
    (availability : PresentationUrlAvailability)
    (hc : StdMap.find self.known_availability_by_url u = some availability) :
    scanRequested self (some observer) [u] =
        (edgeCalls availability [observer] u self.service_id, []) ∧
      GetOrRequesetAvailabilities encode listener self [u] (some observer) =
        ({ listener with
            calls := listener.calls ++
              edgeCalls availability [observer] u self.service_id }, self) := by
  have hs : scanRequested self (some observer) [u] =
      (edgeCalls availability [observer] u self.service_id, []) := by
    simp [scanRequested, hc]
  refine ⟨hs, ?_⟩
  simp [GetOrRequesetAvailabilities, hs]

/-- On a requester that does not cache `u`, `GetOrRequesetAvailabilities([u],
o)` is the request for `[u]`. -/
theorem GetOrRequesetAvailabilities_miss (listener : UrlAvailabilityRequester)
    (self : ReceiverRequester) (u : String) (observer : Observer)
    (hc : StdMap.find self.known_availability_by_url u = none) :
    GetOrRequesetAvailabilities encode listener self [u] (some observer) =
      RequestUrlAvailabilities encode listener self [u] := by
  have hs : scanRequested self (some observer) [u] = ([], [u]) := by
    simp [scanRequested, hc]
  simp [GetOrRequesetAvailabilities, hs]

end

section
variable (encode : PresentationUrlAvailabilityRequest → Bool)

/-- The method `RemoveObserverUrls([u], o)` in a state where every observer
of `u` is `o`: every requester is left under its key with its service id and
connection, and its cache without `u`. -/
theorem RemoveObserverUrls_last_kept (self : UrlAvailabilityRequester) (u : String)
    (observer : Observer) (observers : List Observer)
    (hobs : StdMap.find self.observers_by_url_ u = some observers)
    (hall : ∀ x ∈ observers, x = observer) :
    ∃ self', UrlAvailabilityRequester.RemoveObserverUrls encode self [u] observer =
        some self' ∧
      List.Forall₂ (fun entry entry' => entry'.1 = entry.1 ∧ RequesterKept entry.2 entry'.2)
        (self.receiver_by_service_id_.map (fun entry =>
          (entry.1,
            { entry.2 with
              known_availability_by_url :=
                StdMap.erase entry.2.known_availability_by_url u })))
        self'.receiver_by_service_id_ := by
  rw [RemoveObserverUrls_eq, removeUrlsScan_last self u observer observers hobs hall]
  refine ⟨_, rfl, ?_⟩
  exact (onEachReceiver_step (Q := fun _ => True)
    (fun l r _ => ⟨(removeUnobserved_step encode l r [u]).1,
      (removeUnobserved_step encode l r [u]).2.2⟩)
    { self with
      observers_by_url_ := StdMap.erase self.observers_by_url_ u
      receiver_by_service_id_ :=
        self.receiver_by_service_id_.map (fun entry =>
          (entry.1,
            { entry.2 with
              known_availability_by_url :=
                StdMap.erase entry.2.known_availability_by_url u })) }
    (fun _ _ => trivial)).2.2

/-- C15. Let the requester stored under `id` cache `u`, and let every
observer registered on `u` be `o`. After `RemoveObserver(o)` the requester
still caches `u` with the same availability, so that `AddObserver([u], o2)`
delivers the cached edge to `o2` and leaves the requester and the written
requests as they are. After `RemoveObserverUrls([u], o)` the requester does
not cache `u`, `AddObserver([u], o2)` delivers no edge, and on this requester
it is the request for `[u]`, which is written when the connection is open
and the encoder accepts it. -/
theorem RemoveObserver_keeps_cache_RemoveObserverUrls_evicts
    (self : UrlAvailabilityRequester) (id : String) (r : ReceiverRequester) (u : String)
    (o o2 : Observer) (observers : List Observer) (availability : PresentationUrlAvailability)
    (hr : StdMap.find self.receiver_by_service_id_ id = some r)
    (hc : StdMap.find r.known_availability_by_url u = some availability)
    (hobs : StdMap.find self.observers_by_url_ u = some observers)
    (hall : ∀ x ∈ observers, x = o) :
    (∃ r₁,
      StdMap.find
          (UrlAvailabilityRequester.RemoveObserver encode self o).receiver_by_service_id_ id =
        some r₁ ∧
      StdMap.find r₁.known_availability_by_url u = some availability ∧
      r₁.service_id = r.service_id ∧
      scanRequested r₁ (some o2) [u] = (edgeCalls availability [o2] u r.service_id, []) ∧
      (∀ listener,
        GetOrRequesetAvailabilities encode listener r₁ [u] (some o2) =
          ({ listener with
              calls := listener.calls ++ edgeCalls availability [o2] u r.service_id },
            r₁)) ∧
      (UrlAvailabilityRequester.AddObserver encode
          (UrlAvailabilityRequester.RemoveObserver encode self o) [u] o2).calls.filter
          ObserverCall.isEdge =
        (UrlAvailabilityRequester.RemoveObserver encode self o).calls.filter
            ObserverCall.isEdge ++
          (UrlAvailabilityRequester.RemoveObserver encode self
              o).receiver_by_service_id_.flatMap
            (fun entry => (scanRequested entry.2 (some o2) [u]).1)) ∧
    (∃ self' r₂,
      UrlAvailabilityRequester.RemoveObserverUrls encode self [u] o = some self' ∧
      StdMap.find self'.receiver_by_service_id_ id = some r₂ ∧
      StdMap.find r₂.known_availability_by_url u = none ∧
      r₂.service_id = r.service_id ∧
      r₂.connection = r.connection ∧
      (UrlAvailabilityRequester.AddObserver encode self' [u] o2).calls.filter
          ObserverCall.isEdge = self'.calls.filter ObserverCall.isEdge ∧
      (∀ listener,
        GetOrRequesetAvailabilities encode listener r₂ [u] (some o2) =
          RequestUrlAvailabilities encode listener r₂ [u]) ∧
      (∀ listener connection, r₂.connection = some connection →
        encode ⟨r₂.next_request_id, [u], r₂.next_watch_id⟩ = true →
        (GetOrRequesetAvailabilities encode listener r₂ [u] (some o2)).1.written =
          listener.written ++
            [⟨r.service_id, ⟨r₂.next_request_id, [u], r₂.next_watch_id⟩⟩])) := by
  constructor
  · obtain ⟨r₁, hf, hk⟩ := find_of_kept (RemoveObserver_kept encode self o) id r hr
    have hc₁ : StdMap.find r₁.known_availability_by_url u = some availability := by
      rw [hk.cache]; exact hc
    have hit := fun listener =>
      GetOrRequesetAvailabilities_hit encode listener r₁ u o2 availability hc₁
    rw [hk.service_id] at hit
    exact ⟨r₁, hf, hc₁, hk.service_id, (hit self).1, fun listener => (hit listener).2,
      AddObserver_edges encode _ [u] o2⟩
  · obtain ⟨self', hs, hkept⟩ := RemoveObserverUrls_last_kept encode self u o observers hobs hall
    obtain ⟨self'', hs', hnone, hcaches, hedges⟩ :=
      RemoveObserverUrls_last encode self u o o2 observers hobs hall
    rw [hs] at hs'
    cases hs'
    have hfind := StdMap.find_map_snd
      (fun r : ReceiverRequester =>
        { r with known_availability_by_url := StdMap.erase r.known_availability_by_url u })
      self.receiver_by_service_id_ id
    rw [hr] at hfind
    obtain ⟨r₂, hf, hk⟩ := find_of_kept hkept id _ hfind
    have hc₂ : StdMap.find r₂.known_availability_by_url u = none := by
      rw [hk.cache]; exact StdMap.find_erase_self _ _
    refine ⟨self', r₂, hs, hf, hc₂, hk.service_id, hk.connection, hedges,
      fun listener => GetOrRequesetAvailabilities_miss encode listener r₂ u o2 hc₂, ?_⟩
    intro listener connection hconn henc
    rw [GetOrRequesetAvailabilities_miss encode listener r₂ u o2 hc₂,
      RequestUrlAvailabilities_sent encode listener r₂ [u] connection (by simp) hconn henc]
    simp only
    rw [hk.service_id]

end

/-- C15 at the answered state of the unit tests: the requester `"asdf"`
caches `"u"` as compatible and observer 7 is the only observer of `"u"`. -/
theorem RemoveObserver_keeps_cache_RemoveObserverUrls_evicts_witness :
    ((UrlAvailabilityRequester.AddObserver Example.encodeAll
          (UrlAvailabilityRequester.RemoveObserver Example.encodeAll Example.answered 7)
          ["u"] 8).calls =
        (UrlAvailabilityRequester.RemoveObserver Example.encodeAll Example.answered
            7).calls ++ [.OnReceiverAvailable 8 "u" "asdf"] ∧
      (UrlAvailabilityRequester.AddObserver Example.encodeAll
          (UrlAvailabilityRequester.RemoveObserver Example.encodeAll Example.answered 7)
          ["u"] 8).written =
        (UrlAvailabilityRequester.RemoveObserver Example.encodeAll Example.answered
            7).written) ∧
      ((UrlAvailabilityRequester.RemoveObserverUrls Example.encodeAll Example.answered ["u"]
          7).map
        (fun s =>
          ((UrlAvailabilityRequester.AddObserver Example.encodeAll s ["u"] 8).calls,
            (UrlAvailabilityRequester.AddObserver Example.encodeAll s ["u"] 8).written)) =
        (UrlAvailabilityRequester.RemoveObserverUrls Example.encodeAll Example.answered ["u"]
          7).map
        (fun s =>
          (s.calls,
            s.written ++ [⟨"asdf", ⟨2, ["u"], 2⟩⟩]))) ∧
      (∃ r₁,
        StdMap.find
            (UrlAvailabilityRequester.RemoveObserver Example.encodeAll Example.answered
              7).receiver_by_service_id_ "asdf" = some r₁ ∧
          StdMap.find r₁.known_availability_by_url "u" = some .kCompatible) ∧
      ∃ self' r₂,
        UrlAvailabilityRequester.RemoveObserverUrls Example.encodeAll Example.answered ["u"]
            7 = some self' ∧
          StdMap.find self'.receiver_by_service_id_ "asdf" = some r₂ ∧
          StdMap.find r₂.known_availability_by_url "u" = none := by
  have h := RemoveObserver_keeps_cache_RemoveObserverUrls_evicts Example.encodeAll
    Example.answered "asdf" Example.answeredReceiver "u" 7 8 [7] .kCompatible rfl rfl rfl
    (fun _ hx => List.mem_singleton.mp hx)
  obtain ⟨⟨r₁, h1, h2, _⟩, ⟨self', r₂, h3, h4, h5, _⟩⟩ := h
  exact ⟨by decide, by decide, ⟨r₁, h1, h2⟩, ⟨self', r₂, h3, h4, h5⟩⟩

/-- C12. The state after `AddObserver({"u"}, 7)` and `RemoveObserver(7)` on a
new coordinator is reachable, and its `observers_by_url_` maps `"u"` to the
empty observer list: `RemoveObserver` does not erase the entry it empties. -/
theorem RemoveObserver_leaves_empty_entry :
    Reachable Example.encodeAll 1 1 Example.observerGone ∧
      Example.observerGone.observers_by_url_ = [("u", [])] :=
  ⟨.removeObserver _ (.addObserver _ _ (.create _)), by decide⟩

/-- C13. Observer 7 registered twice on `"u"`: after `RemoveObserver(7)` the
observer list of `"u"` still holds 7, and the response that arrives afterwards
is delivered to 7. -/
theorem RemoveObserver_leaves_duplicate :
    Reachable Example.encodeAll 1 1 Example.twiceAddedRemoved ∧
      (UrlAvailabilityRequester.AddObserver Example.encodeAll Example.requested ["u"]
          7).observers_by_url_ = [("u", [7, 7])] ∧
      Example.twiceAddedRemoved.observers_by_url_ = [("u", [7])] ∧
      (UrlAvailabilityRequester.streamMessage Example.twiceAddedRemoved "asdf" 3 0
          (.kPresentationUrlAvailabilityResponse (.consumed 9)
            { request_id := 1, url_availabilities := [.kCompatible] })).map
        (fun r => r.1.calls) = some [.OnReceiverAvailable 7 "u" "asdf"] :=
  ⟨.removeObserver _ (.addObserver _ _ Example.requested_reachable), by decide, by decide,
    by decide⟩

/-- C14. Two reachable states in which a requester caches `"u"` while the
observer list of `"u"` is empty: after `RemoveObserver(7)` on the answered
state the cache entry of `"u"` is still there, and after `RemoveObserver(7)` on
the requested state the response that arrives is written to the cache. -/
theorem cache_entry_without_observer :
    (Reachable Example.encodeAll 1 1 Example.answeredUnobserved ∧
      Example.answeredUnobserved.observers_by_url_ = [("u", [])] ∧
      Example.answeredUnobserved.receiver_by_service_id_.map
          (fun entry => entry.2.known_availability_by_url) = [[("u", .kCompatible)]]) ∧
    (Reachable Example.encodeAll 1 1 Example.requestedUnobserved ∧
      Example.requestedUnobserved.observers_by_url_ = [("u", [])] ∧
      Example.requestedUnobserved.receiver_by_service_id_.map
          (fun entry => entry.2.known_availability_by_url) = [[]] ∧
      (UrlAvailabilityRequester.streamMessage Example.requestedUnobserved "asdf" 3 0
          (.kPresentationUrlAvailabilityResponse (.consumed 9)
            { request_id := 1, url_availabilities := [.kCompatible] })).map
        (fun r => (r.1.observers_by_url_,
          r.1.receiver_by_service_id_.map
            (fun entry => entry.2.known_availability_by_url))) =
        some ([("u", [])], [[("u", .kCompatible)]])) :=
  ⟨⟨.removeObserver _ Example.answered_reachable, by decide, by decide⟩,
    ⟨.removeObserver _ Example.requested_reachable, by decide, by decide, by decide⟩⟩

/-- C16. One receiver, one url: observer 7 is added before `AddReceiver`, the
receiver answers `[kCompatible]` and then sends the event `[kNotCompatible]`,
and observer 8 is added afterwards. The last edge observer 7 has received is
`OnReceiverUnavailable`, the last edge observer 8 has received is
`OnReceiverAvailable`: the cache still holds `kCompatible`. -/
theorem final_edges_differ :
    Example.updatedTwice.map
        (fun s => (s.calls,
          s.receiver_by_service_id_.map (fun entry => entry.2.known_availability_by_url))) =
      some ([.OnReceiverAvailable 7 "u" "asdf", .OnReceiverUnavailable 7 "u" "asdf"],
        [[("u", .kCompatible)]]) ∧
    Example.updatedTwice.map
        (fun s => (UrlAvailabilityRequester.AddObserver Example.encodeAll s ["u"] 8).calls) =
      some [.OnReceiverAvailable 7 "u" "asdf", .OnReceiverUnavailable 7 "u" "asdf",
        .OnReceiverAvailable 8 "u" "asdf"] :=
  ⟨by decide, by decide⟩

section EntryLemmas
variable {κ ν : Type} [DecidableEq κ]

/-- What holds of every stored entry and of the assigned value under the key
holds of every entry after the assignment. -/
theorem StdMap.forall_assign_entry {C : κ → ν → Prop} (m : StdMap κ ν) (k : κ) (v : ν)
    (hm : ∀ e ∈ m, C e.1 e.2) (hv : C k v) : ∀ e ∈ StdMap.assign m k v, C e.1 e.2 := by
  intro e he
  simp only [StdMap.assign, List.mem_map] at he
  obtain ⟨e₀, he₀, rfl⟩ := he
  by_cases hk : e₀.1 = k
  · simp only [hk, if_true]
    exact hv
  · simp only [hk, if_false]
    exact hm e₀ he₀

end EntryLemmas

/-- What holds of every stored entry and of the offered value under the key
holds of every entry after `emplace` and of the value the returned iterator
points at. -/
theorem StdMap.forall_emplace_entry {κ ν : Type} [DecidableEq κ] [StdLess κ]
    {C : κ → ν → Prop} (m : StdMap κ ν) (k : κ) (v : ν)
    (hm : ∀ e ∈ m, C e.1 e.2) (hv : C k v) :
    (∀ e ∈ (StdMap.emplace m k v).map, C e.1 e.2) ∧ C k (StdMap.emplace m k v).entry := by
  unfold StdMap.emplace
  cases h : StdMap.find m k with
  | none =>
    refine ⟨fun e he => ?_, hv⟩
    rcases (StdMap.mem_insertSorted m k v e).mp he with rfl | he
    · exact hv
    · exact hm e he
  | some old => exact ⟨hm, hm (k, old) (StdMap.mem_of_find m k old h)⟩

/-- Requesters related pairwise keep being stored under their service ids. -/
theorem keys_of_kept {receivers receivers' : StdMap String ReceiverRequester}
    (h : List.Forall₂ (fun entry entry' => entry'.1 = entry.1 ∧ RequesterKept entry.2 entry'.2)
      receivers receivers')
    (hC : ∀ entry ∈ receivers, entry.2.service_id = entry.1) :
    ∀ entry ∈ receivers', entry.2.service_id = entry.1 := by
  induction h with
  | nil => intro entry he; cases he
  | cons hab _ ih =>
    intro entry he
    rcases List.mem_cons.mp he with rfl | he
    · rw [hab.2.service_id, hab.1]
      exact hC _ (List.mem_cons_self _ _)
    · exact ih (fun e hm => hC e (List.mem_cons_of_mem _ hm)) entry he

/-- Running on every requester a step that keeps what the requesters have
keeps every requester under its service id. -/
theorem KeysAreServiceIds.onEach_keys {P : String → Prop}
    {f : UrlAvailabilityRequester → ReceiverRequester →
      UrlAvailabilityRequester × ReceiverRequester}
    (hf : ∀ l r, ListenerStep P l (f l r).1 ∧ RequesterKept r (f l r).2)
    {self : UrlAvailabilityRequester} (h : KeysAreServiceIds self) :
    KeysAreServiceIds (UrlAvailabilityRequester.onEachReceiver f self) :=
  keys_of_kept
    (onEachReceiver_step (Q := fun _ => True) (fun l r _ => hf l r) self
      (fun _ _ => trivial)).2.2 h

/-- The first loop of `RemoveObserverUrls` keeps every requester under its
service id. -/
theorem removeUrlsScan_keys (observer : Observer) (urls : List String) :
    ∀ (self self' : UrlAvailabilityRequester) (unobserved unobserved' : StdSet String),
      removeUrlsScan observer urls self unobserved = some (self', unobserved') →
      KeysAreServiceIds self → KeysAreServiceIds self' := by
  induction urls with
  | nil =>
    intro self self' unobserved unobserved' h hinv
    simp only [removeUrlsScan, Option.some.injEq, Prod.mk.injEq] at h
    rw [← h.1]
    exact hinv
  | cons url urls ih =>
    intro self self' unobserved unobserved' h hinv
    simp only [removeUrlsScan] at h
    cases hf : StdMap.find self.observers_by_url_ url with
    | none => simp [hf] at h
    | some observers =>
      simp only [hf] at h
      split at h
      · refine ih _ _ _ _ h ?_
        intro entry he
        simp only [List.mem_map] at he
        obtain ⟨e₀, he₀, rfl⟩ := he
        exact hinv e₀ he₀
      · exact ih _ _ _ _ h hinv

/-- The handler `OnStreamMessage` leaves the service id of the requester and
the requester table of the coordinator. -/
theorem OnStreamMessage_service_id (listener listener' : UrlAvailabilityRequester)
    (self self' : ReceiverRequester) (endpoint_id connection_id : Nat)
    (message : StreamMessage) (result : Except ErrorCode Nat)
    (h : OnStreamMessage listener self endpoint_id connection_id message =
      some (listener', self', result)) :
    self'.service_id = self.service_id ∧
      listener'.receiver_by_service_id_ = listener.receiver_by_service_id_ := by
  have same : ∀ {res : Except ErrorCode Nat},
      some (listener, self, res) = some (listener', self', result) →
      self'.service_id = self.service_id ∧
        listener'.receiver_by_service_id_ = listener.receiver_by_service_id_ := by
    intro res h
    simp only [Option.some.injEq, Prod.mk.injEq] at h
    rw [← h.2.1, ← h.1]
    exact ⟨rfl, rfl⟩
  cases message with
  | other => exact same h
  | kPresentationUrlAvailabilityResponse decoded response =>
    cases decoded with
    | parserEOF => exact same h
    | failure => exact same h
    | consumed bytes =>
      simp only [OnStreamMessage] at h
      cases hreq : StdMap.find self.request_by_id response.request_id with
      | none =>
        simp only [hreq] at h
        exact same h
      | some request =>
        simp only [hreq] at h
        split at h
        · exact same h
        · cases hup : UpdateAvailabilities listener self request.urls
              response.url_availabilities with
          | none => simp [hup] at h
          | some updated =>
            obtain ⟨l₁, s₁⟩ := updated
            obtain ⟨⟨calls, hl₁⟩, ⟨cache, hs₁⟩⟩ :=
              UpdateAvailabilities_preserves _ _ _ _ _ _ hup
            simp only [hup, Option.some.injEq, Prod.mk.injEq] at h
            obtain ⟨hl, hs, _⟩ := h
            rw [← hs, ← hl, hs₁, hl₁]
            refine ⟨?_, rfl⟩
            split <;> rfl
  | kPresentationUrlAvailabilityEvent decoded event =>
    cases decoded with
    | parserEOF => exact same h
    | failure => exact same h
    | consumed bytes =>
      simp only [OnStreamMessage] at h
      cases hw : StdMap.find self.watch_by_id event.watch_id with
      | none =>
        simp only [hw] at h
        exact same h
      | some watch =>
        simp only [hw] at h
        cases hup : UpdateAvailabilities listener self event.urls
            event.url_availabilities with
        | none => simp [hup] at h
        | some updated =>
          obtain ⟨l₁, s₁⟩ := updated
          obtain ⟨⟨calls, hl₁⟩, ⟨cache, hs₁⟩⟩ :=
            UpdateAvailabilities_preserves _ _ _ _ _ _ hup
          simp only [hup, Option.some.injEq, Prod.mk.injEq] at h
          obtain ⟨hl, hs, _⟩ := h
          rw [← hs, ← hl, hs₁, hl₁]
          exact ⟨rfl, rfl⟩

/-- In every reachable state every requester is stored under its own service
id. -/
theorem Reachable.keysAreServiceIds {encode : PresentationUrlAvailabilityRequest → Bool}
    {first_request_id first_watch_id : Nat} {s : UrlAvailabilityRequester}
    (h : Reachable encode first_request_id first_watch_id s) : KeysAreServiceIds s := by
  induction h with
  | create now => intro entry he; cases he
  | @addObserver s urls observer _ ih =>
    unfold UrlAvailabilityRequester.AddObserver
    exact KeysAreServiceIds.onEach_keys
      (fun l r => GetOrRequesetAvailabilities_step encode l r urls (some observer)) ih
  | @removeObserverUrls s s' urls observer _ hs ih =>
    rw [RemoveObserverUrls_eq] at hs
    cases hscan : removeUrlsScan observer urls s [] with
    | none => simp [hscan] at hs
    | some scan =>
      obtain ⟨s₁, unobserved⟩ := scan
      simp only [hscan, Option.map_some', Option.some.injEq] at hs
      rw [← hs]
      exact KeysAreServiceIds.onEach_keys
        (fun l r => ⟨(removeUnobserved_step encode l r _).1,
          (removeUnobserved_step encode l r _).2.2⟩)
        (removeUrlsScan_keys observer urls _ _ _ _ hscan ih)
  | @removeObserver s observer _ ih =>
    rw [RemoveObserver_eq]
    exact KeysAreServiceIds.onEach_keys
      (fun l r => ⟨(removeUnobserved_step encode l r _).1,
        (removeUnobserved_step encode l r _).2.2⟩) ih
  | @addReceiver s info _ ih =>
    have hstep := RequestUrlAvailabilities_step encode
      { s with
        receiver_by_service_id_ :=
          (StdMap.emplace s.receiver_by_service_id_ info.service_id
            (ReceiverRequester.create info.service_id first_request_id first_watch_id)).map }
      (StdMap.emplace s.receiver_by_service_id_ info.service_id
        (ReceiverRequester.create info.service_id first_request_id first_watch_id)).entry
      (StdMap.keys s.observers_by_url_)
    simp only [UrlAvailabilityRequester.AddReceiver]
    generalize RequestUrlAvailabilities encode
      { s with
        receiver_by_service_id_ :=
          (StdMap.emplace s.receiver_by_service_id_ info.service_id
            (ReceiverRequester.create info.service_id first_request_id first_watch_id)).map }
      (StdMap.emplace s.receiver_by_service_id_ info.service_id
        (ReceiverRequester.create info.service_id first_request_id first_watch_id)).entry
      (StdMap.keys s.observers_by_url_) = res at hstep ⊢
    obtain ⟨l', r'⟩ := res
    obtain ⟨hl, _, hr⟩ := hstep
    have hem := StdMap.forall_emplace_entry
      (C := fun (k : String) (r : ReceiverRequester) => r.service_id = k)
      s.receiver_by_service_id_ info.service_id
      (ReceiverRequester.create info.service_id first_request_id first_watch_id) ih rfl
    intro entry he
    simp only at he ⊢
    rw [hl.receivers] at he
    exact StdMap.forall_assign_entry
      (C := fun (k : String) (r : ReceiverRequester) => r.service_id = k)
      _ _ _ hem.1 (hr.service_id.trans hem.2) entry he
  | changeReceiver info _ ih => exact ih
  | @removeReceiver s info _ ih =>
    unfold UrlAvailabilityRequester.RemoveReceiver
    cases hf : StdMap.find s.receiver_by_service_id_ info.service_id with
    | none => exact ih
    | some receiver =>
      simp only
      intro entry he
      simp only [ReceiverRequester.RemoveReceiver] at he
      rw [(removeReceiverScan_frame _ _ _).2.1] at he
      exact ih entry (List.mem_of_mem_filter he)
  | removeAllReceivers _ ih => intro entry he; cases he
  | @refreshWatches s _ ih =>
    rw [RefreshWatches_fst_eq]
    exact KeysAreServiceIds.onEach_keys
      (fun l r => ⟨(RefreshWatches_step encode l r s.clock_).1,
        (RefreshWatches_step encode l r s.clock_).2.2⟩) ih
  | @connectionOpened s service_id request_id connection _ ih =>
    unfold UrlAvailabilityRequester.connectionOpened
    cases hf : StdMap.find s.receiver_by_service_id_ service_id with
    | none => exact ih
    | some receiver =>
      have hk := OnConnectionOpened_kept encode s receiver request_id connection
      simp only
      generalize OnConnectionOpened encode s receiver request_id connection = res at hk ⊢
      obtain ⟨l', r'⟩ := res
      obtain ⟨hl, _, hsid⟩ := hk
      intro entry he
      simp only at he ⊢
      rw [hl.receivers] at he
      exact StdMap.forall_assign_entry
        (C := fun (k : String) (r : ReceiverRequester) => r.service_id = k)
        _ _ _ ih (hsid.trans (ih _ (StdMap.mem_of_find _ _ _ hf))) entry he
  | @connectionFailed s service_id request_id _ ih =>
    unfold UrlAvailabilityRequester.connectionFailed
    cases hf : StdMap.find s.receiver_by_service_id_ service_id with
    | none => exact ih
    | some receiver =>
      simp only [OnConnectionFailed]
      intro entry he
      simp only at he
      rw [(failUrls_frame _ _ _).2] at he
      exact ih entry (List.mem_of_mem_filter he)
  | @streamMessage s s' service_id endpoint_id connection_id message result _ hs ih =>
    unfold UrlAvailabilityRequester.streamMessage at hs
    cases hf : StdMap.find s.receiver_by_service_id_ service_id with
    | none => simp [hf] at hs
    | some receiver =>
      simp only [hf] at hs
      cases hm : OnStreamMessage s receiver endpoint_id connection_id message with
      | none => simp [hm] at hs
      | some res =>
        obtain ⟨l', r', result'⟩ := res
        have hc := OnStreamMessage_service_id _ _ _ _ _ _ _ _ hm
        simp only [hm, Option.some.injEq, Prod.mk.injEq] at hs
        rw [← hs.1]
        intro entry he
        simp only at he ⊢
        rw [hc.2] at he
        exact StdMap.forall_assign_entry
          (C := fun (k : String) (r : ReceiverRequester) => r.service_id = k)
          _ _ _ ih (hc.1.trans (ih _ (StdMap.mem_of_find _ _ _ hf))) entry he
  | advanceClock delta _ _ ih => exact ih

/-- C17 (amended). The coordinator's `RemoveReceiver(info)` on a known service
id calls `OnReceiverUnavailable(u, service_id)` on every observer registered
on `u`, once for each time the observer is in the observer list of `u`, for
each url `u` the requester caches as `kCompatible` and for no other url,
erases this requester and no other from `receiver_by_service_id_`, and leaves
the observers of every url and the written requests; the service id in the
calls is the requester's own, which in a reachable state is the id it is
stored under. On an unknown service id it changes nothing. -/
theorem RemoveReceiver_effect (self : UrlAvailabilityRequester) (info : ServiceInfo) :
    (∀ receiver,
      StdMap.find self.receiver_by_service_id_ info.service_id = some receiver →
      (UrlAvailabilityRequester.RemoveReceiver self info).calls =
          self.calls ++
            (receiver.known_availability_by_url.filter
                (fun entry => decide (entry.2 = .kCompatible))).flatMap
              (fun entry =>
                (observersOf self.observers_by_url_ entry.1).map
                  (fun o => ObserverCall.OnReceiverUnavailable o entry.1
                    receiver.service_id)) ∧
        (UrlAvailabilityRequester.RemoveReceiver self info).receiver_by_service_id_ =
          StdMap.erase self.receiver_by_service_id_ info.service_id ∧
        StdMap.find (UrlAvailabilityRequester.RemoveReceiver self info).receiver_by_service_id_
          info.service_id = none ∧
        (∀ id, id ≠ info.service_id →
          StdMap.find
              (UrlAvailabilityRequester.RemoveReceiver self info).receiver_by_service_id_ id =
            StdMap.find self.receiver_by_service_id_ id) ∧
        (∀ url,
          observersOf (UrlAvailabilityRequester.RemoveReceiver self info).observers_by_url_
              url =
            observersOf self.observers_by_url_ url) ∧
        (UrlAvailabilityRequester.RemoveReceiver self info).written = self.written) ∧
    (StdMap.find self.receiver_by_service_id_ info.service_id = none →
      UrlAvailabilityRequester.RemoveReceiver self info = self) ∧
    (∀ (encode : PresentationUrlAvailabilityRequest → Bool)
        (first_request_id first_watch_id : Nat) (receiver : ReceiverRequester),
      Reachable encode first_request_id first_watch_id self →
      StdMap.find self.receiver_by_service_id_ info.service_id = some receiver →
      receiver.service_id = info.service_id) ∧
    (∀ (url service_id : String) (observer : Observer),
      ((observersOf self.observers_by_url_ url).map
          (fun o => ObserverCall.OnReceiverUnavailable o url service_id)).count
        (ObserverCall.OnReceiverUnavailable observer url service_id) =
      (observersOf self.observers_by_url_ url).count observer) := by
  refine ⟨?_, ?_, ?_, ?_⟩
  · intro receiver hfind
    have hf := removeReceiverScan_frame receiver.service_id
      receiver.known_availability_by_url self
    have ho := removeReceiverScan_observers receiver.service_id
      receiver.known_availability_by_url self
    have hc := removeReceiverScan_calls receiver.service_id
      receiver.known_availability_by_url self
    simp only [UrlAvailabilityRequester.RemoveReceiver, hfind,
      ReceiverRequester.RemoveReceiver, hf.2.1]
    exact ⟨hc, trivial, StdMap.find_erase_self _ _,
      fun id hid => StdMap.find_erase_ne _ _ _ (Ne.symm hid),
      fun url => ho.observersOf_eq url, hf.2.2⟩
  · intro hnone
    simp [UrlAvailabilityRequester.RemoveReceiver, hnone]
  · intro encode first_request_id first_watch_id receiver hreach hfind
    exact hreach.keysAreServiceIds _ (StdMap.mem_of_find _ _ _ hfind)
  · intro url service_id observer
    exact List.count_map_of_injective _
      (fun o => ObserverCall.OnReceiverUnavailable o url service_id)
      (fun a b h => by injection h) observer

/-- C17 (amended) at the answered state of the unit tests, whose requester
`"asdf"` caches `"u"` as compatible while observer 7 is registered on `"u"`,
and at a service id that is not known. -/
theorem RemoveReceiver_effect_witness :
    (UrlAvailabilityRequester.RemoveReceiver Example.answered Example.info1).calls =
        [.OnReceiverAvailable 7 "u" "asdf", .OnReceiverUnavailable 7 "u" "asdf"] ∧
      (UrlAvailabilityRequester.RemoveReceiver Example.answered
          Example.info1).receiver_by_service_id_ = [] ∧
      UrlAvailabilityRequester.RemoveReceiver Example.answered { service_id := "other" } =
        Example.answered ∧
      Example.answeredReceiver.service_id = Example.info1.service_id :=
  ⟨((RemoveReceiver_effect Example.answered Example.info1).1 Example.answeredReceiver
      (by decide)).1,
    ((RemoveReceiver_effect Example.answered Example.info1).1 Example.answeredReceiver
      (by decide)).2.1,
    (RemoveReceiver_effect Example.answered { service_id := "other" }).2.1 (by decide),
    (RemoveReceiver_effect Example.answered Example.info1).2.2.1 Example.encodeAll 1 1
      Example.answeredReceiver Example.answered_reachable (by decide)⟩

/-- C21. A decoded response whose request id is not a key of the request
table: `OnStreamMessage` returns `kCborInvalidResponseId` and leaves the
coordinator state, with its trace of calls, and the requester state, with its
requests, watches, cache and registrations, exactly as they are. -/
theorem OnStreamMessage_unknown_response (listener : UrlAvailabilityRequester)
    (self : ReceiverRequester) (response : PresentationUrlAvailabilityResponse)
    (bytes endpoint_id connection_id : Nat)
    (hreq : StdMap.find self.request_by_id response.request_id = none) :
    OnStreamMessage listener self endpoint_id connection_id
        (.kPresentationUrlAvailabilityResponse (.consumed bytes) response) =
      some (listener, self, .error .kCborInvalidResponseId) := by
  simp only [OnStreamMessage, hreq]

/-- C21 at the answered state of the unit tests, whose request table is
empty, with a response to request 5. -/
theorem OnStreamMessage_unknown_response_witness :
    StdMap.find Example.answeredReceiver.request_by_id 5 = none ∧
      OnStreamMessage Example.answered Example.answeredReceiver 3 0
          (.kPresentationUrlAvailabilityResponse (.consumed 9)
            { request_id := 5, url_availabilities := [.kCompatible] }) =
        some (Example.answered, Example.answeredReceiver, .error .kCborInvalidResponseId) :=
  ⟨rfl, OnStreamMessage_unknown_response Example.answered Example.answeredReceiver
    { request_id := 5, url_availabilities := [.kCompatible] } 9 3 0 rfl⟩

/-- C22. A decoded response to a request of the table that carries another
number of availabilities than the request has urls: `OnStreamMessage` returns
`kCborInvalidMessage` and leaves the coordinator state, with its trace of
calls, and the requester state, with its cache and this request, exactly as
they are. -/
theorem OnStreamMessage_response_size_mismatch (listener : UrlAvailabilityRequester)
    (self : ReceiverRequester) (response : PresentationUrlAvailabilityResponse)
    (request : Request) (bytes endpoint_id connection_id : Nat)
    (hreq : StdMap.find self.request_by_id response.request_id = some request)
    (hsize : request.urls.length ≠ response.url_availabilities.length) :
    OnStreamMessage listener self endpoint_id connection_id
        (.kPresentationUrlAvailabilityResponse (.consumed bytes) response) =
      some (listener, self, .error .kCborInvalidMessage) := by
  simp [OnStreamMessage, hreq, hsize]

/-- C22 at the requested state of the unit tests: request 1 lists one url and
the response carries two availabilities. -/
theorem OnStreamMessage_response_size_mismatch_witness :
    StdMap.find Example.requestedReceiver.request_by_id 1 =
        some { watch_id := 1, urls := ["u"] } ∧
      OnStreamMessage Example.requested Example.requestedReceiver 3 0
          (.kPresentationUrlAvailabilityResponse (.consumed 9)
            { request_id := 1, url_availabilities := [.kCompatible, .kNotValid] }) =
        some (Example.requested, Example.requestedReceiver, .error .kCborInvalidMessage) :=
  ⟨rfl, OnStreamMessage_response_size_mismatch Example.requested Example.requestedReceiver
    { request_id := 1, url_availabilities := [.kCompatible, .kNotValid] }
    { watch_id := 1, urls := ["u"] } 9 3 0 rfl (by decide)⟩

/-- C23. A decoded event whose watch id is not a key of the watch table:
`OnStreamMessage` returns the bytes consumed and leaves the coordinator state,
with its trace of calls, and the requester state, with its cache, requests
and watches, exactly as they are. -/
theorem OnStreamMessage_stale_event (listener : UrlAvailabilityRequester)
    (self : ReceiverRequester) (event : PresentationUrlAvailabilityEvent)
    (bytes endpoint_id connection_id : Nat)
    (hwatch : StdMap.find self.watch_by_id event.watch_id = none) :
    OnStreamMessage listener self endpoint_id connection_id
        (.kPresentationUrlAvailabilityEvent (.consumed bytes) event) =
      some (listener, self, .ok bytes) := by
  simp only [OnStreamMessage, hwatch]

/-- C23 after observer removal: in the answered state of the unit tests
`RemoveObserver(7)` erases watch 1, and the event that then arrives on watch
1 changes nothing and returns the bytes consumed. -/
theorem OnStreamMessage_stale_event_witness :
    StdMap.find Example.answeredReceiver.watch_by_id 1 ≠ none ∧
      (Example.answeredUnobserved.receiver_by_service_id_.map
        (fun entry => entry.2.watch_by_id)) = [[]] ∧
      UrlAvailabilityRequester.streamMessage Example.answeredUnobserved "asdf" 3 0
          (.kPresentationUrlAvailabilityEvent (.consumed 9)
            { watch_id := 1, urls := ["u"], url_availabilities := [.kNotCompatible] }) =
        some (Example.answeredUnobserved, .ok 9) ∧
      OnStreamMessage Example.answered
          { Example.answeredReceiver with watch_by_id := [] } 3 0
          (.kPresentationUrlAvailabilityEvent (.consumed 9)
            { watch_id := 1, urls := ["u"], url_availabilities := [.kNotCompatible] }) =
        some (Example.answered, { Example.answeredReceiver with watch_by_id := [] }, .ok 9) :=
  ⟨by decide, by decide, rfl,
    OnStreamMessage_stale_event Example.answered
      { Example.answeredReceiver with watch_by_id := [] }
      { watch_id := 1, urls := ["u"], url_availabilities := [.kNotCompatible] } 9 3 0 rfl⟩

/-- A running minimum is at most its start value. -/
theorem foldl_min_le (xs : List Int) : ∀ (m : Int), xs.foldl min m ≤ m := by
  induction xs with
  | nil => intro m; exact le_refl m
  | cons x xs ih =>
    intro m
    exact le_trans (ih (min m x)) (min_le_left m x)

/-- A running minimum is at most every element. -/
theorem foldl_min_le_of_mem (xs : List Int) :
    ∀ (m : Int) (x : Int), x ∈ xs → xs.foldl min m ≤ x := by
  induction xs with
  | nil => intro m x hx; cases hx
  | cons y xs ih =>
    intro m x hx
    rcases List.mem_cons.mp hx with rfl | hx
    · exact le_trans (foldl_min_le xs (min m x)) (min_le_right m x)
    · exact ih (min m y) x hx

/-- A running minimum is its start value or one of the elements. -/
theorem foldl_min_mem (xs : List Int) :
    ∀ (m : Int), xs.foldl min m = m ∨ xs.foldl min m ∈ xs := by
  induction xs with
  | nil => intro m; exact Or.inl rfl
  | cons y xs ih =>
    intro m
    rcases ih (min m y) with h | h
    · rcases min_choice m y with hm | hm
      · exact Or.inl (by simp only [List.foldl_cons]; rw [h, hm])
      · exact Or.inr (by simp only [List.foldl_cons]; rw [h, hm]; exact List.mem_cons_self _ _)
    · exact Or.inr (List.mem_cons_of_mem _ h)

section
variable (encode : PresentationUrlAvailabilityRequest → Bool)

/-- The value a requester's `RefreshWatches` returns is what its scan of the
watch table leaves in `minimum_schedule_time`, whatever the coordinator
state. -/
theorem RefreshWatches_returned (listener : UrlAvailabilityRequester)
    (self : ReceiverRequester) (now : TimeDelta) :
    (ReceiverRequester.RefreshWatches encode listener self now).2.2 =
      (scanWatches now self.watch_by_id (TimeDelta.FromSeconds kWatchDurationSeconds)).2.2 := by
  simp only [ReceiverRequester.RefreshWatches]

/-- The loop of the coordinator's `RefreshWatches` lowers
`minimum_schedule_time` to the least value a requester returns. -/
theorem refreshScan_minimum (now : TimeDelta) (receivers : StdMap String ReceiverRequester) :
    ∀ (self : UrlAvailabilityRequester) (minimum : TimeDelta),
      (refreshScan encode now self receivers minimum).2.2 =
        (receivers.map (fun entry =>
          (scanWatches now entry.2.watch_by_id
            (TimeDelta.FromSeconds kWatchDurationSeconds)).2.2)).foldl min minimum := by
  induction receivers with
  | nil => intro self minimum; rfl
  | cons e rest ih =>
    intro self minimum
    obtain ⟨id, receiver⟩ := e
    simp only [refreshScan, List.map_cons, List.foldl_cons]
    rw [ih, RefreshWatches_returned, min_step]

/-- C29. The coordinator's `RefreshWatches` returns the minimum of 20 seconds
and the values its requesters return, which is at most 20 seconds; the value
a requester returns does not depend on the coordinator state handed to it. -/
theorem RefreshWatches_returns_minimum (self : UrlAvailabilityRequester) :
    (UrlAvailabilityRequester.RefreshWatches encode self).2 ≤
        TimeDelta.FromSeconds kWatchDurationSeconds ∧
      (UrlAvailabilityRequester.RefreshWatches encode self).2 =
        (self.receiver_by_service_id_.map (fun entry =>
          (ReceiverRequester.RefreshWatches encode self entry.2 self.clock_).2.2)).foldl min
          (TimeDelta.FromSeconds kWatchDurationSeconds) ∧
      ∀ (listener listener' : UrlAvailabilityRequester) (receiver : ReceiverRequester)
        (now : TimeDelta),
        (ReceiverRequester.RefreshWatches encode listener receiver now).2.2 =
          (ReceiverRequester.RefreshWatches encode listener' receiver now).2.2 := by
  have h : (UrlAvailabilityRequester.RefreshWatches encode self).2 =
      (self.receiver_by_service_id_.map (fun entry =>
        (scanWatches self.clock_ entry.2.watch_by_id
          (TimeDelta.FromSeconds kWatchDurationSeconds)).2.2)).foldl min
        (TimeDelta.FromSeconds kWatchDurationSeconds) := by
    simp only [UrlAvailabilityRequester.RefreshWatches]
    exact refreshScan_minimum encode _ _ _ _
  refine ⟨?_, ?_, ?_⟩
  · rw [h]
    exact foldl_min_le _ _
  · rw [h]
    simp only [RefreshWatches_returned]
  · intro listener listener' receiver now
    rw [RefreshWatches_returned, RefreshWatches_returned]

end

/-- C29 at the requested state of the unit tests, whose requester returns a
clock reading far above 20 seconds. -/
theorem RefreshWatches_returns_minimum_witness :
    (UrlAvailabilityRequester.RefreshWatches Example.encodeAll Example.requested).2 =
        20000000 ∧
      (UrlAvailabilityRequester.RefreshWatches Example.encodeAll Example.requested).2 ≤
        TimeDelta.FromSeconds kWatchDurationSeconds :=
  ⟨by decide, (RefreshWatches_returns_minimum Example.encodeAll Example.requested).1⟩

/-- With no unobserved url the partition keeps every url. -/
theorem PartitionUrlsBySetMembership_nil (urls : List String) :
    PartitionUrlsBySetMembership urls [] = (urls, []) := by
  simp [PartitionUrlsBySetMembership, StdSet.contains]

/-- With no unobserved url the scan of the requests changes nothing. -/
theorem scanRequests_nil (connection : Bool) (requests : StdMap Nat Request) :
    ∀ (watches : StdMap Nat Watch) (still : StdSet String),
      scanRequests [] connection requests watches still = (requests, watches, still) := by
  induction requests with
  | nil => intro watches still; rfl
  | cons e rest ih =>
    intro watches still
    obtain ⟨id, request⟩ := e
    simp [scanRequests, PartitionUrlsBySetMembership_nil, ih]

/-- With no unobserved url the scan of the watches changes nothing. -/
theorem scanUnobservedWatches_nil (watches : StdMap Nat Watch) :
    ∀ (still : StdSet String),
      scanUnobservedWatches [] watches still = (watches, still) := by
  induction watches with
  | nil => intro still; rfl
  | cons e rest ih =>
    intro still
    obtain ⟨id, watch⟩ := e
    simp [scanUnobservedWatches, PartitionUrlsBySetMembership_nil, ih]

section
variable (encode : PresentationUrlAvailabilityRequest → Bool)

/-- With no unobserved url `RemoveUnobservedRequests` only releases the
response registration when the request table is empty. -/
theorem RemoveUnobservedRequests_nil (listener : UrlAvailabilityRequester)
    (self : ReceiverRequester) :
    RemoveUnobservedRequests encode listener self [] =
      (listener,
        { self with
          response_watch :=
            if self.request_by_id.isEmpty then StopWatching self.response_watch
            else self.response_watch }) := by
  simp only [RemoveUnobservedRequests, scanRequests_nil]
  simp only [List.isEmpty_nil, Bool.not_true, Bool.false_eq_true, if_false, List.foldl_nil]
  split <;> rfl

/-- With no unobserved url `RemoveUnobservedWatches` only releases the event
registration when the watch table is empty. -/
theorem RemoveUnobservedWatches_nil (listener : UrlAvailabilityRequester)
    (self : ReceiverRequester) :
    RemoveUnobservedWatches encode listener self [] =
      (listener,
        { self with
          event_watch :=
            if self.watch_by_id.isEmpty then StopWatching self.event_watch
            else self.event_watch }) := by
  simp only [RemoveUnobservedWatches, scanUnobservedWatches_nil, RequestUrlAvailabilities,
    List.isEmpty_nil, if_true]
  split <;> rfl

end

/-- A loop over the requesters that leaves the coordinator state alone
transforms the requesters one by one. -/
theorem forEachReceiver_map (g : ReceiverRequester → ReceiverRequester)
    (f : UrlAvailabilityRequester → ReceiverRequester →
      UrlAvailabilityRequester × ReceiverRequester)
    (hf : ∀ l r, f l r = (l, g r)) (receivers : StdMap String ReceiverRequester)
    (self : UrlAvailabilityRequester) :
    forEachReceiver f self receivers =
      (self, receivers.map (fun entry => (entry.1, g entry.2))) := by
  induction receivers with
  | nil => rfl
  | cons e rest ih =>
    obtain ⟨id, receiver⟩ := e
    simp only [forEachReceiver, hf, ih, List.map_cons]

/-- The first loop of `RemoveObserverUrls` when every url keeps an observer:
it takes the observer out of the list of every url, erases no entry, touches
no requester and finds no url unobserved. -/
theorem removeUrlsScan_still_observed (observer : Observer) (urls : List String) :
    ∀ (self : UrlAvailabilityRequester) (unobserved : StdSet String),
      (∀ url ∈ urls, ∃ observers, StdMap.find self.observers_by_url_ url = some observers ∧
        ∃ x ∈ observers, x ≠ observer) →
      ∃ observers_by_url,
        removeUrlsScan observer urls self unobserved =
          some ({ self with observers_by_url_ := observers_by_url }, unobserved) ∧
        ∀ url, StdMap.find observers_by_url url =
          if url ∈ urls then
            (StdMap.find self.observers_by_url_ url).map
              (fun observers => observers.filter (fun o => decide (o ≠ observer)))
          else StdMap.find self.observers_by_url_ url := by
  induction urls with
  | nil =>
    intro self unobserved _
    exact ⟨self.observers_by_url_, rfl, fun url => by simp⟩
  | cons u urls ih =>
    intro self unobserved h
    obtain ⟨observers, hfind, x, hx, hxo⟩ := h u (List.mem_cons_self _ _)
    have hne : (observers.filter (fun o => decide (o ≠ observer))).isEmpty = false := by
      cases hf : observers.filter (fun o => decide (o ≠ observer)) with
      | nil =>
        have : x ∈ observers.filter (fun o => decide (o ≠ observer)) :=
          List.mem_filter.mpr ⟨hx, by simpa using hxo⟩
        rw [hf] at this
        cases this
      | cons _ _ => rfl
    have hnext : ∀ url ∈ urls, ∃ observers',
        StdMap.find
            (StdMap.assign self.observers_by_url_ u
              (observers.filter (fun o => decide (o ≠ observer)))) url = some observers' ∧
          ∃ y ∈ observers', y ≠ observer := by
      intro url hu
      obtain ⟨observers', hfind', y, hy, hyo⟩ := h url (List.mem_cons_of_mem _ hu)
      rw [StdMap.find_assign]
      by_cases huu : url = u
      · subst huu
        rw [if_pos rfl, hfind]
        exact ⟨_, rfl, x, List.mem_filter.mpr ⟨hx, by simpa using hxo⟩, hxo⟩
      · rw [if_neg huu]
        exact ⟨observers', hfind', y, hy, hyo⟩
    obtain ⟨table, hscan, htable⟩ := ih
      { self with
        observers_by_url_ := StdMap.assign self.observers_by_url_ u
          (observers.filter (fun o => decide (o ≠ observer))) }
      unobserved hnext
    refine ⟨table, ?_, ?_⟩
    · simp only [removeUrlsScan, hfind, hne, Bool.false_eq_true, if_false]
      exact hscan
    · intro url
      rw [htable url]
      simp only [StdMap.find_assign, List.mem_cons]
      by_cases huu : url = u
      · subst huu
        simp only [if_true, true_or, hfind, Option.map_some', List.filter_filter,
          Bool.and_self]
        split <;> rfl
      · simp only [huu, if_false, false_or]

section
variable (encode : PresentationUrlAvailabilityRequest → Bool)

/-- The method `RemoveObserverUrls` when every url keeps an observer: the
observer leaves the lists of the urls, the registrations of a requester with
an empty table are released, and nothing else changes. -/
theorem RemoveObserverUrls_kept_observed (self : UrlAvailabilityRequester)
    (urls : List String) (observer : Observer)
    (h : ∀ url ∈ urls, ∃ observers, StdMap.find self.observers_by_url_ url = some observers ∧
      ∃ x ∈ observers, x ≠ observer) :
    ∃ observers_by_url,
      UrlAvailabilityRequester.RemoveObserverUrls encode self urls observer =
        some
          { self with
            observers_by_url_ := observers_by_url
            receiver_by_service_id_ :=
              self.receiver_by_service_id_.map (fun entry =>
                (entry.1,
                  { entry.2 with
                    response_watch :=
                      if entry.2.request_by_id.isEmpty then
                        StopWatching entry.2.response_watch
                      else entry.2.response_watch
                    event_watch :=
                      if entry.2.watch_by_id.isEmpty then StopWatching entry.2.event_watch
                      else entry.2.event_watch })) } ∧
      ∀ url, StdMap.find observers_by_url url =
        if url ∈ urls then
          (StdMap.find self.observers_by_url_ url).map
            (fun observers => observers.filter (fun o => decide (o ≠ observer)))
        else StdMap.find self.observers_by_url_ url := by
  obtain ⟨table, hscan, htable⟩ := removeUrlsScan_still_observed observer urls self [] h
  refine ⟨table, ?_, htable⟩
  rw [RemoveObserverUrls_eq, hscan]
  simp only [Option.map_some', onEachReceiver, Option.some.injEq]
  rw [forEachReceiver_map
    (fun r : ReceiverRequester =>
      { r with
        response_watch :=
          if r.request_by_id.isEmpty then StopWatching r.response_watch else r.response_watch
        event_watch :=
          if r.watch_by_id.isEmpty then StopWatching r.event_watch else r.event_watch })]
  intro l r
  simp only [RemoveUnobservedRequests_nil, RemoveUnobservedWatches_nil]

end

/-- An update for one observed url: the availability is offered to the cache,
and the observers of the url get the edge when the entry is new or differs. -/
theorem UpdateAvailabilities_single (listener : UrlAvailabilityRequester)
    (self : ReceiverRequester) (u : String) (availability : PresentationUrlAvailability)
    (observers : List Observer)
    (hobs : StdMap.find listener.observers_by_url_ u = some observers) :
    UpdateAvailabilities listener self [u] [availability] =
      some
        ({ listener with
            calls := listener.calls ++
              if (StdMap.emplace self.known_availability_by_url u availability).inserted ||
                  (StdMap.emplace self.known_availability_by_url u availability).entry !=
                    availability then
                edgeCalls availability observers u self.service_id
              else [] },
          { self with
            known_availability_by_url :=
              (StdMap.emplace self.known_availability_by_url u availability).map }) := by
  simp only [UpdateAvailabilities, hobs]
  split
  · rfl
  · simp

section
variable (encode : PresentationUrlAvailabilityRequest → Bool)

/-- C30. When every url of `urls` keeps an observer other than `o`,
`RemoveObserverUrls(urls, o)` takes `o` out of the observer lists of these
urls and leaves every requester's requests, watches, cache and id counters,
the written requests and the calls as they are. An event that then arrives on
a watch of a requester for such a url `u` makes its calls on the observers of
`u` other than `o`, and `o` is not among them. -/
theorem RemoveObserverUrls_still_observed (self : UrlAvailabilityRequester)
    (urls : List String) (o : Observer)
    (h : ∀ url ∈ urls, ∃ observers, StdMap.find self.observers_by_url_ url = some observers ∧
      ∃ x ∈ observers, x ≠ o) :
    ∃ self',
      UrlAvailabilityRequester.RemoveObserverUrls encode self urls o = some self' ∧
      self'.calls = self.calls ∧
      self'.written = self.written ∧
      self'.receiver_by_service_id_.map
          (fun entry => (entry.1, entry.2.request_by_id, entry.2.watch_by_id,
            entry.2.known_availability_by_url, entry.2.next_request_id,
            entry.2.next_watch_id)) =
        self.receiver_by_service_id_.map
          (fun entry => (entry.1, entry.2.request_by_id, entry.2.watch_by_id,
            entry.2.known_availability_by_url, entry.2.next_request_id,
            entry.2.next_watch_id)) ∧
      (∀ url, StdMap.find self'.observers_by_url_ url =
        if url ∈ urls then
          (StdMap.find self.observers_by_url_ url).map
            (fun observers => observers.filter (fun x => decide (x ≠ o)))
        else StdMap.find self.observers_by_url_ url) ∧
      ∀ (service_id : String) (receiver : ReceiverRequester) (u : String)
        (observers : List Observer) (watch_id : Nat) (watch : Watch)
        (availability : PresentationUrlAvailability) (bytes endpoint_id connection_id : Nat),
        StdMap.find self.receiver_by_service_id_ service_id = some receiver →
        u ∈ urls →
        StdMap.find self.observers_by_url_ u = some observers →
        StdMap.find receiver.watch_by_id watch_id = some watch →
        o ∉ observers.filter (fun x => decide (x ≠ o)) ∧
          (UrlAvailabilityRequester.streamMessage self' service_id endpoint_id connection_id
              (.kPresentationUrlAvailabilityEvent (.consumed bytes)
                { watch_id := watch_id, urls := [u],
                  url_availabilities := [availability] })).map
            (fun r => (r.1.calls, r.2)) =
          some
            (self'.calls ++
              (if (StdMap.emplace receiver.known_availability_by_url u availability).inserted ||
                  (StdMap.emplace receiver.known_availability_by_url u availability).entry !=
                    availability then
                edgeCalls availability (observers.filter (fun x => decide (x ≠ o))) u
                  receiver.service_id
              else []),
              .ok bytes) := by
  obtain ⟨table, hrou, htable⟩ := RemoveObserverUrls_kept_observed encode self urls o h
  refine ⟨_, hrou, rfl, rfl, ?_, htable, ?_⟩
  · simp only [List.map_map]
    rfl
  · intro service_id receiver u observers watch_id watch availability bytes endpoint_id
      connection_id hreceiver hu hobs hwatch
    refine ⟨fun hmem => by simpa using (List.mem_filter.mp hmem).2, ?_⟩
    have hobs' : StdMap.find table u =
        some (observers.filter (fun x => decide (x ≠ o))) := by
      rw [htable u, if_pos hu, hobs]
      rfl
    have hfind := StdMap.find_map_snd
      (fun r : ReceiverRequester =>
        { r with
          response_watch :=
            if r.request_by_id.isEmpty then StopWatching r.response_watch else r.response_watch
          event_watch :=
            if r.watch_by_id.isEmpty then StopWatching r.event_watch else r.event_watch })
      self.receiver_by_service_id_ service_id
    rw [hreceiver] at hfind
    simp only [UrlAvailabilityRequester.streamMessage, hfind, Option.map_some',
      OnStreamMessage, hwatch]
    rw [UpdateAvailabilities_single _ _ u availability _ hobs']
    rfl

end

/-- C30 at the answered state of the unit tests with a second observer:
observers 7 and 8 are registered on `"u"`; after `RemoveObserverUrls({"u"},
7)` the event `[kNotCompatible]` on watch 1 calls observer 8 and not
observer 7. -/
theorem RemoveObserverUrls_still_observed_witness :
    Example.twoObservers.observers_by_url_ = [("u", [7, 8])] ∧
      Example.twoObservers.calls =
        [.OnReceiverAvailable 7 "u" "asdf", .OnReceiverAvailable 8 "u" "asdf"] ∧
      ((UrlAvailabilityRequester.RemoveObserverUrls Example.encodeAll Example.twoObservers
          ["u"] 7).bind
        (fun s =>
          (UrlAvailabilityRequester.streamMessage s "asdf" 3 0
            (.kPresentationUrlAvailabilityEvent (.consumed 9)
              { watch_id := 1, urls := ["u"], url_availabilities := [.kNotCompatible] })).map
            (fun r => (r.1.observers_by_url_, r.1.calls)))) =
        some ([("u", [8])],
          [.OnReceiverAvailable 7 "u" "asdf", .OnReceiverAvailable 8 "u" "asdf",
            .OnReceiverUnavailable 8 "u" "asdf"]) ∧
      ∃ self',
        UrlAvailabilityRequester.RemoveObserverUrls Example.encodeAll Example.twoObservers
            ["u"] 7 = some self' ∧
          self'.calls = Example.twoObservers.calls ∧
          self'.written = Example.twoObservers.written := by
  obtain ⟨self', h1, h2, h3, _⟩ :=
    RemoveObserverUrls_still_observed Example.encodeAll Example.twoObservers ["u"] 7
      (fun url hu => ⟨[7, 8], by rw [List.mem_singleton.mp hu]; decide, 8, by decide,
        by decide⟩)
  exact ⟨by decide, by decide, by decide, self', h1, h2, h3⟩

/-- What a loop over the requesters preserves on each requester holds of
every requester it leaves. -/
theorem forEachReceiver_forall {I : ReceiverRequester → Prop}
    {f : UrlAvailabilityRequester → ReceiverRequester →
      UrlAvailabilityRequester × ReceiverRequester}
    (hf : ∀ l r, I r → I (f l r).2) (receivers : StdMap String ReceiverRequester) :
    ∀ (self : UrlAvailabilityRequester), (∀ entry ∈ receivers, I entry.2) →
      ∀ entry ∈ (forEachReceiver f self receivers).2, I entry.2 := by
  induction receivers with
  | nil => intro self _ entry he; cases he
  | cons e rest ih =>
    intro self h entry he
    obtain ⟨id, receiver⟩ := e
    simp only [forEachReceiver] at he
    rcases List.mem_cons.mp he with rfl | he
    · exact hf _ _ (h (id, receiver) (List.mem_cons_self _ _))
    · exact ih _ (fun e' he' => h e' (List.mem_cons_of_mem _ he')) entry he

/-- What a step preserves on each requester holds of every requester after
the step has run on all of them. -/
theorem onEachReceiver_forall {I : ReceiverRequester → Prop}
    {f : UrlAvailabilityRequester → ReceiverRequester →
      UrlAvailabilityRequester × ReceiverRequester}
    (hf : ∀ l r, I r → I (f l r).2) (self : UrlAvailabilityRequester)
    (h : ∀ entry ∈ self.receiver_by_service_id_, I entry.2) :
    ∀ entry ∈ (onEachReceiver f self).receiver_by_service_id_, I entry.2 := by
  simp only [onEachReceiver]
  exact forEachReceiver_forall hf _ _ h

/-- The first loop of `RemoveObserverUrls` changes the requesters in their
caches only. -/
theorem removeUrlsScan_forall {I : ReceiverRequester → Prop}
    (hcache : ∀ r cache, I r → I { r with known_availability_by_url := cache })
    (observer : Observer) (urls : List String) :
    ∀ (self self' : UrlAvailabilityRequester) (unobserved unobserved' : StdSet String),
      removeUrlsScan observer urls self unobserved = some (self', unobserved') →
      (∀ entry ∈ self.receiver_by_service_id_, I entry.2) →
      ∀ entry ∈ self'.receiver_by_service_id_, I entry.2 := by
  induction urls with
  | nil =>
    intro self self' unobserved unobserved' h hinv
    simp only [removeUrlsScan, Option.some.injEq, Prod.mk.injEq] at h
    rw [← h.1]
    exact hinv
  | cons url urls ih =>
    intro self self' unobserved unobserved' h hinv
    simp only [removeUrlsScan] at h
    cases hf : StdMap.find self.observers_by_url_ url with
    | none => simp [hf] at h
    | some observers =>
      simp only [hf] at h
      split at h
      · refine ih _ _ _ _ h ?_
        intro entry he
        simp only [List.mem_map] at he
        obtain ⟨e₀, he₀, rfl⟩ := he
        exact hcache _ _ (hinv e₀ he₀)
      · exact ih _ _ _ _ h hinv

/-- What `OnStreamMessage` does to the requester: nothing, or it changes the
cache, or it changes the cache, erases a request and releases the response
registration when no request is left. -/
theorem OnStreamMessage_requester (listener listener' : UrlAvailabilityRequester)
    (self self' : ReceiverRequester) (endpoint_id connection_id : Nat)
    (message : StreamMessage) (result : Except ErrorCode Nat)
    (h : OnStreamMessage listener self endpoint_id connection_id message =
      some (listener', self', result)) :
    self' = self ∨
      (∃ cache, self' = { self with known_availability_by_url := cache }) ∨
      ∃ cache request_id,
        self' =
          { self with
            known_availability_by_url := cache
            request_by_id := StdMap.erase self.request_by_id request_id
            response_watch :=
              if (StdMap.erase self.request_by_id request_id).isEmpty then
                StopWatching self.response_watch
              else self.response_watch } := by
  have same : ∀ {res : Except ErrorCode Nat},
      some (listener, self, res) = some (listener', self', result) → self' = self := by
    intro res h
    simp only [Option.some.injEq, Prod.mk.injEq] at h
    exact h.2.1.symm
  cases message with
  | other => exact Or.inl (same h)
  | kPresentationUrlAvailabilityResponse decoded response =>
    cases decoded with
    | parserEOF => exact Or.inl (same h)
    | failure => exact Or.inl (same h)
    | consumed bytes =>
      simp only [OnStreamMessage] at h
      cases hreq : StdMap.find self.request_by_id response.request_id with
      | none =>
        simp only [hreq] at h
        exact Or.inl (same h)
      | some request =>
        simp only [hreq] at h
        split at h
        · exact Or.inl (same h)
        · cases hup : UpdateAvailabilities listener self request.urls
              response.url_availabilities with
          | none => simp [hup] at h
          | some updated =>
            obtain ⟨l₁, s₁⟩ := updated
            obtain ⟨_, ⟨cache, hs₁⟩⟩ := UpdateAvailabilities_preserves _ _ _ _ _ _ hup
            simp only [hup, Option.some.injEq, Prod.mk.injEq] at h
            obtain ⟨_, hs, _⟩ := h
            refine Or.inr (Or.inr ⟨cache, response.request_id, ?_⟩)
            rw [← hs, hs₁]
            split <;> rename_i hempty <;> simp only at hempty <;> simp [hempty]
  | kPresentationUrlAvailabilityEvent decoded event =>
    cases decoded with
    | parserEOF => exact Or.inl (same h)
    | failure => exact Or.inl (same h)
    | consumed bytes =>
      simp only [OnStreamMessage] at h
      cases hw : StdMap.find self.watch_by_id event.watch_id with
      | none =>
        simp only [hw] at h
        exact Or.inl (same h)
      | some watch =>
        simp only [hw] at h
        cases hup : UpdateAvailabilities listener self event.urls
            event.url_availabilities with
        | none => simp [hup] at h
        | some updated =>
          obtain ⟨l₁, s₁⟩ := updated
          obtain ⟨_, ⟨cache, hs₁⟩⟩ := UpdateAvailabilities_preserves _ _ _ _ _ _ hup
          simp only [hup, Option.some.injEq, Prod.mk.injEq] at h
          obtain ⟨_, hs, _⟩ := h
          exact Or.inr (Or.inl ⟨cache, by rw [← hs, hs₁]⟩)

/-- A property of requesters that a new requester has and that every method
of a requester and the cache eviction preserve holds of every requester of
every reachable state. -/
theorem Reachable.requester_invariant {encode : PresentationUrlAvailabilityRequest → Bool}
    {first_request_id first_watch_id : Nat} {I : ReceiverRequester → Prop}
    (hcreate : ∀ service_id,
      I (ReceiverRequester.create service_id first_request_id first_watch_id))
    (hcache : ∀ r cache, I r → I { r with known_availability_by_url := cache })
    (hrequest : ∀ l r urls, I r → I (RequestUrlAvailabilities encode l r urls).2)
    (hrefresh : ∀ l r now, I r → I (ReceiverRequester.RefreshWatches encode l r now).2.1)
    (hrequests : ∀ l r unobserved, I r → I (RemoveUnobservedRequests encode l r unobserved).2)
    (hwatches : ∀ l r unobserved, I r → I (RemoveUnobservedWatches encode l r unobserved).2)
    (hopened : ∀ l r request_id connection,
      I r → I (OnConnectionOpened encode l r request_id connection).2)
    (hmessage : ∀ l r endpoint_id connection_id message l' r' result,
      OnStreamMessage l r endpoint_id connection_id message = some (l', r', result) →
      I r → I r')
    {s : UrlAvailabilityRequester}
    (h : Reachable encode first_request_id first_watch_id s) :
    ∀ entry ∈ s.receiver_by_service_id_, I entry.2 := by
  have hremove : ∀ (unobserved : StdSet String) l r, I r →
      I (RemoveUnobservedWatches encode
        (RemoveUnobservedRequests encode l r unobserved).1
        (RemoveUnobservedRequests encode l r unobserved).2 unobserved).2 :=
    fun unobserved l r hr => hwatches _ _ _ (hrequests l r unobserved hr)
  induction h with
  | create now => intro entry he; cases he
  | @addObserver s urls observer _ ih =>
    unfold UrlAvailabilityRequester.AddObserver
    refine onEachReceiver_forall (fun l r hr => ?_) _ ih
    rw [GetOrRequesetAvailabilities_eq]
    exact hrequest _ _ _ hr
  | @removeObserverUrls s s' urls observer _ hs ih =>
    rw [RemoveObserverUrls_eq] at hs
    cases hscan : removeUrlsScan observer urls s [] with
    | none => simp [hscan] at hs
    | some scan =>
      obtain ⟨s₁, unobserved⟩ := scan
      simp only [hscan, Option.map_some', Option.some.injEq] at hs
      rw [← hs]
      exact onEachReceiver_forall (hremove unobserved) _
        (removeUrlsScan_forall hcache observer urls _ _ _ _ hscan ih)
  | @removeObserver s observer _ ih =>
    rw [RemoveObserver_eq]
    exact onEachReceiver_forall (hremove _) _ ih
  | @addReceiver s info _ ih =>
    have hstep := RequestUrlAvailabilities_step encode
      { s with
        receiver_by_service_id_ :=
          (StdMap.emplace s.receiver_by_service_id_ info.service_id
            (ReceiverRequester.create info.service_id first_request_id first_watch_id)).map }
      (StdMap.emplace s.receiver_by_service_id_ info.service_id
        (ReceiverRequester.create info.service_id first_request_id first_watch_id)).entry
      (StdMap.keys s.observers_by_url_)
    have hem := StdMap.forall_emplace (C := I)
      s.receiver_by_service_id_ info.service_id
      (ReceiverRequester.create info.service_id first_request_id first_watch_id) ih
      (hcreate _)
    have hr := hrequest
      { s with
        receiver_by_service_id_ :=
          (StdMap.emplace s.receiver_by_service_id_ info.service_id
            (ReceiverRequester.create info.service_id first_request_id first_watch_id)).map }
      (StdMap.emplace s.receiver_by_service_id_ info.service_id
        (ReceiverRequester.create info.service_id first_request_id first_watch_id)).entry
      (StdMap.keys s.observers_by_url_) hem.2
    simp only [UrlAvailabilityRequester.AddReceiver]
    intro entry he
    rw [hstep.1.receivers] at he
    exact StdMap.forall_assign (C := I) _ _ _ hem.1 hr entry he
  | changeReceiver info _ ih => exact ih
  | @removeReceiver s info _ ih =>
    unfold UrlAvailabilityRequester.RemoveReceiver
    cases hf : StdMap.find s.receiver_by_service_id_ info.service_id with
    | none => exact ih
    | some receiver =>
      simp only
      intro entry he
      simp only [ReceiverRequester.RemoveReceiver] at he
      rw [(removeReceiverScan_frame _ _ _).2.1] at he
      exact ih entry (List.mem_of_mem_filter he)
  | removeAllReceivers _ ih => intro entry he; cases he
  | @refreshWatches s _ ih =>
    rw [RefreshWatches_fst_eq]
    exact onEachReceiver_forall (fun l r hr => hrefresh l r s.clock_ hr) _ ih
  | @connectionOpened s service_id request_id connection _ ih =>
    unfold UrlAvailabilityRequester.connectionOpened
    cases hf : StdMap.find s.receiver_by_service_id_ service_id with
    | none => exact ih
    | some receiver =>
      have hk := OnConnectionOpened_kept encode s receiver request_id connection
      have ho := hopened s receiver request_id connection
        (ih _ (StdMap.mem_of_find _ _ _ hf))
      simp only
      intro entry he
      rw [hk.1.receivers] at he
      exact StdMap.forall_assign (C := I) _ _ _ ih ho entry he
  | @connectionFailed s service_id request_id _ ih =>
    unfold UrlAvailabilityRequester.connectionFailed
    cases hf : StdMap.find s.receiver_by_service_id_ service_id with
    | none => exact ih
    | some receiver =>
      simp only [OnConnectionFailed]
      intro entry he
      rw [(failUrls_frame _ _ _).2] at he
      exact ih entry (List.mem_of_mem_filter he)
  | @streamMessage s s' service_id endpoint_id connection_id message result _ hs ih =>
    unfold UrlAvailabilityRequester.streamMessage at hs
    cases hf : StdMap.find s.receiver_by_service_id_ service_id with
    | none => simp [hf] at hs
    | some receiver =>
      simp only [hf] at hs
      cases hm : OnStreamMessage s receiver endpoint_id connection_id message with
      | none => simp [hm] at hs
      | some res =>
        obtain ⟨l', r', result'⟩ := res
        have hc := OnStreamMessage_service_id _ _ _ _ _ _ _ _ hm
        have hI := hmessage _ _ _ _ _ _ _ _ hm (ih _ (StdMap.mem_of_find _ _ _ hf))
        simp only [hm, Option.some.injEq, Prod.mk.injEq] at hs
        rw [← hs.1]
        intro entry he
        simp only at he
        rw [hc.2] at he
        exact StdMap.forall_assign (C := I) _ _ _ ih hI entry he
  | advanceClock delta _ _ ih => exact ih

/-- The scan of `RemoveUnobservedRequests` keeps the keys of the request
table. -/
theorem scanRequests_keys (unobserved : StdSet String) (connection : Bool)
    (requests : StdMap Nat Request) :
    ∀ (watches : StdMap Nat Watch) (still : StdSet String),
      (scanRequests unobserved connection requests watches still).1.map Prod.fst =
        requests.map Prod.fst := by
  induction requests with
  | nil => intro watches still; rfl
  | cons e rest ih =>
    intro watches still
    obtain ⟨id, request⟩ := e
    simp only [scanRequests]
    split
    · simp only [List.map_cons, ih]
    · simp only [List.map_cons, ih]

/-- The scan of `RemoveUnobservedRequests` only erases watches. -/
theorem scanRequests_watches (unobserved : StdSet String) (connection : Bool)
    (requests : StdMap Nat Request) :
    ∀ (watches : StdMap Nat Watch) (still : StdSet String),
      List.Sublist (scanRequests unobserved connection requests watches still).2.1
        watches := by
  induction requests with
  | nil => intro watches still; exact List.Sublist.refl _
  | cons e rest ih =>
    intro watches still
    obtain ⟨id, request⟩ := e
    simp only [scanRequests]
    split
    · exact ih _ _
    · refine (ih _ _).trans ?_
      split
      · exact List.filter_sublist _
      · exact List.Sublist.refl _

/-- The scan of `RemoveUnobservedWatches` only erases watches. -/
theorem scanUnobservedWatches_sublist (unobserved : StdSet String)
    (watches : StdMap Nat Watch) :
    ∀ (still : StdSet String),
      List.Sublist (scanUnobservedWatches unobserved watches still).1 watches := by
  induction watches with
  | nil => intro still; exact List.Sublist.refl _
  | cons e rest ih =>
    intro still
    obtain ⟨id, watch⟩ := e
    simp only [scanUnobservedWatches]
    split
    · exact (ih _).cons₂ _
    · exact (ih _).cons _

/-- The scan of `RefreshWatches` only erases watches. -/
theorem scanWatches_sublist (now : TimeDelta) (watches : StdMap Nat Watch)
    (minimum : TimeDelta) :
    List.Sublist (scanWatches now watches minimum).1 watches := by
  rw [scanWatches_kept]
  exact List.filter_sublist _

section
variable (encode : PresentationUrlAvailabilityRequest → Bool)

/-- The method `RemoveUnobservedRequests` is its scan, then the request for
the urls still observed, then the release of the response registration when
no request is left. -/
theorem RemoveUnobservedRequests_eq (listener : UrlAvailabilityRequester)
    (self : ReceiverRequester) (unobserved : StdSet String) :
    RemoveUnobservedRequests encode listener self unobserved =
      ((RequestUrlAvailabilities encode listener
          { self with
            request_by_id :=
              (scanRequests unobserved self.connection.isSome self.request_by_id
                self.watch_by_id []).1
            watch_by_id :=
              (scanRequests unobserved self.connection.isSome self.request_by_id
                self.watch_by_id []).2.1 }
          (scanRequests unobserved self.connection.isSome self.request_by_id
            self.watch_by_id []).2.2).1,
        if (RequestUrlAvailabilities encode listener
            { self with
              request_by_id :=
                (scanRequests unobserved self.connection.isSome self.request_by_id
                  self.watch_by_id []).1
              watch_by_id :=
                (scanRequests unobserved self.connection.isSome self.request_by_id
                  self.watch_by_id []).2.1 }
            (scanRequests unobserved self.connection.isSome self.request_by_id
              self.watch_by_id []).2.2).2.request_by_id.isEmpty then
          { (RequestUrlAvailabilities encode listener
              { self with
                request_by_id :=
                  (scanRequests unobserved self.connection.isSome self.request_by_id
                    self.watch_by_id []).1
                watch_by_id :=
                  (scanRequests unobserved self.connection.isSome self.request_by_id
                    self.watch_by_id []).2.1 }
              (scanRequests unobserved self.connection.isSome self.request_by_id
                self.watch_by_id []).2.2).2 with
            response_watch :=
              StopWatching (RequestUrlAvailabilities encode listener
                { self with
                  request_by_id :=
                    (scanRequests unobserved self.connection.isSome self.request_by_id
                      self.watch_by_id []).1
                  watch_by_id :=
                    (scanRequests unobserved self.connection.isSome self.request_by_id
                      self.watch_by_id []).2.1 }
                (scanRequests unobserved self.connection.isSome self.request_by_id
                  self.watch_by_id []).2.2).2.response_watch }
        else
          (RequestUrlAvailabilities encode listener
            { self with
              request_by_id :=
                (scanRequests unobserved self.connection.isSome self.request_by_id
                  self.watch_by_id []).1
              watch_by_id :=
                (scanRequests unobserved self.connection.isSome self.request_by_id
                  self.watch_by_id []).2.1 }
            (scanRequests unobserved self.connection.isSome self.request_by_id
              self.watch_by_id []).2.2).2) := by
  simp only [RemoveUnobservedRequests]
  generalize scanRequests unobserved self.connection.isSome self.request_by_id
    self.watch_by_id [] = scan
  obtain ⟨requests, watches, still⟩ := scan
  simp only
  cases still with
  | nil =>
    simp only [List.isEmpty_nil, Bool.not_true, Bool.false_eq_true, if_false, List.foldl_nil,
      RequestUrlAvailabilities, if_true]
  | cons u us =>
    simp only [List.isEmpty_cons, Bool.not_false, if_true]
    cases hconn : self.connection with
    | none =>
      rw [RequestUrlAvailabilities_queued encode _ _ _ (List.cons_ne_nil _ _) rfl]
      simp only [StdMap.emplace, StdMap.find, StdMap.insertSorted, List.foldl_cons,
        List.foldl_nil]
    | some c =>
      cases henc : encode ⟨self.next_request_id, u :: us, self.next_watch_id⟩ with
      | true =>
        rw [RequestUrlAvailabilities_sent encode _ _ _ c (List.cons_ne_nil _ _) rfl
          (by simpa using henc)]
        simp only
        rw [SendRequest_ok encode _ _ _ _ (by simpa using henc)]
        simp only [StdMap.emplace, StdMap.find, StdMap.insertSorted, List.foldl_cons,
          List.foldl_nil]
      | false =>
        rw [RequestUrlAvailabilities_failed encode _ _ _ c (List.cons_ne_nil _ _) rfl
          (by simpa using henc)]
        simp only
        rw [SendRequest_error encode _ _ _ _ (by simpa using henc)]
        simp only [List.foldl_nil]

end

section
variable (encode : PresentationUrlAvailabilityRequest → Bool)

/-- What `RequestUrlAvailabilities` preserves, the loop over `new_requests`
preserves. -/
theorem requestAll_forall {I : ReceiverRequester → Prop}
    (hrequest : ∀ l r urls, I r → I (RequestUrlAvailabilities encode l r urls).2)
    (batches : List (List String)) :
    ∀ (listener : UrlAvailabilityRequester) (self : ReceiverRequester),
      I self → I (requestAll encode listener self batches).2 := by
  induction batches with
  | nil => intro listener self h; exact h
  | cons batch rest ih =>
    intro listener self h
    simp only [requestAll]
    exact ih _ _ (hrequest _ _ _ h)

/-- A property of requesters that is preserved by a change of the cache, by
`RequestUrlAvailabilities`, by erasing watches while the keys of the request
table stay, by erasing a request, and by releasing a registration whose table
is empty, is preserved by `RefreshWatches`, `RemoveUnobservedRequests`,
`RemoveUnobservedWatches` and `OnStreamMessage`. -/
theorem requester_methods_preserve {I : ReceiverRequester → Prop}
    (hcache : ∀ r cache, I r → I { r with known_availability_by_url := cache })
    (hrequest : ∀ l r urls, I r → I (RequestUrlAvailabilities encode l r urls).2)
    (hshrink : ∀ r requests watches, I r →
      requests.map Prod.fst = r.request_by_id.map Prod.fst →
      List.Sublist watches r.watch_by_id →
      I { r with request_by_id := requests, watch_by_id := watches })
    (hresponse : ∀ r, I r → r.request_by_id = [] →
      I { r with response_watch := StopWatching r.response_watch })
    (hevent : ∀ r, I r → r.watch_by_id = [] →
      I { r with event_watch := StopWatching r.event_watch })
    (herase : ∀ r request_id, I r →
      I { r with request_by_id := StdMap.erase r.request_by_id request_id }) :
    (∀ l r now, I r → I (ReceiverRequester.RefreshWatches encode l r now).2.1) ∧
      (∀ l r unobserved, I r → I (RemoveUnobservedRequests encode l r unobserved).2) ∧
      (∀ l r unobserved, I r → I (RemoveUnobservedWatches encode l r unobserved).2) ∧
      (∀ l r endpoint_id connection_id message l' r' result,
        OnStreamMessage l r endpoint_id connection_id message = some (l', r', result) →
        I r → I r') := by
  refine ⟨?_, ?_, ?_, ?_⟩
  · intro l r now h
    have hsub := scanWatches_sublist now r.watch_by_id
      (TimeDelta.FromSeconds kWatchDurationSeconds)
    simp only [ReceiverRequester.RefreshWatches]
    generalize scanWatches now r.watch_by_id (TimeDelta.FromSeconds kWatchDurationSeconds) =
      scan at hsub ⊢
    obtain ⟨kept, new_requests, m⟩ := scan
    have h1 := hshrink r r.request_by_id kept h rfl hsub
    simp only
    split
    · rename_i hk
      exact requestAll_forall encode hrequest _ _ _
        (hevent _ h1 (by simpa using hk))
    · exact requestAll_forall encode hrequest _ _ _ h1
  · intro l r unobserved h
    rw [RemoveUnobservedRequests_eq]
    have h1 := hshrink r _ _ h
      (scanRequests_keys unobserved r.connection.isSome r.request_by_id r.watch_by_id [])
      (scanRequests_watches unobserved r.connection.isSome r.request_by_id r.watch_by_id [])
    have h2 := hrequest l _
      (scanRequests unobserved r.connection.isSome r.request_by_id r.watch_by_id []).2.2 h1
    simp only
    split
    · rename_i hk
      exact hresponse _ h2 (by simpa using hk)
    · exact h2
  · intro l r unobserved h
    have hsub := scanUnobservedWatches_sublist unobserved r.watch_by_id []
    simp only [RemoveUnobservedWatches]
    generalize scanUnobservedWatches unobserved r.watch_by_id [] = scan at hsub ⊢
    obtain ⟨watches, still⟩ := scan
    have h1 := hshrink r r.request_by_id watches h rfl hsub
    have h2 := hrequest l _ still h1
    simp only
    split
    · rename_i hk
      exact hevent _ h2 (by simpa using hk)
    · exact h2
  · intro l r endpoint_id connection_id message l' r' result hm h
    rcases OnStreamMessage_requester _ _ _ _ _ _ _ _ hm with rfl | ⟨cache, rfl⟩ |
      ⟨cache, request_id, rfl⟩
    · exact h
    · exact hcache _ _ h
    · have h1 := herase _ request_id (hcache _ cache h)
      by_cases hk : (StdMap.erase r.request_by_id request_id).isEmpty = true
      · have h2 := hresponse _ h1 (by simpa using hk)
        simp only [hk, if_true]
        exact h2
      · simp only [hk, if_false]
        exact h1

end

/-- A list with the keys of a non-empty list is not empty. -/
theorem ne_nil_of_map_fst_eq {α β γ : Type} {xs : List (α × β)} {ys : List (α × γ)}
    (h : xs.map Prod.fst = ys.map Prod.fst) (hx : xs ≠ []) : ys ≠ [] := by
  intro hy
  subst hy
  cases xs with
  | nil => exact hx rfl
  | cons x xs => simp at h

/-- A list with a non-empty sublist is not empty. -/
theorem ne_nil_of_sublist {α : Type} {xs ys : List α} (h : List.Sublist xs ys)
    (hx : xs ≠ []) : ys ≠ [] := by
  intro hy
  subst hy
  exact hx (List.sublist_nil.mp h)

section
variable (encode : PresentationUrlAvailabilityRequest → Bool)

/-- The method `RequestUrlAvailabilities` keeps the registrations held: a
request recorded on an open connection was sent, and the send registers. -/
theorem RequestUrlAvailabilities_registrations (listener : UrlAvailabilityRequester)
    (self : ReceiverRequester) (urls : List String) (h : RegistrationsHeld self) :
    RegistrationsHeld (RequestUrlAvailabilities encode listener self urls).2 := by
  by_cases hne : urls = []
  · subst hne
    simpa [RequestUrlAvailabilities] using h
  · cases hconn : self.connection with
    | none =>
      rw [RequestUrlAvailabilities_queued encode _ _ _ hne hconn]
      exact ⟨fun hc => absurd hconn hc, h.2⟩
    | some c =>
      cases henc : encode ⟨self.next_request_id, urls, self.next_watch_id⟩ with
      | true =>
        rw [RequestUrlAvailabilities_sent encode _ _ _ c hne hconn henc]
        exact ⟨fun _ _ => rfl, fun _ => rfl⟩
      | false =>
        rw [RequestUrlAvailabilities_failed encode _ _ _ c hne hconn henc]
        exact h

/-- The retransmission loop: a registration held stays held, a request that
is kept was sent, and the send registers. -/
theorem resendRequests_registrations (requests : StdMap Nat Request) :
    ∀ (listener : UrlAvailabilityRequester) (self : ReceiverRequester),
      (self.watch_by_id ≠ [] → self.event_watch = true) →
      ((resendRequests encode listener self requests).2.1.watch_by_id ≠ [] →
          (resendRequests encode listener self requests).2.1.event_watch = true) ∧
        (self.response_watch = true →
          (resendRequests encode listener self requests).2.1.response_watch = true) ∧
        ((resendRequests encode listener self requests).2.2 ≠ [] →
          (resendRequests encode listener self requests).2.1.response_watch = true) := by
  induction requests with
  | nil =>
    intro listener self h
    exact ⟨h, fun hr => hr, fun hne => absurd rfl hne⟩
  | cons e rest ih =>
    intro listener self h
    obtain ⟨id, request⟩ := e
    simp only [resendRequests]
    cases henc : encode ⟨id, request.urls, self.next_watch_id⟩ with
    | true =>
      rw [SendRequest_ok encode _ _ _ _ henc]
      have h' := ih
        { listener with
          written := listener.written ++
            [⟨self.service_id, ⟨id, request.urls, self.next_watch_id⟩⟩] }
        { self with
          next_watch_id := increment64 self.next_watch_id
          watch_by_id :=
            (StdMap.emplace self.watch_by_id self.next_watch_id
              ⟨listener.clock_ + TimeDelta.FromSeconds kWatchDurationSeconds,
                request.urls⟩).map
          event_watch := true
          response_watch := true }
        (fun _ => rfl)
      exact ⟨h'.1, fun _ => h'.2.1 rfl, fun _ => h'.2.1 rfl⟩
    | false =>
      rw [SendRequest_error encode _ _ _ _ henc]
      exact ih listener { self with next_watch_id := increment64 self.next_watch_id } h

/-- The handler `OnConnectionOpened` leaves the registrations held: every
request it keeps has been sent. -/
theorem OnConnectionOpened_registrations (listener : UrlAvailabilityRequester)
    (self : ReceiverRequester) (request_id : Nat) (connection : ProtocolConnection)
    (h : RegistrationsHeld self) :
    RegistrationsHeld (OnConnectionOpened encode listener self request_id connection).2 := by
  have hloop := resendRequests_registrations encode self.request_by_id listener
    { self with
      connect_request := false
      endpoint_id := connection.endpoint_id
      connection := some connection } h.2
  simp only [OnConnectionOpened]
  generalize resendRequests encode listener
    { self with
      connect_request := false
      endpoint_id := connection.endpoint_id
      connection := some connection } self.request_by_id = res at hloop ⊢
  obtain ⟨l', s', rs⟩ := res
  exact ⟨fun _ hne => hloop.2.2 hne, hloop.1⟩

/-- C24 (amended). In every reachable state and for every requester: if the
connection is open and the request table is not empty then the response
registration is held, and if the watch table is not empty then the event
registration is held. -/
theorem registrations_held (first_request_id first_watch_id : Nat)
    (self : UrlAvailabilityRequester)
    (h : Reachable encode first_request_id first_watch_id self) :
    ∀ entry ∈ self.receiver_by_service_id_, RegistrationsHeld entry.2 := by
  have hrequest : ∀ (l : UrlAvailabilityRequester) (r : ReceiverRequester)
      (urls : List String), RegistrationsHeld r →
      RegistrationsHeld (RequestUrlAvailabilities encode l r urls).2 :=
    fun l r urls hr => RequestUrlAvailabilities_registrations encode l r urls hr
  have hcache : ∀ (r : ReceiverRequester) (cache : StdMap String PresentationUrlAvailability),
      RegistrationsHeld r → RegistrationsHeld { r with known_availability_by_url := cache } :=
    fun r cache hr => hr
  have hmethods := requester_methods_preserve encode (I := RegistrationsHeld) hcache hrequest
    (fun r requests watches hr hkeys hsub =>
      ⟨fun hc hne => hr.1 hc (ne_nil_of_map_fst_eq hkeys hne),
        fun hne => hr.2 (ne_nil_of_sublist hsub hne)⟩)
    (fun r hr hempty => ⟨fun _ hne => absurd hempty hne, hr.2⟩)
    (fun r hr hempty => ⟨hr.1, fun hne => absurd hempty hne⟩)
    (fun r request_id hr =>
      ⟨fun hc hne => hr.1 hc (ne_nil_of_sublist (List.filter_sublist _) hne), hr.2⟩)
  exact Reachable.requester_invariant (I := RegistrationsHeld)
    (fun service_id => ⟨fun hc => absurd rfl hc, fun hne => absurd rfl hne⟩)
    hcache hrequest hmethods.1 hmethods.2.1 hmethods.2.2.1
    (fun l r request_id connection hr =>
      OnConnectionOpened_registrations encode l r request_id connection hr)
    hmethods.2.2.2 h

end

/-- The state `Example.waiting` is reachable. -/
theorem Example.waiting_reachable : Reachable Example.encodeAll 1 1 Example.waiting :=
  .addObserver _ _ (.addReceiver _ (.create _))

/-- C24 as stated fails before the connection opens: in the reachable state
after `AddReceiver` and `AddObserver({"u"}, 7)` the request for `"u"` is in the
request table and the response registration is not held. -/
theorem queued_request_without_registration :
    Reachable Example.encodeAll 1 1 Example.waiting ∧
      Example.waiting.receiver_by_service_id_.map
          (fun entry => (entry.2.connection, entry.2.request_by_id, entry.2.response_watch)) =
        [(none, [(1, { watch_id := 0, urls := ["u"] })], false)] :=
  ⟨Example.waiting_reachable, by decide⟩

/-- C24 (amended) at the requested state of the unit tests, whose requester
is connected, has one request and one watch, and holds both registrations. -/
theorem registrations_held_witness :
    Example.requested.receiver_by_service_id_.map
        (fun entry => (entry.2.request_by_id.length, entry.2.watch_by_id.length,
          entry.2.response_watch, entry.2.event_watch)) = [(1, 1, true, true)] ∧
      ∀ entry ∈ Example.requested.receiver_by_service_id_, RegistrationsHeld entry.2 :=
  ⟨by decide, registrations_held Example.encodeAll 1 1 Example.requested
    Example.requested_reachable⟩

/-- The keys after an insertion are the new key and the old ones. -/
theorem StdMap.keys_insertSorted_perm {κ ν : Type} [StdLess κ] (m : StdMap κ ν) (k : κ)
    (v : ν) :
    List.Perm ((StdMap.insertSorted m k v).map Prod.fst) (k :: m.map Prod.fst) := by
  induction m with
  | nil => exact List.Perm.refl _
  | cons e rest ih =>
    obtain ⟨k₀, v₀⟩ := e
    simp only [StdMap.insertSorted]
    split
    · exact (List.Perm.cons k₀ ih).trans (List.Perm.swap k k₀ _)
    · exact List.Perm.refl _

/-- Insertion `emplace` keeps the keys distinct. -/
theorem StdMap.nodup_keys_emplace {κ ν : Type} [DecidableEq κ] [StdLess κ] (m : StdMap κ ν)
    (k : κ) (v : ν) (h : (m.map Prod.fst).Nodup) :
    ((StdMap.emplace m k v).map.map Prod.fst).Nodup := by
  unfold StdMap.emplace
  cases hf : StdMap.find m k with
  | some old => exact h
  | none =>
    refine (StdMap.keys_insertSorted_perm m k v).nodup_iff.mpr (List.nodup_cons.mpr ⟨?_, h⟩)
    intro hk
    exact StdMap.find_ne_none_of_mem_keys m k hk hf

/-- The key offered to `emplace` is found afterwards, with the value the
returned iterator points at. -/
theorem StdMap.find_emplace_self {κ ν : Type} [DecidableEq κ] [StdLess κ] (m : StdMap κ ν)
    (k : κ) (v : ν) :
    StdMap.find (StdMap.emplace m k v).map k = some (StdMap.emplace m k v).entry := by
  unfold StdMap.emplace
  cases hf : StdMap.find m k with
  | some old => exact hf
  | none => exact StdMap.find_insertSorted_self m k v hf

section
variable (encode : PresentationUrlAvailabilityRequest → Bool)

/-- The method `SendRequest` keeps the watch ids distinct. -/
theorem SendRequest_distinct (listener : UrlAvailabilityRequester) (self : ReceiverRequester)
    (request_id : Nat) (urls : List String) (h : WatchIdsDistinct self) :
    WatchIdsDistinct (SendRequest encode listener self request_id urls).2.1 := by
  cases henc : encode ⟨request_id, urls, self.next_watch_id⟩ with
  | true =>
    rw [SendRequest_ok encode _ _ _ _ henc]
    exact StdMap.nodup_keys_emplace _ _ _ h
  | false =>
    rw [SendRequest_error encode _ _ _ _ henc]
    exact h

/-- The method `RequestUrlAvailabilities` keeps the watch ids distinct. -/
theorem RequestUrlAvailabilities_distinct (listener : UrlAvailabilityRequester)
    (self : ReceiverRequester) (urls : List String) (h : WatchIdsDistinct self) :
    WatchIdsDistinct (RequestUrlAvailabilities encode listener self urls).2 := by
  by_cases hne : urls = []
  · subst hne
    simpa [RequestUrlAvailabilities] using h
  · cases hconn : self.connection with
    | none =>
      rw [RequestUrlAvailabilities_queued encode _ _ _ hne hconn]
      exact h
    | some c =>
      cases henc : encode ⟨self.next_request_id, urls, self.next_watch_id⟩ with
      | true =>
        rw [RequestUrlAvailabilities_sent encode _ _ _ c hne hconn henc]
        exact StdMap.nodup_keys_emplace _ _ _ h
      | false =>
        rw [RequestUrlAvailabilities_failed encode _ _ _ c hne hconn henc]
        exact h

/-- The retransmission loop keeps the watch ids distinct. -/
theorem resendRequests_distinct (requests : StdMap Nat Request) :
    ∀ (listener : UrlAvailabilityRequester) (self : ReceiverRequester),
      WatchIdsDistinct self →
      WatchIdsDistinct (resendRequests encode listener self requests).2.1 := by
  induction requests with
  | nil => intro listener self h; exact h
  | cons e rest ih =>
    intro listener self h
    obtain ⟨id, request⟩ := e
    have h1 := SendRequest_distinct encode listener self id request.urls h
    simp only [resendRequests]
    generalize SendRequest encode listener self id request.urls = sent at h1 ⊢
    obtain ⟨l', s', result⟩ := sent
    cases result with
    | ok watch_id => exact ih l' s' h1
    | error err => exact ih l' s' h1

/-- In every reachable state the watch table of every requester holds at
most one watch under each id. -/
theorem Reachable.watchIdsDistinct {first_request_id first_watch_id : Nat}
    {self : UrlAvailabilityRequester}
    (h : Reachable encode first_request_id first_watch_id self) :
    ∀ entry ∈ self.receiver_by_service_id_, WatchIdsDistinct entry.2 := by
  have hrequest : ∀ (l : UrlAvailabilityRequester) (r : ReceiverRequester)
      (urls : List String), WatchIdsDistinct r →
      WatchIdsDistinct (RequestUrlAvailabilities encode l r urls).2 :=
    fun l r urls hr => RequestUrlAvailabilities_distinct encode l r urls hr
  have hcache : ∀ (r : ReceiverRequester) (cache : StdMap String PresentationUrlAvailability),
      WatchIdsDistinct r → WatchIdsDistinct { r with known_availability_by_url := cache } :=
    fun r cache hr => hr
  have hmethods := requester_methods_preserve encode (I := WatchIdsDistinct) hcache hrequest
    (fun r requests watches hr hkeys hsub => List.Nodup.sublist (hsub.map Prod.fst) hr)
    (fun r hr hempty => hr)
    (fun r hr hempty => hr)
    (fun r request_id hr => hr)
  refine Reachable.requester_invariant (I := WatchIdsDistinct)
    (fun service_id => List.nodup_nil)
    hcache hrequest hmethods.1 hmethods.2.1 hmethods.2.2.1 ?_ hmethods.2.2.2 h
  intro l r request_id connection hr
  have hloop := resendRequests_distinct encode r.request_by_id l
    { r with
      connect_request := false
      endpoint_id := connection.endpoint_id
      connection := some connection } hr
  simp only [OnConnectionOpened]
  generalize resendRequests encode l
    { r with
      connect_request := false
      endpoint_id := connection.endpoint_id
      connection := some connection } r.request_by_id = res at hloop ⊢
  obtain ⟨l', s', rs⟩ := res
  exact hloop

/-- C26 (amended). In every reachable state the watch table of a requester
holds at most one watch under each id, hence at most one under the watch id
of a request. A request that a connected requester of that state sends with
ids not in use is recorded with the watch id under which the watch table
then holds the watch of its urls, with deadline 20 seconds from now. -/
theorem request_watch_correlation (first_request_id first_watch_id : Nat)
    (self : UrlAvailabilityRequester)
    (h : Reachable encode first_request_id first_watch_id self) :
    ∀ entry ∈ self.receiver_by_service_id_,
      WatchIdsDistinct entry.2 ∧
        ∀ (listener : UrlAvailabilityRequester) (urls : List String)
          (connection : ProtocolConnection),
          entry.2.connection = some connection →
          urls ≠ [] →
          encode ⟨entry.2.next_request_id, urls, entry.2.next_watch_id⟩ = true →
          StdMap.find entry.2.request_by_id entry.2.next_request_id = none →
          StdMap.find entry.2.watch_by_id entry.2.next_watch_id = none →
          StdMap.find (RequestUrlAvailabilities encode listener entry.2 urls).2.request_by_id
              entry.2.next_request_id =
            some { watch_id := entry.2.next_watch_id, urls := urls } ∧
          StdMap.find (RequestUrlAvailabilities encode listener entry.2 urls).2.watch_by_id
              entry.2.next_watch_id =
            some
              { deadline := listener.clock_ + TimeDelta.FromSeconds kWatchDurationSeconds
                urls := urls } ∧
          WatchIdsDistinct (RequestUrlAvailabilities encode listener entry.2 urls).2 := by
  intro entry he
  have hd := Reachable.watchIdsDistinct encode h entry he
  refine ⟨hd, ?_⟩
  intro listener urls connection hconn hne henc hrequest hwatch
  rw [RequestUrlAvailabilities_sent encode _ _ _ connection hne hconn henc]
  refine ⟨?_, ?_, StdMap.nodup_keys_emplace _ _ _ hd⟩
  · simp only
    rw [StdMap.find_emplace_self]
    simp [StdMap.emplace, hrequest]
  · simp only
    rw [StdMap.find_emplace_self]
    simp [StdMap.emplace, hwatch]

end

/-- The state `Example.refreshedUnanswered` is reachable. -/
theorem Example.refreshedUnanswered_reachable :
    Reachable Example.encodeAll 1 1 Example.refreshedUnanswered :=
  .refreshWatches (.advanceClock _ (by decide) Example.requested_reachable)

/-- C26 as stated fails when a watch comes due before its request is
answered: 19 seconds after the request, `RefreshWatches` erases watch 1 and
sends request 2 with watch 2, and request 1 stays in the table of the
connected requester with watch id 1, under which there is no watch. -/
theorem request_without_watch :
    Reachable Example.encodeAll 1 1 Example.refreshedUnanswered ∧
      Example.refreshedUnanswered.receiver_by_service_id_.map
          (fun entry => (entry.2.connection, entry.2.request_by_id,
            entry.2.watch_by_id.map Prod.fst)) =
        [(some { endpoint_id := 3 },
          [(1, { watch_id := 1, urls := ["u"] }), (2, { watch_id := 2, urls := ["u"] })],
          [2])] :=
  ⟨Example.refreshedUnanswered_reachable, by decide⟩

/-- C26 (amended) at the answered state of the unit tests, whose connected
requester sends the request for `"v"` under the ids 2 and 2. -/
theorem request_watch_correlation_witness :
    Example.answered.receiver_by_service_id_ = [("asdf", Example.answeredReceiver)] ∧
      WatchIdsDistinct Example.answeredReceiver ∧
      StdMap.find
          (RequestUrlAvailabilities Example.encodeAll Example.answered
            Example.answeredReceiver ["v"]).2.request_by_id 2 =
        some { watch_id := 2, urls := ["v"] } ∧
      StdMap.find
          (RequestUrlAvailabilities Example.encodeAll Example.answered
            Example.answeredReceiver ["v"]).2.watch_by_id 2 =
        some { deadline := 213509000000, urls := ["v"] } := by
  have h := request_watch_correlation Example.encodeAll 1 1 Example.answered
    Example.answered_reachable ("asdf", Example.answeredReceiver) (by decide)
  have h2 := h.2 Example.answered ["v"] { endpoint_id := 3 } rfl (by decide) rfl
    (by decide) (by decide)
  exact ⟨rfl, h.1, h2.1, h2.2.1⟩

/-- A state reachable under a guard on `AddObserver` is reachable. -/
theorem ReachableWhen.reachable
    {guard : UrlAvailabilityRequester → List String → Observer → Prop}
    {encode : PresentationUrlAvailabilityRequest → Bool}
    {first_request_id first_watch_id : Nat} {s : UrlAvailabilityRequester}
    (h : ReachableWhen guard encode first_request_id first_watch_id s) :
    Reachable encode first_request_id first_watch_id s := by
  induction h with
  | create now => exact .create now
  | addObserver urls observer _ _ ih => exact .addObserver urls observer ih
  | removeObserverUrls urls observer _ hs ih => exact .removeObserverUrls urls observer ih hs
  | removeObserver observer _ ih => exact .removeObserver observer ih
  | addReceiver info _ ih => exact .addReceiver info ih
  | changeReceiver info _ ih => exact .changeReceiver info ih
  | removeReceiver info _ ih => exact .removeReceiver info ih
  | removeAllReceivers _ ih => exact .removeAllReceivers ih
  | refreshWatches _ ih => exact .refreshWatches ih
  | connectionOpened service_id request_id connection _ ih =>
    exact .connectionOpened service_id request_id connection ih
  | connectionFailed service_id request_id _ ih =>
    exact .connectionFailed service_id request_id ih
  | streamMessage service_id endpoint_id connection_id message result _ hs ih =>
    exact .streamMessage service_id endpoint_id connection_id message result ih hs
  | advanceClock delta hd _ ih => exact .advanceClock delta hd ih

/-- A table extended by empty lists keeps its lists free of repetitions. -/
theorem ObserversDistinct.of_extend {P : String → Prop}
    {m m' : StdMap String (List Observer)} (hext : ObserversExtend P m m')
    (h : ObserversDistinct m) : ObserversDistinct m' := by
  intro url observers hf
  rcases hext url with he | ⟨_, _, hs⟩
  · exact h url observers (he ▸ hf)
  · rw [hs] at hf
    cases hf
    exact List.nodup_nil

/-- Registering an observer that is on none of the urls, each named once,
keeps the lists free of repetitions. -/
theorem pushObserver_distinct (observer : Observer) (urls : List String) :
    ∀ (m : StdMap String (List Observer)),
      urls.Nodup → (∀ url ∈ urls, observer ∉ observersOf m url) →
      ObserversDistinct m → ObserversDistinct (pushObserver observer m urls) := by
  induction urls with
  | nil => intro m _ _ h; exact h
  | cons u urls ih =>
    intro m hnodup hfresh h
    have hu := List.nodup_cons.mp hnodup
    have hfind : ∀ url, StdMap.find
        (StdMap.assign (StdMap.index m u []).1 u ((StdMap.index m u []).2 ++ [observer])) url =
        if url = u then some (observersOf m u ++ [observer]) else StdMap.find m url := by
      intro url
      rw [StdMap.find_assign]
      by_cases huu : url = u
      · subst huu
        rw [if_pos rfl, if_pos rfl, StdMap.find_index_self, StdMap.index_snd]
        rfl
      · rw [if_neg huu, if_neg huu, StdMap.find_index_ne _ _ _ _ (Ne.symm huu)]
    simp only [pushObserver]
    refine ih _ hu.2 ?_ ?_
    · intro url hurl
      have hne : url ≠ u := fun he => hu.1 (he ▸ hurl)
      unfold observersOf
      rw [hfind url, if_neg hne]
      exact hfresh url (List.mem_cons_of_mem _ hurl)
    · intro url observers hf
      rw [hfind url] at hf
      by_cases huu : url = u
      · rw [if_pos huu] at hf
        cases hf
        have hold : (observersOf m u).Nodup := by
          unfold observersOf
          cases hm : StdMap.find m u with
          | none => exact List.nodup_nil
          | some l => exact h u l hm
        exact List.Nodup.append hold (List.nodup_singleton _)
          (by
            intro x hx hx'
            rw [List.mem_singleton.mp hx'] at hx
            exact hfresh u (List.mem_cons_self _ _) hx)
      · rw [if_neg huu] at hf
        exact h url observers hf

/-- The first loop of `RemoveObserverUrls` keeps the lists free of
repetitions. -/
theorem removeUrlsScan_distinct (observer : Observer) (urls : List String) :
    ∀ (self self' : UrlAvailabilityRequester) (unobserved unobserved' : StdSet String),
      removeUrlsScan observer urls self unobserved = some (self', unobserved') →
      ObserversDistinct self.observers_by_url_ → ObserversDistinct self'.observers_by_url_ := by
  induction urls with
  | nil =>
    intro self self' unobserved unobserved' h hinv
    simp only [removeUrlsScan, Option.some.injEq, Prod.mk.injEq] at h
    rw [← h.1]
    exact hinv
  | cons url urls ih =>
    intro self self' unobserved unobserved' h hinv
    simp only [removeUrlsScan] at h
    cases hf : StdMap.find self.observers_by_url_ url with
    | none => simp [hf] at h
    | some observers =>
      simp only [hf] at h
      split at h
      · refine ih _ _ _ _ h ?_
        intro u l hl
        simp only at hl
        by_cases hu : url = u
        · subst hu
          rw [StdMap.find_erase_self] at hl
          cases hl
        · rw [StdMap.find_erase_ne _ _ _ hu] at hl
          exact hinv u l hl
      · refine ih _ _ _ _ h ?_
        intro u l hl
        simp only [StdMap.find_assign] at hl
        by_cases hu : u = url
        · subst hu
          rw [if_pos rfl, hf] at hl
          cases hl
          exact (hinv u observers hf).filter _
        · rw [if_neg hu] at hl
          exact hinv u l hl

/-- In a list without repetitions, what `RemoveObserver` leaves of the list is
the list without the observer. -/
theorem removed_of_nodup (observer : Observer) (observers : List Observer)
    (h : observers.Nodup) :
    observers.filter (fun o => decide (o ≠ observer)) ++
        observers.drop ((observers.filter (fun o => decide (o ≠ observer))).length + 1) =
      observers.filter (fun o => decide (o ≠ observer)) := by
  have hlen : observers.length ≤
      (observers.filter (fun o => decide (o ≠ observer))).length + 1 := by
    induction observers with
    | nil => exact Nat.zero_le _
    | cons x xs ih =>
      have hx := List.nodup_cons.mp h
      by_cases hxo : x = observer
      · subst hxo
        have hfilter : xs.filter (fun o => decide (o ≠ x)) = xs := by
          rw [List.filter_eq_self]
          intro a ha
          have : a ≠ x := fun he => hx.1 (he ▸ ha)
          exact decide_eq_true this
        have e1 : decide (x ≠ x) = false := decide_eq_false (fun hne => hne rfl)
        rw [List.filter_cons, e1]
        simp only [Bool.false_eq_true, if_false]
        rw [hfilter]
        exact le_refl _
      · have e2 : decide (x ≠ observer) = true := decide_eq_true hxo
        have := ih hx.2
        rw [List.filter_cons, e2]
        simp only [if_true, List.length_cons]
        omega
  rw [List.drop_eq_nil_of_le hlen, List.append_nil]

/-- The first loop of `RemoveObserver` changes the list of every url in the
same way and no key. -/
theorem removeObserverScan_find (observer : Observer) (url : String)
    (m : StdMap String (List Observer)) :
    ∀ (unobserved : StdSet String),
      StdMap.find (removeObserverScan observer m unobserved).1 url =
        (StdMap.find m url).map (fun observers =>
          if (observers.filter (fun o => decide (o ≠ observer))).length ≠ observers.length then
            observers.filter (fun o => decide (o ≠ observer)) ++
              observers.drop
                ((observers.filter (fun o => decide (o ≠ observer))).length + 1)
          else observers) := by
  induction m with
  | nil => intro unobserved; rfl
  | cons e rest ih =>
    intro unobserved
    obtain ⟨k, observers⟩ := e
    simp only [removeObserverScan]
    split
    · rename_i hlen
      simp only [StdMap.find]
      by_cases hk : k = url
      · simp only [hk, if_true, Option.map_some']
        rw [if_pos hlen]
      · simp only [hk, if_false]
        exact ih _
    · rename_i hlen
      simp only [StdMap.find]
      by_cases hk : k = url
      · simp only [hk, if_true, Option.map_some']
        rw [if_neg hlen]
      · simp only [hk, if_false]
        exact ih _

/-- The first loop of `RemoveObserver` keeps the lists free of repetitions. -/
theorem removeObserverScan_distinct (observer : Observer)
    (m : StdMap String (List Observer)) (unobserved : StdSet String)
    (h : ObserversDistinct m) :
    ObserversDistinct (removeObserverScan observer m unobserved).1 := by
  intro url l hl
  rw [removeObserverScan_find] at hl
  cases hm : StdMap.find m url with
  | none => simp [hm] at hl
  | some observers =>
    have hn := h url observers hm
    simp only [hm, Option.map_some', Option.some.injEq] at hl
    rw [← hl]
    split
    · rw [removed_of_nodup observer observers hn]
      exact hn.filter _
    · exact hn

/-- What `OnStreamMessage` does to the coordinator state: it appends calls. -/
theorem OnStreamMessage_listener (listener listener' : UrlAvailabilityRequester)
    (self self' : ReceiverRequester) (endpoint_id connection_id : Nat)
    (message : StreamMessage) (result : Except ErrorCode Nat)
    (h : OnStreamMessage listener self endpoint_id connection_id message =
      some (listener', self', result)) :
    ∃ calls, listener' = { listener with calls := listener.calls ++ calls } := by
  have same : ∀ {res : Except ErrorCode Nat},
      some (listener, self, res) = some (listener', self', result) →
      ∃ calls, listener' = { listener with calls := listener.calls ++ calls } := by
    intro res h
    simp only [Option.some.injEq, Prod.mk.injEq] at h
    exact ⟨[], by rw [← h.1]; simp⟩
  cases message with
  | other => exact same h
  | kPresentationUrlAvailabilityResponse decoded response =>
    cases decoded with
    | parserEOF => exact same h
    | failure => exact same h
    | consumed bytes =>
      simp only [OnStreamMessage] at h
      cases hreq : StdMap.find self.request_by_id response.request_id with
      | none =>
        simp only [hreq] at h
        exact same h
      | some request =>
        simp only [hreq] at h
        split at h
        · exact same h
        · cases hup : UpdateAvailabilities listener self request.urls
              response.url_availabilities with
          | none => simp [hup] at h
          | some updated =>
            obtain ⟨l₁, s₁⟩ := updated
            obtain ⟨⟨calls, hl₁⟩, _⟩ := UpdateAvailabilities_preserves _ _ _ _ _ _ hup
            simp only [hup, Option.some.injEq, Prod.mk.injEq] at h
            exact ⟨calls, by rw [← h.1, hl₁]⟩
  | kPresentationUrlAvailabilityEvent decoded event =>
    cases decoded with
    | parserEOF => exact same h
    | failure => exact same h
    | consumed bytes =>
      simp only [OnStreamMessage] at h
      cases hw : StdMap.find self.watch_by_id event.watch_id with
      | none =>
        simp only [hw] at h
        exact same h
      | some watch =>
        simp only [hw] at h
        cases hup : UpdateAvailabilities listener self event.urls
            event.url_availabilities with
        | none => simp [hup] at h
        | some updated =>
          obtain ⟨l₁, s₁⟩ := updated
          obtain ⟨⟨calls, hl₁⟩, _⟩ := UpdateAvailabilities_preserves _ _ _ _ _ _ hup
          simp only [hup, Option.some.injEq, Prod.mk.injEq] at h
          exact ⟨calls, by rw [← h.1, hl₁]⟩

/-- The loop of `RemoveAllReceivers` extends the observer table at most by
empty lists. -/
theorem removeAll_observers (receivers : StdMap String ReceiverRequester) :
    ∀ (self : UrlAvailabilityRequester),
      ObserversExtend (fun _ => True) self.observers_by_url_
        (receivers.foldl
          (fun (listener : UrlAvailabilityRequester) (entry : String × ReceiverRequester) =>
            ReceiverRequester.RemoveReceiver listener entry.2)
          self).observers_by_url_ := by
  induction receivers with
  | nil => intro self; exact ObserversExtend.refl_extend _ _
  | cons e rest ih =>
    intro self
    simp only [List.foldl_cons]
    exact ((removeReceiverScan_observers _ _ _).mono_extend (fun _ _ => trivial)).trans_extend
      (ih _)

section
variable (encode : PresentationUrlAvailabilityRequest → Bool)

/-- Every operation but `AddObserver`, `RemoveObserverUrls` and
`RemoveObserver` extends the observer table at most by empty lists. -/
theorem operations_extend_observers (self : UrlAvailabilityRequester) :
    (∀ info first_request_id first_watch_id,
      ObserversExtend (fun _ => True) self.observers_by_url_
        (UrlAvailabilityRequester.AddReceiver encode self info first_request_id
          first_watch_id).observers_by_url_) ∧
      (∀ info,
        ObserversExtend (fun _ => True) self.observers_by_url_
          (UrlAvailabilityRequester.RemoveReceiver self info).observers_by_url_) ∧
      ObserversExtend (fun _ => True) self.observers_by_url_
        (UrlAvailabilityRequester.RemoveAllReceivers self).observers_by_url_ ∧
      ObserversExtend (fun _ => True) self.observers_by_url_
        (UrlAvailabilityRequester.RefreshWatches encode self).1.observers_by_url_ ∧
      (∀ service_id request_id connection,
        ObserversExtend (fun _ => True) self.observers_by_url_
          (UrlAvailabilityRequester.connectionOpened encode self service_id request_id
            connection).observers_by_url_) ∧
      (∀ service_id request_id,
        ObserversExtend (fun _ => True) self.observers_by_url_
          (UrlAvailabilityRequester.connectionFailed self service_id
            request_id).observers_by_url_) ∧
      ∀ service_id endpoint_id connection_id message self' result,
        UrlAvailabilityRequester.streamMessage self service_id endpoint_id connection_id
          message = some (self', result) →
        ObserversExtend (fun _ => True) self.observers_by_url_ self'.observers_by_url_ := by
  refine ⟨?_, ?_, ?_, ?_, ?_, ?_, ?_⟩
  · intro info first_request_id first_watch_id
    rw [AddReceiver_observers_eq]
    exact ObserversExtend.refl_extend _ _
  · intro info
    unfold UrlAvailabilityRequester.RemoveReceiver
    cases hf : StdMap.find self.receiver_by_service_id_ info.service_id with
    | none => exact ObserversExtend.refl_extend _ _
    | some receiver =>
      exact (removeReceiverScan_observers _ _ _).mono_extend (fun _ _ => trivial)
  · simp only [UrlAvailabilityRequester.RemoveAllReceivers]
    exact removeAll_observers _ _
  · rw [RefreshWatches_fst_eq]
    exact (onEachReceiver_step (Q := fun _ => True)
      (fun l r _ => ⟨(RefreshWatches_step encode l r self.clock_).1,
        (RefreshWatches_step encode l r self.clock_).2.2⟩) self (fun _ _ => trivial)).2.1
  · intro service_id request_id connection
    unfold UrlAvailabilityRequester.connectionOpened
    cases hf : StdMap.find self.receiver_by_service_id_ service_id with
    | none => exact ObserversExtend.refl_extend _ _
    | some receiver =>
      exact (OnConnectionOpened_kept encode self receiver request_id
        connection).1.observers.mono_extend (fun _ hf => hf.elim)
  · intro service_id request_id
    unfold UrlAvailabilityRequester.connectionFailed
    cases hf : StdMap.find self.receiver_by_service_id_ service_id with
    | none => exact ObserversExtend.refl_extend _ _
    | some receiver =>
      simp only [OnConnectionFailed]
      exact (failUrls_observers _ _ _).mono_extend (fun _ _ => trivial)
  · intro service_id endpoint_id connection_id message self' result hs
    unfold UrlAvailabilityRequester.streamMessage at hs
    cases hf : StdMap.find self.receiver_by_service_id_ service_id with
    | none => simp [hf] at hs
    | some receiver =>
      simp only [hf] at hs
      cases hm : OnStreamMessage self receiver endpoint_id connection_id message with
      | none => simp [hm] at hs
      | some res =>
        obtain ⟨l', r', result'⟩ := res
        obtain ⟨calls, hl⟩ := OnStreamMessage_listener _ _ _ _ _ _ _ _ hm
        simp only [hm, Option.some.injEq, Prod.mk.injEq] at hs
        rw [← hs.1, hl]
        exact ObserversExtend.refl_extend _ _

/-- C27 (amended). In every state reached by operations among which every
call `AddObserver(urls, o)` names no url twice and finds `o` registered on
none of the urls, no observer appears more than once in the observer list of
a url. -/
theorem observers_distinct (first_request_id first_watch_id : Nat)
    (self : UrlAvailabilityRequester)
    (h : ReachableWhen AddsOnce encode first_request_id first_watch_id self) :
    ObserversDistinct self.observers_by_url_ := by
  have hremove : ∀ (s : UrlAvailabilityRequester) (unobserved : StdSet String),
      ObserversExtend (fun url => StdSet.contains unobserved url = false) s.observers_by_url_
        (onEachReceiver
          (fun listener receiver =>
            RemoveUnobservedWatches encode
              (RemoveUnobservedRequests encode listener receiver unobserved).1
              (RemoveUnobservedRequests encode listener receiver unobserved).2 unobserved)
          s).observers_by_url_ :=
    fun s unobserved => (onEachReceiver_step (Q := fun _ => True)
      (fun l r _ => ⟨(removeUnobserved_step encode l r unobserved).1,
        (removeUnobserved_step encode l r unobserved).2.2⟩) s (fun _ _ => trivial)).2.1
  induction h with
  | create now => intro url observers hf; cases hf
  | @addObserver s urls observer hguard _ ih =>
    unfold UrlAvailabilityRequester.AddObserver
    exact ObserversDistinct.of_extend
      (onEachReceiver_step (Q := fun _ => True)
        (fun l r _ => GetOrRequesetAvailabilities_step encode l r urls (some observer))
        { s with observers_by_url_ := pushObserver observer s.observers_by_url_ urls }
        (fun _ _ => trivial)).2.1
      (pushObserver_distinct observer urls _ hguard.1 hguard.2 ih)
  | @removeObserverUrls s s' urls observer _ hs ih =>
    rw [RemoveObserverUrls_eq] at hs
    cases hscan : removeUrlsScan observer urls s [] with
    | none => simp [hscan] at hs
    | some scan =>
      obtain ⟨s₁, unobserved⟩ := scan
      simp only [hscan, Option.map_some', Option.some.injEq] at hs
      rw [← hs]
      exact ObserversDistinct.of_extend (hremove s₁ unobserved)
        (removeUrlsScan_distinct observer urls _ _ _ _ hscan ih)
  | @removeObserver s observer _ ih =>
    rw [RemoveObserver_eq]
    exact ObserversDistinct.of_extend (hremove _ _)
      (removeObserverScan_distinct observer _ _ ih)
  | @addReceiver s info _ ih =>
    exact ObserversDistinct.of_extend ((operations_extend_observers encode s).1 info _ _) ih
  | changeReceiver info _ ih => exact ih
  | @removeReceiver s info _ ih =>
    exact ObserversDistinct.of_extend ((operations_extend_observers encode s).2.1 info) ih
  | @removeAllReceivers s _ ih =>
    exact ObserversDistinct.of_extend (operations_extend_observers encode s).2.2.1 ih
  | @refreshWatches s _ ih =>
    exact ObserversDistinct.of_extend (operations_extend_observers encode s).2.2.2.1 ih
  | @connectionOpened s service_id request_id connection _ ih =>
    exact ObserversDistinct.of_extend
      ((operations_extend_observers encode s).2.2.2.2.1 service_id request_id connection) ih
  | @connectionFailed s service_id request_id _ ih =>
    exact ObserversDistinct.of_extend
      ((operations_extend_observers encode s).2.2.2.2.2.1 service_id request_id) ih
  | @streamMessage s s' service_id endpoint_id connection_id message result _ hs ih =>
    exact ObserversDistinct.of_extend
      ((operations_extend_observers encode s).2.2.2.2.2.2 service_id endpoint_id
        connection_id message s' result hs) ih
  | advanceClock delta _ _ ih => exact ih

end

/-- C27 as stated fails: `AddObserver` appends the observer without looking
for it. After `AddObserver({"u"}, 7)` twice, and after `AddObserver({"u",
"u"}, 7)` once, observer 7 is twice in the list of `"u"`, in reachable
states. -/
theorem observer_registered_twice :
    (Reachable Example.encodeAll 1 1
        (UrlAvailabilityRequester.AddObserver Example.encodeAll Example.requested ["u"] 7) ∧
      (UrlAvailabilityRequester.AddObserver Example.encodeAll Example.requested ["u"]
          7).observers_by_url_ = [("u", [7, 7])]) ∧
    (Reachable Example.encodeAll 1 1
        (UrlAvailabilityRequester.AddObserver Example.encodeAll
          (UrlAvailabilityRequester.create 213489000000) ["u", "u"] 7) ∧
      (UrlAvailabilityRequester.AddObserver Example.encodeAll
          (UrlAvailabilityRequester.create 213489000000) ["u", "u"] 7).observers_by_url_ =
        [("u", [7, 7])]) :=
  ⟨⟨.addObserver _ _ Example.requested_reachable, by decide⟩,
    ⟨.addObserver _ _ (.create _), by decide⟩⟩

/-- C27 (amended) at the state of the unit tests with observers 7 and 8 added
one after the other on `"u"`. -/
theorem observers_distinct_witness :
    ReachableWhen AddsOnce Example.encodeAll 1 1
        (UrlAvailabilityRequester.AddObserver Example.encodeAll Example.requested ["u"] 8) ∧
      (UrlAvailabilityRequester.AddObserver Example.encodeAll Example.requested ["u"]
          8).observers_by_url_ = [("u", [7, 8])] ∧
      ObserversDistinct
        (UrlAvailabilityRequester.AddObserver Example.encodeAll Example.requested ["u"]
          8).observers_by_url_ := by
  have hreach : ReachableWhen AddsOnce Example.encodeAll 1 1
      (UrlAvailabilityRequester.AddObserver Example.encodeAll Example.requested ["u"] 8) :=
    .addObserver _ _
      ⟨by decide, fun url hu => by rw [List.mem_singleton.mp hu]; decide⟩
      (.addObserver _ _
        ⟨by decide, fun url hu => by rw [List.mem_singleton.mp hu]; decide⟩
        (.connectionOpened _ _ _ (.addReceiver _ (.create _))))
  exact ⟨hreach, by decide, observers_distinct Example.encodeAll 1 1 _ hreach⟩

/-- Insertion `emplace` keeps the entries of the map. -/
theorem StdMap.mem_emplace_of_mem {κ ν : Type} [DecidableEq κ] [StdLess κ] (m : StdMap κ ν)
    (k : κ) (v : ν) (e : κ × ν) (he : e ∈ m) : e ∈ (StdMap.emplace m k v).map := by
  unfold StdMap.emplace
  cases StdMap.find m k with
  | some old => exact he
  | none => exact (StdMap.mem_insertSorted m k v e).mpr (Or.inr he)

/-- The map is not empty after `emplace`. -/
theorem StdMap.emplace_ne_nil {κ ν : Type} [DecidableEq κ] [StdLess κ] (m : StdMap κ ν)
    (k : κ) (v : ν) : (StdMap.emplace m k v).map ≠ [] := by
  intro h
  have := StdMap.find_emplace_self m k v
  rw [h] at this
  cases this

section
variable (encode : PresentationUrlAvailabilityRequest → Bool)

/-- On a requester none of whose watches is due, `RefreshWatches` changes
nothing and sends nothing. -/
theorem RefreshWatches_nothing_due (listener : UrlAvailabilityRequester)
    (self : ReceiverRequester) (now : TimeDelta) (h : NothingDue now self) :
    ReceiverRequester.RefreshWatches encode listener self now =
      (listener, self,
        (scanWatches now self.watch_by_id (TimeDelta.FromSeconds kWatchDurationSeconds)).2.2) := by
  have hkept : (scanWatches now self.watch_by_id
      (TimeDelta.FromSeconds kWatchDurationSeconds)).1 = self.watch_by_id := by
    rw [scanWatches_kept, List.filter_eq_self]
    intro entry he
    simpa using h.1 entry he
  have hnew : (scanWatches now self.watch_by_id
      (TimeDelta.FromSeconds kWatchDurationSeconds)).2.1 = [] := by
    rw [scanWatches_new_requests, List.map_eq_nil_iff, List.filter_eq_nil_iff]
    intro entry he
    simpa using h.1 entry he
  simp only [ReceiverRequester.RefreshWatches]
  generalize scanWatches now self.watch_by_id (TimeDelta.FromSeconds kWatchDurationSeconds) =
    scan at hkept hnew ⊢
  obtain ⟨kept, new_requests, m⟩ := scan
  simp only at hkept hnew
  subst hkept hnew
  simp only [requestAll]
  by_cases hempty : self.watch_by_id.isEmpty = true
  · have hw := h.2 (by simpa using hempty)
    obtain ⟨sid, eid, cr, conn, nw, nr, rw, rq, ew, wt, cache⟩ := self
    simp only at hw hempty
    subst hw
    simp [hempty, StopWatching]
  · simp [hempty]

/-- After `RequestUrlAvailabilities` at clock reading `now`, no watch is due
when none was, and every watch is still there. -/
theorem RequestUrlAvailabilities_nothing_due (listener : UrlAvailabilityRequester)
    (self : ReceiverRequester) (urls : List String) (now : TimeDelta)
    (hclock : listener.clock_ = now) (h : NothingDue now self) :
    NothingDue now (RequestUrlAvailabilities encode listener self urls).2 ∧
      ∀ entry ∈ self.watch_by_id,
        entry ∈ (RequestUrlAvailabilities encode listener self urls).2.watch_by_id := by
  by_cases hne : urls = []
  · subst hne
    simp only [RequestUrlAvailabilities, List.isEmpty_nil, if_true]
    exact ⟨h, fun _ he => he⟩
  · cases hconn : self.connection with
    | none =>
      rw [RequestUrlAvailabilities_queued encode _ _ _ hne hconn]
      exact ⟨h, fun _ he => he⟩
    | some c =>
      cases henc : encode ⟨self.next_request_id, urls, self.next_watch_id⟩ with
      | true =>
        rw [RequestUrlAvailabilities_sent encode _ _ _ c hne hconn henc]
        refine ⟨⟨?_, fun hnil => absurd hnil (StdMap.emplace_ne_nil _ _ _)⟩,
          fun entry he => StdMap.mem_emplace_of_mem _ _ _ entry he⟩
        refine (StdMap.forall_emplace
          (C := fun w : Watch =>
            ¬ now > w.deadline - TimeDelta.FromSeconds kWatchRefreshPaddingSeconds)
          self.watch_by_id self.next_watch_id _ h.1 ?_).1
        simp only [hclock, TimeDelta.FromSeconds, kWatchDurationSeconds,
          kWatchRefreshPaddingSeconds]
        push_cast
        intro hgt
        linarith
      | false =>
        rw [RequestUrlAvailabilities_failed encode _ _ _ c hne hconn henc]
        exact ⟨h, fun _ he => he⟩

/-- After the loop over `new_requests` at clock reading `now`, no watch is
due when none was, and every watch is still there. -/
theorem requestAll_nothing_due (now : TimeDelta) (batches : List (List String)) :
    ∀ (listener : UrlAvailabilityRequester) (self : ReceiverRequester),
      listener.clock_ = now → NothingDue now self →
      NothingDue now (requestAll encode listener self batches).2 ∧
        ∀ entry ∈ self.watch_by_id,
          entry ∈ (requestAll encode listener self batches).2.watch_by_id := by
  induction batches with
  | nil => intro listener self _ h; exact ⟨h, fun _ he => he⟩
  | cons batch rest ih =>
    intro listener self hclock h
    have h1 := RequestUrlAvailabilities_nothing_due encode listener self batch now hclock h
    have hc := (RequestUrlAvailabilities_step encode listener self batch).1.clock
    have h2 := ih (RequestUrlAvailabilities encode listener self batch).1
      (RequestUrlAvailabilities encode listener self batch).2 (hc.trans hclock) h1.1
    simp only [requestAll]
    exact ⟨h2.1, fun entry he => h2.2 entry (h1.2 entry he)⟩

/-- After a requester's `RefreshWatches(now)` with the clock reading `now`, no
watch is due, and the watches it has kept are still there. -/
theorem RefreshWatches_leaves_nothing_due (listener : UrlAvailabilityRequester)
    (self : ReceiverRequester) (now : TimeDelta) (hclock : listener.clock_ = now) :
    NothingDue now (ReceiverRequester.RefreshWatches encode listener self now).2.1 ∧
      ∀ entry ∈ (scanWatches now self.watch_by_id
          (TimeDelta.FromSeconds kWatchDurationSeconds)).1,
        entry ∈ (ReceiverRequester.RefreshWatches encode listener self now).2.1.watch_by_id := by
  have hkept := scanWatches_kept now self.watch_by_id
    (TimeDelta.FromSeconds kWatchDurationSeconds)
  simp only [ReceiverRequester.RefreshWatches]
  generalize scanWatches now self.watch_by_id (TimeDelta.FromSeconds kWatchDurationSeconds) =
    scan at hkept ⊢
  obtain ⟨kept, new_requests, m⟩ := scan
  simp only at hkept ⊢
  have hdue : ∀ entry ∈ kept,
      ¬ now > entry.2.deadline - TimeDelta.FromSeconds kWatchRefreshPaddingSeconds := by
    intro entry he
    rw [hkept] at he
    simpa using (List.mem_filter.mp he).2
  split
  · rename_i hk
    exact requestAll_nothing_due encode now new_requests listener _ hclock
      ⟨hdue, fun _ => rfl⟩
  · rename_i hk
    exact requestAll_nothing_due encode now new_requests listener _ hclock
      ⟨hdue, fun hnil =>
        absurd (show kept.isEmpty = true by rw [show kept = [] from hnil]; rfl) hk⟩

end

/-- Running minima of lists related elementwise by `≤`. -/
theorem foldl_min_mono {xs ys : List Int} (h : List.Forall₂ (fun x y => x ≤ y) xs ys) :
    ∀ (m m' : Int), m ≤ m' → xs.foldl min m ≤ ys.foldl min m' := by
  induction h with
  | nil => intro m m' hm; exact hm
  | cons hxy _ ih =>
    intro m m' hm
    exact ih _ _ (min_le_min hm hxy)

section
variable (encode : PresentationUrlAvailabilityRequest → Bool)

/-- What a requester's scan returns after its `RefreshWatches(now)` is at most
what it returned in that call. -/
theorem RefreshWatches_returned_again (listener : UrlAvailabilityRequester)
    (self : ReceiverRequester) (now : TimeDelta) (hclock : listener.clock_ = now) :
    (scanWatches now
        (ReceiverRequester.RefreshWatches encode listener self now).2.1.watch_by_id
        (TimeDelta.FromSeconds kWatchDurationSeconds)).2.2 ≤
      (scanWatches now self.watch_by_id (TimeDelta.FromSeconds kWatchDurationSeconds)).2.2 := by
  have hleft := RefreshWatches_leaves_nothing_due encode listener self now hclock
  rw [scanWatches_kept] at hleft
  rw [scanWatches_minimum, scanWatches_minimum]
  rcases foldl_min_mem
      ((self.watch_by_id.filter (fun entry =>
          !decide (now > entry.2.deadline -
            TimeDelta.FromSeconds kWatchRefreshPaddingSeconds))).map
        (fun entry => entry.2.deadline -
          TimeDelta.FromSeconds kWatchRefreshPaddingSeconds))
      (TimeDelta.FromSeconds kWatchDurationSeconds) with h | h
  · rw [h]
    exact foldl_min_le _ _
  · refine foldl_min_le_of_mem _ _ _ ?_
    obtain ⟨entry, he, hb⟩ := List.mem_map.mp h
    rw [← hb]
    exact List.mem_map.mpr ⟨entry,
      List.mem_filter.mpr ⟨hleft.2 entry he, (List.mem_filter.mp he).2⟩, rfl⟩

/-- The loop of the coordinator's `RefreshWatches` over requesters none of
whose watches is due changes nothing. -/
theorem refreshScan_nothing_due (now : TimeDelta)
    (receivers : StdMap String ReceiverRequester) :
    ∀ (self : UrlAvailabilityRequester) (minimum : TimeDelta),
      (∀ entry ∈ receivers, NothingDue now entry.2) →
      refreshScan encode now self receivers minimum =
        (self, receivers, (refreshScan encode now self receivers minimum).2.2) := by
  induction receivers with
  | nil => intro self minimum _; rfl
  | cons e rest ih =>
    intro self minimum h
    obtain ⟨id, receiver⟩ := e
    have h1 := RefreshWatches_nothing_due encode self receiver now
      (h (id, receiver) (List.mem_cons_self _ _))
    have h2 := fun m => ih self m (fun entry he => h entry (List.mem_cons_of_mem _ he))
    simp only [refreshScan, h1]
    rw [h2]

/-- After the loop of the coordinator's `RefreshWatches` with the clock
reading `now`, the clock reads `now`, no watch of any requester is due, and
what a requester's scan returns is at most what it returned in the loop. -/
theorem refreshScan_leaves_nothing_due (now : TimeDelta)
    (receivers : StdMap String ReceiverRequester) :
    ∀ (self : UrlAvailabilityRequester) (minimum : TimeDelta),
      self.clock_ = now →
      (refreshScan encode now self receivers minimum).1.clock_ = now ∧
        List.Forall₂
          (fun entry entry' => NothingDue now entry'.2 ∧
            (scanWatches now entry'.2.watch_by_id
                (TimeDelta.FromSeconds kWatchDurationSeconds)).2.2 ≤
              (scanWatches now entry.2.watch_by_id
                (TimeDelta.FromSeconds kWatchDurationSeconds)).2.2)
          receivers (refreshScan encode now self receivers minimum).2.1 := by
  induction receivers with
  | nil => intro self minimum hclock; exact ⟨hclock, List.Forall₂.nil⟩
  | cons e rest ih =>
    intro self minimum hclock
    obtain ⟨id, receiver⟩ := e
    have h1 := RefreshWatches_leaves_nothing_due encode self receiver now hclock
    have h2 := RefreshWatches_returned_again encode self receiver now hclock
    have hc := (RefreshWatches_step encode self receiver now).1.clock
    have h3 := ih (ReceiverRequester.RefreshWatches encode self receiver now).1
      (if (ReceiverRequester.RefreshWatches encode self receiver now).2.2 < minimum then
        (ReceiverRequester.RefreshWatches encode self receiver now).2.2
       else minimum) (hc.trans hclock)
    simp only [refreshScan]
    exact ⟨h3.1, List.Forall₂.cons ⟨h1.1, h2⟩ h3.2⟩

/-- The coordinator's `RefreshWatches` when no watch of any requester is due:
the state stays as it is. -/
theorem RefreshWatches_of_nothing_due (self : UrlAvailabilityRequester)
    (h : ∀ entry ∈ self.receiver_by_service_id_, NothingDue self.clock_ entry.2) :
    UrlAvailabilityRequester.RefreshWatches encode self =
      (self,
        (self.receiver_by_service_id_.map (fun entry =>
          (scanWatches self.clock_ entry.2.watch_by_id
            (TimeDelta.FromSeconds kWatchDurationSeconds)).2.2)).foldl min
          (TimeDelta.FromSeconds kWatchDurationSeconds)) := by
  have h1 := refreshScan_nothing_due encode self.clock_ self.receiver_by_service_id_ self
    (TimeDelta.FromSeconds kWatchDurationSeconds) h
  have h2 := refreshScan_minimum encode self.clock_ self.receiver_by_service_id_ self
    (TimeDelta.FromSeconds kWatchDurationSeconds)
  simp only [UrlAvailabilityRequester.RefreshWatches]
  generalize refreshScan encode self.clock_ self self.receiver_by_service_id_
    (TimeDelta.FromSeconds kWatchDurationSeconds) = scan at h1 h2 ⊢
  obtain ⟨s₁, receivers₁, t₁⟩ := scan
  simp only [Prod.mk.injEq] at h1 h2 ⊢
  obtain ⟨rfl, rfl, _⟩ := h1
  exact ⟨rfl, h2⟩

/-- After the coordinator's `RefreshWatches` the clock reads the same, no
watch of any requester is due, and what a requester's scan returns is at most
what it returned in the call. -/
theorem RefreshWatches_leaves_all (self : UrlAvailabilityRequester) :
    (UrlAvailabilityRequester.RefreshWatches encode self).1.clock_ = self.clock_ ∧
      List.Forall₂
        (fun entry entry' => NothingDue self.clock_ entry'.2 ∧
          (scanWatches self.clock_ entry'.2.watch_by_id
              (TimeDelta.FromSeconds kWatchDurationSeconds)).2.2 ≤
            (scanWatches self.clock_ entry.2.watch_by_id
              (TimeDelta.FromSeconds kWatchDurationSeconds)).2.2)
        self.receiver_by_service_id_
        (UrlAvailabilityRequester.RefreshWatches encode self).1.receiver_by_service_id_ := by
  have h := refreshScan_leaves_nothing_due encode self.clock_
    self.receiver_by_service_id_ self (TimeDelta.FromSeconds kWatchDurationSeconds) rfl
  simp only [UrlAvailabilityRequester.RefreshWatches]
  exact h

/-- What holds of the right elements of related pairs holds of every element
of the right list. -/
theorem forall_right_of_forall₂ {α β : Type} {R : α → β → Prop} {P : β → Prop}
    {xs : List α} {ys : List β} (h : List.Forall₂ R xs ys) (hP : ∀ x y, R x y → P y) :
    ∀ y ∈ ys, P y := by
  induction h with
  | nil => intro y hy; cases hy
  | cons hxy _ ih =>
    intro y hy
    rcases List.mem_cons.mp hy with rfl | hy
    · exact hP _ _ hxy
    · exact ih y hy

end

/-- Below the largest value, `x++` adds one. -/
theorem increment64_eq (x : Nat) (h : x + 1 < 2 ^ 64) : increment64 x = x + 1 :=
  Nat.mod_eq_of_lt h

/-- The keys after `emplace` are the old keys and at most the offered key. -/
theorem StdMap.mem_keys_emplace {κ ν : Type} [DecidableEq κ] [StdLess κ] (m : StdMap κ ν)
    (k : κ) (v : ν) (k' : κ) (h : k' ∈ StdMap.keys (StdMap.emplace m k v).map) :
    k' = k ∨ k' ∈ StdMap.keys m := by
  unfold StdMap.emplace at h
  cases hf : StdMap.find m k with
  | some old =>
    rw [hf] at h
    exact Or.inr h
  | none =>
    rw [hf] at h
    exact List.mem_cons.mp ((StdMap.keys_insertSorted_perm m k v).subset h)

/-- Nothing done allocates nothing. -/
theorem IdsAllocated.refl_ids (r : ReceiverRequester) : IdsAllocated 0 0 r r :=
  ⟨le_refl _, le_refl _, le_refl _, le_refl _, fun _ hk => Or.inl hk, fun _ hk => Or.inl hk⟩

/-- Allocations compose. -/
theorem IdsAllocated.trans_ids {a b a' b' : Nat} {r₁ r₂ r₃ : ReceiverRequester}
    (h₁ : IdsAllocated a b r₁ r₂) (h₂ : IdsAllocated a' b' r₂ r₃) :
    IdsAllocated (a + a') (b + b') r₁ r₃ := by
  refine ⟨le_trans h₁.request_counter h₂.request_counter, ?_,
    le_trans h₁.watch_counter h₂.watch_counter, ?_, ?_, ?_⟩
  · have := h₁.request_bound
    have := h₂.request_bound
    omega
  · have := h₁.watch_bound
    have := h₂.watch_bound
    omega
  · intro k hk
    have hc₁ := h₁.request_counter
    have hc₂ := h₂.request_counter
    rcases h₂.request_keys k hk with h | ⟨hl, hu⟩
    · rcases h₁.request_keys k h with h' | ⟨hl', hu'⟩
      · exact Or.inl h'
      · exact Or.inr ⟨hl', by omega⟩
    · exact Or.inr ⟨by omega, hu⟩
  · intro k hk
    have hc₁ := h₁.watch_counter
    have hc₂ := h₂.watch_counter
    rcases h₂.watch_keys k hk with h | ⟨hl, hu⟩
    · rcases h₁.watch_keys k h with h' | ⟨hl', hu'⟩
      · exact Or.inl h'
      · exact Or.inr ⟨hl', by omega⟩
    · exact Or.inr ⟨by omega, hu⟩

/-- An allocation within bounds is one within larger bounds. -/
theorem IdsAllocated.mono_ids {a b a' b' : Nat} {r r' : ReceiverRequester}
    (h : IdsAllocated a b r r') (ha : a ≤ a') (hb : b ≤ b') : IdsAllocated a' b' r r' :=
  ⟨h.request_counter, le_trans h.request_bound (by omega), h.watch_counter,
    le_trans h.watch_bound (by omega), h.request_keys, h.watch_keys⟩

/-- A change that leaves the counters and adds no key allocates nothing. -/
theorem IdsAllocated.of_keys {r r' : ReceiverRequester}
    (hr : r'.next_request_id = r.next_request_id) (hw : r'.next_watch_id = r.next_watch_id)
    (hrk : ∀ k ∈ StdMap.keys r'.request_by_id, k ∈ StdMap.keys r.request_by_id)
    (hwk : ∀ k ∈ StdMap.keys r'.watch_by_id, k ∈ StdMap.keys r.watch_by_id) :
    IdsAllocated 0 0 r r' :=
  ⟨by rw [hr], by rw [hr]; exact le_refl _, by rw [hw], by rw [hw]; exact le_refl _,
    fun k hk => Or.inl (hrk k hk), fun k hk => Or.inl (hwk k hk)⟩

/-- Ids in use are below the counters after an allocation when they were
before it. -/
theorem IdsAllocated.below {a b : Nat} {r r' : ReceiverRequester}
    (h : IdsAllocated a b r r') (hb : IdsBelowCounters r) : IdsBelowCounters r' := by
  refine ⟨fun k hk => ?_, fun k hk => ?_⟩
  · rcases h.request_keys k hk with h' | ⟨_, hu⟩
    · exact lt_of_lt_of_le (hb.1 k h') h.request_counter
    · exact hu
  · rcases h.watch_keys k hk with h' | ⟨_, hu⟩
    · exact lt_of_lt_of_le (hb.2 k h') h.watch_counter
    · exact hu

section
variable (encode : PresentationUrlAvailabilityRequest → Bool)

/-- The method `SendRequest` allocates one watch id: the value of the
counter, which it advances by one. -/
theorem SendRequest_ids (listener : UrlAvailabilityRequester) (self : ReceiverRequester)
    (request_id : Nat) (urls : List String) (hw : self.next_watch_id + 1 < 2 ^ 64) :
    IdsAllocated 0 1 self (SendRequest encode listener self request_id urls).2.1 := by
  have hinc := increment64_eq _ hw
  cases henc : encode ⟨request_id, urls, self.next_watch_id⟩ with
  | true =>
    rw [SendRequest_ok encode _ _ _ _ henc]
    refine ⟨le_refl _, le_refl _, ?_, ?_, fun k hk => Or.inl hk, ?_⟩
    · simp only [hinc]; omega
    · simp only [hinc]; exact le_refl _
    · intro k hk
      rcases StdMap.mem_keys_emplace _ _ _ k hk with rfl | hk
      · exact Or.inr ⟨le_refl _, by simp only [hinc]; omega⟩
      · exact Or.inl hk
  | false =>
    rw [SendRequest_error encode _ _ _ _ henc]
    refine ⟨le_refl _, le_refl _, ?_, ?_, fun k hk => Or.inl hk, fun k hk => Or.inl hk⟩
    · simp only [hinc]; omega
    · simp only [hinc]; exact le_refl _

/-- The method `RequestUrlAvailabilities` allocates at most one request id and
one watch id: the values of the counters, which it advances by one. -/
theorem RequestUrlAvailabilities_ids (listener : UrlAvailabilityRequester)
    (self : ReceiverRequester) (urls : List String)
    (hr : self.next_request_id + 1 < 2 ^ 64) (hw : self.next_watch_id + 1 < 2 ^ 64) :
    IdsAllocated 1 1 self (RequestUrlAvailabilities encode listener self urls).2 := by
  have hincr := increment64_eq _ hr
  have hincw := increment64_eq _ hw
  by_cases hne : urls = []
  · subst hne
    simp only [RequestUrlAvailabilities, List.isEmpty_nil, if_true]
    exact (IdsAllocated.refl_ids self).mono_ids (by omega) (by omega)
  · cases hconn : self.connection with
    | none =>
      rw [RequestUrlAvailabilities_queued encode _ _ _ hne hconn]
      refine ⟨?_, ?_, le_refl _, by simp, ?_, fun k hk => Or.inl hk⟩
      · simp only [hincr]; omega
      · simp only [hincr]; exact le_refl _
      · intro k hk
        rcases StdMap.mem_keys_emplace _ _ _ k hk with rfl | hk
        · exact Or.inr ⟨le_refl _, by simp only [hincr]; omega⟩
        · exact Or.inl hk
    | some c =>
      cases henc : encode ⟨self.next_request_id, urls, self.next_watch_id⟩ with
      | true =>
        rw [RequestUrlAvailabilities_sent encode _ _ _ c hne hconn henc]
        refine ⟨?_, ?_, ?_, ?_, ?_, ?_⟩
        · simp only [hincr]; omega
        · simp only [hincr]; exact le_refl _
        · simp only [hincw]; omega
        · simp only [hincw]; exact le_refl _
        · intro k hk
          rcases StdMap.mem_keys_emplace _ _ _ k hk with rfl | hk
          · exact Or.inr ⟨le_refl _, by simp only [hincr]; omega⟩
          · exact Or.inl hk
        · intro k hk
          rcases StdMap.mem_keys_emplace _ _ _ k hk with rfl | hk
          · exact Or.inr ⟨le_refl _, by simp only [hincw]; omega⟩
          · exact Or.inl hk
      | false =>
        rw [RequestUrlAvailabilities_failed encode _ _ _ c hne hconn henc]
        refine ⟨?_, ?_, ?_, ?_, fun k hk => Or.inl hk, fun k hk => Or.inl hk⟩
        · simp only [hincr]; omega
        · simp only [hincr]; exact le_refl _
        · simp only [hincw]; omega
        · simp only [hincw]; exact le_refl _

/-- The loop over `new_requests` allocates at most one request id and one
watch id for each url list. -/
theorem requestAll_ids (batches : List (List String)) :
    ∀ (listener : UrlAvailabilityRequester) (self : ReceiverRequester),
      self.next_request_id + batches.length < 2 ^ 64 →
      self.next_watch_id + batches.length < 2 ^ 64 →
      IdsAllocated batches.length batches.length self
        (requestAll encode listener self batches).2 := by
  induction batches with
  | nil => intro listener self _ _; exact IdsAllocated.refl_ids self
  | cons batch rest ih =>
    intro listener self hr hw
    simp only [List.length_cons] at hr hw
    have h1 := RequestUrlAvailabilities_ids encode listener self batch (by omega) (by omega)
    have h2 := ih (RequestUrlAvailabilities encode listener self batch).1
      (RequestUrlAvailabilities encode listener self batch).2
      (by have := h1.request_bound; omega) (by have := h1.watch_bound; omega)
    simp only [requestAll, List.length_cons]
    exact (h1.trans_ids h2).mono_ids (by omega) (by omega)

end

/-- The keys of a sublist are keys of the list. -/
theorem StdMap.mem_keys_of_sublist {κ ν : Type} {m m' : StdMap κ ν} (h : List.Sublist m' m)
    (k : κ) (hk : k ∈ StdMap.keys m') : k ∈ StdMap.keys m :=
  (h.map Prod.fst).subset hk

section
variable (encode : PresentationUrlAvailabilityRequest → Bool)

/-- After a change that allocates nothing, the loop over `new_requests`
allocates at most one request id and one watch id for each url list. -/
theorem requestAll_after {r r₁ : ReceiverRequester} (h₁ : IdsAllocated 0 0 r r₁)
    (batches : List (List String)) (n : Nat) (hlen : batches.length ≤ n)
    (hr : r.next_request_id + n < 2 ^ 64) (hw : r.next_watch_id + n < 2 ^ 64)
    (listener : UrlAvailabilityRequester) :
    IdsAllocated n n r (requestAll encode listener r₁ batches).2 := by
  have h₂ := requestAll_ids encode batches listener r₁
    (by have := h₁.request_bound; omega) (by have := h₁.watch_bound; omega)
  exact (h₁.trans_ids h₂).mono_ids (by omega) (by omega)

/-- The method `RefreshWatches` of a requester allocates at most one request
id and one watch id for each watch. -/
theorem RefreshWatches_ids (listener : UrlAvailabilityRequester) (self : ReceiverRequester)
    (now : TimeDelta)
    (hr : self.next_request_id + self.watch_by_id.length < 2 ^ 64)
    (hw : self.next_watch_id + self.watch_by_id.length < 2 ^ 64) :
    IdsAllocated self.watch_by_id.length self.watch_by_id.length self
      (ReceiverRequester.RefreshWatches encode listener self now).2.1 := by
  have hsub := scanWatches_sublist now self.watch_by_id
    (TimeDelta.FromSeconds kWatchDurationSeconds)
  have hlen : (scanWatches now self.watch_by_id
      (TimeDelta.FromSeconds kWatchDurationSeconds)).2.1.length ≤ self.watch_by_id.length := by
    rw [scanWatches_new_requests, List.length_map]
    exact List.length_filter_le _ _
  simp only [ReceiverRequester.RefreshWatches]
  generalize scanWatches now self.watch_by_id (TimeDelta.FromSeconds kWatchDurationSeconds) =
    scan at hsub hlen ⊢
  obtain ⟨kept, new_requests, m⟩ := scan
  simp only at hsub hlen ⊢
  split
  · refine requestAll_after encode ?_ new_requests _ hlen hr hw listener
    exact IdsAllocated.of_keys rfl rfl (fun k hk => hk)
      (fun k hk => StdMap.mem_keys_of_sublist hsub k hk)
  · refine requestAll_after encode ?_ new_requests _ hlen hr hw listener
    exact IdsAllocated.of_keys rfl rfl (fun k hk => hk)
      (fun k hk => StdMap.mem_keys_of_sublist hsub k hk)

/-- The method `RemoveUnobservedRequests` allocates at most one request id and
one watch id. -/
theorem RemoveUnobservedRequests_ids (listener : UrlAvailabilityRequester)
    (self : ReceiverRequester) (unobserved : StdSet String)
    (hr : self.next_request_id + 1 < 2 ^ 64) (hw : self.next_watch_id + 1 < 2 ^ 64) :
    IdsAllocated 1 1 self (RemoveUnobservedRequests encode listener self unobserved).2 := by
  rw [RemoveUnobservedRequests_eq]
  have h₁ : IdsAllocated 0 0 self
      { self with
        request_by_id :=
          (scanRequests unobserved self.connection.isSome self.request_by_id
            self.watch_by_id []).1
        watch_by_id :=
          (scanRequests unobserved self.connection.isSome self.request_by_id
            self.watch_by_id []).2.1 } :=
    IdsAllocated.of_keys rfl rfl
      (fun k hk => by
        have hkeys := scanRequests_keys unobserved self.connection.isSome self.request_by_id
          self.watch_by_id []
        simp only [StdMap.keys] at hk ⊢
        rwa [hkeys] at hk)
      (fun k hk => StdMap.mem_keys_of_sublist
        (scanRequests_watches unobserved self.connection.isSome self.request_by_id
          self.watch_by_id []) k hk)
  have h₂ := RequestUrlAvailabilities_ids encode listener _
    (scanRequests unobserved self.connection.isSome self.request_by_id
      self.watch_by_id []).2.2
    (show ({ self with
        request_by_id :=
          (scanRequests unobserved self.connection.isSome self.request_by_id
            self.watch_by_id []).1
        watch_by_id :=
          (scanRequests unobserved self.connection.isSome self.request_by_id
            self.watch_by_id []).2.1 } : ReceiverRequester).next_request_id + 1 < 2 ^ 64
      from hr) hw
  have h₃ : IdsAllocated 1 1 self _ := (h₁.trans_ids h₂).mono_ids (by omega) (by omega)
  simp only
  split
  · exact ⟨h₃.request_counter, h₃.request_bound, h₃.watch_counter, h₃.watch_bound,
      h₃.request_keys, h₃.watch_keys⟩
  · exact h₃

/-- The method `RemoveUnobservedWatches` allocates at most one request id and
one watch id. -/
theorem RemoveUnobservedWatches_ids (listener : UrlAvailabilityRequester)
    (self : ReceiverRequester) (unobserved : StdSet String)
    (hr : self.next_request_id + 1 < 2 ^ 64) (hw : self.next_watch_id + 1 < 2 ^ 64) :
    IdsAllocated 1 1 self (RemoveUnobservedWatches encode listener self unobserved).2 := by
  have hsub := scanUnobservedWatches_sublist unobserved self.watch_by_id []
  simp only [RemoveUnobservedWatches]
  generalize scanUnobservedWatches unobserved self.watch_by_id [] = scan at hsub ⊢
  obtain ⟨watches, still⟩ := scan
  have h₁ : IdsAllocated 0 0 self { self with watch_by_id := watches } :=
    IdsAllocated.of_keys rfl rfl (fun k hk => hk)
      (fun k hk => StdMap.mem_keys_of_sublist hsub k hk)
  have h₂ := RequestUrlAvailabilities_ids encode listener { self with watch_by_id := watches }
    still hr hw
  have h₃ : IdsAllocated 1 1 self _ := (h₁.trans_ids h₂).mono_ids (by omega) (by omega)
  simp only
  split
  · exact ⟨h₃.request_counter, h₃.request_bound, h₃.watch_counter, h₃.watch_bound,
      h₃.request_keys, h₃.watch_keys⟩
  · exact h₃

/-- The retransmission loop allocates one watch id for each request and keeps
no request under a new id. -/
theorem resendRequests_ids (requests : StdMap Nat Request) :
    ∀ (listener : UrlAvailabilityRequester) (self : ReceiverRequester),
      self.next_watch_id + requests.length < 2 ^ 64 →
      IdsAllocated 0 requests.length self
          (resendRequests encode listener self requests).2.1 ∧
        ∀ k ∈ StdMap.keys (resendRequests encode listener self requests).2.2,
          k ∈ StdMap.keys requests := by
  induction requests with
  | nil =>
    intro listener self _
    exact ⟨IdsAllocated.refl_ids self, fun k hk => hk⟩
  | cons e rest ih =>
    intro listener self hw
    obtain ⟨id, request⟩ := e
    simp only [List.length_cons] at hw
    have h₁ := SendRequest_ids encode listener self id request.urls (by omega)
    simp only [resendRequests, List.length_cons]
    generalize SendRequest encode listener self id request.urls = sent at h₁ ⊢
    obtain ⟨l', s', result⟩ := sent
    have h₂ := ih l' s' (by have := h₁.watch_bound; simp only at this; omega)
    cases result with
    | ok watch_id =>
      refine ⟨(h₁.trans_ids h₂.1).mono_ids (by omega) (by omega), ?_⟩
      intro k hk
      simp only [StdMap.keys, List.map_cons, List.mem_cons] at hk ⊢
      rcases hk with hk | hk
      · exact Or.inl hk
      · exact Or.inr (h₂.2 k hk)
    | error err =>
      refine ⟨(h₁.trans_ids h₂.1).mono_ids (by omega) (by omega), ?_⟩
      intro k hk
      simp only [StdMap.keys, List.map_cons, List.mem_cons]
      exact Or.inr (h₂.2 k hk)

/-- The handler `OnConnectionOpened` allocates one watch id for each request
and no request id. -/
theorem OnConnectionOpened_ids (listener : UrlAvailabilityRequester)
    (self : ReceiverRequester) (request_id : Nat) (connection : ProtocolConnection)
    (hw : self.next_watch_id + self.request_by_id.length < 2 ^ 64) :
    IdsAllocated 0 self.request_by_id.length self
      (OnConnectionOpened encode listener self request_id connection).2 := by
  have hloop := resendRequests_ids encode self.request_by_id listener
    { self with
      connect_request := false
      endpoint_id := connection.endpoint_id
      connection := some connection } hw
  simp only [OnConnectionOpened]
  generalize resendRequests encode listener
    { self with
      connect_request := false
      endpoint_id := connection.endpoint_id
      connection := some connection } self.request_by_id = res at hloop ⊢
  obtain ⟨l', s', rs⟩ := res
  exact ⟨hloop.1.request_counter, hloop.1.request_bound, hloop.1.watch_counter,
    hloop.1.watch_bound, fun k hk => Or.inl (hloop.2 k hk), hloop.1.watch_keys⟩

/-- The handler `OnStreamMessage` allocates no id. -/
theorem OnStreamMessage_ids (listener listener' : UrlAvailabilityRequester)
    (self self' : ReceiverRequester) (endpoint_id connection_id : Nat)
    (message : StreamMessage) (result : Except ErrorCode Nat)
    (h : OnStreamMessage listener self endpoint_id connection_id message =
      some (listener', self', result)) :
    IdsAllocated 0 0 self self' := by
  rcases OnStreamMessage_requester _ _ _ _ _ _ _ _ h with rfl | ⟨cache, rfl⟩ |
    ⟨cache, request_id, rfl⟩
  · exact IdsAllocated.refl_ids _
  · exact IdsAllocated.of_keys rfl rfl (fun k hk => hk) (fun k hk => hk)
  · exact IdsAllocated.of_keys rfl rfl
      (fun k hk => StdMap.mem_keys_of_sublist (List.filter_sublist _) k hk) (fun k hk => hk)

/-- Over a life without wrap-around the counters do not go back, and every
key is an old key or an id allocated on the way. -/
theorem RequesterRun.ids {r r' : ReceiverRequester} (h : RequesterRun encode r r') :
    ∃ a b, IdsAllocated a b r r' := by
  induction h with
  | start => exact ⟨0, 0, IdsAllocated.refl_ids _⟩
  | cache cache _ ih =>
    obtain ⟨a, b, ih⟩ := ih
    exact ⟨_, _, ih.trans_ids
      (IdsAllocated.of_keys rfl rfl (fun k hk => hk) (fun k hk => hk))⟩
  | requestUrlAvailabilities listener urls _ hr hw ih =>
    obtain ⟨a, b, ih⟩ := ih
    exact ⟨_, _, ih.trans_ids (RequestUrlAvailabilities_ids encode listener _ urls hr hw)⟩
  | getOrRequesetAvailabilities listener urls observer _ hr hw ih =>
    obtain ⟨a, b, ih⟩ := ih
    rw [GetOrRequesetAvailabilities_eq]
    exact ⟨_, _, ih.trans_ids (RequestUrlAvailabilities_ids encode _ _ _ hr hw)⟩
  | refreshWatches listener now _ hr hw ih =>
    obtain ⟨a, b, ih⟩ := ih
    exact ⟨_, _, ih.trans_ids (RefreshWatches_ids encode listener _ now hr hw)⟩
  | removeUnobservedRequests listener unobserved _ hr hw ih =>
    obtain ⟨a, b, ih⟩ := ih
    exact ⟨_, _, ih.trans_ids (RemoveUnobservedRequests_ids encode listener _ unobserved hr hw)⟩
  | removeUnobservedWatches listener unobserved _ hr hw ih =>
    obtain ⟨a, b, ih⟩ := ih
    exact ⟨_, _, ih.trans_ids (RemoveUnobservedWatches_ids encode listener _ unobserved hr hw)⟩
  | connectionOpened listener request_id connection _ hw ih =>
    obtain ⟨a, b, ih⟩ := ih
    exact ⟨_, _, ih.trans_ids (OnConnectionOpened_ids encode listener _ request_id connection hw)⟩
  | streamMessage listener listener' endpoint_id connection_id message result _ hm ih =>
    obtain ⟨a, b, ih⟩ := ih
    exact ⟨_, _, ih.trans_ids (OnStreamMessage_ids _ _ _ _ _ _ _ _ hm)⟩

end

section
variable (encode : PresentationUrlAvailabilityRequest → Bool)

/-- What `RequestUrlAvailabilities` does to the request table and its counter
for a non-empty url list: the counter advances by one, and the table is left
or gets one request under the old value of the counter. -/
theorem RequestUrlAvailabilities_allocates (listener : UrlAvailabilityRequester)
    (self : ReceiverRequester) (urls : List String) (hne : urls ≠ [])
    (hr : self.next_request_id + 1 < 2 ^ 64) :
    (RequestUrlAvailabilities encode listener self urls).2.next_request_id =
        self.next_request_id + 1 ∧
      ((RequestUrlAvailabilities encode listener self urls).2.request_by_id =
          self.request_by_id ∨
        ∃ request,
          (RequestUrlAvailabilities encode listener self urls).2.request_by_id =
            (StdMap.emplace self.request_by_id self.next_request_id request).map) := by
  have hinc := increment64_eq _ hr
  cases hconn : self.connection with
  | none =>
    rw [RequestUrlAvailabilities_queued encode _ _ _ hne hconn]
    exact ⟨hinc, Or.inr ⟨_, rfl⟩⟩
  | some c =>
    cases henc : encode ⟨self.next_request_id, urls, self.next_watch_id⟩ with
    | true =>
      rw [RequestUrlAvailabilities_sent encode _ _ _ c hne hconn henc]
      exact ⟨hinc, Or.inr ⟨_, rfl⟩⟩
    | false =>
      rw [RequestUrlAvailabilities_failed encode _ _ _ c hne hconn henc]
      exact ⟨hinc, Or.inl rfl⟩

/-- What `SendRequest` does to the watch counter: it advances by one, and the
watch id returned is its old value. -/
theorem SendRequest_allocates (listener : UrlAvailabilityRequester)
    (self : ReceiverRequester) (request_id : Nat) (urls : List String)
    (hw : self.next_watch_id + 1 < 2 ^ 64) :
    (SendRequest encode listener self request_id urls).2.1.next_watch_id =
        self.next_watch_id + 1 ∧
      ((SendRequest encode listener self request_id urls).2.2 = .ok self.next_watch_id ∨
        (SendRequest encode listener self request_id urls).2.2 = .error .kCborEncoding) := by
  have hinc := increment64_eq _ hw
  cases henc : encode ⟨request_id, urls, self.next_watch_id⟩ with
  | true =>
    rw [SendRequest_ok encode _ _ _ _ henc]
    exact ⟨hinc, Or.inl rfl⟩
  | false =>
    rw [SendRequest_error encode _ _ _ _ henc]
    exact ⟨hinc, Or.inr rfl⟩

/-- C25. Over the life of a requester, barring wrap-around of the counters:
in every state the keys of the request table are below `next_request_id` and
the keys of the watch table are below `next_watch_id`; from a state to any
later state neither counter goes back, and every key of the later state is a
key of the earlier state or an id allocated in between, which is at least the
earlier counter and below the later counter; hence an id below the counter
that is not in use is never a key again. An allocation takes the value of the
counter and advances the counter by one: so does `RequestUrlAvailabilities`
with the request id, under which alone it records a request, and
`SendRequest` with the watch id, which it returns. -/
theorem ids_allocated_once (service_id : String) (first_request_id first_watch_id : Nat)
    (r r' : ReceiverRequester)
    (h : RequesterRun encode
      (ReceiverRequester.create service_id first_request_id first_watch_id) r)
    (h' : RequesterRun encode r r') :
    IdsBelowCounters r ∧
      r.next_request_id ≤ r'.next_request_id ∧
      r.next_watch_id ≤ r'.next_watch_id ∧
      (∀ k ∈ StdMap.keys r'.request_by_id,
        k ∈ StdMap.keys r.request_by_id ∨
          (r.next_request_id ≤ k ∧ k < r'.next_request_id)) ∧
      (∀ k ∈ StdMap.keys r'.watch_by_id,
        k ∈ StdMap.keys r.watch_by_id ∨ (r.next_watch_id ≤ k ∧ k < r'.next_watch_id)) ∧
      (∀ k, k < r.next_request_id → k ∉ StdMap.keys r.request_by_id →
        k ∉ StdMap.keys r'.request_by_id) ∧
      (∀ k, k < r.next_watch_id → k ∉ StdMap.keys r.watch_by_id →
        k ∉ StdMap.keys r'.watch_by_id) ∧
      (∀ (listener : UrlAvailabilityRequester) (urls : List String), urls ≠ [] →
        r.next_request_id + 1 < 2 ^ 64 →
        (RequestUrlAvailabilities encode listener r urls).2.next_request_id =
            r.next_request_id + 1 ∧
          ((RequestUrlAvailabilities encode listener r urls).2.request_by_id =
              r.request_by_id ∨
            ∃ request,
              (RequestUrlAvailabilities encode listener r urls).2.request_by_id =
                (StdMap.emplace r.request_by_id r.next_request_id request).map)) ∧
      (∀ (listener : UrlAvailabilityRequester) (request_id : Nat) (urls : List String),
        r.next_watch_id + 1 < 2 ^ 64 →
        (SendRequest encode listener r request_id urls).2.1.next_watch_id =
            r.next_watch_id + 1 ∧
          ((SendRequest encode listener r request_id urls).2.2 = .ok r.next_watch_id ∨
            (SendRequest encode listener r request_id urls).2.2 =
              .error .kCborEncoding)) := by
  obtain ⟨a, b, h₀⟩ := RequesterRun.ids encode h
  obtain ⟨a', b', h₁⟩ := RequesterRun.ids encode h'
  have hbelow : IdsBelowCounters r :=
    h₀.below ⟨fun k hk => absurd hk (List.not_mem_nil k),
      fun k hk => absurd hk (List.not_mem_nil k)⟩
  refine ⟨hbelow, h₁.request_counter, h₁.watch_counter, h₁.request_keys, h₁.watch_keys,
    ?_, ?_, ?_, ?_⟩
  · intro k hk hnot hmem
    rcases h₁.request_keys k hmem with hold | ⟨hl, _⟩
    · exact hnot hold
    · omega
  · intro k hk hnot hmem
    rcases h₁.watch_keys k hmem with hold | ⟨hl, _⟩
    · exact hnot hold
    · omega
  · intro listener urls hne hr
    exact RequestUrlAvailabilities_allocates encode listener r urls hne hr
  · intro listener request_id urls hw
    exact SendRequest_allocates encode listener r request_id urls hw

end

/-- The requester of the requested state of the unit tests in the life of a
requester: created with first ids 1, connected, asked for one url. -/
theorem Example.requestedReceiver_run :
    RequesterRun Example.encodeAll (ReceiverRequester.create "asdf" 1 1)
      Example.requestedReceiver :=
  RequesterRun.requestUrlAvailabilities (UrlAvailabilityRequester.create 213489000000) ["u"]
    (RequesterRun.connectionOpened (UrlAvailabilityRequester.create 213489000000) 0
      { endpoint_id := 3 } (RequesterRun.start _) (by decide))
    (by decide) (by decide)

/-- C25 at the requester of the requested state of the unit tests, which
holds request 1 and watch 1 with both counters at 2, and at the state after
it has asked for another url: that request is recorded under id 2 and its
watch under id 2, both counters are at 3. -/
theorem ids_allocated_once_witness :
    (StdMap.keys Example.requestedReceiver.request_by_id,
        StdMap.keys Example.requestedReceiver.watch_by_id,
        Example.requestedReceiver.next_request_id,
        Example.requestedReceiver.next_watch_id) = ([1], [1], 2, 2) ∧
      (StdMap.keys (RequestUrlAvailabilities Example.encodeAll Example.requested
            Example.requestedReceiver ["v"]).2.request_by_id,
        StdMap.keys (RequestUrlAvailabilities Example.encodeAll Example.requested
            Example.requestedReceiver ["v"]).2.watch_by_id,
        (RequestUrlAvailabilities Example.encodeAll Example.requested
            Example.requestedReceiver ["v"]).2.next_request_id,
        (RequestUrlAvailabilities Example.encodeAll Example.requested
            Example.requestedReceiver ["v"]).2.next_watch_id) = ([1, 2], [1, 2], 3, 3) ∧
      IdsBelowCounters Example.requestedReceiver ∧
      ∀ k ∈ StdMap.keys (RequestUrlAvailabilities Example.encodeAll Example.requested
          Example.requestedReceiver ["v"]).2.request_by_id,
        k ∈ StdMap.keys Example.requestedReceiver.request_by_id ∨
          (Example.requestedReceiver.next_request_id ≤ k ∧
            k < (RequestUrlAvailabilities Example.encodeAll Example.requested
              Example.requestedReceiver ["v"]).2.next_request_id) :=
  ⟨by decide, by decide,
    (ids_allocated_once Example.encodeAll "asdf" 1 1 Example.requestedReceiver
      (RequestUrlAvailabilities Example.encodeAll Example.requested
        Example.requestedReceiver ["v"]).2
      Example.requestedReceiver_run
      (RequesterRun.requestUrlAvailabilities Example.requested ["v"] (RequesterRun.start _)
        (by decide) (by decide))).1,
    (ids_allocated_once Example.encodeAll "asdf" 1 1 Example.requestedReceiver
      (RequestUrlAvailabilities Example.encodeAll Example.requested
        Example.requestedReceiver ["v"]).2
      Example.requestedReceiver_run
      (RequesterRun.requestUrlAvailabilities Example.requested ["v"] (RequesterRun.start _)
        (by decide) (by decide))).2.2.2.1⟩

/-- The state `Example.unobservedQueued` is what `RemoveObserverUrls({"u"}, 7)`
leaves of `Example.waiting`. -/
theorem Example.unobservedQueued_eq :
    UrlAvailabilityRequester.RemoveObserverUrls Example.encodeAll Example.waiting ["u"] 7 =
      some Example.unobservedQueued := by
  decide

/-- The state `Example.lateConnection` is reachable. -/
theorem Example.lateConnection_reachable :
    Reachable Example.encodeAll 1 1 Example.lateConnection :=
  .connectionOpened _ _ _
    (.removeObserverUrls _ _ Example.waiting_reachable Example.unobservedQueued_eq)

/-- C31 (the code departs from it). `RemoveObserverUrls({"u"}, 7)` on a
requester that is not connected yet leaves the queued request for `"u"` in the
request table; when the connection opens the request is sent and its watch is
recorded. In that reachable state no url is observed, the watch table holds
watch 1 for `"u"`, and `RefreshWatches` 19 seconds later writes request 2 for
`"u"`. -/
theorem watch_without_observer :
    Reachable Example.encodeAll 1 1 Example.lateConnection ∧
      Example.lateConnection.observers_by_url_ = [] ∧
      Example.lateConnection.receiver_by_service_id_.map (fun entry => entry.2.watch_by_id) =
        [[(1, { deadline := 213509000000, urls := ["u"] })]] ∧
      (UrlAvailabilityRequester.RefreshWatches Example.encodeAll
          (UrlAvailabilityRequester.advanceClock Example.lateConnection 19000000)).1.written =
        Example.lateConnection.written ++
          [{ service_id := "asdf", request := { request_id := 2, urls := ["u"], watch_id := 2 } }] :=
  ⟨Example.lateConnection_reachable, by decide, by decide, by decide⟩

/-- The state `Example.requestedTwo` holds the requester
`Example.requestedTwoReceiver`. -/
theorem Example.requestedTwo_receivers :
    Example.requestedTwo.receiver_by_service_id_ = [("asdf", Example.requestedTwoReceiver)] := by
  decide

/-- C32 (the code departs from it). `RemoveUnobservedRequests` never takes a
request out of the table. With `U = {"u"}`: request 1 for `["u"]` stays as it
is, only its watch is erased; request 1 for `["u", "v"]` stays with `"u"` and
the moved-from string where `"v"` was, its watch is erased, and request 2 with
watch 2 carries `"v"`. -/
theorem RemoveUnobservedRequests_keeps_request :
    ((RemoveUnobservedRequests Example.encodeAll Example.requested
          Example.requestedReceiver ["u"]).2.request_by_id,
        (RemoveUnobservedRequests Example.encodeAll Example.requested
          Example.requestedReceiver ["u"]).2.watch_by_id) =
        ([(1, { watch_id := 1, urls := ["u"] })], []) ∧
      ((RemoveUnobservedRequests Example.encodeAll Example.requestedTwo
            Example.requestedTwoReceiver ["u"]).2.request_by_id,
          (RemoveUnobservedRequests Example.encodeAll Example.requestedTwo
            Example.requestedTwoReceiver ["u"]).2.watch_by_id) =
        ([(1, { watch_id := 1, urls := [movedFrom, "u"] }),
            (2, { watch_id := 2, urls := ["v"] })],
          [(2, { deadline := 213509000000, urls := ["v"] })]) ∧
      (RemoveUnobservedRequests Example.encodeAll Example.requestedTwo
          Example.requestedTwoReceiver ["u"]).1.written =
        Example.requestedTwo.written ++
          [{ service_id := "asdf", request := { request_id := 2, urls := ["v"], watch_id := 2 } }] :=
  ⟨by decide, by decide, by decide⟩

/-- C35 as stated fails in its second half: the response `[unknown 3]` to
request 1 of the requested state of the unit tests, where `"u"` is observed by
7 and not cached, calls no observer and leaves the cache mapping `"u"` to the
unknown ordinal. -/
theorem unknown_ordinal_cached :
    StdMap.find Example.requested.observers_by_url_ "u" = some [7] ∧
      StdMap.find Example.requestedReceiver.known_availability_by_url "u" = none ∧
      (UpdateAvailabilities Example.requested Example.requestedReceiver ["u"]
          [.unknown 3]).map
        (fun r => (r.1.calls, r.2.known_availability_by_url)) =
        some ([], [("u", .unknown 3)]) ∧
      (OnStreamMessage Example.requested Example.requestedReceiver 3 0
          (.kPresentationUrlAvailabilityResponse (.consumed 9)
            { request_id := 1, url_availabilities := [.unknown 3] })).map
        (fun r => (r.1.calls, r.2.1.known_availability_by_url)) =
        some ([], [("u", .unknown 3)]) :=
  ⟨by decide, by decide, by decide, by decide⟩

/-- C35 (amended). For an observed url `u` that is not cached,
`UpdateAvailabilities` with an ordinal other than the three named ones calls
no observer and changes nothing but the cache, which then holds that ordinal
for `u`. -/
theorem UpdateAvailabilities_unknown_ordinal (listener : UrlAvailabilityRequester)
    (self : ReceiverRequester) (u : String) (ordinal : Nat) (observers : List Observer)
    (hobs : StdMap.find listener.observers_by_url_ u = some observers)
    (hcache : StdMap.find self.known_availability_by_url u = none) :
    UpdateAvailabilities listener self [u] [.unknown ordinal] =
        some (listener,
          { self with
            known_availability_by_url :=
              StdMap.insertSorted self.known_availability_by_url u (.unknown ordinal) }) ∧
      StdMap.find
          (StdMap.insertSorted self.known_availability_by_url u
            (PresentationUrlAvailability.unknown ordinal)) u =
        some (.unknown ordinal) := by
  refine ⟨?_, StdMap.find_insertSorted_self _ _ _ hcache⟩
  simp [UpdateAvailabilities, hobs, StdMap.emplace, hcache, edgeCalls]

/-- C35 (amended) at the requested state of the unit tests, where `"u"` is
observed by 7 and not cached. -/
theorem UpdateAvailabilities_unknown_ordinal_witness :
    UpdateAvailabilities Example.requested Example.requestedReceiver ["u"] [.unknown 3] =
        some (Example.requested,
          { Example.requestedReceiver with
            known_availability_by_url := [("u", .unknown 3)] }) :=
  (UpdateAvailabilities_unknown_ordinal Example.requested Example.requestedReceiver "u" 3 [7]
    (by decide) (by decide)).1

/-- The first loop of `RemoveObserverUrls` leaves the lookup of every url it
does not process as it was. -/
theorem removeUrlsScan_other (observer : Observer) (urls : List String) :
    ∀ (s : UrlAvailabilityRequester) (unobserved : StdSet String)
      (s' : UrlAvailabilityRequester) (unobserved' : StdSet String),
      removeUrlsScan observer urls s unobserved = some (s', unobserved') →
      ∀ url, url ∉ urls →
        StdMap.find s'.observers_by_url_ url = StdMap.find s.observers_by_url_ url := by
  induction urls with
  | nil =>
    intro s unobserved s' unobserved' h url _
    simp only [removeUrlsScan, Option.some.injEq, Prod.mk.injEq] at h
    rw [← h.1]
  | cons u rest ih =>
    intro s unobserved s' unobserved' h url hurl
    have hne : u ≠ url := fun he => hurl (by rw [he]; exact List.mem_cons_self _ _)
    have hrest : url ∉ rest := fun hm => hurl (List.mem_cons_of_mem _ hm)
    simp only [removeUrlsScan] at h
    cases hf : StdMap.find s.observers_by_url_ u with
    | none => simp [hf] at h
    | some observers =>
      simp only [hf] at h
      split at h
      · rw [ih _ _ _ _ h url hrest]
        exact StdMap.find_erase_ne _ _ _ hne
      · rw [ih _ _ _ _ h url hrest]
        simp only [StdMap.find_assign]
        rw [if_neg (fun he => hne he.symm)]

/-- The first loop of `RemoveObserverUrls` over distinct urls that all have an
entry dereferences no failed lookup. -/
theorem removeUrlsScan_defined (observer : Observer) (urls : List String) :
    ∀ (s : UrlAvailabilityRequester) (unobserved : StdSet String),
      urls.Nodup →
      (∀ url ∈ urls, StdMap.find s.observers_by_url_ url ≠ none) →
      removeUrlsScan observer urls s unobserved ≠ none := by
  induction urls with
  | nil => intro s unobserved _ _; simp [removeUrlsScan]
  | cons u rest ih =>
    intro s unobserved hd hk
    have hu : u ∉ rest := (List.nodup_cons.mp hd).1
    have hdr : rest.Nodup := (List.nodup_cons.mp hd).2
    simp only [removeUrlsScan]
    cases hf : StdMap.find s.observers_by_url_ u with
    | none => exact absurd hf (hk u (List.mem_cons_self _ _))
    | some observers =>
      simp only
      split
      · refine ih _ _ hdr ?_
        intro url hm
        rw [StdMap.find_erase_ne _ _ _ (fun he => hu (by rw [he]; exact hm))]
        exact hk url (List.mem_cons_of_mem _ hm)
      · refine ih _ _ hdr ?_
        intro url hm
        simp only [StdMap.find_assign]
        rw [if_neg (fun he => hu (by rw [← he]; exact hm))]
        exact hk url (List.mem_cons_of_mem _ hm)

/-- The first loop of `RemoveObserverUrls` over a list is the loop over its
front followed by the loop over the rest. -/
theorem removeUrlsScan_append (observer : Observer) (front rest : List String) :
    ∀ (s : UrlAvailabilityRequester) (unobserved : StdSet String),
      removeUrlsScan observer (front ++ rest) s unobserved =
        (removeUrlsScan observer front s unobserved).bind
          (fun r => removeUrlsScan observer rest r.1 r.2) := by
  induction front with
  | nil => intro s unobserved; rfl
  | cons u front ih =>
    intro s unobserved
    simp only [List.cons_append, removeUrlsScan]
    cases StdMap.find s.observers_by_url_ u with
    | none => rfl
    | some observers =>
      simp only
      split
      · exact ih _ _
      · exact ih _ _

section
variable (encode : PresentationUrlAvailabilityRequest → Bool)

/-- C36. For a list of pairwise distinct urls that each have an entry in
`observers_by_url_`, `RemoveObserverUrls(urls, o)` dereferences no failed
lookup: it returns, and wherever a url stands in the list, the loop over the
urls before it is defined and leaves a table in which that url is found. -/
theorem RemoveObserverUrls_lookups_succeed (self : UrlAvailabilityRequester)
    (urls : List String) (observer : Observer) (hdistinct : urls.Nodup)
    (hkeys : ∀ url ∈ urls, StdMap.find self.observers_by_url_ url ≠ none) :
    UrlAvailabilityRequester.RemoveObserverUrls encode self urls observer ≠ none ∧
      ∀ (front : List String) (url : String) (rest : List String),
        urls = front ++ url :: rest →
        ∃ s unobserved,
          removeUrlsScan observer front self [] = some (s, unobserved) ∧
            StdMap.find s.observers_by_url_ url ≠ none := by
  refine ⟨?_, ?_⟩
  · have hscan := removeUrlsScan_defined observer urls self [] hdistinct hkeys
    unfold UrlAvailabilityRequester.RemoveObserverUrls
    cases hs : removeUrlsScan observer urls self [] with
    | none => exact absurd hs hscan
    | some r => simp
  · intro front url rest hsplit
    subst hsplit
    have hfront : front.Nodup := (List.nodup_append.mp hdistinct).1
    have hurl : url ∉ front := fun hm =>
      (List.nodup_append.mp hdistinct).2.2 hm (List.mem_cons_self _ _)
    have hscan := removeUrlsScan_defined observer front self [] hfront
      (fun u hu => hkeys u (List.mem_append_left _ hu))
    cases hs : removeUrlsScan observer front self [] with
    | none => exact absurd hs hscan
    | some r =>
      obtain ⟨s, unobserved⟩ := r
      refine ⟨s, unobserved, rfl, ?_⟩
      rw [removeUrlsScan_other observer front self [] s unobserved hs url hurl]
      exact hkeys url (List.mem_append_right _ (List.mem_cons_self _ _))

end

/-- C36 at the state of the unit tests with `"u"` and `"v"` observed by 7:
`RemoveObserverUrls({"u", "v"}, 7)` returns, and `"v"` is found after `"u"`
has been processed. -/
theorem RemoveObserverUrls_lookups_succeed_witness :
    UrlAvailabilityRequester.RemoveObserverUrls Example.encodeAll Example.requestedTwo
        ["u", "v"] 7 ≠ none ∧
      ∃ s unobserved,
        removeUrlsScan 7 ["u"] Example.requestedTwo [] = some (s, unobserved) ∧
          StdMap.find s.observers_by_url_ "v" ≠ none :=
  ⟨(RemoveObserverUrls_lookups_succeed Example.encodeAll Example.requestedTwo ["u", "v"] 7
      (by decide) (by decide)).1,
    (RemoveObserverUrls_lookups_succeed Example.encodeAll Example.requestedTwo ["u", "v"] 7
      (by decide) (by decide)).2 ["u"] "v" [] rfl⟩

/-- The loop of `RemoveAllReceivers` over requesters whose cached urls all
have an entry leaves the observer table exactly as it is. -/
theorem removeAll_observers_eq (receivers : StdMap String ReceiverRequester) :
    ∀ (listener : UrlAvailabilityRequester),
      (∀ entry ∈ receivers, ∀ url,
        StdMap.find entry.2.known_availability_by_url url ≠ none →
          StdMap.find listener.observers_by_url_ url ≠ none) →
      (receivers.foldl
        (fun (listener : UrlAvailabilityRequester) (entry : String × ReceiverRequester) =>
          ReceiverRequester.RemoveReceiver listener entry.2)
        listener).observers_by_url_ = listener.observers_by_url_ := by
  induction receivers with
  | nil => intro listener _; rfl
  | cons e rest ih =>
    intro listener h
    have h1 : (ReceiverRequester.RemoveReceiver listener e.2).observers_by_url_ =
        listener.observers_by_url_ := by
      unfold ReceiverRequester.RemoveReceiver
      refine removeReceiverScan_observers_eq _ _ _ ?_
      intro entry he
      exact h e (List.mem_cons_self _ _) entry.1
        (StdMap.find_ne_none_of_mem _ _ he)
    simp only [List.foldl_cons]
    rw [ih, h1]
    intro entry he url hc
    rw [h1]
    exact h entry (List.mem_cons_of_mem _ he) url hc

section
variable (encode : PresentationUrlAvailabilityRequest → Bool)

/-- C38. In every reachable state every url cached by some requester is a key
of `observers_by_url_`, so tearing receivers down, by `RemoveReceiver` of the
coordinator, by `RemoveReceiver` of a requester of the state, or by
`RemoveAllReceivers`, leaves `observers_by_url_` exactly as it is: the lookups
`observers_by_url_[url]` insert no key. -/
theorem cached_urls_have_entries (first_request_id first_watch_id : Nat)
    (self : UrlAvailabilityRequester)
    (h : Reachable encode first_request_id first_watch_id self) :
    (∀ entry ∈ self.receiver_by_service_id_, ∀ url,
        StdMap.find entry.2.known_availability_by_url url ≠ none →
          StdMap.find self.observers_by_url_ url ≠ none) ∧
      (∀ info, (UrlAvailabilityRequester.RemoveReceiver self info).observers_by_url_ =
        self.observers_by_url_) ∧
      (∀ entry ∈ self.receiver_by_service_id_,
        (ReceiverRequester.RemoveReceiver self entry.2).observers_by_url_ =
          self.observers_by_url_) ∧
      (UrlAvailabilityRequester.RemoveAllReceivers self).observers_by_url_ =
        self.observers_by_url_ := by
  have hc : CachedUrlsAreKeys self := Reachable.cachedUrlsAreKeys h
  refine ⟨hc, fun info => RemoveReceiver_observers_eq self info hc, ?_, ?_⟩
  · intro entry he
    unfold ReceiverRequester.RemoveReceiver
    refine removeReceiverScan_observers_eq _ _ _ ?_
    intro cached hcached
    exact hc entry he cached.1 (StdMap.find_ne_none_of_mem _ _ hcached)
  · unfold UrlAvailabilityRequester.RemoveAllReceivers
    exact removeAll_observers_eq _ _ hc

end

/-- C38 at the answered state of the unit tests after `RemoveObserver(7)`:
`"u"` is cached and is a key with an empty observer list, and `RemoveReceiver`
leaves the observer table as it is. -/
theorem cached_urls_have_entries_witness :
    Example.answeredUnobserved.observers_by_url_ = [("u", [])] ∧
      Example.answeredUnobserved.receiver_by_service_id_.map
          (fun entry => entry.2.known_availability_by_url) = [[("u", .kCompatible)]] ∧
      (UrlAvailabilityRequester.RemoveReceiver Example.answeredUnobserved
          Example.info1).observers_by_url_ = Example.answeredUnobserved.observers_by_url_ :=
  ⟨by decide, by decide,
    (cached_urls_have_entries Example.encodeAll 1 1 Example.answeredUnobserved
      (.removeObserver _ Example.answered_reachable)).2.1 Example.info1⟩

/-- Every edge call carries the service id it is made with. -/
theorem edgeCalls_service_id (availability : PresentationUrlAvailability)
    (observers : List Observer) (url service_id : String) :
    ∀ call ∈ edgeCalls availability observers url service_id,
      call.service_id = service_id := by
  intro call hc
  cases availability <;> simp only [edgeCalls, List.mem_map, List.not_mem_nil] at hc
  all_goals
    obtain ⟨o, _, rfl⟩ := hc
    rfl

/-- Whenever `UpdateAvailabilities` is defined, the calls it has appended
carry the service id of the requester. -/
theorem UpdateAvailabilities_calls (urls : List String) :
    ∀ (availabilities : List PresentationUrlAvailability)
      (listener listener' : UrlAvailabilityRequester) (self self' : ReceiverRequester),
      UpdateAvailabilities listener self urls availabilities = some (listener', self') →
      ∃ calls, listener' = { listener with calls := listener.calls ++ calls } ∧
        ∀ call ∈ calls, call.service_id = self.service_id := by
  induction urls with
  | nil =>
    intro availabilities listener listener' self self' h
    simp only [UpdateAvailabilities, Option.some.injEq, Prod.mk.injEq] at h
    obtain ⟨rfl, rfl⟩ := h
    exact ⟨[], by simp, fun call hc => absurd hc (List.not_mem_nil call)⟩
  | cons url urls ih =>
    intro availabilities listener listener' self self' h
    simp only [UpdateAvailabilities] at h
    cases hobs : StdMap.find listener.observers_by_url_ url with
    | none =>
      rw [hobs] at h
      exact ih availabilities listener listener' self self' h
    | some observers =>
      rw [hobs] at h
      cases availabilities with
      | nil => simp at h
      | cons a rest =>
        simp only at h
        obtain ⟨calls, hc, hs⟩ := ih _ _ _ _ _ h
        split at hc
        · refine ⟨edgeCalls a observers url self.service_id ++ calls, by rw [hc]; simp, ?_⟩
          intro call hm
          rcases List.mem_append.mp hm with hm | hm
          · exact edgeCalls_service_id _ _ _ _ call hm
          · exact hs call hm
        · exact ⟨calls, hc, hs⟩

/-- What `OnStreamMessage` does to the coordinator state: it appends calls,
which carry the service id of the requester. -/
theorem OnStreamMessage_calls (listener listener' : UrlAvailabilityRequester)
    (self self' : ReceiverRequester) (endpoint_id connection_id : Nat)
    (message : StreamMessage) (result : Except ErrorCode Nat)
    (h : OnStreamMessage listener self endpoint_id connection_id message =
      some (listener', self', result)) :
    ∃ calls, listener' = { listener with calls := listener.calls ++ calls } ∧
      ∀ call ∈ calls, call.service_id = self.service_id := by
  have same : ∀ {res : Except ErrorCode Nat},
      some (listener, self, res) = some (listener', self', result) →
      ∃ calls, listener' = { listener with calls := listener.calls ++ calls } ∧
        ∀ call ∈ calls, call.service_id = self.service_id := by
    intro res h
    simp only [Option.some.injEq, Prod.mk.injEq] at h
    exact ⟨[], by rw [← h.1]; simp, fun call hc => absurd hc (List.not_mem_nil call)⟩
  cases message with
  | other => exact same h
  | kPresentationUrlAvailabilityResponse decoded response =>
    cases decoded with
    | parserEOF => exact same h
    | failure => exact same h
    | consumed bytes =>
      simp only [OnStreamMessage] at h
      cases hreq : StdMap.find self.request_by_id response.request_id with
      | none =>
        simp only [hreq] at h
        exact same h
      | some request =>
        simp only [hreq] at h
        split at h
        · exact same h
        · cases hup : UpdateAvailabilities listener self request.urls
              response.url_availabilities with
          | none => simp [hup] at h
          | some updated =>
            obtain ⟨l₁, s₁⟩ := updated
            obtain ⟨calls, hl₁, hs⟩ := UpdateAvailabilities_calls _ _ _ _ _ _ hup
            simp only [hup, Option.some.injEq, Prod.mk.injEq] at h
            exact ⟨calls, by rw [← h.1, hl₁], hs⟩
  | kPresentationUrlAvailabilityEvent decoded event =>
    cases decoded with
    | parserEOF => exact same h
    | failure => exact same h
    | consumed bytes =>
      simp only [OnStreamMessage] at h
      cases hw : StdMap.find self.watch_by_id event.watch_id with
      | none =>
        simp only [hw] at h
        exact same h
      | some watch =>
        simp only [hw] at h
        cases hup : UpdateAvailabilities listener self event.urls
            event.url_availabilities with
        | none => simp [hup] at h
        | some updated =>
          obtain ⟨l₁, s₁⟩ := updated
          obtain ⟨calls, hl₁, hs⟩ := UpdateAvailabilities_calls _ _ _ _ _ _ hup
          simp only [hup, Option.some.injEq, Prod.mk.injEq] at h
          exact ⟨calls, by rw [← h.1, hl₁], hs⟩

/-- Assigning under a key leaves every entry stored under another key. -/
theorem StdMap.mem_assign_of_ne {κ ν : Type} [DecidableEq κ] (m : StdMap κ ν) (k : κ) (v : ν)
    (e : κ × ν) (he : e ∈ m) (hk : e.1 ≠ k) : e ∈ StdMap.assign m k v := by
  unfold StdMap.assign
  exact List.mem_map.mpr ⟨e, he, by rw [if_neg hk]⟩

/-- Assigning under a key adds no entry under another key. -/
theorem StdMap.mem_of_mem_assign_ne {κ ν : Type} [DecidableEq κ] (m : StdMap κ ν) (k : κ)
    (v : ν) (e : κ × ν) (he : e ∈ StdMap.assign m k v) (hk : e.1 ≠ k) : e ∈ m := by
  unfold StdMap.assign at he
  obtain ⟨e₀, he₀, heq⟩ := List.mem_map.mp he
  by_cases h0 : e₀.1 = k
  · rw [if_pos h0] at heq
    exact absurd (by rw [← heq]; exact h0) hk
  · rw [if_neg h0] at heq
    rw [← heq]
    exact he₀

/-- C39. A response or event handled by the requester `A` stored under
`service_id` leaves every requester stored under another service id exactly
as it is, with its requests, watches, cache, id counters and registrations:
the requester table changes under `service_id` only. It leaves the observer
table, the clock and the written requests, and every call it makes on an
observer carries the service id of `A`, which is `service_id` when every
requester is stored under its own service id. -/
theorem OnStreamMessage_other_requesters (self self' : UrlAvailabilityRequester)
    (service_id : String) (A : ReceiverRequester) (endpoint_id connection_id : Nat)
    (message : StreamMessage) (result : Except ErrorCode Nat)
    (hA : StdMap.find self.receiver_by_service_id_ service_id = some A)
    (h : UrlAvailabilityRequester.streamMessage self service_id endpoint_id connection_id
      message = some (self', result)) :
    (∀ other, other ≠ service_id →
        StdMap.find self'.receiver_by_service_id_ other =
          StdMap.find self.receiver_by_service_id_ other) ∧
      (∀ entry, entry.1 ≠ service_id →
        (entry ∈ self'.receiver_by_service_id_ ↔ entry ∈ self.receiver_by_service_id_)) ∧
      self'.observers_by_url_ = self.observers_by_url_ ∧
      self'.clock_ = self.clock_ ∧
      self'.written = self.written ∧
      (∃ calls, self'.calls = self.calls ++ calls ∧
        ∀ call ∈ calls, call.service_id = A.service_id) ∧
      (KeysAreServiceIds self → A.service_id = service_id) := by
  simp only [UrlAvailabilityRequester.streamMessage, hA] at h
  cases hm : OnStreamMessage self A endpoint_id connection_id message with
  | none => simp [hm] at h
  | some r =>
    obtain ⟨l', A', res⟩ := r
    obtain ⟨calls, hl', hcalls⟩ := OnStreamMessage_calls _ _ _ _ _ _ _ _ hm
    simp only [hm, Option.some.injEq, Prod.mk.injEq] at h
    obtain ⟨hs, _⟩ := h
    subst hs
    subst hl'
    refine ⟨?_, ?_, rfl, rfl, rfl, ⟨calls, rfl, hcalls⟩, ?_⟩
    · intro other hne
      simp only [StdMap.find_assign]
      rw [if_neg hne]
    · intro entry hne
      exact ⟨fun he => StdMap.mem_of_mem_assign_ne _ _ _ _ he hne,
        fun he => StdMap.mem_assign_of_ne _ _ _ _ he hne⟩
    · intro hkeys
      exact hkeys (service_id, A) (StdMap.mem_of_find _ _ _ hA)

/-- C39 at a state with the requesters `"asdf"` and `"other"`, both holding
request 1 and watch 1 for `"u"`: the response `[kCompatible]` to request 1
handled by `"asdf"` leaves the requester `"other"` as it is and calls observer
7 with the service id `"asdf"`. -/
theorem OnStreamMessage_other_requesters_witness :
    UrlAvailabilityRequester.streamMessage Example.twoReceivers "asdf" 3 0
        (.kPresentationUrlAvailabilityResponse (.consumed 9)
          { request_id := 1, url_availabilities := [.kCompatible] }) =
        some (Example.twoReceiversAnswered, .ok 9) ∧
      StdMap.find Example.twoReceiversAnswered.receiver_by_service_id_ "other" =
        StdMap.find Example.twoReceivers.receiver_by_service_id_ "other" ∧
      ∃ calls, Example.twoReceiversAnswered.calls = Example.twoReceivers.calls ++ calls ∧
        ∀ call ∈ calls, call.service_id = Example.requestedReceiver.service_id :=
  ⟨rfl,
    (OnStreamMessage_other_requesters Example.twoReceivers Example.twoReceiversAnswered "asdf"
      Example.requestedReceiver 3 0
      (.kPresentationUrlAvailabilityResponse (.consumed 9)
        { request_id := 1, url_availabilities := [.kCompatible] })
      (.ok 9) (by decide) rfl).1 "other" (by decide),
    (OnStreamMessage_other_requesters Example.twoReceivers Example.twoReceiversAnswered "asdf"
      Example.requestedReceiver 3 0
      (.kPresentationUrlAvailabilityResponse (.consumed 9)
        { request_id := 1, url_availabilities := [.kCompatible] })
      (.ok 9) (by decide) rfl).2.2.2.2.2.1⟩

/-- What holds of the watch id of every request holds of it after the scan of
`RemoveUnobservedRequests`, which changes url lists only. -/
theorem scanRequests_watch_ids {P : Nat → Prop} (unobserved : StdSet String)
    (connection : Bool) (requests : StdMap Nat Request) :
    ∀ (watches : StdMap Nat Watch) (still : StdSet String),
      (∀ entry ∈ requests, P entry.2.watch_id) →
      ∀ entry ∈ (scanRequests unobserved connection requests watches still).1,
        P entry.2.watch_id := by
  induction requests with
  | nil => intro watches still _ entry he; cases he
  | cons e rest ih =>
    intro watches still h entry he
    obtain ⟨id, request⟩ := e
    have hhead : P request.watch_id := h (id, request) (List.mem_cons_self _ _)
    have hrest : ∀ entry ∈ rest, P entry.2.watch_id :=
      fun entry hm => h entry (List.mem_cons_of_mem _ hm)
    simp only [scanRequests] at he
    split at he
    · rcases List.mem_cons.mp he with rfl | he
      · exact hhead
      · exact ih _ _ hrest entry he
    · rcases List.mem_cons.mp he with rfl | he
      · exact hhead
      · exact ih _ _ hrest entry he

section
variable (encode : PresentationUrlAvailabilityRequest → Bool)

/-- Without a connection `RequestUrlAvailabilities` does not reach
`SendRequest`: the coordinator state with its written requests, the watch id
counter and the watch table stay, and a request it records has watch id 0. -/
theorem RequestUrlAvailabilities_unconnected (listener : UrlAvailabilityRequester)
    (self : ReceiverRequester) (urls : List String) (hconn : self.connection = none) :
    (RequestUrlAvailabilities encode listener self urls).1 = listener ∧
      (RequestUrlAvailabilities encode listener self urls).2.connection = none ∧
      (RequestUrlAvailabilities encode listener self urls).2.next_watch_id =
        self.next_watch_id ∧
      (RequestUrlAvailabilities encode listener self urls).2.watch_by_id =
        self.watch_by_id ∧
      ((∀ entry ∈ self.request_by_id, entry.2.watch_id = 0) →
        ∀ entry ∈ (RequestUrlAvailabilities encode listener self urls).2.request_by_id,
          entry.2.watch_id = 0) := by
  by_cases hne : urls = []
  · subst hne
    have hnil : RequestUrlAvailabilities encode listener self [] = (listener, self) := by
      simp [RequestUrlAvailabilities]
    rw [hnil]
    exact ⟨rfl, hconn, rfl, rfl, fun h => h⟩
  · rw [RequestUrlAvailabilities_queued encode _ _ _ hne hconn]
    refine ⟨rfl, hconn, rfl, rfl, ?_⟩
    intro h
    exact (StdMap.forall_emplace (C := fun request => request.watch_id = 0)
      self.request_by_id self.next_request_id ⟨0, urls⟩ h rfl).1

/-- Without a connection the loop over `new_requests` does not reach
`SendRequest`. -/
theorem requestAll_unconnected (batches : List (List String)) :
    ∀ (listener : UrlAvailabilityRequester) (self : ReceiverRequester),
      self.connection = none →
      (requestAll encode listener self batches).1 = listener ∧
        (requestAll encode listener self batches).2.connection = none ∧
        (requestAll encode listener self batches).2.next_watch_id = self.next_watch_id ∧
        (requestAll encode listener self batches).2.watch_by_id = self.watch_by_id ∧
        ((∀ entry ∈ self.request_by_id, entry.2.watch_id = 0) →
          ∀ entry ∈ (requestAll encode listener self batches).2.request_by_id,
            entry.2.watch_id = 0) := by
  induction batches with
  | nil => intro listener self hconn; exact ⟨rfl, hconn, rfl, rfl, fun h => h⟩
  | cons batch rest ih =>
    intro listener self hconn
    obtain ⟨h1, h2, h3, h4, h5⟩ :=
      RequestUrlAvailabilities_unconnected encode listener self batch hconn
    obtain ⟨g1, g2, g3, g4, g5⟩ :=
      ih (RequestUrlAvailabilities encode listener self batch).1
        (RequestUrlAvailabilities encode listener self batch).2 h2
    simp only [requestAll]
    exact ⟨g1.trans h1, g2, g3.trans h3, g4.trans h4, fun h => g5 (h5 h)⟩

/-- Without a connection `GetOrRequesetAvailabilities` does not reach
`SendRequest`. -/
theorem GetOrRequesetAvailabilities_unconnected (listener : UrlAvailabilityRequester)
    (self : ReceiverRequester) (urls : List String) (observer : Option Observer)
    (hconn : self.connection = none) :
    (GetOrRequesetAvailabilities encode listener self urls observer).1.written =
        listener.written ∧
      (GetOrRequesetAvailabilities encode listener self urls observer).2.connection = none ∧
      (GetOrRequesetAvailabilities encode listener self urls observer).2.next_watch_id =
        self.next_watch_id := by
  rw [GetOrRequesetAvailabilities_eq]
  obtain ⟨h1, h2, h3, _, _⟩ := RequestUrlAvailabilities_unconnected encode
    { listener with calls := listener.calls ++ (scanRequested self observer urls).1 } self
    (urls.filter (fun url => (StdMap.find self.known_availability_by_url url).isNone)) hconn
  exact ⟨by rw [h1], h2, h3⟩

/-- Without a connection `RefreshWatches` of a requester does not reach
`SendRequest`; it only erases watches. -/
theorem RefreshWatches_unconnected (listener : UrlAvailabilityRequester)
    (self : ReceiverRequester) (now : TimeDelta) (hconn : self.connection = none) :
    (ReceiverRequester.RefreshWatches encode listener self now).1 = listener ∧
      (ReceiverRequester.RefreshWatches encode listener self now).2.1.connection = none ∧
      (ReceiverRequester.RefreshWatches encode listener self now).2.1.next_watch_id =
        self.next_watch_id ∧
      List.Sublist (ReceiverRequester.RefreshWatches encode listener self now).2.1.watch_by_id
        self.watch_by_id ∧
      ((∀ entry ∈ self.request_by_id, entry.2.watch_id = 0) →
        ∀ entry ∈ (ReceiverRequester.RefreshWatches encode listener self now).2.1.request_by_id,
          entry.2.watch_id = 0) := by
  have hsub := scanWatches_sublist now self.watch_by_id
    (TimeDelta.FromSeconds kWatchDurationSeconds)
  simp only [ReceiverRequester.RefreshWatches]
  generalize scanWatches now self.watch_by_id (TimeDelta.FromSeconds kWatchDurationSeconds) =
    scan at hsub ⊢
  obtain ⟨kept, new_requests, m⟩ := scan
  simp only at hsub ⊢
  split
  · obtain ⟨g1, g2, g3, g4, g5⟩ := requestAll_unconnected encode new_requests listener
      { self with watch_by_id := kept, event_watch := StopWatching self.event_watch } hconn
    exact ⟨g1, g2, g3, by rw [g4]; exact hsub, g5⟩
  · obtain ⟨g1, g2, g3, g4, g5⟩ := requestAll_unconnected encode new_requests listener
      { self with watch_by_id := kept } hconn
    exact ⟨g1, g2, g3, by rw [g4]; exact hsub, g5⟩

/-- Without a connection `RemoveUnobservedRequests` does not reach
`SendRequest`; the request it adds has watch id 0. -/
theorem RemoveUnobservedRequests_unconnected (listener : UrlAvailabilityRequester)
    (self : ReceiverRequester) (unobserved : StdSet String)
    (hconn : self.connection = none) :
    (RemoveUnobservedRequests encode listener self unobserved).1 = listener ∧
      (RemoveUnobservedRequests encode listener self unobserved).2.connection = none ∧
      (RemoveUnobservedRequests encode listener self unobserved).2.next_watch_id =
        self.next_watch_id ∧
      List.Sublist (RemoveUnobservedRequests encode listener self unobserved).2.watch_by_id
        self.watch_by_id ∧
      ((∀ entry ∈ self.request_by_id, entry.2.watch_id = 0) →
        ∀ entry ∈ (RemoveUnobservedRequests encode listener self unobserved).2.request_by_id,
          entry.2.watch_id = 0) := by
  rw [RemoveUnobservedRequests_eq]
  obtain ⟨g1, g2, g3, g4, g5⟩ := RequestUrlAvailabilities_unconnected encode listener
    { self with
      request_by_id :=
        (scanRequests unobserved self.connection.isSome self.request_by_id
          self.watch_by_id []).1
      watch_by_id :=
        (scanRequests unobserved self.connection.isSome self.request_by_id
          self.watch_by_id []).2.1 }
    (scanRequests unobserved self.connection.isSome self.request_by_id
      self.watch_by_id []).2.2 hconn
  have hsub := scanRequests_watches unobserved self.connection.isSome self.request_by_id
    self.watch_by_id []
  have hids : (∀ entry ∈ self.request_by_id, entry.2.watch_id = 0) →
      ∀ entry ∈ (scanRequests unobserved self.connection.isSome self.request_by_id
        self.watch_by_id []).1, entry.2.watch_id = 0 :=
    scanRequests_watch_ids (P := fun id => id = 0) unobserved self.connection.isSome
      self.request_by_id self.watch_by_id []
  simp only
  split
  · exact ⟨g1, g2, g3, by rw [g4]; exact hsub, fun h => g5 (hids h)⟩
  · exact ⟨g1, g2, g3, by rw [g4]; exact hsub, fun h => g5 (hids h)⟩

/-- Without a connection `RemoveUnobservedWatches` does not reach
`SendRequest`; the request it adds has watch id 0. -/
theorem RemoveUnobservedWatches_unconnected (listener : UrlAvailabilityRequester)
    (self : ReceiverRequester) (unobserved : StdSet String)
    (hconn : self.connection = none) :
    (RemoveUnobservedWatches encode listener self unobserved).1 = listener ∧
      (RemoveUnobservedWatches encode listener self unobserved).2.connection = none ∧
      (RemoveUnobservedWatches encode listener self unobserved).2.next_watch_id =
        self.next_watch_id ∧
      List.Sublist (RemoveUnobservedWatches encode listener self unobserved).2.watch_by_id
        self.watch_by_id ∧
      ((∀ entry ∈ self.request_by_id, entry.2.watch_id = 0) →
        ∀ entry ∈ (RemoveUnobservedWatches encode listener self unobserved).2.request_by_id,
          entry.2.watch_id = 0) := by
  have hsub := scanUnobservedWatches_sublist unobserved self.watch_by_id []
  simp only [RemoveUnobservedWatches]
  generalize scanUnobservedWatches unobserved self.watch_by_id [] = scan at hsub ⊢
  obtain ⟨watches, still⟩ := scan
  obtain ⟨g1, g2, g3, g4, g5⟩ := RequestUrlAvailabilities_unconnected encode listener
    { self with watch_by_id := watches } still hconn
  simp only at hsub ⊢
  split
  · exact ⟨g1, g2, g3, by rw [g4]; exact hsub, g5⟩
  · exact ⟨g1, g2, g3, by rw [g4]; exact hsub, g5⟩

end

/-- The handler `OnStreamMessage` writes nothing and leaves the connection,
the watch id counter and the watch table; the requests it leaves were there
before. -/
theorem OnStreamMessage_unsent (listener listener' : UrlAvailabilityRequester)
    (self self' : ReceiverRequester) (endpoint_id connection_id : Nat)
    (message : StreamMessage) (result : Except ErrorCode Nat)
    (h : OnStreamMessage listener self endpoint_id connection_id message =
      some (listener', self', result)) :
    listener'.written = listener.written ∧
      self'.connection = self.connection ∧
      self'.next_watch_id = self.next_watch_id ∧
      self'.watch_by_id = self.watch_by_id ∧
      List.Sublist self'.request_by_id self.request_by_id := by
  obtain ⟨calls, hl⟩ := OnStreamMessage_listener _ _ _ _ _ _ _ _ h
  subst hl
  rcases OnStreamMessage_requester _ _ _ _ _ _ _ _ h with rfl | ⟨cache, rfl⟩ |
    ⟨cache, request_id, rfl⟩
  · exact ⟨rfl, rfl, rfl, rfl, List.Sublist.refl _⟩
  · exact ⟨rfl, rfl, rfl, rfl, List.Sublist.refl _⟩
  · exact ⟨rfl, rfl, rfl, rfl, List.filter_sublist _⟩

section
variable (encode : PresentationUrlAvailabilityRequest → Bool)

/-- The handler `OnConnectionOpened` stores the connection before it sends. -/
theorem OnConnectionOpened_connection (listener : UrlAvailabilityRequester)
    (self : ReceiverRequester) (request_id : Nat) (connection : ProtocolConnection) :
    (OnConnectionOpened encode listener self request_id connection).2.connection =
      some connection := by
  have hloop := (resendRequests_kept encode self.request_by_id listener
    { self with
      connect_request := false
      endpoint_id := connection.endpoint_id
      connection := some connection }).2.connection
  simp only [OnConnectionOpened]
  generalize resendRequests encode listener
    { self with
      connect_request := false
      endpoint_id := connection.endpoint_id
      connection := some connection } self.request_by_id = res at hloop ⊢
  obtain ⟨l', s', rs⟩ := res
  exact hloop

/-- In every reachable state a requester without a connection has never
sent. -/
theorem Reachable.neverSent {first_request_id first_watch_id : Nat}
    {self : UrlAvailabilityRequester}
    (h : Reachable encode first_request_id first_watch_id self) :
    ∀ entry ∈ self.receiver_by_service_id_, NeverSent first_watch_id entry.2 := by
  have nil_of_sublist : ∀ {ws ws' : StdMap Nat Watch}, List.Sublist ws' ws → ws = [] →
      ws' = [] := fun hs hw => List.sublist_nil.mp (hw ▸ hs)
  refine Reachable.requester_invariant (I := NeverSent first_watch_id)
    ?_ ?_ ?_ ?_ ?_ ?_ ?_ ?_ h
  · intro service_id _
    exact ⟨rfl, fun entry he => absurd he (List.not_mem_nil entry), rfl⟩
  · intro r cache hI hnone
    exact hI hnone
  · intro l r urls hI hnone
    have hconn : r.connection = none := by
      rw [← (RequestUrlAvailabilities_step encode l r urls).2.2.connection]
      exact hnone
    obtain ⟨hw, hr, hn⟩ := hI hconn
    obtain ⟨_, _, g3, g4, g5⟩ := RequestUrlAvailabilities_unconnected encode l r urls hconn
    exact ⟨g4.trans hw, g5 hr, g3.trans hn⟩
  · intro l r now hI hnone
    have hconn : r.connection = none := by
      rw [← (RefreshWatches_step encode l r now).2.2.connection]
      exact hnone
    obtain ⟨hw, hr, hn⟩ := hI hconn
    obtain ⟨_, _, g3, g4, g5⟩ := RefreshWatches_unconnected encode l r now hconn
    exact ⟨nil_of_sublist g4 hw, g5 hr, g3.trans hn⟩
  · intro l r unobserved hI hnone
    have hconn : r.connection = none := by
      rw [← (RemoveUnobservedRequests_step encode l r unobserved).2.2.connection]
      exact hnone
    obtain ⟨hw, hr, hn⟩ := hI hconn
    obtain ⟨_, _, g3, g4, g5⟩ := RemoveUnobservedRequests_unconnected encode l r unobserved hconn
    exact ⟨nil_of_sublist g4 hw, g5 hr, g3.trans hn⟩
  · intro l r unobserved hI hnone
    have hconn : r.connection = none := by
      rw [← (RemoveUnobservedWatches_step encode l r unobserved).2.2.connection]
      exact hnone
    obtain ⟨hw, hr, hn⟩ := hI hconn
    obtain ⟨_, _, g3, g4, g5⟩ := RemoveUnobservedWatches_unconnected encode l r unobserved hconn
    exact ⟨nil_of_sublist g4 hw, g5 hr, g3.trans hn⟩
  · intro l r request_id connection _ hnone
    rw [OnConnectionOpened_connection] at hnone
    cases hnone
  · intro l r endpoint_id connection_id message l' r' result hm hI hnone
    obtain ⟨_, g2, g3, g4, g5⟩ := OnStreamMessage_unsent _ _ _ _ _ _ _ _ hm
    obtain ⟨hw, hr, hn⟩ := hI (g2 ▸ hnone)
    exact ⟨g4.trans hw, fun entry he => hr entry (g5.subset he), g3.trans hn⟩

/-- C37. In every reachable state a requester without a connection has an
empty watch table, watch id 0 in every request, and its watch id counter at
the first value. No method called on it reaches `SendRequest`: whatever the
arguments, the written requests and the watch id counter (which every
`SendRequest` advances) stay as they are and the requester stays without a
connection. The handler `OnConnectionOpened` stores the connection before it
sends. -/
theorem unconnected_never_sent (first_request_id first_watch_id : Nat)
    (self : UrlAvailabilityRequester)
    (h : Reachable encode first_request_id first_watch_id self) :
    ∀ entry ∈ self.receiver_by_service_id_, entry.2.connection = none →
      (entry.2.watch_by_id = [] ∧
        (∀ request ∈ entry.2.request_by_id, request.2.watch_id = 0) ∧
        entry.2.next_watch_id = first_watch_id) ∧
      (∀ (listener : UrlAvailabilityRequester) (urls : List String),
        (RequestUrlAvailabilities encode listener entry.2 urls).1.written = listener.written ∧
          (RequestUrlAvailabilities encode listener entry.2 urls).2.next_watch_id =
            entry.2.next_watch_id ∧
          (RequestUrlAvailabilities encode listener entry.2 urls).2.connection = none) ∧
      (∀ (listener : UrlAvailabilityRequester) (urls : List String)
          (observer : Option Observer),
        (GetOrRequesetAvailabilities encode listener entry.2 urls observer).1.written =
            listener.written ∧
          (GetOrRequesetAvailabilities encode listener entry.2 urls observer).2.next_watch_id =
            entry.2.next_watch_id ∧
          (GetOrRequesetAvailabilities encode listener entry.2 urls observer).2.connection =
            none) ∧
      (∀ (listener : UrlAvailabilityRequester) (now : TimeDelta),
        (ReceiverRequester.RefreshWatches encode listener entry.2 now).1.written =
            listener.written ∧
          (ReceiverRequester.RefreshWatches encode listener entry.2 now).2.1.next_watch_id =
            entry.2.next_watch_id ∧
          (ReceiverRequester.RefreshWatches encode listener entry.2 now).2.1.connection =
            none) ∧
      (∀ (listener : UrlAvailabilityRequester) (unobserved : StdSet String),
        (RemoveUnobservedRequests encode listener entry.2 unobserved).1.written =
            listener.written ∧
          (RemoveUnobservedRequests encode listener entry.2 unobserved).2.next_watch_id =
            entry.2.next_watch_id ∧
          (RemoveUnobservedRequests encode listener entry.2 unobserved).2.connection =
            none) ∧
      (∀ (listener : UrlAvailabilityRequester) (unobserved : StdSet String),
        (RemoveUnobservedWatches encode listener entry.2 unobserved).1.written =
            listener.written ∧
          (RemoveUnobservedWatches encode listener entry.2 unobserved).2.next_watch_id =
            entry.2.next_watch_id ∧
          (RemoveUnobservedWatches encode listener entry.2 unobserved).2.connection =
            none) ∧
      (∀ (listener listener' : UrlAvailabilityRequester) (self' : ReceiverRequester)
          (endpoint_id connection_id : Nat) (message : StreamMessage)
          (result : Except ErrorCode Nat),
        OnStreamMessage listener entry.2 endpoint_id connection_id message =
            some (listener', self', result) →
          listener'.written = listener.written ∧
            self'.next_watch_id = entry.2.next_watch_id ∧ self'.connection = none) ∧
      (∀ (listener : UrlAvailabilityRequester) (request_id : Nat)
          (connection : ProtocolConnection),
        (OnConnectionOpened encode listener entry.2 request_id connection).2.connection =
          some connection) := by
  intro entry he hconn
  refine ⟨Reachable.neverSent encode h entry he hconn, ?_, ?_, ?_, ?_, ?_, ?_, ?_⟩
  · intro listener urls
    obtain ⟨g1, g2, g3, _, _⟩ :=
      RequestUrlAvailabilities_unconnected encode listener entry.2 urls hconn
    exact ⟨by rw [g1], g3, g2⟩
  · intro listener urls observer
    obtain ⟨g1, g2, g3⟩ :=
      GetOrRequesetAvailabilities_unconnected encode listener entry.2 urls observer hconn
    exact ⟨g1, g3, g2⟩
  · intro listener now
    obtain ⟨g1, g2, g3, _, _⟩ := RefreshWatches_unconnected encode listener entry.2 now hconn
    exact ⟨by rw [g1], g3, g2⟩
  · intro listener unobserved
    obtain ⟨g1, g2, g3, _, _⟩ :=
      RemoveUnobservedRequests_unconnected encode listener entry.2 unobserved hconn
    exact ⟨by rw [g1], g3, g2⟩
  · intro listener unobserved
    obtain ⟨g1, g2, g3, _, _⟩ :=
      RemoveUnobservedWatches_unconnected encode listener entry.2 unobserved hconn
    exact ⟨by rw [g1], g3, g2⟩
  · intro listener listener' self' endpoint_id connection_id message result hm
    obtain ⟨g1, g2, g3, _, _⟩ := OnStreamMessage_unsent _ _ _ _ _ _ _ _ hm
    exact ⟨g1, g3, g2.trans hconn⟩
  · intro listener request_id connection
    exact OnConnectionOpened_connection encode listener entry.2 request_id connection

end

/-- C37 at the state of the unit tests before the connection opens: the
requester holds the queued request 1 with watch id 0 and no watch, and its
watch id counter is at 1. -/
theorem unconnected_never_sent_witness :
    Example.waiting.receiver_by_service_id_.map
        (fun entry => (entry.2.connection, entry.2.request_by_id)) =
        [(none, [(1, { watch_id := 0, urls := ["u"] })])] ∧
      Example.waiting.written = [] ∧
      ∀ entry ∈ Example.waiting.receiver_by_service_id_, entry.2.connection = none →
        entry.2.watch_by_id = [] ∧
          (∀ request ∈ entry.2.request_by_id, request.2.watch_id = 0) ∧
          entry.2.next_watch_id = 1 :=
  ⟨by decide, by decide, fun entry he hconn =>
    (unconnected_never_sent Example.encodeAll 1 1 Example.waiting Example.waiting_reachable
      entry he hconn).1⟩

/-- A key that is not found in the front of a list is looked up in the rest. -/
theorem StdMap.find_append_of_none {κ ν : Type} [DecidableEq κ] (m m' : StdMap κ ν) (k : κ)
    (h : StdMap.find m k = none) : StdMap.find (m ++ m') k = StdMap.find m' k := by
  induction m with
  | nil => rfl
  | cons e rest ih =>
    obtain ⟨k₀, v₀⟩ := e
    simp only [StdMap.find] at h
    simp only [List.cons_append, StdMap.find]
    split at h
    · cases h
    · rename_i hne
      rw [if_neg hne]
      exact ih h

/-- In a list with distinct keys an entry is found under its key. -/
theorem StdMap.find_of_mem_nodup {κ ν : Type} [DecidableEq κ] (m : StdMap κ ν) (k : κ) (v : ν)
    (hd : (m.map Prod.fst).Nodup) (he : (k, v) ∈ m) : StdMap.find m k = some v := by
  induction m with
  | nil => cases he
  | cons e rest ih =>
    obtain ⟨k₀, v₀⟩ := e
    simp only [List.map_cons, List.nodup_cons] at hd
    simp only [StdMap.find]
    rcases List.mem_cons.mp he with heq | hm
    · simp only [Prod.mk.injEq] at heq
      rw [if_pos heq.1.symm, heq.2]
    · have hne : k₀ ≠ k := by
        intro hk
        exact hd.1 (List.mem_map.mpr ⟨(k, v), hm, hk.symm⟩)
      rw [if_neg hne]
      exact ih hd.2 hm

section
variable (encode : PresentationUrlAvailabilityRequest → Bool)

/-- With the encoder accepting, the watch ids in use below the counter and no
wrap-around, the retransmission loop writes one request per entry, under its
own request id, and records one watch per entry, with consecutive watch
ids. -/
theorem resendRequests_sent (henc : ∀ request, encode request = true)
    (requests : StdMap Nat Request) :
    ∀ (listener : UrlAvailabilityRequester) (self : ReceiverRequester),
      (∀ entry ∈ self.watch_by_id, entry.1 < self.next_watch_id) →
      self.next_watch_id + requests.length < 2 ^ 64 →
      resendRequests encode listener self requests =
        ({ listener with
            written := listener.written ++
              (requests.enumFrom self.next_watch_id).map
                (fun p => ⟨self.service_id, ⟨p.2.1, p.2.2.urls, p.1⟩⟩) },
          { self with
            next_watch_id := self.next_watch_id + requests.length
            watch_by_id := self.watch_by_id ++
              (requests.enumFrom self.next_watch_id).map
                (fun p => (p.1,
                  ⟨listener.clock_ + TimeDelta.FromSeconds kWatchDurationSeconds,
                    p.2.2.urls⟩))
            event_watch := if requests.isEmpty then self.event_watch else true
            response_watch := if requests.isEmpty then self.response_watch else true },
          (requests.enumFrom self.next_watch_id).map
            (fun p => (p.2.1, { p.2.2 with watch_id := p.1 }))) := by
  induction requests with
  | nil =>
    intro listener self _ _
    simp [resendRequests]
  | cons e rest ih =>
    intro listener self hw hww
    obtain ⟨id, request⟩ := e
    simp only [List.length_cons] at hww
    have hiw : increment64 self.next_watch_id = self.next_watch_id + 1 := by
      simp only [increment64]; omega
    simp only [resendRequests]
    rw [SendRequest_ok encode listener self id request.urls (henc _)]
    simp only [StdMap.emplace_of_lt _ _ _ hw, hiw]
    rw [ih]
    · simp [List.enumFrom_cons, Nat.add_assoc, Nat.add_comm 1]
    · intro entry he
      simp only [List.mem_append, List.mem_singleton] at he
      rcases he with he | he
      · exact Nat.lt_succ_of_lt (hw entry he)
      · subst he; simp
    · simp only; omega

/-- C34. With the encoder accepting, `OnConnectionOpened` writes one request
for each request of the table, in key order, with the request's own id and
url list and the next watch id; it stores that watch id in the request and
records a watch under it with the same urls and deadline 20 seconds from now.
The watch ids are consecutive from the counter, hence distinct and keys of no
watch before, and afterwards every request finds its watch. Taken as given:
the watch ids in use are below the counter (no watch is in use on a requester
that was never connected) and the counter does not wrap around. -/
theorem OnConnectionOpened_sends_queued (listener : UrlAvailabilityRequester)
    (self : ReceiverRequester) (request_id : Nat) (connection : ProtocolConnection)
    (henc : ∀ request, encode request = true)
    (hwatch_ids : ∀ entry ∈ self.watch_by_id, entry.1 < self.next_watch_id)
    (hwrap : self.next_watch_id + self.request_by_id.length < 2 ^ 64) :
    (OnConnectionOpened encode listener self request_id connection).1.written =
        listener.written ++
          (self.request_by_id.enumFrom self.next_watch_id).map
            (fun p => ⟨self.service_id, ⟨p.2.1, p.2.2.urls, p.1⟩⟩) ∧
      (OnConnectionOpened encode listener self request_id connection).2.request_by_id =
        (self.request_by_id.enumFrom self.next_watch_id).map
          (fun p => (p.2.1, { watch_id := p.1, urls := p.2.2.urls })) ∧
      (OnConnectionOpened encode listener self request_id connection).2.watch_by_id =
        self.watch_by_id ++
          (self.request_by_id.enumFrom self.next_watch_id).map
            (fun p => (p.1,
              ⟨listener.clock_ + TimeDelta.FromSeconds kWatchDurationSeconds,
                p.2.2.urls⟩)) ∧
      (OnConnectionOpened encode listener self request_id connection).2.next_watch_id =
        self.next_watch_id + self.request_by_id.length ∧
      (OnConnectionOpened encode listener self request_id connection).2.connection =
        some connection ∧
      (OnConnectionOpened encode listener self request_id connection).1.calls =
        listener.calls ∧
      ((self.request_by_id.enumFrom self.next_watch_id).map Prod.fst).Nodup ∧
      (∀ p ∈ self.request_by_id.enumFrom self.next_watch_id,
        StdMap.find self.watch_by_id p.1 = none) ∧
      (∀ entry ∈
          (OnConnectionOpened encode listener self request_id connection).2.request_by_id,
        StdMap.find
            (OnConnectionOpened encode listener self request_id connection).2.watch_by_id
            entry.2.watch_id =
          some ⟨listener.clock_ + TimeDelta.FromSeconds kWatchDurationSeconds,
            entry.2.urls⟩) := by
  have hloop := resendRequests_sent encode henc self.request_by_id listener
    { self with
      connect_request := false
      endpoint_id := connection.endpoint_id
      connection := some connection } hwatch_ids hwrap
  have hnodup : ((self.request_by_id.enumFrom self.next_watch_id).map Prod.fst).Nodup := by
    rw [List.enumFrom_map_fst]
    exact List.nodup_range' _ _
  have hfresh : ∀ p ∈ self.request_by_id.enumFrom self.next_watch_id,
      StdMap.find self.watch_by_id p.1 = none := by
    intro p hp
    have h1 := List.le_fst_of_mem_enumFrom hp
    exact StdMap.find_none_of_lt _ _ (fun entry he => by
      have := hwatch_ids entry he; omega)
  simp only [OnConnectionOpened]
  rw [hloop]
  refine ⟨rfl, rfl, rfl, rfl, rfl, rfl, hnodup, hfresh, ?_⟩
  intro entry he
  simp only [List.mem_map] at he
  obtain ⟨p, hp, rfl⟩ := he
  simp only
  rw [StdMap.find_append_of_none _ _ _ (hfresh p hp)]
  refine StdMap.find_of_mem_nodup _ _ _ ?_ (List.mem_map.mpr ⟨p, hp, rfl⟩)
  rw [List.map_map]
  exact hnodup

end

/-- C34 at the state of the unit tests before the connection opens, with the
request for `"u"` queued: the request is written with its id 1 and watch id
1, and is recorded with watch 1. -/
theorem OnConnectionOpened_sends_queued_witness :
    Example.queuedReceiver.request_by_id = [(1, { watch_id := 0, urls := ["u"] })] ∧
      (OnConnectionOpened Example.encodeAll Example.waiting Example.queuedReceiver 0
          { endpoint_id := 3 }).1.written =
        [{ service_id := "asdf", request := { request_id := 1, urls := ["u"], watch_id := 1 } }] ∧
      (OnConnectionOpened Example.encodeAll Example.waiting Example.queuedReceiver 0
          { endpoint_id := 3 }).2.request_by_id = [(1, { watch_id := 1, urls := ["u"] })] ∧
      (OnConnectionOpened Example.encodeAll Example.waiting Example.queuedReceiver 0
          { endpoint_id := 3 }).2.watch_by_id =
        [(1, { deadline := 213509000000, urls := ["u"] })] :=
  have h := OnConnectionOpened_sends_queued Example.encodeAll Example.waiting
    Example.queuedReceiver 0 { endpoint_id := 3 } (fun _ => rfl) (by decide) (by decide)
  ⟨rfl, h.1, h.2.1, h.2.2.1⟩

/-- No element passes a filter exactly when none satisfies the test. -/
theorem filter_isEmpty_eq_not_any {α : Type} (p : α → Bool) (xs : List α) :
    (xs.filter p).isEmpty = !xs.any p := by
  induction xs with
  | nil => rfl
  | cons x xs ih =>
    cases hp : p x
    · simp [List.filter_cons, hp, ih]
    · simp [List.filter_cons, hp]

/-- The scan of `RemoveUnobservedWatches` keeps exactly the watches that list
no unobserved url. -/
theorem scanUnobservedWatches_kept (unobserved : StdSet String)
    (watches : StdMap Nat Watch) :
    ∀ (still : StdSet String),
      (scanUnobservedWatches unobserved watches still).1 =
        watches.filter (fun entry =>
          !entry.2.urls.any (fun url => StdSet.contains unobserved url)) := by
  induction watches with
  | nil => intro still; rfl
  | cons e rest ih =>
    intro still
    obtain ⟨id, watch⟩ := e
    simp only [scanUnobservedWatches, PartitionUrlsBySetMembership,
      filter_isEmpty_eq_not_any]
    cases hany : watch.urls.any (fun url => StdSet.contains unobserved url)
    · simp [List.filter_cons, hany, ih]
    · simp [List.filter_cons, hany, ih]

/-- The urls the scan of `RemoveUnobservedWatches` collects: those already
collected, and the urls outside the unobserved set of the watches that list
an unobserved url. -/
theorem scanUnobservedWatches_mem (unobserved : StdSet String)
    (watches : StdMap Nat Watch) (url : String) :
    ∀ (still : StdSet String),
      url ∈ (scanUnobservedWatches unobserved watches still).2 ↔
        url ∈ still ∨
          ∃ entry ∈ watches,
            entry.2.urls.any (fun u => StdSet.contains unobserved u) = true ∧
              url ∈ entry.2.urls ∧ StdSet.contains unobserved url = false := by
  induction watches with
  | nil => intro still; simp [scanUnobservedWatches]
  | cons e rest ih =>
    intro still
    obtain ⟨id, watch⟩ := e
    simp only [scanUnobservedWatches, PartitionUrlsBySetMembership,
      filter_isEmpty_eq_not_any]
    cases hany : watch.urls.any (fun u => StdSet.contains unobserved u)
    · simp only [Bool.not_false, if_true]
      rw [ih]
      constructor
      · rintro (h | ⟨entry, he, h⟩)
        · exact Or.inl h
        · exact Or.inr ⟨entry, List.mem_cons_of_mem _ he, h⟩
      · rintro (h | ⟨entry, he, h⟩)
        · exact Or.inl h
        · rcases List.mem_cons.mp he with rfl | he
          · rw [hany] at h
            exact absurd h.1 (by simp)
          · exact Or.inr ⟨entry, he, h⟩
    · simp only [Bool.not_true, Bool.false_eq_true, if_false]
      rw [ih, mem_MoveVectorSegment]
      constructor
      · rintro ((h | h) | ⟨entry, he, h⟩)
        · simp only [List.mem_filter, Bool.not_eq_true'] at h
          exact Or.inr ⟨(id, watch), List.mem_cons_self _ _, hany, h.1, h.2⟩
        · exact Or.inl h
        · exact Or.inr ⟨entry, List.mem_cons_of_mem _ he, h⟩
      · rintro (h | ⟨entry, he, h⟩)
        · exact Or.inl (Or.inr h)
        · rcases List.mem_cons.mp he with rfl | he
          · refine Or.inl (Or.inl ?_)
            simp only [List.mem_filter, Bool.not_eq_true']
            exact ⟨h.2.1, h.2.2⟩
          · exact Or.inr ⟨entry, he, h⟩

/-- The scan of `RemoveUnobservedWatches` collects no url twice. -/
theorem scanUnobservedWatches_nodup (unobserved : StdSet String)
    (watches : StdMap Nat Watch) :
    ∀ (still : StdSet String), still.Nodup →
      (scanUnobservedWatches unobserved watches still).2.Nodup := by
  induction watches with
  | nil => intro still h; exact h
  | cons e rest ih =>
    intro still h
    obtain ⟨id, watch⟩ := e
    simp only [scanUnobservedWatches]
    split
    · exact ih _ h
    · exact ih _ (StdSet.nodup_foldl_emplace _ _ h)

section
variable (encode : PresentationUrlAvailabilityRequest → Bool)

/-- The watches after `RequestUrlAvailabilities`: those before, and at most
one new watch, which lists the requested urls. -/
theorem RequestUrlAvailabilities_watch_table (listener : UrlAvailabilityRequester)
    (self : ReceiverRequester) (urls : List String) :
    (∀ entry ∈ self.watch_by_id,
        entry ∈ (RequestUrlAvailabilities encode listener self urls).2.watch_by_id) ∧
      ∀ {C : Watch → Prop}, (∀ entry ∈ self.watch_by_id, C entry.2) →
        (∀ deadline, C ⟨deadline, urls⟩) →
        ∀ entry ∈ (RequestUrlAvailabilities encode listener self urls).2.watch_by_id,
          C entry.2 := by
  by_cases hne : urls = []
  · subst hne
    have hnil : RequestUrlAvailabilities encode listener self [] = (listener, self) := by
      simp [RequestUrlAvailabilities]
    rw [hnil]
    exact ⟨fun entry he => he, fun h _ => h⟩
  · cases hconn : self.connection with
    | none =>
      rw [RequestUrlAvailabilities_queued encode _ _ _ hne hconn]
      exact ⟨fun entry he => he, fun h _ => h⟩
    | some c =>
      cases henc : encode ⟨self.next_request_id, urls, self.next_watch_id⟩ with
      | true =>
        rw [RequestUrlAvailabilities_sent encode _ _ _ c hne hconn henc]
        exact ⟨fun entry he => StdMap.mem_emplace_of_mem _ _ _ _ he,
          fun h hnew => (StdMap.forall_emplace _ _ _ h (hnew _)).1⟩
      | false =>
        rw [RequestUrlAvailabilities_failed encode _ _ _ c hne hconn henc]
        exact ⟨fun entry he => he, fun h _ => h⟩

/-- The method `RemoveUnobservedWatches` is its scan, then the request for
the urls still observed, then the release of the event registration when no
watch is left. -/
theorem RemoveUnobservedWatches_eq (listener : UrlAvailabilityRequester)
    (self : ReceiverRequester) (unobserved : StdSet String) :
    RemoveUnobservedWatches encode listener self unobserved =
      ((RequestUrlAvailabilities encode listener
          { self with
            watch_by_id := (scanUnobservedWatches unobserved self.watch_by_id []).1 }
          (scanUnobservedWatches unobserved self.watch_by_id []).2).1,
        { (RequestUrlAvailabilities encode listener
            { self with
              watch_by_id := (scanUnobservedWatches unobserved self.watch_by_id []).1 }
            (scanUnobservedWatches unobserved self.watch_by_id []).2).2 with
          event_watch :=
            if (RequestUrlAvailabilities encode listener
                { self with
                  watch_by_id := (scanUnobservedWatches unobserved self.watch_by_id []).1 }
                (scanUnobservedWatches unobserved
                  self.watch_by_id []).2).2.watch_by_id.isEmpty then
              StopWatching (RequestUrlAvailabilities encode listener
                { self with
                  watch_by_id := (scanUnobservedWatches unobserved self.watch_by_id []).1 }
                (scanUnobservedWatches unobserved self.watch_by_id []).2).2.event_watch
            else
              (RequestUrlAvailabilities encode listener
                { self with
                  watch_by_id := (scanUnobservedWatches unobserved self.watch_by_id []).1 }
                (scanUnobservedWatches unobserved self.watch_by_id []).2).2.event_watch }) := by
  simp only [RemoveUnobservedWatches]
  generalize scanUnobservedWatches unobserved self.watch_by_id [] = scan
  obtain ⟨watches, still⟩ := scan
  simp only
  generalize RequestUrlAvailabilities encode listener { self with watch_by_id := watches }
    still = res
  obtain ⟨l', s'⟩ := res
  simp only
  split <;> rename_i hk <;> simp [hk]

end

section
variable (encode : PresentationUrlAvailabilityRequest → Bool)

/-- C33. On a requester with an open connection, `RemoveUnobservedWatches(U)`
erases every watch that lists a url of `U` and leaves every other watch as it
is. The urls outside `U` of the erased watches, each once, are requested
again by one call of `RequestUrlAvailabilities`, and by none when there is no
such url: when the encoder accepts the request, exactly one request with
these urls is written and recorded, together with one watch for them; when
the encoder rejects it, nothing is written or recorded and the failure is
reported. Afterwards no watch of the table lists a url of `U`. -/
theorem RemoveUnobservedWatches_effect (listener : UrlAvailabilityRequester)
    (self : ReceiverRequester) (unobserved : StdSet String) (c : ProtocolConnection)
    (hconn : self.connection = some c) :
    let lists : Nat × Watch → Bool := fun entry =>
      entry.2.urls.any (fun url => StdSet.contains unobserved url)
    let kept := self.watch_by_id.filter (fun entry => !lists entry)
    let still := (scanUnobservedWatches unobserved self.watch_by_id []).2
    (∀ url, url ∈ still ↔
        ∃ entry ∈ self.watch_by_id,
          lists entry = true ∧ url ∈ entry.2.urls ∧ StdSet.contains unobserved url = false) ∧
      still.Nodup ∧
      (still = [] →
        (RemoveUnobservedWatches encode listener self unobserved).1 = listener ∧
          (RemoveUnobservedWatches encode listener self unobserved).2.watch_by_id = kept ∧
          (RemoveUnobservedWatches encode listener self unobserved).2.request_by_id =
            self.request_by_id) ∧
      (still ≠ [] → encode ⟨self.next_request_id, still, self.next_watch_id⟩ = true →
        (RemoveUnobservedWatches encode listener self unobserved).1.written =
            listener.written ++
              [⟨self.service_id, ⟨self.next_request_id, still, self.next_watch_id⟩⟩] ∧
          (RemoveUnobservedWatches encode listener self unobserved).2.watch_by_id =
            (StdMap.emplace kept self.next_watch_id
              ⟨listener.clock_ + TimeDelta.FromSeconds kWatchDurationSeconds, still⟩).map ∧
          (RemoveUnobservedWatches encode listener self unobserved).2.request_by_id =
            (StdMap.emplace self.request_by_id self.next_request_id
              ⟨self.next_watch_id, still⟩).map) ∧
      (still ≠ [] → encode ⟨self.next_request_id, still, self.next_watch_id⟩ = false →
        (RemoveUnobservedWatches encode listener self unobserved).1 =
            failUrls listener self.service_id still ∧
          (RemoveUnobservedWatches encode listener self unobserved).1.written =
            listener.written ∧
          (RemoveUnobservedWatches encode listener self unobserved).2.watch_by_id = kept ∧
          (RemoveUnobservedWatches encode listener self unobserved).2.request_by_id =
            self.request_by_id) ∧
      (∀ entry ∈ (RemoveUnobservedWatches encode listener self unobserved).2.watch_by_id,
        ∀ url ∈ entry.2.urls, StdSet.contains unobserved url = false) ∧
      (∀ entry ∈ self.watch_by_id, lists entry = false →
        entry ∈ (RemoveUnobservedWatches encode listener self unobserved).2.watch_by_id) ∧
      (∀ entry ∈ self.watch_by_id, lists entry = true →
        entry ∉ (RemoveUnobservedWatches encode listener self unobserved).2.watch_by_id) := by
  intro lists kept still
  have hkept : (scanUnobservedWatches unobserved self.watch_by_id []).1 = kept :=
    scanUnobservedWatches_kept unobserved self.watch_by_id []
  have hmem : ∀ url, url ∈ still ↔
      ∃ entry ∈ self.watch_by_id,
        lists entry = true ∧ url ∈ entry.2.urls ∧ StdSet.contains unobserved url = false := by
    intro url
    have h := scanUnobservedWatches_mem unobserved self.watch_by_id url []
    simp only [List.not_mem_nil, false_or] at h
    exact h
  have hclean : ∀ entry ∈ (RemoveUnobservedWatches encode listener self unobserved).2.watch_by_id,
      ∀ url ∈ entry.2.urls, StdSet.contains unobserved url = false := by
    rw [RemoveUnobservedWatches_eq, hkept]
    refine (RequestUrlAvailabilities_watch_table encode listener
      { self with watch_by_id := kept } still).2
      (C := fun watch => ∀ url ∈ watch.urls, StdSet.contains unobserved url = false) ?_ ?_
    · intro entry he url hu
      have hl : lists entry = false := by
        have := (List.mem_filter.mp he).2
        simpa using this
      by_contra hcon
      have hany : lists entry = true :=
        List.any_eq_true.mpr ⟨url, hu, by simpa using hcon⟩
      rw [hl] at hany
      cases hany
    · intro deadline url hu
      obtain ⟨_, _, _, _, hout⟩ := (hmem url).mp hu
      exact hout
  refine ⟨hmem, scanUnobservedWatches_nodup unobserved self.watch_by_id [] List.nodup_nil,
    ?_, ?_, ?_, hclean, ?_, ?_⟩
  · intro hnil
    rw [RemoveUnobservedWatches_eq, hkept]
    have hs : (scanUnobservedWatches unobserved self.watch_by_id []).2 = [] := hnil
    rw [hs]
    have hreq : RequestUrlAvailabilities encode listener { self with watch_by_id := kept } [] =
        (listener, { self with watch_by_id := kept }) := by
      simp [RequestUrlAvailabilities]
    rw [hreq]
    exact ⟨rfl, rfl, rfl⟩
  · intro hne henc
    rw [RemoveUnobservedWatches_eq, hkept]
    rw [RequestUrlAvailabilities_sent encode listener { self with watch_by_id := kept }
      (scanUnobservedWatches unobserved self.watch_by_id []).2 c hne hconn henc]
    exact ⟨rfl, rfl, rfl⟩
  · intro hne henc
    rw [RemoveUnobservedWatches_eq, hkept]
    rw [RequestUrlAvailabilities_failed encode listener { self with watch_by_id := kept }
      (scanUnobservedWatches unobserved self.watch_by_id []).2 c hne hconn henc]
    exact ⟨rfl, failUrls_written _ _ _, rfl, rfl⟩
  · intro entry he hl
    rw [RemoveUnobservedWatches_eq, hkept]
    refine (RequestUrlAvailabilities_watch_table encode listener
      { self with watch_by_id := kept } still).1 entry ?_
    exact List.mem_filter.mpr ⟨he, by simp [hl]⟩
  · intro entry he hl hin
    obtain ⟨url, hu, hc⟩ := List.any_eq_true.mp hl
    have := hclean entry hin url hu
    rw [this] at hc
    cases hc

end

/-- C33 at the state of the unit tests with one watch for `"u"` and `"v"`
and `U = {"u"}`: watch 1 is erased, request 2 for `"v"` is written with watch
2, and watch 2 for `"v"` is the only watch. -/
theorem RemoveUnobservedWatches_effect_witness :
    Example.requestedTwoReceiver.watch_by_id =
        [(1, { deadline := 213509000000, urls := ["u", "v"] })] ∧
      (RemoveUnobservedWatches Example.encodeAll Example.requestedTwo
          Example.requestedTwoReceiver ["u"]).1.written =
        Example.requestedTwo.written ++
          [{ service_id := "asdf", request := { request_id := 2, urls := ["v"], watch_id := 2 } }] ∧
      (RemoveUnobservedWatches Example.encodeAll Example.requestedTwo
          Example.requestedTwoReceiver ["u"]).2.watch_by_id =
        [(2, { deadline := 213509000000, urls := ["v"] })] ∧
      ∀ entry ∈ (RemoveUnobservedWatches Example.encodeAll Example.requestedTwo
          Example.requestedTwoReceiver ["u"]).2.watch_by_id,
        ∀ url ∈ entry.2.urls, StdSet.contains ["u"] url = false :=
  have h := RemoveUnobservedWatches_effect Example.encodeAll Example.requestedTwo
    Example.requestedTwoReceiver ["u"] { endpoint_id := 3 } rfl
  ⟨rfl, (h.2.2.2.1 (by decide) rfl).1, (h.2.2.2.1 (by decide) rfl).2.1, h.2.2.2.2.2.1⟩

/-- C17 as stated fails when an observer is registered twice on a url: after
`AddObserver({"u"}, 7)` twice, in a reachable state where the requester
`"asdf"` caches `"u"` as compatible and the observer list of `"u"` is
`[7, 7]`, `RemoveReceiver` calls `OnReceiverUnavailable("u", "asdf")` twice on
observer 7. -/
theorem RemoveReceiver_calls_twice :
    Reachable Example.encodeAll 1 1 Example.registeredTwice ∧
      Example.registeredTwice.observers_by_url_ = [("u", [7, 7])] ∧
      Example.registeredTwice.receiver_by_service_id_.map
          (fun entry => entry.2.known_availability_by_url) = [[("u", .kCompatible)]] ∧
      (UrlAvailabilityRequester.RemoveReceiver Example.registeredTwice Example.info1).calls =
        Example.registeredTwice.calls ++
          [.OnReceiverUnavailable 7 "u" "asdf", .OnReceiverUnavailable 7 "u" "asdf"] :=
  ⟨.addObserver _ _ Example.answered_reachable, by decide, by decide, by decide⟩

/-- C19 as stated fails when an observer is registered twice on a url: after
`AddReceiver` and `AddObserver({"u"}, 7)` twice, in a reachable state where
the requester, not connected yet, has queued requests for `"u"` and the
observer list of `"u"` is `[7, 7]`, `OnConnectionFailed` calls
`OnRequestFailed("u", "asdf")` twice on observer 7. -/
theorem OnConnectionFailed_calls_twice :
    Reachable Example.encodeAll 1 1 Example.queuedTwice ∧
      Example.queuedTwice.observers_by_url_ = [("u", [7, 7])] ∧
      Example.queuedTwice.receiver_by_service_id_.map
          (fun entry => entry.2.request_by_id.map (fun request => request.2.urls)) =
        [[["u"], ["u"]]] ∧
      (UrlAvailabilityRequester.connectionFailed Example.queuedTwice "asdf" 0).calls =
        [.OnRequestFailed 7 "u" "asdf", .OnRequestFailed 7 "u" "asdf"] :=
  ⟨.addObserver _ _ Example.waiting_reachable, by decide, by decide, by decide⟩

section
variable (encode : PresentationUrlAvailabilityRequest → Bool)

/-- The watches after `SendRequest`: those before, and at most one new watch,
whose deadline is the clock reading plus the watch duration. The clock
stays. -/
theorem SendRequest_deadlines {C : Watch → Prop} (listener : UrlAvailabilityRequester)
    (self : ReceiverRequester) (request_id : Nat) (urls : List String)
    (h : ∀ entry ∈ self.watch_by_id, C entry.2)
    (hnew : C ⟨listener.clock_ + TimeDelta.FromSeconds kWatchDurationSeconds, urls⟩) :
    (SendRequest encode listener self request_id urls).1.clock_ = listener.clock_ ∧
      ∀ entry ∈ (SendRequest encode listener self request_id urls).2.1.watch_by_id,
        C entry.2 := by
  cases henc : encode ⟨request_id, urls, self.next_watch_id⟩ with
  | true =>
    rw [SendRequest_ok encode _ _ _ _ henc]
    exact ⟨rfl, (StdMap.forall_emplace _ _ _ h hnew).1⟩
  | false =>
    rw [SendRequest_error encode _ _ _ _ henc]
    exact ⟨rfl, h⟩

/-- The watches after `RequestUrlAvailabilities`: those before, and at most
one new watch, whose deadline is the clock reading plus the watch duration.
The clock stays. -/
theorem RequestUrlAvailabilities_deadlines {C : Watch → Prop}
    (listener : UrlAvailabilityRequester) (self : ReceiverRequester) (urls : List String)
    (h : ∀ entry ∈ self.watch_by_id, C entry.2)
    (hnew : C ⟨listener.clock_ + TimeDelta.FromSeconds kWatchDurationSeconds, urls⟩) :
    (RequestUrlAvailabilities encode listener self urls).1.clock_ = listener.clock_ ∧
      ∀ entry ∈ (RequestUrlAvailabilities encode listener self urls).2.watch_by_id,
        C entry.2 := by
  refine ⟨(RequestUrlAvailabilities_step encode listener self urls).1.clock, ?_⟩
  by_cases hne : urls = []
  · subst hne
    have hnil : RequestUrlAvailabilities encode listener self [] = (listener, self) := by
      simp [RequestUrlAvailabilities]
    rw [hnil]
    exact h
  · cases hconn : self.connection with
    | none =>
      rw [RequestUrlAvailabilities_queued encode _ _ _ hne hconn]
      exact h
    | some c =>
      cases henc : encode ⟨self.next_request_id, urls, self.next_watch_id⟩ with
      | true =>
        rw [RequestUrlAvailabilities_sent encode _ _ _ c hne hconn henc]
        exact (StdMap.forall_emplace _ _ _ h hnew).1
      | false =>
        rw [RequestUrlAvailabilities_failed encode _ _ _ c hne hconn henc]
        exact h

/-- The watches after the loop over `new_requests`: those before, and new
watches whose deadline is the clock reading plus the watch duration. The
clock stays. -/
theorem requestAll_deadlines {C : Watch → Prop} (batches : List (List String)) :
    ∀ (listener : UrlAvailabilityRequester) (self : ReceiverRequester),
      (∀ entry ∈ self.watch_by_id, C entry.2) →
      (∀ urls ∈ batches,
        C ⟨listener.clock_ + TimeDelta.FromSeconds kWatchDurationSeconds, urls⟩) →
      (requestAll encode listener self batches).1.clock_ = listener.clock_ ∧
        ∀ entry ∈ (requestAll encode listener self batches).2.watch_by_id, C entry.2 := by
  induction batches with
  | nil => intro listener self h _; exact ⟨rfl, h⟩
  | cons batch rest ih =>
    intro listener self h hnew
    have h1 := RequestUrlAvailabilities_deadlines encode listener self batch h
      (hnew batch (List.mem_cons_self _ _))
    have h2 := ih (RequestUrlAvailabilities encode listener self batch).1
      (RequestUrlAvailabilities encode listener self batch).2 h1.2
      (fun urls hu => by rw [h1.1]; exact hnew urls (List.mem_cons_of_mem _ hu))
    simp only [requestAll]
    exact ⟨h2.1.trans h1.1, h2.2⟩

/-- The watches after a requester's `RefreshWatches(now)`: watches that were
not due, and, when a watch was due, new watches with the url list of a due
watch and the clock reading plus the watch duration as deadline. The clock
stays. -/
theorem RefreshWatches_deadlines {C : Watch → Prop} (listener : UrlAvailabilityRequester)
    (self : ReceiverRequester) (now : TimeDelta)
    (hkept : ∀ entry ∈ self.watch_by_id,
      ¬ now > entry.2.deadline - TimeDelta.FromSeconds kWatchRefreshPaddingSeconds →
      C entry.2)
    (hnew : ∀ entry ∈ self.watch_by_id,
      now > entry.2.deadline - TimeDelta.FromSeconds kWatchRefreshPaddingSeconds →
      C ⟨listener.clock_ + TimeDelta.FromSeconds kWatchDurationSeconds, entry.2.urls⟩) :
    (ReceiverRequester.RefreshWatches encode listener self now).1.clock_ = listener.clock_ ∧
      ∀ entry ∈ (ReceiverRequester.RefreshWatches encode listener self now).2.1.watch_by_id,
        C entry.2 := by
  have hk := scanWatches_kept now self.watch_by_id
    (TimeDelta.FromSeconds kWatchDurationSeconds)
  have hb := scanWatches_new_requests now self.watch_by_id
    (TimeDelta.FromSeconds kWatchDurationSeconds)
  simp only [ReceiverRequester.RefreshWatches]
  generalize scanWatches now self.watch_by_id (TimeDelta.FromSeconds kWatchDurationSeconds) =
    scan at hk hb ⊢
  obtain ⟨kept, new_requests, m⟩ := scan
  simp only at hk hb ⊢
  have h1 : ∀ entry ∈ kept, C entry.2 := by
    intro entry he
    rw [hk] at he
    obtain ⟨hm, hd⟩ := List.mem_filter.mp he
    exact hkept entry hm (by simpa using hd)
  have h2 : ∀ urls ∈ new_requests,
      C ⟨listener.clock_ + TimeDelta.FromSeconds kWatchDurationSeconds, urls⟩ := by
    intro urls hu
    rw [hb] at hu
    obtain ⟨entry, he, rfl⟩ := List.mem_map.mp hu
    obtain ⟨hm, hd⟩ := List.mem_filter.mp he
    exact hnew entry hm (by simpa using hd)
  split
  · exact requestAll_deadlines encode new_requests listener _ h1 h2
  · exact requestAll_deadlines encode new_requests listener _ h1 h2

/-- The watches after `RemoveUnobservedRequests`: watches from before, and at
most one new watch, whose deadline is the clock reading plus the watch
duration. The clock stays. -/
theorem RemoveUnobservedRequests_deadlines {C : Watch → Prop}
    (listener : UrlAvailabilityRequester) (self : ReceiverRequester)
    (unobserved : StdSet String) (h : ∀ entry ∈ self.watch_by_id, C entry.2)
    (hnew : ∀ urls,
      C ⟨listener.clock_ + TimeDelta.FromSeconds kWatchDurationSeconds, urls⟩) :
    (RemoveUnobservedRequests encode listener self unobserved).1.clock_ = listener.clock_ ∧
      ∀ entry ∈ (RemoveUnobservedRequests encode listener self unobserved).2.watch_by_id,
        C entry.2 := by
  refine ⟨(RemoveUnobservedRequests_step encode listener self unobserved).1.clock, ?_⟩
  rw [RemoveUnobservedRequests_eq]
  have hsub := scanRequests_watches unobserved self.connection.isSome self.request_by_id
    self.watch_by_id []
  have h1 := (RequestUrlAvailabilities_deadlines encode listener
    { self with
      request_by_id :=
        (scanRequests unobserved self.connection.isSome self.request_by_id
          self.watch_by_id []).1
      watch_by_id :=
        (scanRequests unobserved self.connection.isSome self.request_by_id
          self.watch_by_id []).2.1 }
    (scanRequests unobserved self.connection.isSome self.request_by_id
      self.watch_by_id []).2.2
    (fun entry he => h entry (hsub.subset he)) (hnew _)).2
  simp only
  split
  · exact h1
  · exact h1

/-- The watches after `RemoveUnobservedWatches`: watches from before, and at
most one new watch, whose deadline is the clock reading plus the watch
duration. The clock stays. -/
theorem RemoveUnobservedWatches_deadlines {C : Watch → Prop}
    (listener : UrlAvailabilityRequester) (self : ReceiverRequester)
    (unobserved : StdSet String) (h : ∀ entry ∈ self.watch_by_id, C entry.2)
    (hnew : ∀ urls,
      C ⟨listener.clock_ + TimeDelta.FromSeconds kWatchDurationSeconds, urls⟩) :
    (RemoveUnobservedWatches encode listener self unobserved).1.clock_ = listener.clock_ ∧
      ∀ entry ∈ (RemoveUnobservedWatches encode listener self unobserved).2.watch_by_id,
        C entry.2 := by
  refine ⟨(RemoveUnobservedWatches_step encode listener self unobserved).1.clock, ?_⟩
  rw [RemoveUnobservedWatches_eq]
  have hsub := scanUnobservedWatches_sublist unobserved self.watch_by_id []
  exact (RequestUrlAvailabilities_deadlines encode listener
    { self with watch_by_id := (scanUnobservedWatches unobserved self.watch_by_id []).1 }
    (scanUnobservedWatches unobserved self.watch_by_id []).2
    (fun entry he => h entry (hsub.subset he)) (hnew _)).2

/-- The watches after the retransmission loop: those before, and new watches
whose deadline is the clock reading plus the watch duration. The clock
stays. -/
theorem resendRequests_deadlines {C : Watch → Prop} (requests : StdMap Nat Request) :
    ∀ (listener : UrlAvailabilityRequester) (self : ReceiverRequester),
      (∀ entry ∈ self.watch_by_id, C entry.2) →
      (∀ urls, C ⟨listener.clock_ + TimeDelta.FromSeconds kWatchDurationSeconds, urls⟩) →
      (resendRequests encode listener self requests).1.clock_ = listener.clock_ ∧
        ∀ entry ∈ (resendRequests encode listener self requests).2.1.watch_by_id,
          C entry.2 := by
  induction requests with
  | nil => intro listener self h _; exact ⟨rfl, h⟩
  | cons e rest ih =>
    intro listener self h hnew
    obtain ⟨id, request⟩ := e
    have h1 := SendRequest_deadlines encode listener self id request.urls h (hnew _)
    simp only [resendRequests]
    generalize SendRequest encode listener self id request.urls = sent at h1 ⊢
    obtain ⟨l', s', result⟩ := sent
    simp only at h1
    have h2 := ih l' s' h1.2 (fun urls => by rw [h1.1]; exact hnew urls)
    cases result with
    | ok watch_id => exact ⟨h2.1.trans h1.1, h2.2⟩
    | error err => exact ⟨h2.1.trans h1.1, h2.2⟩

/-- The watches after `OnConnectionOpened`: those before, and new watches
whose deadline is the clock reading plus the watch duration. The clock
stays. -/
theorem OnConnectionOpened_deadlines {C : Watch → Prop}
    (listener : UrlAvailabilityRequester) (self : ReceiverRequester) (request_id : Nat)
    (connection : ProtocolConnection) (h : ∀ entry ∈ self.watch_by_id, C entry.2)
    (hnew : ∀ urls,
      C ⟨listener.clock_ + TimeDelta.FromSeconds kWatchDurationSeconds, urls⟩) :
    (OnConnectionOpened encode listener self request_id connection).1.clock_ =
        listener.clock_ ∧
      ∀ entry ∈ (OnConnectionOpened encode listener self request_id connection).2.watch_by_id,
        C entry.2 := by
  have hloop := resendRequests_deadlines encode self.request_by_id listener
    { self with
      connect_request := false
      endpoint_id := connection.endpoint_id
      connection := some connection } h hnew
  simp only [OnConnectionOpened]
  generalize resendRequests encode listener
    { self with
      connect_request := false
      endpoint_id := connection.endpoint_id
      connection := some connection } self.request_by_id = res at hloop ⊢
  obtain ⟨l', s', rs⟩ := res
  exact hloop

end

/-- A loop over the requesters whose step keeps the clock at `t` and a
property of requesters keeps both. -/
theorem forEachReceiver_clocked {I : ReceiverRequester → Prop} (t : TimeDelta)
    {f : UrlAvailabilityRequester → ReceiverRequester →
      UrlAvailabilityRequester × ReceiverRequester}
    (hf : ∀ l r, l.clock_ = t → I r → (f l r).1.clock_ = t ∧ I (f l r).2)
    (receivers : StdMap String ReceiverRequester) :
    ∀ (self : UrlAvailabilityRequester), self.clock_ = t →
      (∀ entry ∈ receivers, I entry.2) →
      (forEachReceiver f self receivers).1.clock_ = t ∧
        ∀ entry ∈ (forEachReceiver f self receivers).2, I entry.2 := by
  induction receivers with
  | nil => intro self hc _; exact ⟨hc, fun entry he => by cases he⟩
  | cons e rest ih =>
    intro self hc h
    obtain ⟨id, receiver⟩ := e
    have h1 := hf self receiver hc (h (id, receiver) (List.mem_cons_self _ _))
    have h2 := ih (f self receiver).1 h1.1
      (fun entry he => h entry (List.mem_cons_of_mem _ he))
    simp only [forEachReceiver]
    refine ⟨h2.1, ?_⟩
    intro entry he
    rcases List.mem_cons.mp he with rfl | he
    · exact h1.2
    · exact h2.2 entry he

/-- Running a step that keeps the clock at `t` and a property of requesters
on every requester keeps both. -/
theorem onEachReceiver_clocked {I : ReceiverRequester → Prop} (t : TimeDelta)
    {f : UrlAvailabilityRequester → ReceiverRequester →
      UrlAvailabilityRequester × ReceiverRequester}
    (hf : ∀ l r, l.clock_ = t → I r → (f l r).1.clock_ = t ∧ I (f l r).2)
    (self : UrlAvailabilityRequester) (hc : self.clock_ = t)
    (h : ∀ entry ∈ self.receiver_by_service_id_, I entry.2) :
    (onEachReceiver f self).clock_ = t ∧
      ∀ entry ∈ (onEachReceiver f self).receiver_by_service_id_, I entry.2 := by
  simp only [onEachReceiver]
  exact forEachReceiver_clocked t hf _ self hc h

/-- The first loop of `RemoveObserverUrls` leaves the clock. -/
theorem removeUrlsScan_clock (observer : Observer) (urls : List String) :
    ∀ (self self' : UrlAvailabilityRequester) (unobserved unobserved' : StdSet String),
      removeUrlsScan observer urls self unobserved = some (self', unobserved') →
      self'.clock_ = self.clock_ := by
  induction urls with
  | nil =>
    intro self self' unobserved unobserved' h
    simp only [removeUrlsScan, Option.some.injEq, Prod.mk.injEq] at h
    rw [← h.1]
  | cons url urls ih =>
    intro self self' unobserved unobserved' h
    simp only [removeUrlsScan] at h
    cases hf : StdMap.find self.observers_by_url_ url with
    | none => simp [hf] at h
    | some observers =>
      simp only [hf] at h
      split at h
      · exact (ih _ _ _ _ h).trans rfl
      · exact (ih _ _ _ _ h).trans rfl

/-- The loop of `RemoveAllReceivers` leaves the clock. -/
theorem removeAll_clock (receivers : StdMap String ReceiverRequester) :
    ∀ (self : UrlAvailabilityRequester),
      (receivers.foldl
        (fun (listener : UrlAvailabilityRequester) (entry : String × ReceiverRequester) =>
          ReceiverRequester.RemoveReceiver listener entry.2)
        self).clock_ = self.clock_ := by
  induction receivers with
  | nil => intro self; rfl
  | cons e rest ih =>
    intro self
    simp only [List.foldl_cons]
    rw [ih]
    exact (removeReceiverScan_frame _ _ _).1

/-- A state reachable from a coordinator created at a clock reading of at
least `since` is reachable. -/
theorem ReachableSince.reachable_since
    {encode : PresentationUrlAvailabilityRequest → Bool}
    {first_request_id first_watch_id : Nat} {since : TimeDelta}
    {s : UrlAvailabilityRequester}
    (h : ReachableSince encode first_request_id first_watch_id since s) :
    Reachable encode first_request_id first_watch_id s := by
  induction h with
  | create now _ => exact .create now
  | addObserver urls observer _ ih => exact .addObserver urls observer ih
  | removeObserverUrls urls observer _ hs ih => exact .removeObserverUrls urls observer ih hs
  | removeObserver observer _ ih => exact .removeObserver observer ih
  | addReceiver info _ ih => exact .addReceiver info ih
  | changeReceiver info _ ih => exact .changeReceiver info ih
  | removeReceiver info _ ih => exact .removeReceiver info ih
  | removeAllReceivers _ ih => exact .removeAllReceivers ih
  | refreshWatches _ ih => exact .refreshWatches ih
  | connectionOpened service_id request_id connection _ ih =>
    exact .connectionOpened service_id request_id connection ih
  | connectionFailed service_id request_id _ ih =>
    exact .connectionFailed service_id request_id ih
  | streamMessage service_id endpoint_id connection_id message result _ hs ih =>
    exact .streamMessage service_id endpoint_id connection_id message result ih hs
  | advanceClock delta hd _ ih => exact .advanceClock delta hd ih

/-- In every state reachable from a coordinator created at a clock reading of
at least `since`, the clock reads at least `since` and every watch has a
deadline of at least `since` plus the watch duration. -/
theorem ReachableSince.watchesSince {encode : PresentationUrlAvailabilityRequest → Bool}
    {first_request_id first_watch_id : Nat} {since : TimeDelta}
    {s : UrlAvailabilityRequester}
    (h : ReachableSince encode first_request_id first_watch_id since s) :
    WatchesSince since s := by
  have hnew : ∀ (t : TimeDelta), since ≤ t → ∀ (urls : List String),
      since + TimeDelta.FromSeconds kWatchDurationSeconds ≤
        (Watch.mk (t + TimeDelta.FromSeconds kWatchDurationSeconds) urls).deadline :=
    fun t ht urls => add_le_add_right ht _
  have hrequest : ∀ (t : TimeDelta), since ≤ t →
      ∀ (l : UrlAvailabilityRequester) (r : ReceiverRequester) (urls : List String),
      l.clock_ = t →
      (∀ watch ∈ r.watch_by_id,
        since + TimeDelta.FromSeconds kWatchDurationSeconds ≤ watch.2.deadline) →
      (RequestUrlAvailabilities encode l r urls).1.clock_ = t ∧
        ∀ watch ∈ (RequestUrlAvailabilities encode l r urls).2.watch_by_id,
          since + TimeDelta.FromSeconds kWatchDurationSeconds ≤ watch.2.deadline := by
    intro t ht l r urls hl hr
    have h1 := RequestUrlAvailabilities_deadlines encode
      (C := fun w => since + TimeDelta.FromSeconds kWatchDurationSeconds ≤ w.deadline)
      l r urls hr (hnew l.clock_ (hl ▸ ht) urls)
    exact ⟨h1.1.trans hl, h1.2⟩
  have hremove : ∀ (t : TimeDelta), since ≤ t → ∀ (unobserved : StdSet String)
      (l : UrlAvailabilityRequester) (r : ReceiverRequester),
      l.clock_ = t →
      (∀ watch ∈ r.watch_by_id,
        since + TimeDelta.FromSeconds kWatchDurationSeconds ≤ watch.2.deadline) →
      (RemoveUnobservedWatches encode
          (RemoveUnobservedRequests encode l r unobserved).1
          (RemoveUnobservedRequests encode l r unobserved).2 unobserved).1.clock_ = t ∧
        ∀ watch ∈ (RemoveUnobservedWatches encode
            (RemoveUnobservedRequests encode l r unobserved).1
            (RemoveUnobservedRequests encode l r unobserved).2 unobserved).2.watch_by_id,
          since + TimeDelta.FromSeconds kWatchDurationSeconds ≤ watch.2.deadline := by
    intro t ht unobserved l r hl hr
    have h1 := RemoveUnobservedRequests_deadlines encode
      (C := fun w => since + TimeDelta.FromSeconds kWatchDurationSeconds ≤ w.deadline)
      l r unobserved hr (hnew l.clock_ (hl ▸ ht))
    have h2 := RemoveUnobservedWatches_deadlines encode
      (C := fun w => since + TimeDelta.FromSeconds kWatchDurationSeconds ≤ w.deadline)
      (RemoveUnobservedRequests encode l r unobserved).1
      (RemoveUnobservedRequests encode l r unobserved).2 unobserved h1.2
      (hnew _ (by rw [h1.1, hl]; exact ht))
    exact ⟨h2.1.trans (h1.1.trans hl), h2.2⟩
  induction h with
  | create now hsince => exact ⟨hsince, fun entry he => by cases he⟩
  | @addObserver s urls observer _ ih =>
    unfold UrlAvailabilityRequester.AddObserver
    have h1 := onEachReceiver_clocked
      (I := fun r => ∀ watch ∈ r.watch_by_id,
        since + TimeDelta.FromSeconds kWatchDurationSeconds ≤ watch.2.deadline)
      s.clock_
      (f := fun listener receiver =>
        GetOrRequesetAvailabilities encode listener receiver urls (some observer))
      (fun l r hl hr => by
        simp only
        rw [GetOrRequesetAvailabilities_eq]
        exact hrequest s.clock_ ih.1 _ r _ hl hr)
      { s with observers_by_url_ := pushObserver observer s.observers_by_url_ urls } rfl ih.2
    exact ⟨by rw [h1.1]; exact ih.1, h1.2⟩
  | @removeObserverUrls s s' urls observer _ hs ih =>
    rw [RemoveObserverUrls_eq] at hs
    cases hscan : removeUrlsScan observer urls s [] with
    | none => simp [hscan] at hs
    | some scan =>
      obtain ⟨s₁, unobserved⟩ := scan
      simp only [hscan, Option.map_some', Option.some.injEq] at hs
      rw [← hs]
      have hc := removeUrlsScan_clock observer urls _ _ _ _ hscan
      have hr := removeUrlsScan_forall
        (I := fun r => ∀ watch ∈ r.watch_by_id,
          since + TimeDelta.FromSeconds kWatchDurationSeconds ≤ watch.2.deadline)
        (fun r cache hr => hr) observer urls _ _ _ _ hscan ih.2
      have h1 := onEachReceiver_clocked
        (I := fun r => ∀ watch ∈ r.watch_by_id,
          since + TimeDelta.FromSeconds kWatchDurationSeconds ≤ watch.2.deadline)
        s.clock_ (hremove s.clock_ ih.1 unobserved) s₁ hc hr
      exact ⟨by rw [h1.1]; exact ih.1, h1.2⟩
  | @removeObserver s observer _ ih =>
    rw [RemoveObserver_eq]
    have h1 := onEachReceiver_clocked
      (I := fun r => ∀ watch ∈ r.watch_by_id,
        since + TimeDelta.FromSeconds kWatchDurationSeconds ≤ watch.2.deadline)
      s.clock_ (hremove s.clock_ ih.1 (removeObserverScan observer s.observers_by_url_ []).2)
      { s with
        observers_by_url_ := (removeObserverScan observer s.observers_by_url_ []).1 }
      rfl ih.2
    exact ⟨by rw [h1.1]; exact ih.1, h1.2⟩
  | @addReceiver s info _ ih =>
    have hstep := RequestUrlAvailabilities_step encode
      { s with
        receiver_by_service_id_ :=
          (StdMap.emplace s.receiver_by_service_id_ info.service_id
            (ReceiverRequester.create info.service_id first_request_id first_watch_id)).map }
      (StdMap.emplace s.receiver_by_service_id_ info.service_id
        (ReceiverRequester.create info.service_id first_request_id first_watch_id)).entry
      (StdMap.keys s.observers_by_url_)
    have hem := StdMap.forall_emplace
      (C := fun r : ReceiverRequester => ∀ watch ∈ r.watch_by_id,
        since + TimeDelta.FromSeconds kWatchDurationSeconds ≤ watch.2.deadline)
      s.receiver_by_service_id_ info.service_id
      (ReceiverRequester.create info.service_id first_request_id first_watch_id) ih.2
      (fun watch hw => by cases hw)
    have hr := hrequest s.clock_ ih.1
      { s with
        receiver_by_service_id_ :=
          (StdMap.emplace s.receiver_by_service_id_ info.service_id
            (ReceiverRequester.create info.service_id first_request_id first_watch_id)).map }
      (StdMap.emplace s.receiver_by_service_id_ info.service_id
        (ReceiverRequester.create info.service_id first_request_id first_watch_id)).entry
      (StdMap.keys s.observers_by_url_) rfl hem.2
    simp only [UrlAvailabilityRequester.AddReceiver]
    refine ⟨by rw [hr.1]; exact ih.1, ?_⟩
    intro entry he
    rw [hstep.1.receivers] at he
    exact StdMap.forall_assign
      (C := fun r : ReceiverRequester => ∀ watch ∈ r.watch_by_id,
        since + TimeDelta.FromSeconds kWatchDurationSeconds ≤ watch.2.deadline)
      _ _ _ hem.1 hr.2 entry he
  | changeReceiver info _ ih => exact ih
  | @removeReceiver s info _ ih =>
    unfold UrlAvailabilityRequester.RemoveReceiver
    cases hf : StdMap.find s.receiver_by_service_id_ info.service_id with
    | none => exact ih
    | some receiver =>
      simp only
      refine ⟨?_, ?_⟩
      · simp only [ReceiverRequester.RemoveReceiver]
        rw [(removeReceiverScan_frame _ _ _).1]
        exact ih.1
      · intro entry he
        simp only [ReceiverRequester.RemoveReceiver] at he
        rw [(removeReceiverScan_frame _ _ _).2.1] at he
        exact ih.2 entry (List.mem_of_mem_filter he)
  | @removeAllReceivers s _ ih =>
    unfold UrlAvailabilityRequester.RemoveAllReceivers
    refine ⟨?_, fun entry he => by cases he⟩
    simp only
    rw [removeAll_clock]
    exact ih.1
  | @refreshWatches s _ ih =>
    rw [RefreshWatches_fst_eq]
    have h1 := onEachReceiver_clocked
      (I := fun r => ∀ watch ∈ r.watch_by_id,
        since + TimeDelta.FromSeconds kWatchDurationSeconds ≤ watch.2.deadline)
      s.clock_
      (f := fun listener receiver =>
        ((ReceiverRequester.RefreshWatches encode listener receiver s.clock_).1,
          (ReceiverRequester.RefreshWatches encode listener receiver s.clock_).2.1))
      (fun l r hl hr => by
        have h2 := RefreshWatches_deadlines encode
          (C := fun w => since + TimeDelta.FromSeconds kWatchDurationSeconds ≤ w.deadline)
          l r s.clock_ (fun entry he _ => hr entry he)
          (fun entry _ _ => hnew l.clock_ (hl ▸ ih.1) entry.2.urls)
        exact ⟨h2.1.trans hl, h2.2⟩)
      s rfl ih.2
    exact ⟨by rw [h1.1]; exact ih.1, h1.2⟩
  | @connectionOpened s service_id request_id connection _ ih =>
    unfold UrlAvailabilityRequester.connectionOpened
    cases hf : StdMap.find s.receiver_by_service_id_ service_id with
    | none => exact ih
    | some receiver =>
      have hk := OnConnectionOpened_kept encode s receiver request_id connection
      have ho := OnConnectionOpened_deadlines encode
        (C := fun w => since + TimeDelta.FromSeconds kWatchDurationSeconds ≤ w.deadline)
        s receiver request_id connection (ih.2 _ (StdMap.mem_of_find _ _ _ hf))
        (hnew s.clock_ ih.1)
      simp only
      refine ⟨by rw [ho.1]; exact ih.1, ?_⟩
      intro entry he
      rw [hk.1.receivers] at he
      exact StdMap.forall_assign
        (C := fun r : ReceiverRequester => ∀ watch ∈ r.watch_by_id,
          since + TimeDelta.FromSeconds kWatchDurationSeconds ≤ watch.2.deadline)
        _ _ _ ih.2 ho.2 entry he
  | @connectionFailed s service_id request_id _ ih =>
    unfold UrlAvailabilityRequester.connectionFailed
    cases hf : StdMap.find s.receiver_by_service_id_ service_id with
    | none => exact ih
    | some receiver =>
      simp only [OnConnectionFailed]
      refine ⟨by rw [(failUrls_frame _ _ _).1]; exact ih.1, ?_⟩
      intro entry he
      simp only at he
      rw [(failUrls_frame _ _ _).2] at he
      exact ih.2 entry (List.mem_of_mem_filter he)
  | @streamMessage s s' service_id endpoint_id connection_id message result _ hs ih =>
    unfold UrlAvailabilityRequester.streamMessage at hs
    cases hf : StdMap.find s.receiver_by_service_id_ service_id with
    | none => simp [hf] at hs
    | some receiver =>
      simp only [hf] at hs
      cases hm : OnStreamMessage s receiver endpoint_id connection_id message with
      | none => simp [hm] at hs
      | some res =>
        obtain ⟨l', r', result'⟩ := res
        obtain ⟨calls, hl'⟩ := OnStreamMessage_listener _ _ _ _ _ _ _ _ hm
        have hw := (OnStreamMessage_unsent _ _ _ _ _ _ _ _ hm).2.2.2.1
        simp only [hm, Option.some.injEq, Prod.mk.injEq] at hs
        rw [← hs.1]
        subst hl'
        refine ⟨ih.1, ?_⟩
        intro entry he
        simp only at he
        exact StdMap.forall_assign
          (C := fun r : ReceiverRequester => ∀ watch ∈ r.watch_by_id,
            since + TimeDelta.FromSeconds kWatchDurationSeconds ≤ watch.2.deadline)
          _ _ _ ih.2 (fun watch hwatch => ih.2 _ (StdMap.mem_of_find _ _ _ hf) watch (hw ▸ hwatch))
          entry he
  | @advanceClock s delta hd _ ih =>
    refine ⟨?_, ih.2⟩
    simp only [UrlAvailabilityRequester.advanceClock]
    exact le_trans ih.1 (le_add_of_nonneg_right hd)

/-- A running minimum is at least a bound of its start value and of every
element. -/
theorem le_foldl_min (xs : List Int) :
    ∀ (m bound : Int), bound ≤ m → (∀ x ∈ xs, bound ≤ x) → bound ≤ xs.foldl min m := by
  induction xs with
  | nil => intro m bound hm _; exact hm
  | cons x xs ih =>
    intro m bound hm hx
    exact ih (min m x) bound (le_min hm (hx x (List.mem_cons_self _ _)))
      (fun y hy => hx y (List.mem_cons_of_mem _ hy))

/-- Lists related elementwise by an equation of images have equal images. -/
theorem map_eq_of_forall₂ {α β γ : Type} {f : α → γ} {g : β → γ} {xs : List α}
    {ys : List β} (h : List.Forall₂ (fun x y => g y = f x) xs ys) :
    ys.map g = xs.map f := by
  induction h with
  | nil => rfl
  | cons hxy _ ih => simp only [List.map_cons, hxy, ih]

section
variable (encode : PresentationUrlAvailabilityRequest → Bool)

/-- When every watch was created at a clock reading of at least `since`, not
below -16 s, what a requester's scan returns after its `RefreshWatches(now)`
is what it returned in that call: a watch is due only after the clock has
passed 2 s, and then the buffered deadline of a new watch is beyond the cap
of 20 s. -/
theorem RefreshWatches_returns_same (listener : UrlAvailabilityRequester)
    (self : ReceiverRequester) (now since : TimeDelta) (hclock : listener.clock_ = now)
    (hsince : TimeDelta.FromSeconds (-16) ≤ since)
    (hd : ∀ watch ∈ self.watch_by_id,
      since + TimeDelta.FromSeconds kWatchDurationSeconds ≤ watch.2.deadline) :
    (scanWatches now
        (ReceiverRequester.RefreshWatches encode listener self now).2.1.watch_by_id
        (TimeDelta.FromSeconds kWatchDurationSeconds)).2.2 =
      (scanWatches now self.watch_by_id (TimeDelta.FromSeconds kWatchDurationSeconds)).2.2 := by
  refine le_antisymm (RefreshWatches_returned_again encode listener self now hclock) ?_
  rw [scanWatches_minimum, scanWatches_minimum]
  have hcap := foldl_min_le
    ((self.watch_by_id.filter (fun entry =>
        !decide (now > entry.2.deadline -
          TimeDelta.FromSeconds kWatchRefreshPaddingSeconds))).map
      (fun entry => entry.2.deadline -
        TimeDelta.FromSeconds kWatchRefreshPaddingSeconds))
    (TimeDelta.FromSeconds kWatchDurationSeconds)
  have hall := (RefreshWatches_deadlines encode
    (C := fun w =>
      ((self.watch_by_id.filter (fun entry =>
          !decide (now > entry.2.deadline -
            TimeDelta.FromSeconds kWatchRefreshPaddingSeconds))).map
        (fun entry => entry.2.deadline -
          TimeDelta.FromSeconds kWatchRefreshPaddingSeconds)).foldl min
        (TimeDelta.FromSeconds kWatchDurationSeconds) ≤
      w.deadline - TimeDelta.FromSeconds kWatchRefreshPaddingSeconds)
    listener self now
    (fun entry he hdue => foldl_min_le_of_mem _ _ _
      (List.mem_map.mpr ⟨entry, List.mem_filter.mpr ⟨he, by simpa using hdue⟩, rfl⟩))
    (fun entry he hdue => by
      have h4 := hd entry he
      refine le_trans hcap ?_
      simp only [TimeDelta.FromSeconds, kWatchDurationSeconds, kWatchRefreshPaddingSeconds]
        at hsince h4 hdue ⊢
      push_cast at hsince h4 hdue ⊢
      rw [hclock]
      linarith)).2
  refine le_foldl_min _ _ _ hcap ?_
  intro x hx
  obtain ⟨entry, he, rfl⟩ := List.mem_map.mp hx
  exact hall entry (List.mem_filter.mp he).1

/-- When every watch was created at a clock reading of at least `since`, not
below -16 s, what a requester's scan returns after the loop of the
coordinator's `RefreshWatches` is what it returned in the loop. -/
theorem refreshScan_returns_same (now since : TimeDelta)
    (hsince : TimeDelta.FromSeconds (-16) ≤ since)
    (receivers : StdMap String ReceiverRequester) :
    ∀ (self : UrlAvailabilityRequester) (minimum : TimeDelta),
      self.clock_ = now →
      (∀ entry ∈ receivers, ∀ watch ∈ entry.2.watch_by_id,
        since + TimeDelta.FromSeconds kWatchDurationSeconds ≤ watch.2.deadline) →
      List.Forall₂
        (fun entry entry' =>
          (scanWatches now entry'.2.watch_by_id
              (TimeDelta.FromSeconds kWatchDurationSeconds)).2.2 =
            (scanWatches now entry.2.watch_by_id
              (TimeDelta.FromSeconds kWatchDurationSeconds)).2.2)
        receivers (refreshScan encode now self receivers minimum).2.1 := by
  induction receivers with
  | nil => intro self minimum _ _; exact List.Forall₂.nil
  | cons e rest ih =>
    intro self minimum hclock hd
    obtain ⟨id, receiver⟩ := e
    have h1 := RefreshWatches_returns_same encode self receiver now since hclock hsince
      (hd (id, receiver) (List.mem_cons_self _ _))
    have hc := (RefreshWatches_step encode self receiver now).1.clock
    have h2 := ih (ReceiverRequester.RefreshWatches encode self receiver now).1
      (if (ReceiverRequester.RefreshWatches encode self receiver now).2.2 < minimum then
        (ReceiverRequester.RefreshWatches encode self receiver now).2.2
       else minimum) (hc.trans hclock)
      (fun entry he => hd entry (List.mem_cons_of_mem _ he))
    simp only [refreshScan]
    exact List.Forall₂.cons h1 h2

/-- C28. The coordinator's `RefreshWatches` called a second time with the
clock at the same instant leaves the whole coordinator state as the first
call left it, with every request, watch, cache and id counter, the written
requests and the calls: the second call changes nothing and sends nothing, in
every coordinator state. The value it returns is never larger than the value
the first call returned, and it is the same value in every state reached from
a coordinator that was created when the clock read at least -16 s (the watch
duration less twice the padding, below zero), as with every clock that starts
at a non-negative reading. -/
theorem RefreshWatches_twice (self : UrlAvailabilityRequester) :
    (UrlAvailabilityRequester.RefreshWatches encode
        (UrlAvailabilityRequester.RefreshWatches encode self).1).1 =
      (UrlAvailabilityRequester.RefreshWatches encode self).1 ∧
    (UrlAvailabilityRequester.RefreshWatches encode
        (UrlAvailabilityRequester.RefreshWatches encode self).1).2 ≤
      (UrlAvailabilityRequester.RefreshWatches encode self).2 ∧
    (∀ (first_request_id first_watch_id : Nat) (since : TimeDelta),
      TimeDelta.FromSeconds (-16) ≤ since →
      ReachableSince encode first_request_id first_watch_id since self →
      (UrlAvailabilityRequester.RefreshWatches encode
          (UrlAvailabilityRequester.RefreshWatches encode self).1).2 =
        (UrlAvailabilityRequester.RefreshWatches encode self).2) := by
  obtain ⟨hclock, hrel⟩ := RefreshWatches_leaves_all encode self
  have hdue : ∀ entry ∈
      (UrlAvailabilityRequester.RefreshWatches encode self).1.receiver_by_service_id_,
      NothingDue (UrlAvailabilityRequester.RefreshWatches encode self).1.clock_ entry.2 := by
    rw [hclock]
    exact forall_right_of_forall₂ hrel (fun _ _ h => h.1)
  have hmin : (UrlAvailabilityRequester.RefreshWatches encode self).2 =
      (self.receiver_by_service_id_.map (fun entry =>
        (scanWatches self.clock_ entry.2.watch_by_id
          (TimeDelta.FromSeconds kWatchDurationSeconds)).2.2)).foldl min
        (TimeDelta.FromSeconds kWatchDurationSeconds) := by
    simp only [UrlAvailabilityRequester.RefreshWatches]
    exact refreshScan_minimum encode _ _ _ _
  rw [RefreshWatches_of_nothing_due encode _ hdue]
  refine ⟨rfl, ?_, ?_⟩
  · simp only
    rw [hmin, hclock]
    refine foldl_min_mono ?_ _ _ (le_refl _)
    rw [List.forall₂_map_left_iff, List.forall₂_map_right_iff]
    exact List.Forall₂.flip (hrel.imp (fun _ _ h => h.2))
  · intro first_request_id first_watch_id since hsince hreach
    have hw := ReachableSince.watchesSince hreach
    have hsame := refreshScan_returns_same encode self.clock_ since hsince
      self.receiver_by_service_id_ self (TimeDelta.FromSeconds kWatchDurationSeconds) rfl
      hw.2
    have hlist := map_eq_of_forall₂
      (f := fun entry : String × ReceiverRequester =>
        (scanWatches self.clock_ entry.2.watch_by_id
          (TimeDelta.FromSeconds kWatchDurationSeconds)).2.2)
      (g := fun entry : String × ReceiverRequester =>
        (scanWatches self.clock_ entry.2.watch_by_id
          (TimeDelta.FromSeconds kWatchDurationSeconds)).2.2) hsame
    simp only
    rw [hmin, hclock]
    simp only [UrlAvailabilityRequester.RefreshWatches]
    rw [hlist]

end

/-- The state of the unit tests 19 seconds after the request for `"u"` is
reached from a coordinator created when the clock read 213489 s. -/
theorem Example.requested_later_since :
    ReachableSince Example.encodeAll 1 1 213489000000
      (UrlAvailabilityRequester.advanceClock Example.requested 19000000) :=
  .advanceClock _ (by decide)
    (.addObserver _ _ (.connectionOpened _ _ _ (.addReceiver _ (.create _ (le_refl _)))))

/-- C28 19 seconds after the request of the unit tests, when the first call
refreshes watch 1 and writes request 2: the second call leaves the state of
the first, writes nothing more, and returns the same 20 s. -/
theorem RefreshWatches_twice_witness :
    (UrlAvailabilityRequester.RefreshWatches Example.encodeAll
        (UrlAvailabilityRequester.advanceClock Example.requested 19000000)).1.written.length =
        2 ∧
      (UrlAvailabilityRequester.RefreshWatches Example.encodeAll
          (UrlAvailabilityRequester.advanceClock Example.requested 19000000)).2 = 20000000 ∧
      (UrlAvailabilityRequester.RefreshWatches Example.encodeAll
          (UrlAvailabilityRequester.RefreshWatches Example.encodeAll
            (UrlAvailabilityRequester.advanceClock Example.requested 19000000)).1).1 =
        (UrlAvailabilityRequester.RefreshWatches Example.encodeAll
          (UrlAvailabilityRequester.advanceClock Example.requested 19000000)).1 ∧
      (UrlAvailabilityRequester.RefreshWatches Example.encodeAll
          (UrlAvailabilityRequester.RefreshWatches Example.encodeAll
            (UrlAvailabilityRequester.advanceClock Example.requested 19000000)).1).2 =
        (UrlAvailabilityRequester.RefreshWatches Example.encodeAll
          (UrlAvailabilityRequester.advanceClock Example.requested 19000000)).2 :=
  ⟨by decide, by decide,
    (RefreshWatches_twice Example.encodeAll
      (UrlAvailabilityRequester.advanceClock Example.requested 19000000)).1,
    (RefreshWatches_twice Example.encodeAll
      (UrlAvailabilityRequester.advanceClock Example.requested 19000000)).2.2 1 1
      213489000000 (by decide) Example.requested_later_since⟩

/-- The bound on the clock reading at creation cannot be dropped: for a
coordinator created when the clock reads -19 s, with watch 1 created then and
due when the clock reads 0, the first `RefreshWatches` returns 20 s and
creates watch 2, and the second call at the same instant returns 18 s, the
buffered deadline of watch 2. -/
theorem RefreshWatches_below_bound_returns_less :
    ReachableSince Example.encodeAll 1 1 (-19000000) Example.earlyClock ∧
      Example.earlyClock.clock_ = 0 ∧
      Example.earlyClock.receiver_by_service_id_.map (fun entry => entry.2.watch_by_id) =
        [[(1, { deadline := 1000000, urls := ["u"] })]] ∧
      (UrlAvailabilityRequester.RefreshWatches Example.encodeAll Example.earlyClock).2 =
        20000000 ∧
      (UrlAvailabilityRequester.RefreshWatches Example.encodeAll
          (UrlAvailabilityRequester.RefreshWatches Example.encodeAll
            Example.earlyClock).1).2 = 18000000 :=
  ⟨.advanceClock _ (by decide)
      (.addObserver _ _ (.connectionOpened _ _ _ (.addReceiver _ (.create _ (le_refl _))))),
    by decide, by decide, by decide, by decide⟩

end presentation
end openscreen
